import Mathlib

/-!
# Registration database of eCAL: embedding and verified properties

Shallow embedding of `ecal/core/src/registration/ecal_registration_database.{h,cpp}`.

* `std::unordered_map<K, V>` is an association list `UMap K V` (at most one entry per key is
  produced by the operations below); `std::unordered_set<EntityKey>` is a list `USet` whose
  order is the iteration order used by the cascade of `RemoveProcess`.
* `uint64_t` values are natural numbers; the one arithmetic operation on them, the revision
  increment of `ApplyMutation`, is taken modulo `2 ^ 64`. `int32_t` / `int64_t` values are
  integers; the conversion `static_cast<EntityKey>(ProcessKey)` is `processEntityKey`.
* A mutation closure `void(State&, std::vector<EntityEvent>&, bool&)` is a function on the
  triple `MutatorArgs`; the database object is the pair `CEcalRegistrationDatabase` of the
  installed state and `previous_revision_`, passed explicitly.
-/

namespace eCAL.Registration

/-! ## Containers -/

/-- Association-list model of `std::unordered_map<K, V>`. -/
abbrev UMap (K V : Type) := List (K × V)

/-- List model of `std::unordered_set<K>`. The container leaves its iteration order
unspecified; the list order, which is the order of insertion, stands for one iteration order.
Only the order of the events of the cascade of `RemoveProcess` within one kind depends on it,
and `RemoveProcessMutatorVisiting` runs the cascade in any other order of a bucket. -/
abbrev USet (K : Type) := List K

namespace UMap

variable {K V : Type} [DecidableEq K]

/-- Lookup `map.find(key)`: `none` stands for `end()`. -/
def find : UMap K V → K → Option V
  | [], _ => none
  | (k', v) :: rest, k => if k' = k then some v else find rest k

/-- Removal `map.erase(key)`. -/
def erase (m : UMap K V) (k : K) : UMap K V :=
  m.filter (fun p => decide (p.1 ≠ k))

/-- Insertion `map.emplace(key, value)`: does nothing when the key is present. -/
def emplace (m : UMap K V) (k : K) (v : V) : UMap K V :=
  match find m k with
  | some _ => m
  | none => m ++ [(k, v)]

/-- Assignment `map[key] = value` (also `it->second = value` for a found `it`). -/
def assign : UMap K V → K → V → UMap K V
  | [], k, v => [(k, v)]
  | (k', v') :: rest, k, v =>
    if k' = k then (k', v) :: rest else (k', v') :: assign rest k v

/-- Number of entries `map.size()`. -/
def size (m : UMap K V) : Nat := m.length

end UMap

namespace USet

variable {K : Type} [DecidableEq K]

/-- Insertion `set.insert(key)`. -/
def insert (s : USet K) (k : K) : USet K :=
  if k ∈ s then s else s ++ [k]

/-- Removal `set.erase(key)`. -/
def erase (s : USet K) (k : K) : USet K :=
  s.filter (fun x => decide (x ≠ k))

/-- Emptiness test `set.empty()`. -/
def empty (s : USet K) : Bool := s.isEmpty

end USet

/-! ## Wire types used by the database

The header `serialization/ecal_struct_sample_registration.h` is not among the sources at
hand; the types below carry the fields that the database sources and the specification name.
-/

/-- Modelled from the spec: the floating point type `double` of the field `latest` of
`Registration::Statistics`, to which the test assigns `12.0`. The database only copies a
`double` and compares it with `==`, so a `double` is represented by its value: not-a-number,
an infinity, or the rational number that a finite `double` denotes (positive and negative
zero, which `==` does not tell apart, are the one value `0`). Equality of the representation
is identity of the value, which is what a copy preserves; the comparison `==` is
`Double.equal`. -/
inductive Double where
  | nan
  | inf (negative : Bool)
  | finite (value : ℚ)
deriving DecidableEq, Repr

/-- Modelled from the spec: `==` on `double`. A not-a-number compares unequal to every value,
itself included; any other two values compare equal when they are the same value. -/
def Double.equal : Double → Double → Bool
  | .inf s, .inf t => decide (s = t)
  | .finite x, .finite y => decide (x = y)
  | _, _ => false

/-- Modelled from the spec: `Registration::Statistics` (declared in
`serialization/ecal_struct_sample_registration.h`), the latency statistics of a topic. The
database only copies it and compares it with `==`; the test sets its field `latest`, a
`double`. -/
structure Statistics where
  latest : Double := .finite 0
deriving DecidableEq, Repr

/-- Modelled from the spec: `Statistics::operator==`, the comparison of the fields with
`==`. -/
def Statistics.equal (x y : Statistics) : Bool :=
  x.latest.equal y.latest

/-- Modelled from the spec: `SDataTypeInformation` (declared outside the sources at hand), the
datatype information of a topic; the test sets its field `name`. -/
structure SDataTypeInformation where
  name : String := ""
deriving DecidableEq, Repr

/-- Modelled from the spec: `Registration::Topic` (declared in
`serialization/ecal_struct_sample_registration.h`). Its fields are the ones of section 6 of
the specification, which are the ones `ApplySample` and the tests read: the topic name, the
datatype information and the nine telemetry fields. `operator==`, which the closures
of `AddOrUpdatePublisher` and `AddOrUpdateSubscriber` call, is `Topic.equal`. -/
structure Topic where
  topic_name : String := ""
  datatype_information : SDataTypeInformation := {}
  registration_clock : Int := 0
  topic_size : Int := 0
  connections_local : Int := 0
  connections_external : Int := 0
  message_drops : Int := 0
  data_id : Int := 0
  data_clock : Int := 0
  data_frequency : Int := 0
  latency_us : Statistics := {}
deriving DecidableEq, Repr

/-- Modelled from the spec: `Topic::operator==`, the comparison of all fields with `==`. On
the latency statistics this is `Statistics::operator==`, which compares floating point
values; on the other fields, strings and integers, `==` is equality. -/
def Topic.equal (x y : Topic) : Bool :=
  decide (x.topic_name = y.topic_name)
    && decide (x.datatype_information = y.datatype_information)
    && decide (x.registration_clock = y.registration_clock)
    && decide (x.topic_size = y.topic_size)
    && decide (x.connections_local = y.connections_local)
    && decide (x.connections_external = y.connections_external)
    && decide (x.message_drops = y.message_drops) && decide (x.data_id = y.data_id)
    && decide (x.data_clock = y.data_clock) && decide (x.data_frequency = y.data_frequency)
    && x.latency_us.equal y.latency_us

/-- Modelled from the spec: `Service::Service` (declared outside the sources at hand), with
the fields `service_name` and `registration_clock` of section 6 of the specification. -/
structure Service where
  service_name : String := ""
  registration_clock : Int := 0
deriving DecidableEq, Repr

/-- Modelled from the spec: `Service::Client` (declared outside the sources at hand), with
the fields `service_name` and `registration_clock` of section 6 of the specification. -/
structure Client where
  service_name : String := ""
  registration_clock : Int := 0
deriving DecidableEq, Repr

/-- Modelled from the spec: `Registration::ProcessState` (declared outside the sources at
hand), the runtime state of a process. The database only copies and compares it; it is
represented by a numeric code. -/
abbrev ProcessState := Nat

/-- Modelled from the spec: `Registration::eTimeSyncState` (declared outside the sources at
hand). The header of the database names the enumerator `tsync_none`; the remaining
enumerators are represented by their numeric code. -/
inductive eTimeSyncState where
  | tsync_none
  | tsync_other (code : Nat)
deriving DecidableEq, Repr

/-- Modelled from the spec: `Registration::Process` (declared outside the sources at hand),
with the fields `process_name`, `state` and `time_sync_state` of section 6 of the
specification. -/
structure Process where
  process_name : String := ""
  state : ProcessState := 0
  time_sync_state : eTimeSyncState := .tsync_none
deriving DecidableEq, Repr

/-- Modelled from the spec: the command type `eCmdType` of a sample (declared outside the
sources at hand). The twelve enumerators are the ones `ApplySample` switches on; any other
value, which takes the `default` branch, is `bct_other`. -/
inductive eCmdType where
  | bct_none
  | bct_set_sample
  | bct_reg_publisher
  | bct_reg_subscriber
  | bct_reg_process
  | bct_reg_service
  | bct_reg_client
  | bct_unreg_publisher
  | bct_unreg_subscriber
  | bct_unreg_process
  | bct_unreg_service
  | bct_unreg_client
  | bct_other (code : Nat)
deriving DecidableEq, Repr

/-! ## Types of `ecal_registration_database.h` -/

/-- The counter `Revision = uint64_t`. -/
abbrev Revision := Nat

/-- The key `EntityKey = uint64_t`. -/
abbrev EntityKey := Nat

/-- The key `ProcessKey = int32_t`. -/
abbrev ProcessKey := Int

/-- The conversion `static_cast<EntityKey>(key_)` from `int32_t` to `uint64_t`. -/
def processEntityKey (key_ : ProcessKey) : EntityKey := (key_ % 2 ^ 64).toNat

/-- Modelled from the spec: `Registration::SampleIdentifier` (declared outside the sources
at hand), with the three fields `ApplySample` reads. -/
structure SampleIdentifier where
  entity_id : EntityKey := 0
  process_id : ProcessKey := 0
  host_name : String := ""
deriving DecidableEq, Repr

/-- Modelled from the spec: `Registration::Sample` (declared outside the sources at hand),
with the fields `ApplySample` reads. -/
structure Sample where
  cmd_type : eCmdType := .bct_none
  identifier : SampleIdentifier := {}
  process : Process := {}
  topic : Topic := {}
  service : Service := {}
  client : Client := {}
deriving DecidableEq, Repr

inductive EntityType where
  | process | publisher | subscriber | server | client
deriving DecidableEq, Repr

inductive EventType where
  | new_entity | updated_entity | deleted_entity
deriving DecidableEq, Repr

structure EntityEvent where
  event_type : EventType := .updated_entity
  entity_type : EntityType := .process
  entity_key : EntityKey := 0
deriving DecidableEq, Repr

structure ApplyResult where
  new_revision : Revision := 0
  events : List EntityEvent := []
deriving DecidableEq, Repr

structure ProcessRegistrationDelta where
  process : Process := {}
  host_name : String := ""
deriving DecidableEq, Repr

structure ProcessMonitoringDelta where
  state : ProcessState := 0
  time_sync_state : eTimeSyncState := .tsync_none
deriving DecidableEq, Repr

structure TopicRegistrationDelta where
  process_id : ProcessKey := 0
  host_name : String := ""
  topic : Topic := {}
deriving DecidableEq, Repr

structure TopicMonitoringDelta where
  registration_clock : Int := 0
  topic_size : Int := 0
  connections_local : Int := 0
  connections_external : Int := 0
  message_drops : Int := 0
  data_id : Int := 0
  data_clock : Int := 0
  data_frequency : Int := 0
  latency_us : Statistics := {}
deriving DecidableEq, Repr

structure ServiceRegistrationDelta where
  process_id : ProcessKey := 0
  host_name : String := ""
  service : Service := {}
deriving DecidableEq, Repr

structure ServiceMonitoringDelta where
  registration_clock : Int := 0
deriving DecidableEq, Repr

structure ClientRegistrationDelta where
  process_id : ProcessKey := 0
  host_name : String := ""
  client : Client := {}
deriving DecidableEq, Repr

structure ClientMonitoringDelta where
  registration_clock : Int := 0
deriving DecidableEq, Repr

/-- The nested `State::ProcessMembers`. -/
structure ProcessMembers where
  publishers : USet EntityKey := []
  subscribers : USet EntityKey := []
  servers : USet EntityKey := []
  clients : USet EntityKey := []
deriving DecidableEq, Repr

/-- The private `State` bundle. -/
structure State where
  revision : Revision := 0
  processes : UMap ProcessKey ProcessRegistrationDelta := []
  process_monitoring : UMap ProcessKey ProcessMonitoringDelta := []
  publishers : UMap EntityKey TopicRegistrationDelta := []
  publisher_monitoring : UMap EntityKey TopicMonitoringDelta := []
  subscribers : UMap EntityKey TopicRegistrationDelta := []
  subscriber_monitoring : UMap EntityKey TopicMonitoringDelta := []
  servers : UMap EntityKey ServiceRegistrationDelta := []
  server_monitoring : UMap EntityKey ServiceMonitoringDelta := []
  clients : UMap EntityKey ClientRegistrationDelta := []
  client_monitoring : UMap EntityKey ClientMonitoringDelta := []
  members_by_process : UMap ProcessKey ProcessMembers := []
deriving DecidableEq, Repr

/-- The arguments `(State&, std::vector<EntityEvent>&, bool&)` of a mutation closure. -/
structure MutatorArgs where
  state_ : State
  events_ : List EntityEvent
  changed_ : Bool
deriving DecidableEq, Repr

/-- The closure type `MutatorT`. -/
abbrev MutatorT := MutatorArgs → MutatorArgs

/-- The data members of `CEcalRegistrationDatabase`: the installed state and
`previous_revision_` (the mutex has no counterpart in the sequential model). -/
structure CEcalRegistrationDatabase where
  current_state_ : State := {}
  previous_revision_ : Revision := 0
deriving DecidableEq, Repr

/-! ## Snapshot queries -/

/-- The read-only view `Snapshot` on a state. -/
structure Snapshot where
  state_ : State := {}
deriving DecidableEq, Repr

namespace Snapshot

def GetRevision (snap : Snapshot) : Revision := snap.state_.revision

def HasProcess (snap : Snapshot) (key : ProcessKey) : Bool :=
  (UMap.find snap.state_.processes key).isSome

def HasPublisher (snap : Snapshot) (key : EntityKey) : Bool :=
  (UMap.find snap.state_.publishers key).isSome

def HasSubscriber (snap : Snapshot) (key : EntityKey) : Bool :=
  (UMap.find snap.state_.subscribers key).isSome

def HasServer (snap : Snapshot) (key : EntityKey) : Bool :=
  (UMap.find snap.state_.servers key).isSome

def HasClient (snap : Snapshot) (key : EntityKey) : Bool :=
  (UMap.find snap.state_.clients key).isSome

def ProcessCount (snap : Snapshot) : Nat := UMap.size snap.state_.processes

def PublisherCount (snap : Snapshot) : Nat := UMap.size snap.state_.publishers

def SubscriberCount (snap : Snapshot) : Nat := UMap.size snap.state_.subscribers

def ServerCount (snap : Snapshot) : Nat := UMap.size snap.state_.servers

def ClientCount (snap : Snapshot) : Nat := UMap.size snap.state_.clients

/-- The lookup `GetPublisherRegistration(key, out)`: the returned pair is the result and the
value of `out` after the call. -/
def GetPublisherRegistration (snap : Snapshot) (key : EntityKey) (out : TopicRegistrationDelta) :
    Bool × TopicRegistrationDelta :=
  match UMap.find snap.state_.publishers key with
  | none => (false, out)
  | some r => (true, r)

/-- The lookup `GetPublisherMonitoring(key, out)`: the returned pair is the result and the
value of `out` after the call. -/
def GetPublisherMonitoring (snap : Snapshot) (key : EntityKey) (out : TopicMonitoringDelta) :
    Bool × TopicMonitoringDelta :=
  match UMap.find snap.state_.publisher_monitoring key with
  | none => (false, out)
  | some r => (true, r)

end Snapshot

/-! ## Membership index helpers -/

def EnsureProcessMembership (state_ : State) (process_key_ : ProcessKey) : State :=
  match UMap.find state_.members_by_process process_key_ with
  | none =>
    { state_ with
      members_by_process := UMap.emplace state_.members_by_process process_key_ {} }
  | some _ => state_

/-- The `switch` of `AddMembership` on the bucket `members`. -/
def ProcessMembers.insertMember (members : ProcessMembers) (entity_type_ : EntityType)
    (key_ : EntityKey) : ProcessMembers :=
  match entity_type_ with
  | .publisher => { members with publishers := USet.insert members.publishers key_ }
  | .subscriber => { members with subscribers := USet.insert members.subscribers key_ }
  | .server => { members with servers := USet.insert members.servers key_ }
  | .client => { members with clients := USet.insert members.clients key_ }
  | .process => members

/-- The `switch` of `RemoveMembership` on the bucket `it->second`. -/
def ProcessMembers.eraseMember (members : ProcessMembers) (entity_type_ : EntityType)
    (key_ : EntityKey) : ProcessMembers :=
  match entity_type_ with
  | .publisher => { members with publishers := USet.erase members.publishers key_ }
  | .subscriber => { members with subscribers := USet.erase members.subscribers key_ }
  | .server => { members with servers := USet.erase members.servers key_ }
  | .client => { members with clients := USet.erase members.clients key_ }
  | .process => members

/-- The test of `RemoveMembership` that all four sets of a bucket are empty. -/
def ProcessMembers.allEmpty (members : ProcessMembers) : Bool :=
  USet.empty members.publishers && USet.empty members.subscribers
    && USet.empty members.servers && USet.empty members.clients

/-- The helper `AddMembership`: `map_[process_key_]` creates the bucket on demand. -/
def AddMembership (map_ : UMap ProcessKey ProcessMembers) (process_key_ : ProcessKey)
    (entity_type_ : EntityType) (key_ : EntityKey) : UMap ProcessKey ProcessMembers :=
  let members := (UMap.find map_ process_key_).getD {}
  UMap.assign map_ process_key_ (members.insertMember entity_type_ key_)

def RemoveMembership (map_ : UMap ProcessKey ProcessMembers) (process_key_ : ProcessKey)
    (entity_type_ : EntityType) (key_ : EntityKey) : UMap ProcessKey ProcessMembers :=
  match UMap.find map_ process_key_ with
  | none => map_
  | some members =>
    let members := members.eraseMember entity_type_ key_
    if members.allEmpty then UMap.erase map_ process_key_
    else UMap.assign map_ process_key_ members

/-! ## The mutator engine -/

/-- The engine `ApplyMutation`: the closure runs on a copy of the installed state with no
events and `changed = false`; the copy is installed, with the next revision, only when the
closure set `changed`. -/
def ApplyMutation (mutator_ : MutatorT) (db : CEcalRegistrationDatabase) :
    CEcalRegistrationDatabase × ApplyResult :=
  let r := mutator_ { state_ := db.current_state_, events_ := [], changed_ := false }
  if r.changed_ = false then
    (db, { new_revision := db.current_state_.revision, events := r.events_ })
  else
    let next_state : State :=
      { r.state_ with revision := (db.current_state_.revision + 1) % 2 ^ 64 }
    ({ current_state_ := next_state, previous_revision_ := db.current_state_.revision },
      { new_revision := next_state.revision, events := r.events_ })

/-! ## Mutation closures -/

/-- The closure of `AddOrUpdateProcess`. -/
def AddOrUpdateProcessMutator (key_ : ProcessKey) (delta_ : ProcessRegistrationDelta) :
    MutatorT := fun a =>
  match UMap.find a.state_.processes key_ with
  | none =>
    { state_ := EnsureProcessMembership
        { a.state_ with processes := UMap.emplace a.state_.processes key_ delta_ } key_
      events_ := a.events_ ++ [⟨.new_entity, .process, processEntityKey key_⟩]
      changed_ := true }
  | some r =>
    if ¬ (r.process = delta_.process ∧ r.host_name = delta_.host_name) then
      { state_ := { a.state_ with processes := UMap.assign a.state_.processes key_ delta_ }
        events_ := a.events_ ++ [⟨.updated_entity, .process, processEntityKey key_⟩]
        changed_ := true }
    else a

/-- The closure of `UpdateProcessMonitoring`. -/
def UpdateProcessMonitoringMutator (key_ : ProcessKey) (delta_ : ProcessMonitoringDelta) :
    MutatorT := fun a =>
  let write : MutatorArgs :=
    { a with
      state_ := { a.state_ with
        process_monitoring := UMap.assign a.state_.process_monitoring key_ delta_ }
      changed_ := true }
  match UMap.find a.state_.process_monitoring key_ with
  | none => write
  | some r =>
    if ¬ (r.state = delta_.state ∧ r.time_sync_state = delta_.time_sync_state) then write
    else a

/-- One iteration of the loop over `pubs` in `RemoveProcess`. -/
def RemoveProcessPublisherStep (a : MutatorArgs) (id : EntityKey) : MutatorArgs :=
  match UMap.find a.state_.publishers id with
  | none => a
  | some r =>
    { state_ := { a.state_ with
        members_by_process :=
          RemoveMembership a.state_.members_by_process r.process_id .publisher id
        publishers := UMap.erase a.state_.publishers id
        publisher_monitoring := UMap.erase a.state_.publisher_monitoring id }
      events_ := a.events_ ++ [⟨.deleted_entity, .publisher, id⟩]
      changed_ := true }

/-- One iteration of the loop over `subs` in `RemoveProcess`. -/
def RemoveProcessSubscriberStep (a : MutatorArgs) (id : EntityKey) : MutatorArgs :=
  match UMap.find a.state_.subscribers id with
  | none => a
  | some r =>
    { state_ := { a.state_ with
        members_by_process :=
          RemoveMembership a.state_.members_by_process r.process_id .subscriber id
        subscribers := UMap.erase a.state_.subscribers id
        subscriber_monitoring := UMap.erase a.state_.subscriber_monitoring id }
      events_ := a.events_ ++ [⟨.deleted_entity, .subscriber, id⟩]
      changed_ := true }

/-- One iteration of the loop over `srvs` in `RemoveProcess`. -/
def RemoveProcessServerStep (a : MutatorArgs) (id : EntityKey) : MutatorArgs :=
  match UMap.find a.state_.servers id with
  | none => a
  | some r =>
    { state_ := { a.state_ with
        members_by_process :=
          RemoveMembership a.state_.members_by_process r.process_id .server id
        servers := UMap.erase a.state_.servers id
        server_monitoring := UMap.erase a.state_.server_monitoring id }
      events_ := a.events_ ++ [⟨.deleted_entity, .server, id⟩]
      changed_ := true }

/-- One iteration of the loop over `clis` in `RemoveProcess`. -/
def RemoveProcessClientStep (a : MutatorArgs) (id : EntityKey) : MutatorArgs :=
  match UMap.find a.state_.clients id with
  | none => a
  | some r =>
    { state_ := { a.state_ with
        members_by_process :=
          RemoveMembership a.state_.members_by_process r.process_id .client id
        clients := UMap.erase a.state_.clients id
        client_monitoring := UMap.erase a.state_.client_monitoring id }
      events_ := a.events_ ++ [⟨.deleted_entity, .client, id⟩]
      changed_ := true }

/-- The cascade of `RemoveProcess` over the four member sets copied from the bucket. -/
def RemoveProcessCascade (members : ProcessMembers) (a : MutatorArgs) : MutatorArgs :=
  let a := members.publishers.foldl RemoveProcessPublisherStep a
  let a := members.subscribers.foldl RemoveProcessSubscriberStep a
  let a := members.servers.foldl RemoveProcessServerStep a
  members.clients.foldl RemoveProcessClientStep a

/-- The closing part of `RemoveProcess`: the process record, its monitoring and its bucket
are erased. -/
def RemoveProcessFinish (key_ : ProcessKey) (a : MutatorArgs) : MutatorArgs :=
  let a : MutatorArgs :=
    match UMap.find a.state_.processes key_ with
    | some _ =>
      { state_ := { a.state_ with processes := UMap.erase a.state_.processes key_ }
        events_ := a.events_ ++ [⟨.deleted_entity, .process, processEntityKey key_⟩]
        changed_ := true }
    | none => a
  { a with
    state_ := { a.state_ with
      process_monitoring := UMap.erase a.state_.process_monitoring key_
      members_by_process := UMap.erase a.state_.members_by_process key_ } }

/-- The closure of `RemoveProcess`. -/
def RemoveProcessMutator (key_ : ProcessKey) : MutatorT := fun a =>
  match UMap.find a.state_.members_by_process key_ with
  | some members => RemoveProcessFinish key_ (RemoveProcessCascade members a)
  | none => RemoveProcessFinish key_ a

/-- The field-by-field comparison of two topic monitoring records in
`Update##NAME##Monitoring`. -/
def TopicMonitoringDelta.same (x y : TopicMonitoringDelta) : Bool :=
  decide (x.registration_clock = y.registration_clock) && decide (x.topic_size = y.topic_size)
    && decide (x.connections_local = y.connections_local)
    && decide (x.connections_external = y.connections_external)
    && decide (x.message_drops = y.message_drops) && decide (x.data_id = y.data_id)
    && decide (x.data_clock = y.data_clock) && decide (x.data_frequency = y.data_frequency)
    && x.latency_us.equal y.latency_us

/-- The comparison of a stored topic registration with a delta in `AddOrUpdate##NAME`:
`topic`, `process_id` and `host_name` compared with `==`. -/
def TopicRegistrationDelta.same (x y : TopicRegistrationDelta) : Bool :=
  x.topic.equal y.topic && decide (x.process_id = y.process_id)
    && decide (x.host_name = y.host_name)

/-- Whether the lookup of a key found a registration that `AddOrUpdate##NAME` compares equal
to the delta, which is when the call writes nothing. -/
def TopicRegistrationDelta.unchanged (found : Option TopicRegistrationDelta)
    (delta_ : TopicRegistrationDelta) : Bool :=
  match found with
  | none => false
  | some r => r.same delta_

/-- Whether the lookup of a key found a monitoring record that `Update##NAME##Monitoring`
compares equal to the delta, which is when the call writes nothing. -/
def TopicMonitoringDelta.unchanged (found : Option TopicMonitoringDelta)
    (delta_ : TopicMonitoringDelta) : Bool :=
  match found with
  | none => false
  | some r => r.same delta_

/-- The closure of `AddOrUpdatePublisher` (macro `ECAL_REGDB_ADD_UPDATE_REMOVE_TOPIC`). -/
def AddOrUpdatePublisherMutator (key_ : EntityKey) (delta_ : TopicRegistrationDelta) :
    MutatorT := fun a =>
  match UMap.find a.state_.publishers key_ with
  | none =>
    { state_ := { a.state_ with
        publishers := UMap.emplace a.state_.publishers key_ delta_
        members_by_process :=
          AddMembership a.state_.members_by_process delta_.process_id .publisher key_ }
      events_ := a.events_ ++ [⟨.new_entity, .publisher, key_⟩]
      changed_ := true }
  | some r =>
    if ¬ (r.topic.equal delta_.topic = true ∧ r.process_id = delta_.process_id
        ∧ r.host_name = delta_.host_name) then
      { state_ := { a.state_ with
          members_by_process :=
            if r.process_id ≠ delta_.process_id then
              AddMembership
                (RemoveMembership a.state_.members_by_process r.process_id .publisher key_)
                delta_.process_id .publisher key_
            else a.state_.members_by_process
          publishers := UMap.assign a.state_.publishers key_ delta_ }
        events_ := a.events_ ++ [⟨.updated_entity, .publisher, key_⟩]
        changed_ := true }
    else a

/-- The closure of `UpdatePublisherMonitoring`. -/
def UpdatePublisherMonitoringMutator (key_ : EntityKey) (delta_ : TopicMonitoringDelta) :
    MutatorT := fun a =>
  let write : MutatorArgs :=
    { a with
      state_ := { a.state_ with
        publisher_monitoring := UMap.assign a.state_.publisher_monitoring key_ delta_ }
      changed_ := true }
  match UMap.find a.state_.publisher_monitoring key_ with
  | none => write
  | some r => if r.same delta_ = false then write else a

/-- The closure of `RemovePublisher`. -/
def RemovePublisherMutator (key_ : EntityKey) : MutatorT := fun a =>
  match UMap.find a.state_.publishers key_ with
  | none => a
  | some r =>
    { state_ := { a.state_ with
        members_by_process :=
          RemoveMembership a.state_.members_by_process r.process_id .publisher key_
        publishers := UMap.erase a.state_.publishers key_
        publisher_monitoring := UMap.erase a.state_.publisher_monitoring key_ }
      events_ := a.events_ ++ [⟨.deleted_entity, .publisher, key_⟩]
      changed_ := true }

/-- The closure of `AddOrUpdateSubscriber` (macro `ECAL_REGDB_ADD_UPDATE_REMOVE_TOPIC`). -/
def AddOrUpdateSubscriberMutator (key_ : EntityKey) (delta_ : TopicRegistrationDelta) :
    MutatorT := fun a =>
  match UMap.find a.state_.subscribers key_ with
  | none =>
    { state_ := { a.state_ with
        subscribers := UMap.emplace a.state_.subscribers key_ delta_
        members_by_process :=
          AddMembership a.state_.members_by_process delta_.process_id .subscriber key_ }
      events_ := a.events_ ++ [⟨.new_entity, .subscriber, key_⟩]
      changed_ := true }
  | some r =>
    if ¬ (r.topic.equal delta_.topic = true ∧ r.process_id = delta_.process_id
        ∧ r.host_name = delta_.host_name) then
      { state_ := { a.state_ with
          members_by_process :=
            if r.process_id ≠ delta_.process_id then
              AddMembership
                (RemoveMembership a.state_.members_by_process r.process_id .subscriber key_)
                delta_.process_id .subscriber key_
            else a.state_.members_by_process
          subscribers := UMap.assign a.state_.subscribers key_ delta_ }
        events_ := a.events_ ++ [⟨.updated_entity, .subscriber, key_⟩]
        changed_ := true }
    else a

/-- The closure of `UpdateSubscriberMonitoring`. -/
def UpdateSubscriberMonitoringMutator (key_ : EntityKey) (delta_ : TopicMonitoringDelta) :
    MutatorT := fun a =>
  let write : MutatorArgs :=
    { a with
      state_ := { a.state_ with
        subscriber_monitoring := UMap.assign a.state_.subscriber_monitoring key_ delta_ }
      changed_ := true }
  match UMap.find a.state_.subscriber_monitoring key_ with
  | none => write
  | some r => if r.same delta_ = false then write else a

/-- The closure of `RemoveSubscriber`. -/
def RemoveSubscriberMutator (key_ : EntityKey) : MutatorT := fun a =>
  match UMap.find a.state_.subscribers key_ with
  | none => a
  | some r =>
    { state_ := { a.state_ with
        members_by_process :=
          RemoveMembership a.state_.members_by_process r.process_id .subscriber key_
        subscribers := UMap.erase a.state_.subscribers key_
        subscriber_monitoring := UMap.erase a.state_.subscriber_monitoring key_ }
      events_ := a.events_ ++ [⟨.deleted_entity, .subscriber, key_⟩]
      changed_ := true }

/-- The closure of `AddOrUpdateServer`. -/
def AddOrUpdateServerMutator (key_ : EntityKey) (delta_ : ServiceRegistrationDelta) :
    MutatorT := fun a =>
  match UMap.find a.state_.servers key_ with
  | none =>
    { state_ := { a.state_ with
        servers := UMap.emplace a.state_.servers key_ delta_
        members_by_process :=
          AddMembership a.state_.members_by_process delta_.process_id .server key_ }
      events_ := a.events_ ++ [⟨.new_entity, .server, key_⟩]
      changed_ := true }
  | some r =>
    if ¬ (r.service = delta_.service ∧ r.process_id = delta_.process_id
        ∧ r.host_name = delta_.host_name) then
      { state_ := { a.state_ with
          members_by_process :=
            if r.process_id ≠ delta_.process_id then
              AddMembership
                (RemoveMembership a.state_.members_by_process r.process_id .server key_)
                delta_.process_id .server key_
            else a.state_.members_by_process
          servers := UMap.assign a.state_.servers key_ delta_ }
        events_ := a.events_ ++ [⟨.updated_entity, .server, key_⟩]
        changed_ := true }
    else a

/-- The closure of `UpdateServerMonitoring`. -/
def UpdateServerMonitoringMutator (key_ : EntityKey) (delta_ : ServiceMonitoringDelta) :
    MutatorT := fun a =>
  let write : MutatorArgs :=
    { a with
      state_ := { a.state_ with
        server_monitoring := UMap.assign a.state_.server_monitoring key_ delta_ }
      changed_ := true }
  match UMap.find a.state_.server_monitoring key_ with
  | none => write
  | some r => if r.registration_clock ≠ delta_.registration_clock then write else a

/-- The closure of `RemoveServer`. -/
def RemoveServerMutator (key_ : EntityKey) : MutatorT := fun a =>
  match UMap.find a.state_.servers key_ with
  | none => a
  | some r =>
    { state_ := { a.state_ with
        members_by_process :=
          RemoveMembership a.state_.members_by_process r.process_id .server key_
        servers := UMap.erase a.state_.servers key_
        server_monitoring := UMap.erase a.state_.server_monitoring key_ }
      events_ := a.events_ ++ [⟨.deleted_entity, .server, key_⟩]
      changed_ := true }

/-- The closure of `AddOrUpdateClient`. -/
def AddOrUpdateClientMutator (key_ : EntityKey) (delta_ : ClientRegistrationDelta) :
    MutatorT := fun a =>
  match UMap.find a.state_.clients key_ with
  | none =>
    { state_ := { a.state_ with
        clients := UMap.emplace a.state_.clients key_ delta_
        members_by_process :=
          AddMembership a.state_.members_by_process delta_.process_id .client key_ }
      events_ := a.events_ ++ [⟨.new_entity, .client, key_⟩]
      changed_ := true }
  | some r =>
    if ¬ (r.client = delta_.client ∧ r.process_id = delta_.process_id
        ∧ r.host_name = delta_.host_name) then
      { state_ := { a.state_ with
          members_by_process :=
            if r.process_id ≠ delta_.process_id then
              AddMembership
                (RemoveMembership a.state_.members_by_process r.process_id .client key_)
                delta_.process_id .client key_
            else a.state_.members_by_process
          clients := UMap.assign a.state_.clients key_ delta_ }
        events_ := a.events_ ++ [⟨.updated_entity, .client, key_⟩]
        changed_ := true }
    else a

/-- The closure of `UpdateClientMonitoring`. -/
def UpdateClientMonitoringMutator (key_ : EntityKey) (delta_ : ClientMonitoringDelta) :
    MutatorT := fun a =>
  let write : MutatorArgs :=
    { a with
      state_ := { a.state_ with
        client_monitoring := UMap.assign a.state_.client_monitoring key_ delta_ }
      changed_ := true }
  match UMap.find a.state_.client_monitoring key_ with
  | none => write
  | some r => if r.registration_clock ≠ delta_.registration_clock then write else a

/-- The closure of `RemoveClient`. -/
def RemoveClientMutator (key_ : EntityKey) : MutatorT := fun a =>
  match UMap.find a.state_.clients key_ with
  | none => a
  | some r =>
    { state_ := { a.state_ with
        members_by_process :=
          RemoveMembership a.state_.members_by_process r.process_id .client key_
        clients := UMap.erase a.state_.clients key_
        client_monitoring := UMap.erase a.state_.client_monitoring key_ }
      events_ := a.events_ ++ [⟨.deleted_entity, .client, key_⟩]
      changed_ := true }

/-! ## The public mutations -/

namespace CEcalRegistrationDatabase

def AddOrUpdateProcess (key_ : ProcessKey) (delta_ : ProcessRegistrationDelta)
    (db : CEcalRegistrationDatabase) : CEcalRegistrationDatabase × ApplyResult :=
  ApplyMutation (AddOrUpdateProcessMutator key_ delta_) db

def UpdateProcessMonitoring (key_ : ProcessKey) (delta_ : ProcessMonitoringDelta)
    (db : CEcalRegistrationDatabase) : CEcalRegistrationDatabase × ApplyResult :=
  ApplyMutation (UpdateProcessMonitoringMutator key_ delta_) db

def RemoveProcess (key_ : ProcessKey)
    (db : CEcalRegistrationDatabase) : CEcalRegistrationDatabase × ApplyResult :=
  ApplyMutation (RemoveProcessMutator key_) db

def AddOrUpdatePublisher (key_ : EntityKey) (delta_ : TopicRegistrationDelta)
    (db : CEcalRegistrationDatabase) : CEcalRegistrationDatabase × ApplyResult :=
  ApplyMutation (AddOrUpdatePublisherMutator key_ delta_) db

def UpdatePublisherMonitoring (key_ : EntityKey) (delta_ : TopicMonitoringDelta)
    (db : CEcalRegistrationDatabase) : CEcalRegistrationDatabase × ApplyResult :=
  ApplyMutation (UpdatePublisherMonitoringMutator key_ delta_) db

def RemovePublisher (key_ : EntityKey)
    (db : CEcalRegistrationDatabase) : CEcalRegistrationDatabase × ApplyResult :=
  ApplyMutation (RemovePublisherMutator key_) db

def AddOrUpdateSubscriber (key_ : EntityKey) (delta_ : TopicRegistrationDelta)
    (db : CEcalRegistrationDatabase) : CEcalRegistrationDatabase × ApplyResult :=
  ApplyMutation (AddOrUpdateSubscriberMutator key_ delta_) db

def UpdateSubscriberMonitoring (key_ : EntityKey) (delta_ : TopicMonitoringDelta)
    (db : CEcalRegistrationDatabase) : CEcalRegistrationDatabase × ApplyResult :=
  ApplyMutation (UpdateSubscriberMonitoringMutator key_ delta_) db

def RemoveSubscriber (key_ : EntityKey)
    (db : CEcalRegistrationDatabase) : CEcalRegistrationDatabase × ApplyResult :=
  ApplyMutation (RemoveSubscriberMutator key_) db

def AddOrUpdateServer (key_ : EntityKey) (delta_ : ServiceRegistrationDelta)
    (db : CEcalRegistrationDatabase) : CEcalRegistrationDatabase × ApplyResult :=
  ApplyMutation (AddOrUpdateServerMutator key_ delta_) db

def UpdateServerMonitoring (key_ : EntityKey) (delta_ : ServiceMonitoringDelta)
    (db : CEcalRegistrationDatabase) : CEcalRegistrationDatabase × ApplyResult :=
  ApplyMutation (UpdateServerMonitoringMutator key_ delta_) db

def RemoveServer (key_ : EntityKey)
    (db : CEcalRegistrationDatabase) : CEcalRegistrationDatabase × ApplyResult :=
  ApplyMutation (RemoveServerMutator key_) db

def AddOrUpdateClient (key_ : EntityKey) (delta_ : ClientRegistrationDelta)
    (db : CEcalRegistrationDatabase) : CEcalRegistrationDatabase × ApplyResult :=
  ApplyMutation (AddOrUpdateClientMutator key_ delta_) db

def UpdateClientMonitoring (key_ : EntityKey) (delta_ : ClientMonitoringDelta)
    (db : CEcalRegistrationDatabase) : CEcalRegistrationDatabase × ApplyResult :=
  ApplyMutation (UpdateClientMonitoringMutator key_ delta_) db

def RemoveClient (key_ : EntityKey)
    (db : CEcalRegistrationDatabase) : CEcalRegistrationDatabase × ApplyResult :=
  ApplyMutation (RemoveClientMutator key_) db

def GetSnapshot (db : CEcalRegistrationDatabase) : Snapshot := { state_ := db.current_state_ }

def CurrentRevision (db : CEcalRegistrationDatabase) : Revision := db.current_state_.revision

def PreviousRevision (db : CEcalRegistrationDatabase) : Revision := db.previous_revision_

/-- The nine telemetry fields `ApplySample` copies from `sample_.topic`. -/
def topicMonitoringOf (topic : Topic) : TopicMonitoringDelta :=
  { registration_clock := topic.registration_clock
    topic_size := topic.topic_size
    connections_local := topic.connections_local
    connections_external := topic.connections_external
    message_drops := topic.message_drops
    data_id := topic.data_id
    data_clock := topic.data_clock
    data_frequency := topic.data_frequency
    latency_us := topic.latency_us }

/-- The sample router `ApplySample`. -/
def ApplySample (sample_ : Sample)
    (db : CEcalRegistrationDatabase) : CEcalRegistrationDatabase × ApplyResult :=
  let entity_key := sample_.identifier.entity_id
  let process_key := sample_.identifier.process_id
  match sample_.cmd_type with
  | .bct_reg_process =>
    AddOrUpdateProcess process_key
      { process := sample_.process, host_name := sample_.identifier.host_name } db
  | .bct_unreg_process => RemoveProcess process_key db
  | .bct_reg_publisher =>
    let (db, result) := AddOrUpdatePublisher entity_key
      { process_id := process_key, host_name := sample_.identifier.host_name,
        topic := sample_.topic } db
    let (db, mon_result) := UpdatePublisherMonitoring entity_key
      (topicMonitoringOf sample_.topic) db
    (db, { result with new_revision := mon_result.new_revision })
  | .bct_unreg_publisher => RemovePublisher entity_key db
  | .bct_reg_subscriber =>
    let (db, result) := AddOrUpdateSubscriber entity_key
      { process_id := process_key, host_name := sample_.identifier.host_name,
        topic := sample_.topic } db
    let (db, mon_result) := UpdateSubscriberMonitoring entity_key
      (topicMonitoringOf sample_.topic) db
    (db, { result with new_revision := mon_result.new_revision })
  | .bct_unreg_subscriber => RemoveSubscriber entity_key db
  | .bct_reg_service =>
    let (db, result) := AddOrUpdateServer entity_key
      { process_id := process_key, host_name := sample_.identifier.host_name,
        service := sample_.service } db
    let (db, mon_result) := UpdateServerMonitoring entity_key
      { registration_clock := sample_.service.registration_clock } db
    (db, { result with new_revision := mon_result.new_revision })
  | .bct_unreg_service => RemoveServer entity_key db
  | .bct_reg_client =>
    let (db, result) := AddOrUpdateClient entity_key
      { process_id := process_key, host_name := sample_.identifier.host_name,
        client := sample_.client } db
    let (db, mon_result) := UpdateClientMonitoring entity_key
      { registration_clock := sample_.client.registration_clock } db
    (db, { result with new_revision := mon_result.new_revision })
  | .bct_unreg_client => RemoveClient entity_key db
  | .bct_none => (db, { new_revision := CurrentRevision db, events := [] })
  | .bct_set_sample => (db, { new_revision := CurrentRevision db, events := [] })
  | .bct_other _ => (db, { new_revision := CurrentRevision db, events := [] })

/-- One iteration of the loop of `ApplySamples`. -/
def ApplySamplesStep (acc : CEcalRegistrationDatabase × ApplyResult) (sample : Sample) :
    CEcalRegistrationDatabase × ApplyResult :=
  let (db, single) := ApplySample sample acc.1
  (db, { new_revision := single.new_revision, events := acc.2.events ++ single.events })

/-- The batch router `ApplySamples`. -/
def ApplySamples (samples_ : List Sample)
    (db : CEcalRegistrationDatabase) : CEcalRegistrationDatabase × ApplyResult :=
  samples_.foldl ApplySamplesStep (db, { new_revision := CurrentRevision db, events := [] })

end CEcalRegistrationDatabase

/-! ## The public operations as data -/

/-- The fifteen typed mutations of the public interface. -/
inductive TypedOp where
  | AddOrUpdateProcess (key_ : ProcessKey) (delta_ : ProcessRegistrationDelta)
  | UpdateProcessMonitoring (key_ : ProcessKey) (delta_ : ProcessMonitoringDelta)
  | RemoveProcess (key_ : ProcessKey)
  | AddOrUpdatePublisher (key_ : EntityKey) (delta_ : TopicRegistrationDelta)
  | UpdatePublisherMonitoring (key_ : EntityKey) (delta_ : TopicMonitoringDelta)
  | RemovePublisher (key_ : EntityKey)
  | AddOrUpdateSubscriber (key_ : EntityKey) (delta_ : TopicRegistrationDelta)
  | UpdateSubscriberMonitoring (key_ : EntityKey) (delta_ : TopicMonitoringDelta)
  | RemoveSubscriber (key_ : EntityKey)
  | AddOrUpdateServer (key_ : EntityKey) (delta_ : ServiceRegistrationDelta)
  | UpdateServerMonitoring (key_ : EntityKey) (delta_ : ServiceMonitoringDelta)
  | RemoveServer (key_ : EntityKey)
  | AddOrUpdateClient (key_ : EntityKey) (delta_ : ClientRegistrationDelta)
  | UpdateClientMonitoring (key_ : EntityKey) (delta_ : ClientMonitoringDelta)
  | RemoveClient (key_ : EntityKey)
deriving DecidableEq, Repr

/-- The closure a typed mutation hands to `ApplyMutation`. -/
def TypedOp.mutator : TypedOp → MutatorT
  | .AddOrUpdateProcess k d => AddOrUpdateProcessMutator k d
  | .UpdateProcessMonitoring k d => UpdateProcessMonitoringMutator k d
  | .RemoveProcess k => RemoveProcessMutator k
  | .AddOrUpdatePublisher k d => AddOrUpdatePublisherMutator k d
  | .UpdatePublisherMonitoring k d => UpdatePublisherMonitoringMutator k d
  | .RemovePublisher k => RemovePublisherMutator k
  | .AddOrUpdateSubscriber k d => AddOrUpdateSubscriberMutator k d
  | .UpdateSubscriberMonitoring k d => UpdateSubscriberMonitoringMutator k d
  | .RemoveSubscriber k => RemoveSubscriberMutator k
  | .AddOrUpdateServer k d => AddOrUpdateServerMutator k d
  | .UpdateServerMonitoring k d => UpdateServerMonitoringMutator k d
  | .RemoveServer k => RemoveServerMutator k
  | .AddOrUpdateClient k d => AddOrUpdateClientMutator k d
  | .UpdateClientMonitoring k d => UpdateClientMonitoringMutator k d
  | .RemoveClient k => RemoveClientMutator k

/-- The call of a typed mutation on a database. -/
def TypedOp.apply : TypedOp → CEcalRegistrationDatabase →
    CEcalRegistrationDatabase × ApplyResult
  | .AddOrUpdateProcess k d => CEcalRegistrationDatabase.AddOrUpdateProcess k d
  | .UpdateProcessMonitoring k d => CEcalRegistrationDatabase.UpdateProcessMonitoring k d
  | .RemoveProcess k => CEcalRegistrationDatabase.RemoveProcess k
  | .AddOrUpdatePublisher k d => CEcalRegistrationDatabase.AddOrUpdatePublisher k d
  | .UpdatePublisherMonitoring k d => CEcalRegistrationDatabase.UpdatePublisherMonitoring k d
  | .RemovePublisher k => CEcalRegistrationDatabase.RemovePublisher k
  | .AddOrUpdateSubscriber k d => CEcalRegistrationDatabase.AddOrUpdateSubscriber k d
  | .UpdateSubscriberMonitoring k d => CEcalRegistrationDatabase.UpdateSubscriberMonitoring k d
  | .RemoveSubscriber k => CEcalRegistrationDatabase.RemoveSubscriber k
  | .AddOrUpdateServer k d => CEcalRegistrationDatabase.AddOrUpdateServer k d
  | .UpdateServerMonitoring k d => CEcalRegistrationDatabase.UpdateServerMonitoring k d
  | .RemoveServer k => CEcalRegistrationDatabase.RemoveServer k
  | .AddOrUpdateClient k d => CEcalRegistrationDatabase.AddOrUpdateClient k d
  | .UpdateClientMonitoring k d => CEcalRegistrationDatabase.UpdateClientMonitoring k d
  | .RemoveClient k => CEcalRegistrationDatabase.RemoveClient k

/-- A call of the public mutating interface: a typed mutation, `ApplySample` or
`ApplySamples`. -/
inductive Op where
  | typed (op : TypedOp)
  | ApplySample (sample_ : Sample)
  | ApplySamples (samples_ : List Sample)
deriving DecidableEq, Repr

/-- The call of a public mutation on a database. -/
def Op.apply : Op → CEcalRegistrationDatabase → CEcalRegistrationDatabase × ApplyResult
  | .typed op => op.apply
  | .ApplySample s => CEcalRegistrationDatabase.ApplySample s
  | .ApplySamples l => CEcalRegistrationDatabase.ApplySamples l

/-- The database after a sequence of public mutations. -/
def runOps (ops : List Op) (db : CEcalRegistrationDatabase) : CEcalRegistrationDatabase :=
  ops.foldl (fun db op => (op.apply db).1) db

/-- The database after a sequence of typed mutations. -/
def runTyped (ops : List TypedOp) (db : CEcalRegistrationDatabase) :
    CEcalRegistrationDatabase :=
  ops.foldl (fun db op => (op.apply db).1) db

/-! ## Views of a state -/

/-- The set of a bucket that belongs to an entity kind (no set for `process`). -/
def ProcessMembers.ofType (members : ProcessMembers) : EntityType → USet EntityKey
  | .publisher => members.publishers
  | .subscriber => members.subscribers
  | .server => members.servers
  | .client => members.clients
  | .process => []

/-- Entity `E` is listed in the set of kind `K` of the bucket of process `P`. -/
def memberOf (map_ : UMap ProcessKey ProcessMembers) (P : ProcessKey) (K : EntityType)
    (E : EntityKey) : Prop :=
  ∃ members, UMap.find map_ P = some members ∧ E ∈ members.ofType K

/-- The membership index has a bucket for `P` whose four sets are all empty. -/
def emptyBucket (map_ : UMap ProcessKey ProcessMembers) (P : ProcessKey) : Prop :=
  ∃ members, UMap.find map_ P = some members ∧ members.allEmpty = true

/-- The `process_id` of the registration record of kind `K` stored under `E`, if any. -/
def State.regProcessId (s : State) : EntityType → EntityKey → Option ProcessKey
  | .publisher, E => (UMap.find s.publishers E).map (fun r => r.process_id)
  | .subscriber, E => (UMap.find s.subscribers E).map (fun r => r.process_id)
  | .server, E => (UMap.find s.servers E).map (fun r => r.process_id)
  | .client, E => (UMap.find s.clients E).map (fun r => r.process_id)
  | .process, _ => none

/-- The monitoring table of kind `K` has a record under `E` (kinds other than `process`). -/
def State.hasMonitoring (s : State) : EntityType → EntityKey → Bool
  | .publisher, E => (UMap.find s.publisher_monitoring E).isSome
  | .subscriber, E => (UMap.find s.subscriber_monitoring E).isSome
  | .server, E => (UMap.find s.server_monitoring E).isSome
  | .client, E => (UMap.find s.client_monitoring E).isSome
  | .process, _ => false

/-- The registration table of kind `K` has a record under `E` (kinds other than
`process`). -/
def State.hasRegistration (s : State) (K : EntityType) (E : EntityKey) : Bool :=
  (s.regProcessId K E).isSome

/-- The process registration table has a record under `P`. -/
def State.hasProcess (s : State) (P : ProcessKey) : Bool :=
  (UMap.find s.processes P).isSome

/-- The process monitoring table has a record under `P`. -/
def State.hasProcessMonitoring (s : State) (P : ProcessKey) : Bool :=
  (UMap.find s.process_monitoring P).isSome

/-- Every set of every bucket of the membership index lists a key at most once. -/
def nodupBuckets (map_ : UMap ProcessKey ProcessMembers) : Prop :=
  ∀ P members, UMap.find map_ P = some members → ∀ K, (members.ofType K).Nodup

/-- The consistency the mutations maintain between the membership index and the tables:
an entity is listed in the set of its kind of bucket `P` exactly when its registration
record names process `P`; a bucket whose four sets are empty belongs to a registered
process; no set lists a key twice. -/
structure State.Consistent (s : State) : Prop where
  members_iff : ∀ P K E, memberOf s.members_by_process P K E ↔ s.regProcessId K E = some P
  empty_bucket : ∀ P, emptyBucket s.members_by_process P → s.hasProcess P = true
  nodup : nodupBuckets s.members_by_process

/-- The loop body of the cascade of `RemoveProcess` for the set of kind `K`. -/
def RemoveProcessStep : EntityType → MutatorArgs → EntityKey → MutatorArgs
  | .publisher => RemoveProcessPublisherStep
  | .subscriber => RemoveProcessSubscriberStep
  | .server => RemoveProcessServerStep
  | .client => RemoveProcessClientStep
  | .process => fun a _ => a

/-- The event `deleted_entity(K, E)`. -/
def deletedEvent (K : EntityType) (E : EntityKey) : EntityEvent :=
  { event_type := .deleted_entity, entity_type := K, entity_key := E }

/-- The events the cascade of `RemoveProcess` emits for the members of a bucket: the
publishers, then the subscribers, the servers and the clients, each set in iteration
order. -/
def memberEvents (members : ProcessMembers) : List EntityEvent :=
  members.publishers.map (deletedEvent .publisher)
    ++ (members.subscribers.map (deletedEvent .subscriber)
    ++ (members.servers.map (deletedEvent .server)
    ++ members.clients.map (deletedEvent .client)))

/-- The typed mutations the router table of section 4.4 of the specification assigns to a
sample, in the order they are performed, with key and delta fields copied from the sample:
a registration mutation, followed for the entity kinds by the monitoring mutation. -/
def routedMutations (sample : Sample) : List TypedOp :=
  match sample.cmd_type with
  | .bct_reg_process =>
    [.AddOrUpdateProcess sample.identifier.process_id
      { process := sample.process, host_name := sample.identifier.host_name }]
  | .bct_unreg_process => [.RemoveProcess sample.identifier.process_id]
  | .bct_reg_publisher =>
    [.AddOrUpdatePublisher sample.identifier.entity_id
        { process_id := sample.identifier.process_id
          host_name := sample.identifier.host_name, topic := sample.topic },
      .UpdatePublisherMonitoring sample.identifier.entity_id
        { registration_clock := sample.topic.registration_clock
          topic_size := sample.topic.topic_size
          connections_local := sample.topic.connections_local
          connections_external := sample.topic.connections_external
          message_drops := sample.topic.message_drops
          data_id := sample.topic.data_id
          data_clock := sample.topic.data_clock
          data_frequency := sample.topic.data_frequency
          latency_us := sample.topic.latency_us }]
  | .bct_unreg_publisher => [.RemovePublisher sample.identifier.entity_id]
  | .bct_reg_subscriber =>
    [.AddOrUpdateSubscriber sample.identifier.entity_id
        { process_id := sample.identifier.process_id
          host_name := sample.identifier.host_name, topic := sample.topic },
      .UpdateSubscriberMonitoring sample.identifier.entity_id
        { registration_clock := sample.topic.registration_clock
          topic_size := sample.topic.topic_size
          connections_local := sample.topic.connections_local
          connections_external := sample.topic.connections_external
          message_drops := sample.topic.message_drops
          data_id := sample.topic.data_id
          data_clock := sample.topic.data_clock
          data_frequency := sample.topic.data_frequency
          latency_us := sample.topic.latency_us }]
  | .bct_unreg_subscriber => [.RemoveSubscriber sample.identifier.entity_id]
  | .bct_reg_service =>
    [.AddOrUpdateServer sample.identifier.entity_id
        { process_id := sample.identifier.process_id
          host_name := sample.identifier.host_name, service := sample.service },
      .UpdateServerMonitoring sample.identifier.entity_id
        { registration_clock := sample.service.registration_clock }]
  | .bct_unreg_service => [.RemoveServer sample.identifier.entity_id]
  | .bct_reg_client =>
    [.AddOrUpdateClient sample.identifier.entity_id
        { process_id := sample.identifier.process_id
          host_name := sample.identifier.host_name, client := sample.client },
      .UpdateClientMonitoring sample.identifier.entity_id
        { registration_clock := sample.client.registration_clock }]
  | .bct_unreg_client => [.RemoveClient sample.identifier.entity_id]
  | .bct_none => []
  | .bct_set_sample => []
  | .bct_other _ => []

/-- The typed mutations a public call performs, in order. -/
def Op.typedOps : Op → List TypedOp
  | .typed op => [op]
  | .ApplySample s => routedMutations s
  | .ApplySamples l => l.flatMap routedMutations

/-- Every monitoring record has a registration record of its kind under the same key. -/
def State.MonitoredRegistered (s : State) : Prop :=
  (∀ K E, s.hasMonitoring K E = true → s.hasRegistration K E = true)
    ∧ ∀ P, s.hasProcessMonitoring P = true → s.hasProcess P = true

/-- The typed mutation is no monitoring update for a key that has no registration record of
the kind in state `s`. -/
def TypedOp.monitorsRegistered (op : TypedOp) (s : State) : Bool :=
  match op with
  | .UpdateProcessMonitoring k _ => s.hasProcess k
  | .UpdatePublisherMonitoring k _ => s.hasRegistration .publisher k
  | .UpdateSubscriberMonitoring k _ => s.hasRegistration .subscriber k
  | .UpdateServerMonitoring k _ => s.hasRegistration .server k
  | .UpdateClientMonitoring k _ => s.hasRegistration .client k
  | _ => true

/-- The public call is no direct monitoring update for a key that has no registration record
of the kind in state `s` (the sample router registers an entity before it writes its
monitoring record). -/
def Op.monitorsRegistered : Op → State → Bool
  | .typed op, s => op.monitorsRegistered s
  | .ApplySample _, _ => true
  | .ApplySamples _, _ => true

/-- Every direct monitoring update of the sequence is issued while its key has a
registration record of the kind. -/
def monitoringGuarded : List Op → CEcalRegistrationDatabase → Bool
  | [], _ => true
  | op :: rest, db =>
    op.monitorsRegistered db.current_state_ && monitoringGuarded rest (op.apply db).1

/-- The value of `changed` after the closure of a typed mutation ran on the installed
state of the database. -/
def TypedOp.changes (op : TypedOp) (db : CEcalRegistrationDatabase) : Bool :=
  (op.mutator { state_ := db.current_state_, events_ := [], changed_ := false }).changed_

/-- The number of mutations of a sequence, applied in order to `db`, whose closure sets
`changed`. -/
def countChanging : List TypedOp → CEcalRegistrationDatabase → Nat
  | [], _ => 0
  | op :: rest, db =>
    (if op.changes db = true then 1 else 0) + countChanging rest (op.apply db).1

/-! ## Concrete inputs -/

/-- The sample of the test helper `CreatePublisherSample(42, 1001, "host_a", "topic_foo")`. -/
def publisherSample : Sample :=
  { cmd_type := .bct_reg_publisher
    identifier := { entity_id := 42, process_id := 1001, host_name := "host_a" }
    topic :=
      { topic_name := "topic_foo"
        datatype_information := { name := "demo::Type" }
        registration_clock := 10
        topic_size := 128
        connections_local := 1
        connections_external := 2
        message_drops := 3
        data_id := 7
        data_clock := 8
        data_frequency := 900
        latency_us := { latest := .finite 12 } } }

/-- The calls of the test `remove_process_cascades_all_registered_members` before the
removal: process 1001 with publisher 10, subscriber 11, server 12 and client 13. -/
def cascadeSetup : List Op :=
  [ .typed (.AddOrUpdateProcess 1001
      { process := { process_name := "proc_a" }, host_name := "host_a" }),
    .typed (.AddOrUpdatePublisher 10
      { process_id := 1001, host_name := "host_a", topic := { topic_name := "topic_foo" } }),
    .typed (.AddOrUpdateSubscriber 11
      { process_id := 1001, host_name := "host_a", topic := { topic_name := "topic_foo" } }),
    .typed (.AddOrUpdateServer 12
      { process_id := 1001, host_name := "host_a"
        service := { service_name := "service_foo" } }),
    .typed (.AddOrUpdateClient 13
      { process_id := 1001, host_name := "host_a"
        client := { service_name := "service_foo" } }) ]

/-- Two registrations that use key 7 for a publisher of process 1 and for a subscriber of
process 2. -/
def collidingSetup : List Op :=
  [ .typed (.AddOrUpdatePublisher 7
      { process_id := 1, host_name := "h", topic := { topic_name := "t" } }),
    .typed (.AddOrUpdateSubscriber 7
      { process_id := 2, host_name := "h", topic := { topic_name := "t" } }) ]

/-- A sequence of `n` monitoring updates of server 0 whose registration clock alternates
between 0 and 1, so that every one of them changes the state. -/
def toggleOps : Nat → List TypedOp
  | 0 => []
  | n + 1 =>
    toggleOps n ++ [.UpdateServerMonitoring 0 { registration_clock := ((n % 2 : Nat) : Int) }]

/-- The calls of the test `tracks_current_and_previous_revision`. -/
def revisionTest : List TypedOp :=
  [ .AddOrUpdatePublisher 5
      { process_id := 1, host_name := "host", topic := { topic_name := "topic" } },
    .UpdatePublisherMonitoring 5 { registration_clock := 5 },
    .RemovePublisher 5,
    .RemovePublisher 5 ]

/-- The publisher sample of the test sent again one registration tick later: only
`topic.registration_clock` differs from `publisherSample`. -/
def publisherSampleNextTick : Sample :=
  { publisherSample with
    topic := { publisherSample.topic with registration_clock := 11 } }

/-- Process 1 is registered, publisher 5 is registered under it and removed again, which
prunes the bucket of process 1. -/
def prunedBucketSetup : List Op :=
  [ .typed (.AddOrUpdateProcess 1 { process := { process_name := "proc" }, host_name := "h" }),
    .typed (.AddOrUpdatePublisher 5
      { process_id := 1, host_name := "h", topic := { topic_name := "t" } }),
    .typed (.RemovePublisher 5) ]

/-! ## The event log -/

/-- The value is representable in `int32_t`, the type of `ProcessKey`. -/
def inInt32 (key_ : Int) : Bool := decide (-(2 ^ 31) ≤ key_ ∧ key_ < 2 ^ 31)

/-- The process key argument of a typed process mutation is an `int32_t` value. -/
def TypedOp.processKeyInRange : TypedOp → Bool
  | .AddOrUpdateProcess k _ => inInt32 k
  | .UpdateProcessMonitoring k _ => inInt32 k
  | .RemoveProcess k => inInt32 k
  | _ => true

/-- The process key a public call passes is an `int32_t` value: the key argument of a typed
process mutation, the `process_id` of the identifier of a sample. -/
def Op.processKeyInRange : Op → Bool
  | .typed op => op.processKeyInRange
  | .ApplySample s => inInt32 s.identifier.process_id
  | .ApplySamples l => l.all (fun s => inInt32 s.identifier.process_id)

/-- The event log of a sequence of public calls on a database: the concatenation, in call
order, of the event lists the calls return. -/
def eventLog : List Op → CEcalRegistrationDatabase → List EntityEvent
  | [], _ => []
  | op :: rest, db => (op.apply db).2.events ++ eventLog rest (op.apply db).1

/-- The event log of a sequence of typed mutations on a database. -/
def typedEventLog : List TypedOp → CEcalRegistrationDatabase → List EntityEvent
  | [], _ => []
  | op :: rest, db => (op.apply db).2.events ++ typedEventLog rest (op.apply db).1

/-- The event `new_entity(K, E)`. -/
def newEvent (K : EntityType) (E : EntityKey) : EntityEvent :=
  { event_type := .new_entity, entity_type := K, entity_key := E }

/-- Reading an event list with respect to the pair `(K, E)`, starting from the flag "a
`new_entity(K, E)` was seen and no `deleted_entity(K, E)` since": the flag after the list,
or `none` when a `new_entity(K, E)` arrives while the flag is set. -/
def scanEvents (K : EntityType) (E : EntityKey) : Bool → List EntityEvent → Option Bool
  | p, [] => some p
  | p, e :: rest =>
    if e = newEvent K E then (if p = true then none else scanEvents K E true rest)
    else if e = deletedEvent K E then scanEvents K E false rest
    else scanEvents K E p rest

/-- The `int32_t` value whose conversion to `uint64_t` is `E`, for the `E` that are such
conversions (the two's complement reading of `E`). -/
def processKeyOf (E : EntityKey) : ProcessKey :=
  if E < 2 ^ 63 then (E : Int) else (E : Int) - 2 ^ 64

/-- The entity that events of kind `K` report under key `E` is registered: for `process`
the process whose key converts to `E`, for the other kinds the record of kind `K` under
`E`. -/
def State.present (s : State) (K : EntityType) (E : EntityKey) : Bool :=
  match K with
  | .process => s.hasProcess (processKeyOf E) && decide (processEntityKey (processKeyOf E) = E)
  | .publisher => s.hasRegistration .publisher E
  | .subscriber => s.hasRegistration .subscriber E
  | .server => s.hasRegistration .server E
  | .client => s.hasRegistration .client E

/-! ## The batch router as a fold, further inputs -/

/-- The left fold of `ApplySample` over a sample list, as section 4.4 of the specification
describes `ApplySamples`: each sample is applied to the database its predecessor left; the
result is the final database and the per-sample results in order. -/
def foldSamples : List Sample → CEcalRegistrationDatabase →
    CEcalRegistrationDatabase × List ApplyResult
  | [], db => (db, [])
  | sample :: rest, db =>
    ((foldSamples rest (CEcalRegistrationDatabase.ApplySample sample db).1).1,
      (CEcalRegistrationDatabase.ApplySample sample db).2
        :: (foldSamples rest (CEcalRegistrationDatabase.ApplySample sample db).1).2)

/-- Publisher 5 is registered under process 1, which has no process record. -/
def orphanMemberSetup : List Op :=
  [ .typed (.AddOrUpdatePublisher 5
      { process_id := 1, host_name := "host", topic := { topic_name := "topic" } }) ]

/-! ## States behind shared pointers -/

/-- The object a `std::shared_ptr<State>` refers to: the `State` objects created by
`std::make_shared<State>` are kept in a store in allocation order and a pointer is the index
of its object (the release of an object no pointer refers to is not modelled). -/
def derefState (store : List State) (ptr : Nat) : State := store.getD ptr {}

/-- The data members of `CEcalRegistrationDatabase` with `current_state_` as a shared
pointer into the store of `State` objects; the constructor allocates one empty state. -/
structure SharedDatabase where
  store : List State := [{}]
  current_state_ : Nat := 0
  previous_revision_ : Revision := 0
deriving DecidableEq, Repr

/-- The `Snapshot` as the shared pointer `state_` it holds. -/
structure SharedSnapshot where
  state_ : Nat := 0
deriving DecidableEq, Repr

/-- The state a snapshot reads when the store of `State` objects is `store`: the queries of
the snapshot are the queries of `Snapshot` on this view. -/
def SharedSnapshot.view (snap : SharedSnapshot) (store : List State) : Snapshot :=
  { state_ := derefState store snap.state_ }

namespace SharedDatabase

/-- The engine `ApplyMutation` with the copy made explicit:
`std::make_shared<State>(*current_state_)` allocates a new object holding a copy of the
installed state, the closure runs on the new object, and `current_state_` is redirected to
it, with the next revision, only when the closure set `changed`. -/
def ApplyMutation (mutator_ : MutatorT) (db : SharedDatabase) : SharedDatabase × ApplyResult :=
  let next_state : Nat := db.store.length
  let store₁ : List State := db.store ++ [derefState db.store db.current_state_]
  let r := mutator_ { state_ := derefState store₁ next_state, events_ := [], changed_ := false }
  let store₂ : List State := store₁.set next_state r.state_
  if r.changed_ = false then
    ({ db with store := store₂ },
      { new_revision := (derefState store₂ db.current_state_).revision, events := r.events_ })
  else
    let store₃ : List State := store₂.set next_state
      { derefState store₂ next_state with
        revision := ((derefState store₂ db.current_state_).revision + 1) % 2 ^ 64 }
    ({ store := store₃, current_state_ := next_state
       previous_revision_ := (derefState store₂ db.current_state_).revision },
      { new_revision := (derefState store₃ next_state).revision, events := r.events_ })

/-- The accessor `GetSnapshot`: the snapshot shares the pointer `current_state_`. -/
def GetSnapshot (db : SharedDatabase) : SharedSnapshot := { state_ := db.current_state_ }

def CurrentRevision (db : SharedDatabase) : Revision :=
  (derefState db.store db.current_state_).revision

/-- The sample router `ApplySample` on the database with shared states. -/
def ApplySample (sample_ : Sample) (db : SharedDatabase) : SharedDatabase × ApplyResult :=
  let entity_key := sample_.identifier.entity_id
  let process_key := sample_.identifier.process_id
  match sample_.cmd_type with
  | .bct_reg_process =>
    ApplyMutation (AddOrUpdateProcessMutator process_key
      { process := sample_.process, host_name := sample_.identifier.host_name }) db
  | .bct_unreg_process => ApplyMutation (RemoveProcessMutator process_key) db
  | .bct_reg_publisher =>
    let (db, result) := ApplyMutation (AddOrUpdatePublisherMutator entity_key
      { process_id := process_key, host_name := sample_.identifier.host_name,
        topic := sample_.topic }) db
    let (db, mon_result) := ApplyMutation (UpdatePublisherMonitoringMutator entity_key
      (CEcalRegistrationDatabase.topicMonitoringOf sample_.topic)) db
    (db, { result with new_revision := mon_result.new_revision })
  | .bct_unreg_publisher => ApplyMutation (RemovePublisherMutator entity_key) db
  | .bct_reg_subscriber =>
    let (db, result) := ApplyMutation (AddOrUpdateSubscriberMutator entity_key
      { process_id := process_key, host_name := sample_.identifier.host_name,
        topic := sample_.topic }) db
    let (db, mon_result) := ApplyMutation (UpdateSubscriberMonitoringMutator entity_key
      (CEcalRegistrationDatabase.topicMonitoringOf sample_.topic)) db
    (db, { result with new_revision := mon_result.new_revision })
  | .bct_unreg_subscriber => ApplyMutation (RemoveSubscriberMutator entity_key) db
  | .bct_reg_service =>
    let (db, result) := ApplyMutation (AddOrUpdateServerMutator entity_key
      { process_id := process_key, host_name := sample_.identifier.host_name,
        service := sample_.service }) db
    let (db, mon_result) := ApplyMutation (UpdateServerMonitoringMutator entity_key
      { registration_clock := sample_.service.registration_clock }) db
    (db, { result with new_revision := mon_result.new_revision })
  | .bct_unreg_service => ApplyMutation (RemoveServerMutator entity_key) db
  | .bct_reg_client =>
    let (db, result) := ApplyMutation (AddOrUpdateClientMutator entity_key
      { process_id := process_key, host_name := sample_.identifier.host_name,
        client := sample_.client }) db
    let (db, mon_result) := ApplyMutation (UpdateClientMonitoringMutator entity_key
      { registration_clock := sample_.client.registration_clock }) db
    (db, { result with new_revision := mon_result.new_revision })
  | .bct_unreg_client => ApplyMutation (RemoveClientMutator entity_key) db
  | .bct_none => (db, { new_revision := CurrentRevision db, events := [] })
  | .bct_set_sample => (db, { new_revision := CurrentRevision db, events := [] })
  | .bct_other _ => (db, { new_revision := CurrentRevision db, events := [] })

/-- One iteration of the loop of `ApplySamples` on the database with shared states. -/
def ApplySamplesStep (acc : SharedDatabase × ApplyResult) (sample : Sample) :
    SharedDatabase × ApplyResult :=
  let (db, single) := ApplySample sample acc.1
  (db, { new_revision := single.new_revision, events := acc.2.events ++ single.events })

/-- The batch router `ApplySamples` on the database with shared states. -/
def ApplySamples (samples_ : List Sample) (db : SharedDatabase) :
    SharedDatabase × ApplyResult :=
  samples_.foldl ApplySamplesStep (db, { new_revision := CurrentRevision db, events := [] })

/-- The database as a value: the object `current_state_` points to and
`previous_revision_`. -/
def value (db : SharedDatabase) : CEcalRegistrationDatabase :=
  { current_state_ := derefState db.store db.current_state_
    previous_revision_ := db.previous_revision_ }

/-- The pointer `current_state_` refers to an allocated object. -/
def Valid (db : SharedDatabase) : Prop := db.current_state_ < db.store.length

/-- Every object allocated in `db` is still allocated in `db'` and holds the same state. -/
def Preserved (db db' : SharedDatabase) : Prop :=
  db.store.length ≤ db'.store.length
    ∧ ∀ ptr, ptr < db.store.length → derefState db'.store ptr = derefState db.store ptr

end SharedDatabase

/-- The call of a public mutation on the database with shared states; a typed mutation
hands its closure to `ApplyMutation`. -/
def Op.applyShared : Op → SharedDatabase → SharedDatabase × ApplyResult
  | .typed op => SharedDatabase.ApplyMutation op.mutator
  | .ApplySample s => SharedDatabase.ApplySample s
  | .ApplySamples l => SharedDatabase.ApplySamples l

/-! ## The per-channel writer of `measurement/mcap/src/writer.cpp` -/

/-- The data members of `PerChannelWriter` for writers of type `W`: `channel_writer_map` is
the `std::map` from channel names to writers, of which only `find` and `insert` are used;
`creator_calls` records the paths `writer_creator` has been invoked with (the observable
effect of invoking the creator, not a data member). -/
structure PerChannelWriter (W : Type) where
  path : String
  writer_creator : String → W
  channel_writer_map : UMap String W := []
  creator_calls : List String := []

namespace PerChannelWriter

variable {W : Type}

/-- The helper `CreateNewChannelWriter`: the creator is invoked for the argument of
`insert`, which leaves an existing entry alone; the result is `inserted.first`, the
position of the entry with the key. -/
def CreateNewChannelWriter (self : PerChannelWriter W) (channel_name : String) :
    PerChannelWriter W × Option (String × W) :=
  let complete_path := self.path ++ "/" ++ channel_name
  let created := self.writer_creator complete_path
  let inserted := UMap.emplace self.channel_writer_map channel_name created
  ({ self with
      channel_writer_map := inserted
      creator_calls := self.creator_calls ++ [complete_path] },
    (UMap.find inserted channel_name).map (fun w => (channel_name, w)))

/-- The lookup `FindOrCreateWriter`: the returned position is `none` for `end()`. -/
def FindOrCreateWriter (self : PerChannelWriter W) (channel_name : String) :
    PerChannelWriter W × Option (String × W) :=
  match UMap.find self.channel_writer_map channel_name with
  | some _ => CreateNewChannelWriter self channel_name
  | none => (self, none)

end PerChannelWriter

/-! ## Uniqueness of keys -/

/-- The keys of a map, in list order. -/
def UMap.keys {K V : Type} (m : UMap K V) : List K := m.map Prod.fst

/-- No key occurs twice in a registration table or in the membership index, the property
`std::unordered_map` has by construction. -/
structure State.UniqueKeys (s : State) : Prop where
  publishers : (UMap.keys s.publishers).Nodup
  subscribers : (UMap.keys s.subscribers).Nodup
  servers : (UMap.keys s.servers).Nodup
  clients : (UMap.keys s.clients).Nodup
  members_by_process : (UMap.keys s.members_by_process).Nodup

/-! ## The cascade with a chosen iteration order -/

/-- The four member sets of a bucket, each listed in the order `visit` gives for its kind:
the order in which a loop of `RemoveProcess` iterates the copied set. -/
def ProcessMembers.visited (visit : EntityType → List EntityKey → List EntityKey)
    (members : ProcessMembers) : ProcessMembers :=
  { publishers := visit .publisher members.publishers
    subscribers := visit .subscriber members.subscribers
    servers := visit .server members.servers
    clients := visit .client members.clients }

/-- The closure of `RemoveProcess` whose four loops iterate the copied member sets in the
orders `visit` gives. -/
def RemoveProcessMutatorVisiting (visit : EntityType → List EntityKey → List EntityKey)
    (key_ : ProcessKey) : MutatorT := fun a =>
  match UMap.find a.state_.members_by_process key_ with
  | some members => RemoveProcessFinish key_ (RemoveProcessCascade (members.visited visit) a)
  | none => RemoveProcessFinish key_ a

/-- Publishers 5 and 6 and subscriber 7 are registered under process 1, which is registered
last. -/
def twoPublishersSetup : List Op :=
  [ .typed (.AddOrUpdatePublisher 5
      { process_id := 1, host_name := "host", topic := { topic_name := "a" } }),
    .typed (.AddOrUpdatePublisher 6
      { process_id := 1, host_name := "host", topic := { topic_name := "b" } }),
    .typed (.AddOrUpdateSubscriber 7
      { process_id := 1, host_name := "host", topic := { topic_name := "a" } }),
    .typed (.AddOrUpdateProcess 1 { process := { process_name := "proc" }, host_name := "host" }) ]

/-- Whether the delta of a typed mutation compares equal to itself with the code's
comparison, which fails only for a topic delta whose latency statistic is a not-a-number. -/
def TypedOp.selfEqual : TypedOp → Bool
  | .AddOrUpdatePublisher _ d => d.same d
  | .UpdatePublisherMonitoring _ d => d.same d
  | .AddOrUpdateSubscriber _ d => d.same d
  | .UpdateSubscriberMonitoring _ d => d.same d
  | _ => true

/-- A publisher registration whose latency statistic is a not-a-number. -/
def nanLatencyDelta : TopicRegistrationDelta :=
  { process_id := 1
    host_name := "host"
    topic := { topic_name := "topic", latency_us := { latest := .nan } } }

/-! ## Container lemmas -/

namespace UMap

variable {K V : Type} [DecidableEq K]

theorem find_append (m₁ m₂ : UMap K V) (k : K) :
    find (m₁ ++ m₂) k = (find m₁ k).orElse (fun _ => find m₂ k) := by
  induction m₁ with
  | nil => simp [find]
  | cons p rest ih =>
    obtain ⟨k', v⟩ := p
    by_cases h : k' = k <;> simp [find, h, ih]

theorem find_erase (m : UMap K V) (k k' : K) :
    find (erase m k) k' = if k' = k then none else find m k' := by
  induction m with
  | nil => simp [find, erase]
  | cons p rest ih =>
    obtain ⟨k₀, v⟩ := p
    unfold erase at ih ⊢
    by_cases h₀ : k₀ = k
    · subst h₀
      by_cases h₁ : k' = k₀
      · subst h₁; simpa [List.filter, find] using ih
      · have h₂ : ¬ k₀ = k' := fun h => h₁ h.symm
        simpa [List.filter, find, h₁, h₂] using ih
    · by_cases h₁ : k₀ = k'
      · subst h₁; simp [List.filter, find, h₀]
      · simpa [List.filter, find, h₀, h₁] using ih

theorem find_assign (m : UMap K V) (k k' : K) (v : V) :
    find (assign m k v) k' = if k' = k then some v else find m k' := by
  induction m with
  | nil =>
    by_cases h : k = k'
    · subst h; simp [find, assign]
    · have h' : ¬ k' = k := fun e => h e.symm
      simp [find, assign, h, h']
  | cons p rest ih =>
    obtain ⟨k₀, v₀⟩ := p
    by_cases h₀ : k₀ = k
    · subst h₀
      by_cases h₁ : k₀ = k'
      · subst h₁; simp [find, assign]
      · have h₂ : ¬ k' = k₀ := fun e => h₁ e.symm
        simp [find, assign, h₁, h₂]
    · by_cases h₁ : k₀ = k'
      · subst h₁; simp [find, assign, h₀]
      · simp [find, assign, h₀, h₁, ih]

theorem find_emplace (m : UMap K V) (k k' : K) (v : V) (h : find m k = none) :
    find (emplace m k v) k' = if k' = k then some v else find m k' := by
  unfold emplace
  rw [h]
  simp only [find_append]
  by_cases h₁ : k' = k
  · subst h₁; simp [h, find]
  · have h₂ : ¬ k = k' := fun e => h₁ e.symm
    cases hf : find m k' <;> simp [find, h₁, h₂]

end UMap

namespace USet

variable {K : Type} [DecidableEq K]

theorem mem_insert (s : USet K) (k x : K) : x ∈ insert s k ↔ x ∈ s ∨ x = k := by
  unfold insert
  by_cases h : k ∈ s
  · simp only [h, if_true]
    constructor
    · exact fun hx => Or.inl hx
    · rintro (hx | rfl)
      · exact hx
      · exact h
  · simp [h]

theorem mem_erase (s : USet K) (k x : K) : x ∈ erase s k ↔ x ∈ s ∧ x ≠ k := by
  simp [erase, List.mem_filter]

theorem nodup_insert (s : USet K) (k : K) (h : s.Nodup) : (insert s k).Nodup := by
  unfold insert
  by_cases hk : k ∈ s
  · simpa [hk] using h
  · simp only [hk, if_false]
    rw [List.nodup_append]
    refine ⟨h, List.nodup_singleton k, ?_⟩
    intro a ha hb
    simp only [List.mem_singleton] at hb
    subst hb
    exact hk ha

theorem nodup_erase (s : USet K) (k : K) (h : s.Nodup) : (erase s k).Nodup :=
  List.Nodup.filter _ h

end USet

theorem USet.empty_iff {K : Type} (s : USet K) : USet.empty s = true ↔ s = [] := by
  cases s <;> simp [USet.empty]

/-! ## Lemmas on the membership index -/

theorem ProcessMembers.mem_ofType_insertMember (b : ProcessMembers) (K₀ K : EntityType)
    (E₀ E : EntityKey) :
    E ∈ (b.insertMember K₀ E₀).ofType K ↔
      E ∈ b.ofType K ∨ (K₀ ≠ .process ∧ K = K₀ ∧ E = E₀) := by
  cases K₀ <;> cases K <;>
    simp [ProcessMembers.insertMember, ProcessMembers.ofType, USet.mem_insert]

theorem ProcessMembers.mem_ofType_eraseMember (b : ProcessMembers) (K₀ K : EntityType)
    (E₀ E : EntityKey) :
    E ∈ (b.eraseMember K₀ E₀).ofType K ↔ E ∈ b.ofType K ∧ ¬ (K = K₀ ∧ E = E₀) := by
  cases K₀ <;> cases K <;>
    simp [ProcessMembers.eraseMember, ProcessMembers.ofType, USet.mem_erase]

theorem ProcessMembers.allEmpty_iff (b : ProcessMembers) :
    b.allEmpty = true ↔ ∀ K E, E ∉ b.ofType K := by
  constructor
  · intro h K E
    simp only [ProcessMembers.allEmpty, Bool.and_eq_true, USet.empty_iff] at h
    obtain ⟨⟨⟨h₁, h₂⟩, h₃⟩, h₄⟩ := h
    cases K <;> simp [ProcessMembers.ofType, h₁, h₂, h₃, h₄]
  · intro h
    simp only [ProcessMembers.allEmpty, Bool.and_eq_true, USet.empty_iff]
    have h₁ := h .publisher
    have h₂ := h .subscriber
    have h₃ := h .server
    have h₄ := h .client
    simp only [ProcessMembers.ofType] at h₁ h₂ h₃ h₄
    exact ⟨⟨⟨List.eq_nil_iff_forall_not_mem.mpr h₁, List.eq_nil_iff_forall_not_mem.mpr h₂⟩,
      List.eq_nil_iff_forall_not_mem.mpr h₃⟩, List.eq_nil_iff_forall_not_mem.mpr h₄⟩

theorem ProcessMembers.allEmpty_default : ({} : ProcessMembers).allEmpty = true := by
  rfl

theorem ProcessMembers.not_mem_ofType_default (K : EntityType) (E : EntityKey) :
    E ∉ ({} : ProcessMembers).ofType K := by
  cases K <;> simp [ProcessMembers.ofType]

theorem memberOf_AddMembership (m : UMap ProcessKey ProcessMembers) (P₀ P : ProcessKey)
    (K₀ K : EntityType) (E₀ E : EntityKey) :
    memberOf (AddMembership m P₀ K₀ E₀) P K E ↔
      memberOf m P K E ∨ (K₀ ≠ .process ∧ P = P₀ ∧ K = K₀ ∧ E = E₀) := by
  unfold memberOf AddMembership
  simp only [UMap.find_assign]
  by_cases hP : P = P₀
  · subst hP
    simp only [if_true, Option.some.injEq, exists_eq_left', true_and]
    rw [ProcessMembers.mem_ofType_insertMember]
    cases hf : UMap.find m P with
    | none => simp [ProcessMembers.not_mem_ofType_default]
    | some b => simp
  · simp [hP]

theorem memberOf_RemoveMembership (m : UMap ProcessKey ProcessMembers) (P₀ P : ProcessKey)
    (K₀ K : EntityType) (E₀ E : EntityKey) :
    memberOf (RemoveMembership m P₀ K₀ E₀) P K E ↔
      memberOf m P K E ∧ ¬ (P = P₀ ∧ K = K₀ ∧ E = E₀) := by
  unfold RemoveMembership
  cases hf : UMap.find m P₀ with
  | none =>
    simp only [memberOf]
    constructor
    · rintro ⟨b, hb, hE⟩
      refine ⟨⟨b, hb, hE⟩, ?_⟩
      rintro ⟨rfl, -, -⟩
      rw [hf] at hb
      cases hb
    · rintro ⟨h, -⟩
      exact h
  | some b₀ =>
    simp only
    by_cases hP : P = P₀
    · subst hP
      by_cases he : (b₀.eraseMember K₀ E₀).allEmpty = true
      · simp only [he, if_true, memberOf, UMap.find_erase, hf]
        rw [ProcessMembers.allEmpty_iff] at he
        have he' := he K E
        rw [ProcessMembers.mem_ofType_eraseMember] at he'
        simp only [true_and, Option.some.injEq, exists_eq_left']
        constructor
        · rintro ⟨b, hb, -⟩
          cases hb
        · rintro ⟨h₁, h₂⟩
          exact absurd ⟨h₁, h₂⟩ he'
      · simp only [he, memberOf, UMap.find_assign, hf, if_true, Option.some.injEq,
          exists_eq_left', true_and, Bool.false_eq_true, if_false]
        exact ProcessMembers.mem_ofType_eraseMember b₀ K₀ K E₀ E
    · by_cases he : (b₀.eraseMember K₀ E₀).allEmpty = true
      · simp [he, memberOf, UMap.find_erase, hP]
      · simp [he, memberOf, UMap.find_assign, hP]

theorem memberOf_erase (m : UMap ProcessKey ProcessMembers) (P₀ P : ProcessKey)
    (K : EntityType) (E : EntityKey) :
    memberOf (UMap.erase m P₀) P K E ↔ memberOf m P K E ∧ P ≠ P₀ := by
  unfold memberOf
  simp only [UMap.find_erase]
  by_cases hP : P = P₀ <;> simp [hP]

theorem memberOf_emplace_default (m : UMap ProcessKey ProcessMembers) (P₀ P : ProcessKey)
    (K : EntityType) (E : EntityKey) (h : UMap.find m P₀ = none) :
    memberOf (UMap.emplace m P₀ {}) P K E ↔ memberOf m P K E := by
  unfold memberOf
  simp only [UMap.find_emplace m P₀ P _ h]
  by_cases hP : P = P₀
  · subst hP
    simp [h, ProcessMembers.not_mem_ofType_default]
  · simp [hP]

theorem emptyBucket_AddMembership (m : UMap ProcessKey ProcessMembers) (P₀ P : ProcessKey)
    (K₀ : EntityType) (E₀ : EntityKey) (hK : K₀ ≠ .process) :
    emptyBucket (AddMembership m P₀ K₀ E₀) P ↔ emptyBucket m P ∧ P ≠ P₀ := by
  unfold emptyBucket AddMembership
  simp only [UMap.find_assign]
  by_cases hP : P = P₀
  · subst hP
    simp only [if_true, Option.some.injEq, exists_eq_left', ne_eq, not_true, and_false,
      iff_false, Bool.not_eq_true]
    rw [← Bool.not_eq_true, ProcessMembers.allEmpty_iff]
    intro h
    exact h K₀ E₀ ((ProcessMembers.mem_ofType_insertMember _ K₀ K₀ E₀ E₀).mpr
      (Or.inr ⟨hK, rfl, rfl⟩))
  · simp [hP]

theorem emptyBucket_RemoveMembership (m : UMap ProcessKey ProcessMembers) (P₀ P : ProcessKey)
    (K₀ : EntityType) (E₀ : EntityKey) :
    emptyBucket (RemoveMembership m P₀ K₀ E₀) P → emptyBucket m P ∧ P ≠ P₀ := by
  unfold RemoveMembership
  cases hf : UMap.find m P₀ with
  | none =>
    simp only [emptyBucket]
    rintro ⟨b, hb, he⟩
    refine ⟨⟨b, hb, he⟩, ?_⟩
    rintro rfl
    rw [hf] at hb
    cases hb
  | some b₀ =>
    simp only
    by_cases hP : P = P₀
    · subst hP
      by_cases he : (b₀.eraseMember K₀ E₀).allEmpty = true
      · simp [he, emptyBucket, UMap.find_erase]
      · simp [he, emptyBucket, UMap.find_assign]
    · by_cases he : (b₀.eraseMember K₀ E₀).allEmpty = true
      · simp [he, emptyBucket, UMap.find_erase, hP]
      · simp [he, emptyBucket, UMap.find_assign, hP]

theorem emptyBucket_erase (m : UMap ProcessKey ProcessMembers) (P₀ P : ProcessKey) :
    emptyBucket (UMap.erase m P₀) P ↔ emptyBucket m P ∧ P ≠ P₀ := by
  unfold emptyBucket
  simp only [UMap.find_erase]
  by_cases hP : P = P₀ <;> simp [hP]

theorem emptyBucket_emplace_default (m : UMap ProcessKey ProcessMembers) (P₀ P : ProcessKey)
    (h : UMap.find m P₀ = none) :
    emptyBucket (UMap.emplace m P₀ {}) P ↔ emptyBucket m P ∨ P = P₀ := by
  unfold emptyBucket
  simp only [UMap.find_emplace m P₀ P _ h]
  by_cases hP : P = P₀
  · subst hP
    simp [h, ProcessMembers.allEmpty_default]
  · simp [hP]

/-! ## Preservation of consistency by the closures -/

theorem nodupBuckets_AddMembership (m : UMap ProcessKey ProcessMembers) (P₀ : ProcessKey)
    (K₀ : EntityType) (E₀ : EntityKey) (h : nodupBuckets m) :
    nodupBuckets (AddMembership m P₀ K₀ E₀) := by
  intro P b hb K
  unfold AddMembership at hb
  rw [UMap.find_assign] at hb
  by_cases hP : P = P₀
  · subst hP
    simp only [if_true, Option.some.injEq] at hb
    subst hb
    have hd : ∀ K, (((UMap.find m P).getD {}).ofType K).Nodup := by
      intro K
      cases hf : UMap.find m P with
      | none => cases K <;> simp [ProcessMembers.ofType]
      | some b => exact h P b hf K
    have h₁ := hd .publisher
    have h₂ := hd .subscriber
    have h₃ := hd .server
    have h₄ := hd .client
    simp only [ProcessMembers.ofType] at h₁ h₂ h₃ h₄
    cases K₀ <;> cases K <;> simp only [ProcessMembers.insertMember, ProcessMembers.ofType] <;>
      first
        | assumption
        | exact List.nodup_nil
        | exact USet.nodup_insert _ _ (by assumption)
  · simp only [hP, if_false] at hb
    exact h P b hb K

theorem nodupBuckets_RemoveMembership (m : UMap ProcessKey ProcessMembers) (P₀ : ProcessKey)
    (K₀ : EntityType) (E₀ : EntityKey) (h : nodupBuckets m) :
    nodupBuckets (RemoveMembership m P₀ K₀ E₀) := by
  intro P b hb K
  unfold RemoveMembership at hb
  cases hf : UMap.find m P₀ with
  | none =>
    rw [hf] at hb
    exact h P b hb K
  | some b₀ =>
    rw [hf] at hb
    simp only at hb
    by_cases he : (b₀.eraseMember K₀ E₀).allEmpty = true
    · simp only [he, if_true, UMap.find_erase] at hb
      by_cases hP : P = P₀
      · simp [hP] at hb
      · simp only [hP, if_false] at hb
        exact h P b hb K
    · simp only [he, UMap.find_assign, Bool.false_eq_true, if_false] at hb
      by_cases hP : P = P₀
      · subst hP
        simp only [if_true, Option.some.injEq] at hb
        subst hb
        have hd := h P b₀ hf
        have h₁ := hd .publisher
        have h₂ := hd .subscriber
        have h₃ := hd .server
        have h₄ := hd .client
        simp only [ProcessMembers.ofType] at h₁ h₂ h₃ h₄
        cases K₀ <;> cases K <;>
          simp only [ProcessMembers.eraseMember, ProcessMembers.ofType] <;>
          first
            | assumption
            | exact List.nodup_nil
            | exact USet.nodup_erase _ _ (by assumption)
      · simp only [hP, if_false] at hb
        exact h P b hb K

theorem nodupBuckets_erase (m : UMap ProcessKey ProcessMembers) (P₀ : ProcessKey)
    (h : nodupBuckets m) : nodupBuckets (UMap.erase m P₀) := by
  intro P b hb K
  rw [UMap.find_erase] at hb
  by_cases hP : P = P₀
  · simp [hP] at hb
  · simp only [hP, if_false] at hb
    exact h P b hb K

theorem nodupBuckets_emplace_default (m : UMap ProcessKey ProcessMembers) (P₀ : ProcessKey)
    (hn : UMap.find m P₀ = none) (h : nodupBuckets m) :
    nodupBuckets (UMap.emplace m P₀ {}) := by
  intro P b hb K
  rw [UMap.find_emplace m P₀ P _ hn] at hb
  by_cases hP : P = P₀
  · simp only [hP, if_true, Option.some.injEq] at hb
    subst hb
    cases K <;> simp [ProcessMembers.ofType]
  · simp only [hP, if_false] at hb
    exact h P b hb K

theorem AddOrUpdatePublisherMutator_consistent (key_ : EntityKey)
    (delta_ : TopicRegistrationDelta) (a : MutatorArgs) (h : a.state_.Consistent) :
    (AddOrUpdatePublisherMutator key_ delta_ a).state_.Consistent := by
  unfold AddOrUpdatePublisherMutator
  cases hf : UMap.find a.state_.publishers key_ with
  | none =>
    simp only
    refine ⟨?_, ?_, ?_⟩
    · intro P K E
      rw [memberOf_AddMembership, h.members_iff]
      cases K <;> simp [State.regProcessId, UMap.find_emplace _ _ _ _ hf]
      by_cases hE : E = key_
      · subst hE; simp [hf, eq_comm]
      · simp [hE]
    · intro P hP
      rw [emptyBucket_AddMembership _ _ _ _ _ (by decide)] at hP
      exact h.empty_bucket P hP.1
    · exact nodupBuckets_AddMembership _ _ _ _ h.nodup
  | some r =>
    simp only
    by_cases hc : r.topic.equal delta_.topic = true ∧ r.process_id = delta_.process_id
        ∧ r.host_name = delta_.host_name
    · simpa [hc] using h
    · simp only [hc, not_false_eq_true, if_true]
      by_cases hp : r.process_id = delta_.process_id
      · simp only [hp, ne_eq, not_true, if_false]
        refine ⟨?_, h.empty_bucket, h.nodup⟩
        intro P K E
        rw [h.members_iff]
        cases K <;> simp [State.regProcessId, UMap.find_assign]
        by_cases hE : E = key_
        · subst hE; simp [hf, hp]
        · simp [hE]
      · simp only [ne_eq, hp, not_false_eq_true, if_true]
        refine ⟨?_, ?_, ?_⟩
        · intro P K E
          rw [memberOf_AddMembership, memberOf_RemoveMembership, h.members_iff]
          cases K <;> simp [State.regProcessId, UMap.find_assign]
          by_cases hE : E = key_
          · subst hE; simp [hf, eq_comm]
          · simp [hE]
        · intro P hP
          rw [emptyBucket_AddMembership _ _ _ _ _ (by decide)] at hP
          exact h.empty_bucket P (emptyBucket_RemoveMembership _ _ _ _ _ hP.1).1
        · exact nodupBuckets_AddMembership _ _ _ _
            (nodupBuckets_RemoveMembership _ _ _ _ h.nodup)

theorem UpdatePublisherMonitoringMutator_consistent (key_ : EntityKey)
    (delta_ : TopicMonitoringDelta) (a : MutatorArgs) (h : a.state_.Consistent) :
    (UpdatePublisherMonitoringMutator key_ delta_ a).state_.Consistent := by
  unfold UpdatePublisherMonitoringMutator
  have hw : State.Consistent { a.state_ with
      publisher_monitoring := UMap.assign a.state_.publisher_monitoring key_ delta_ } :=
    ⟨fun P K E => by
      have := h.members_iff P K E
      cases K <;> simpa [State.regProcessId] using this, h.empty_bucket, h.nodup⟩
  cases hf : UMap.find a.state_.publisher_monitoring key_ with
  | none => exact hw
  | some r =>
    simp only
    split
    · exact hw
    · exact h

theorem RemovePublisherMutator_consistent (key_ : EntityKey) (a : MutatorArgs)
    (h : a.state_.Consistent) : (RemovePublisherMutator key_ a).state_.Consistent := by
  unfold RemovePublisherMutator
  cases hf : UMap.find a.state_.publishers key_ with
  | none => exact h
  | some r =>
    simp only
    refine ⟨?_, ?_, ?_⟩
    · intro P K E
      rw [memberOf_RemoveMembership, h.members_iff]
      cases K <;> simp [State.regProcessId, UMap.find_erase]
      by_cases hE : E = key_
      · subst hE; simp [hf, eq_comm]
      · simp [hE]
    · intro P hP
      exact h.empty_bucket P (emptyBucket_RemoveMembership _ _ _ _ _ hP).1
    · exact nodupBuckets_RemoveMembership _ _ _ _ h.nodup

theorem AddOrUpdateSubscriberMutator_consistent (key_ : EntityKey)
    (delta_ : TopicRegistrationDelta) (a : MutatorArgs) (h : a.state_.Consistent) :
    (AddOrUpdateSubscriberMutator key_ delta_ a).state_.Consistent := by
  unfold AddOrUpdateSubscriberMutator
  cases hf : UMap.find a.state_.subscribers key_ with
  | none =>
    simp only
    refine ⟨?_, ?_, ?_⟩
    · intro P K E
      rw [memberOf_AddMembership, h.members_iff]
      cases K <;> simp [State.regProcessId, UMap.find_emplace _ _ _ _ hf]
      by_cases hE : E = key_
      · subst hE; simp [hf, eq_comm]
      · simp [hE]
    · intro P hP
      rw [emptyBucket_AddMembership _ _ _ _ _ (by decide)] at hP
      exact h.empty_bucket P hP.1
    · exact nodupBuckets_AddMembership _ _ _ _ h.nodup
  | some r =>
    simp only
    by_cases hc : r.topic.equal delta_.topic = true ∧ r.process_id = delta_.process_id
        ∧ r.host_name = delta_.host_name
    · simpa [hc] using h
    · simp only [hc, not_false_eq_true, if_true]
      by_cases hp : r.process_id = delta_.process_id
      · simp only [hp, ne_eq, not_true, if_false]
        refine ⟨?_, h.empty_bucket, h.nodup⟩
        intro P K E
        rw [h.members_iff]
        cases K <;> simp [State.regProcessId, UMap.find_assign]
        by_cases hE : E = key_
        · subst hE; simp [hf, hp]
        · simp [hE]
      · simp only [ne_eq, hp, not_false_eq_true, if_true]
        refine ⟨?_, ?_, ?_⟩
        · intro P K E
          rw [memberOf_AddMembership, memberOf_RemoveMembership, h.members_iff]
          cases K <;> simp [State.regProcessId, UMap.find_assign]
          by_cases hE : E = key_
          · subst hE; simp [hf, eq_comm]
          · simp [hE]
        · intro P hP
          rw [emptyBucket_AddMembership _ _ _ _ _ (by decide)] at hP
          exact h.empty_bucket P (emptyBucket_RemoveMembership _ _ _ _ _ hP.1).1
        · exact nodupBuckets_AddMembership _ _ _ _
            (nodupBuckets_RemoveMembership _ _ _ _ h.nodup)

theorem UpdateSubscriberMonitoringMutator_consistent (key_ : EntityKey)
    (delta_ : TopicMonitoringDelta) (a : MutatorArgs) (h : a.state_.Consistent) :
    (UpdateSubscriberMonitoringMutator key_ delta_ a).state_.Consistent := by
  unfold UpdateSubscriberMonitoringMutator
  have hw : State.Consistent { a.state_ with
      subscriber_monitoring := UMap.assign a.state_.subscriber_monitoring key_ delta_ } :=
    ⟨fun P K E => by
      have := h.members_iff P K E
      cases K <;> simpa [State.regProcessId] using this, h.empty_bucket, h.nodup⟩
  cases hf : UMap.find a.state_.subscriber_monitoring key_ with
  | none => exact hw
  | some r =>
    simp only
    split
    · exact hw
    · exact h

theorem RemoveSubscriberMutator_consistent (key_ : EntityKey) (a : MutatorArgs)
    (h : a.state_.Consistent) : (RemoveSubscriberMutator key_ a).state_.Consistent := by
  unfold RemoveSubscriberMutator
  cases hf : UMap.find a.state_.subscribers key_ with
  | none => exact h
  | some r =>
    simp only
    refine ⟨?_, ?_, ?_⟩
    · intro P K E
      rw [memberOf_RemoveMembership, h.members_iff]
      cases K <;> simp [State.regProcessId, UMap.find_erase]
      by_cases hE : E = key_
      · subst hE; simp [hf, eq_comm]
      · simp [hE]
    · intro P hP
      exact h.empty_bucket P (emptyBucket_RemoveMembership _ _ _ _ _ hP).1
    · exact nodupBuckets_RemoveMembership _ _ _ _ h.nodup

theorem AddOrUpdateServerMutator_consistent (key_ : EntityKey)
    (delta_ : ServiceRegistrationDelta) (a : MutatorArgs) (h : a.state_.Consistent) :
    (AddOrUpdateServerMutator key_ delta_ a).state_.Consistent := by
  unfold AddOrUpdateServerMutator
  cases hf : UMap.find a.state_.servers key_ with
  | none =>
    simp only
    refine ⟨?_, ?_, ?_⟩
    · intro P K E
      rw [memberOf_AddMembership, h.members_iff]
      cases K <;> simp [State.regProcessId, UMap.find_emplace _ _ _ _ hf]
      by_cases hE : E = key_
      · subst hE; simp [hf, eq_comm]
      · simp [hE]
    · intro P hP
      rw [emptyBucket_AddMembership _ _ _ _ _ (by decide)] at hP
      exact h.empty_bucket P hP.1
    · exact nodupBuckets_AddMembership _ _ _ _ h.nodup
  | some r =>
    simp only
    by_cases hc : r.service = delta_.service ∧ r.process_id = delta_.process_id
        ∧ r.host_name = delta_.host_name
    · simpa [hc] using h
    · simp only [hc, not_false_eq_true, if_true]
      by_cases hp : r.process_id = delta_.process_id
      · simp only [hp, ne_eq, not_true, if_false]
        refine ⟨?_, h.empty_bucket, h.nodup⟩
        intro P K E
        rw [h.members_iff]
        cases K <;> simp [State.regProcessId, UMap.find_assign]
        by_cases hE : E = key_
        · subst hE; simp [hf, hp]
        · simp [hE]
      · simp only [ne_eq, hp, not_false_eq_true, if_true]
        refine ⟨?_, ?_, ?_⟩
        · intro P K E
          rw [memberOf_AddMembership, memberOf_RemoveMembership, h.members_iff]
          cases K <;> simp [State.regProcessId, UMap.find_assign]
          by_cases hE : E = key_
          · subst hE; simp [hf, eq_comm]
          · simp [hE]
        · intro P hP
          rw [emptyBucket_AddMembership _ _ _ _ _ (by decide)] at hP
          exact h.empty_bucket P (emptyBucket_RemoveMembership _ _ _ _ _ hP.1).1
        · exact nodupBuckets_AddMembership _ _ _ _
            (nodupBuckets_RemoveMembership _ _ _ _ h.nodup)

theorem UpdateServerMonitoringMutator_consistent (key_ : EntityKey)
    (delta_ : ServiceMonitoringDelta) (a : MutatorArgs) (h : a.state_.Consistent) :
    (UpdateServerMonitoringMutator key_ delta_ a).state_.Consistent := by
  unfold UpdateServerMonitoringMutator
  have hw : State.Consistent { a.state_ with
      server_monitoring := UMap.assign a.state_.server_monitoring key_ delta_ } :=
    ⟨fun P K E => by
      have := h.members_iff P K E
      cases K <;> simpa [State.regProcessId] using this, h.empty_bucket, h.nodup⟩
  cases hf : UMap.find a.state_.server_monitoring key_ with
  | none => exact hw
  | some r =>
    simp only
    split
    · exact hw
    · exact h

theorem RemoveServerMutator_consistent (key_ : EntityKey) (a : MutatorArgs)
    (h : a.state_.Consistent) : (RemoveServerMutator key_ a).state_.Consistent := by
  unfold RemoveServerMutator
  cases hf : UMap.find a.state_.servers key_ with
  | none => exact h
  | some r =>
    simp only
    refine ⟨?_, ?_, ?_⟩
    · intro P K E
      rw [memberOf_RemoveMembership, h.members_iff]
      cases K <;> simp [State.regProcessId, UMap.find_erase]
      by_cases hE : E = key_
      · subst hE; simp [hf, eq_comm]
      · simp [hE]
    · intro P hP
      exact h.empty_bucket P (emptyBucket_RemoveMembership _ _ _ _ _ hP).1
    · exact nodupBuckets_RemoveMembership _ _ _ _ h.nodup

theorem AddOrUpdateClientMutator_consistent (key_ : EntityKey)
    (delta_ : ClientRegistrationDelta) (a : MutatorArgs) (h : a.state_.Consistent) :
    (AddOrUpdateClientMutator key_ delta_ a).state_.Consistent := by
  unfold AddOrUpdateClientMutator
  cases hf : UMap.find a.state_.clients key_ with
  | none =>
    simp only
    refine ⟨?_, ?_, ?_⟩
    · intro P K E
      rw [memberOf_AddMembership, h.members_iff]
      cases K <;> simp [State.regProcessId, UMap.find_emplace _ _ _ _ hf]
      by_cases hE : E = key_
      · subst hE; simp [hf, eq_comm]
      · simp [hE]
    · intro P hP
      rw [emptyBucket_AddMembership _ _ _ _ _ (by decide)] at hP
      exact h.empty_bucket P hP.1
    · exact nodupBuckets_AddMembership _ _ _ _ h.nodup
  | some r =>
    simp only
    by_cases hc : r.client = delta_.client ∧ r.process_id = delta_.process_id
        ∧ r.host_name = delta_.host_name
    · simpa [hc] using h
    · simp only [hc, not_false_eq_true, if_true]
      by_cases hp : r.process_id = delta_.process_id
      · simp only [hp, ne_eq, not_true, if_false]
        refine ⟨?_, h.empty_bucket, h.nodup⟩
        intro P K E
        rw [h.members_iff]
        cases K <;> simp [State.regProcessId, UMap.find_assign]
        by_cases hE : E = key_
        · subst hE; simp [hf, hp]
        · simp [hE]
      · simp only [ne_eq, hp, not_false_eq_true, if_true]
        refine ⟨?_, ?_, ?_⟩
        · intro P K E
          rw [memberOf_AddMembership, memberOf_RemoveMembership, h.members_iff]
          cases K <;> simp [State.regProcessId, UMap.find_assign]
          by_cases hE : E = key_
          · subst hE; simp [hf, eq_comm]
          · simp [hE]
        · intro P hP
          rw [emptyBucket_AddMembership _ _ _ _ _ (by decide)] at hP
          exact h.empty_bucket P (emptyBucket_RemoveMembership _ _ _ _ _ hP.1).1
        · exact nodupBuckets_AddMembership _ _ _ _
            (nodupBuckets_RemoveMembership _ _ _ _ h.nodup)

theorem UpdateClientMonitoringMutator_consistent (key_ : EntityKey)
    (delta_ : ClientMonitoringDelta) (a : MutatorArgs) (h : a.state_.Consistent) :
    (UpdateClientMonitoringMutator key_ delta_ a).state_.Consistent := by
  unfold UpdateClientMonitoringMutator
  have hw : State.Consistent { a.state_ with
      client_monitoring := UMap.assign a.state_.client_monitoring key_ delta_ } :=
    ⟨fun P K E => by
      have := h.members_iff P K E
      cases K <;> simpa [State.regProcessId] using this, h.empty_bucket, h.nodup⟩
  cases hf : UMap.find a.state_.client_monitoring key_ with
  | none => exact hw
  | some r =>
    simp only
    split
    · exact hw
    · exact h

theorem RemoveClientMutator_consistent (key_ : EntityKey) (a : MutatorArgs)
    (h : a.state_.Consistent) : (RemoveClientMutator key_ a).state_.Consistent := by
  unfold RemoveClientMutator
  cases hf : UMap.find a.state_.clients key_ with
  | none => exact h
  | some r =>
    simp only
    refine ⟨?_, ?_, ?_⟩
    · intro P K E
      rw [memberOf_RemoveMembership, h.members_iff]
      cases K <;> simp [State.regProcessId, UMap.find_erase]
      by_cases hE : E = key_
      · subst hE; simp [hf, eq_comm]
      · simp [hE]
    · intro P hP
      exact h.empty_bucket P (emptyBucket_RemoveMembership _ _ _ _ _ hP).1
    · exact nodupBuckets_RemoveMembership _ _ _ _ h.nodup

/-! ## The cascade of `RemoveProcess` -/

theorem RemoveProcessStep_consistent (K : EntityType) (a : MutatorArgs) (id : EntityKey)
    (h : a.state_.Consistent) : (RemoveProcessStep K a id).state_.Consistent := by
  cases K with
  | process => exact h
  | publisher => exact RemovePublisherMutator_consistent id a h
  | subscriber => exact RemoveSubscriberMutator_consistent id a h
  | server => exact RemoveServerMutator_consistent id a h
  | client => exact RemoveClientMutator_consistent id a h

theorem RemoveProcessStep_regProcessId (K K' : EntityType) (a : MutatorArgs)
    (id E : EntityKey) :
    (RemoveProcessStep K a id).state_.regProcessId K' E =
      if K' = K ∧ E = id then none else a.state_.regProcessId K' E := by
  cases K <;> cases K' <;>
    simp only [RemoveProcessStep, RemoveProcessPublisherStep, RemoveProcessSubscriberStep,
      RemoveProcessServerStep, RemoveProcessClientStep, State.regProcessId] <;>
    (try split) <;>
    by_cases hE : E = id <;>
    simp_all [UMap.find_erase]

theorem RemoveProcessStep_hasMonitoring (K K' : EntityType) (a : MutatorArgs)
    (id E : EntityKey) :
    (RemoveProcessStep K a id).state_.hasMonitoring K' E =
      if K' = K ∧ E = id ∧ (a.state_.regProcessId K id).isSome = true then false
      else a.state_.hasMonitoring K' E := by
  cases K <;> cases K' <;>
    simp only [RemoveProcessStep, RemoveProcessPublisherStep, RemoveProcessSubscriberStep,
      RemoveProcessServerStep, RemoveProcessClientStep, State.regProcessId,
      State.hasMonitoring] <;>
    (try split) <;>
    by_cases hE : E = id <;>
    simp_all [UMap.find_erase]

theorem RemoveProcessStep_processes (K : EntityType) (a : MutatorArgs) (id : EntityKey) :
    (RemoveProcessStep K a id).state_.processes = a.state_.processes
      ∧ (RemoveProcessStep K a id).state_.process_monitoring = a.state_.process_monitoring := by
  cases K <;>
    simp only [RemoveProcessStep, RemoveProcessPublisherStep, RemoveProcessSubscriberStep,
      RemoveProcessServerStep, RemoveProcessClientStep] <;>
    (try split) <;> simp

theorem RemoveProcessStep_events (K : EntityType) (a : MutatorArgs) (id : EntityKey) :
    (RemoveProcessStep K a id).events_ =
      a.events_ ++ (if (a.state_.regProcessId K id).isSome = true then [deletedEvent K id]
        else []) := by
  cases K <;>
    simp only [RemoveProcessStep, RemoveProcessPublisherStep, RemoveProcessSubscriberStep,
      RemoveProcessServerStep, RemoveProcessClientStep, State.regProcessId, deletedEvent] <;>
    (try split) <;> simp_all

theorem RemoveProcessStep_changed (K : EntityType) (a : MutatorArgs) (id : EntityKey) :
    (RemoveProcessStep K a id).changed_ =
      (a.changed_ || (a.state_.regProcessId K id).isSome) := by
  cases K <;>
    simp only [RemoveProcessStep, RemoveProcessPublisherStep, RemoveProcessSubscriberStep,
      RemoveProcessServerStep, RemoveProcessClientStep, State.regProcessId] <;>
    (try split) <;> simp_all

theorem foldl_RemoveProcessStep_consistent (K : EntityType) (l : List EntityKey)
    (a : MutatorArgs) (h : a.state_.Consistent) :
    (l.foldl (RemoveProcessStep K) a).state_.Consistent := by
  induction l generalizing a with
  | nil => exact h
  | cons id rest ih => exact ih _ (RemoveProcessStep_consistent K a id h)

theorem foldl_RemoveProcessStep_regProcessId (K K' : EntityType) (l : List EntityKey)
    (a : MutatorArgs) (E : EntityKey) :
    (l.foldl (RemoveProcessStep K) a).state_.regProcessId K' E =
      if K' = K ∧ E ∈ l then none else a.state_.regProcessId K' E := by
  induction l generalizing a with
  | nil => simp
  | cons id rest ih =>
    rw [List.foldl_cons, ih, RemoveProcessStep_regProcessId]
    by_cases hK : K' = K <;> by_cases hE : E = id <;> by_cases hr : E ∈ rest <;>
      simp [hK, hE, hr]

theorem foldl_RemoveProcessStep_hasMonitoring (K K' : EntityType) (l : List EntityKey)
    (a : MutatorArgs) (E : EntityKey) :
    (l.foldl (RemoveProcessStep K) a).state_.hasMonitoring K' E =
      if K' = K ∧ E ∈ l ∧ (a.state_.regProcessId K E).isSome = true then false
      else a.state_.hasMonitoring K' E := by
  induction l generalizing a with
  | nil => simp
  | cons id rest ih =>
    rw [List.foldl_cons, ih, RemoveProcessStep_hasMonitoring, RemoveProcessStep_regProcessId]
    by_cases hK : K' = K <;> by_cases hE : E = id <;> by_cases hr : E ∈ rest <;>
      simp [hK, hE, hr]

theorem foldl_RemoveProcessStep_processes (K : EntityType) (l : List EntityKey)
    (a : MutatorArgs) :
    (l.foldl (RemoveProcessStep K) a).state_.processes = a.state_.processes
      ∧ (l.foldl (RemoveProcessStep K) a).state_.process_monitoring
        = a.state_.process_monitoring := by
  induction l generalizing a with
  | nil => simp
  | cons id rest ih =>
    rw [List.foldl_cons]
    exact ⟨(ih _).1.trans (RemoveProcessStep_processes K a id).1,
      (ih _).2.trans (RemoveProcessStep_processes K a id).2⟩

theorem foldl_RemoveProcessStep_events (K : EntityType) (l : List EntityKey)
    (a : MutatorArgs) (hl : l.Nodup) :
    (l.foldl (RemoveProcessStep K) a).events_ =
      a.events_ ++ (l.filter (fun id => (a.state_.regProcessId K id).isSome)).map
        (deletedEvent K) := by
  induction l generalizing a with
  | nil => simp
  | cons id rest ih =>
    rw [List.nodup_cons] at hl
    rw [List.foldl_cons, ih _ hl.2, RemoveProcessStep_events]
    have hfilter : rest.filter (fun x =>
        ((RemoveProcessStep K a id).state_.regProcessId K x).isSome) =
        rest.filter (fun x => (a.state_.regProcessId K x).isSome) := by
      apply List.filter_congr
      intro x hx
      rw [RemoveProcessStep_regProcessId]
      have hne : x ≠ id := fun e => hl.1 (e ▸ hx)
      simp [hne]
    rw [hfilter]
    by_cases hs : (a.state_.regProcessId K id).isSome = true
    · simp [List.filter_cons, hs]
    · simp [List.filter_cons, hs]

theorem foldl_RemoveProcessStep_changed (K : EntityType) (l : List EntityKey)
    (a : MutatorArgs) :
    (l.foldl (RemoveProcessStep K) a).changed_ = true ↔
      a.changed_ = true ∨ ∃ id ∈ l, (a.state_.regProcessId K id).isSome = true := by
  induction l generalizing a with
  | nil => simp
  | cons id rest ih =>
    rw [List.foldl_cons, ih, RemoveProcessStep_changed]
    simp only [RemoveProcessStep_regProcessId, true_and, Bool.or_eq_true, List.mem_cons,
      exists_eq_or_imp]
    constructor
    · rintro ((h | h) | ⟨x, hx, hs⟩)
      · exact Or.inl h
      · exact Or.inr (Or.inl h)
      · by_cases hxe : x = id
        · simp [hxe] at hs
        · simp only [hxe, if_false] at hs
          exact Or.inr (Or.inr ⟨x, hx, hs⟩)
    · rintro (h | h | ⟨x, hx, hs⟩)
      · exact Or.inl (Or.inl h)
      · exact Or.inl (Or.inr h)
      · by_cases hxe : x = id
        · subst hxe
          exact Or.inl (Or.inr hs)
        · refine Or.inr ⟨x, hx, ?_⟩
          simpa [hxe] using hs

theorem RemoveProcessCascade_eq (members : ProcessMembers) (a : MutatorArgs) :
    RemoveProcessCascade members a =
      members.clients.foldl (RemoveProcessStep .client)
        (members.servers.foldl (RemoveProcessStep .server)
          (members.subscribers.foldl (RemoveProcessStep .subscriber)
            (members.publishers.foldl (RemoveProcessStep .publisher) a))) := rfl

theorem RemoveProcessCascade_consistent (members : ProcessMembers) (a : MutatorArgs)
    (h : a.state_.Consistent) : (RemoveProcessCascade members a).state_.Consistent := by
  rw [RemoveProcessCascade_eq]
  exact foldl_RemoveProcessStep_consistent _ _ _
    (foldl_RemoveProcessStep_consistent _ _ _
      (foldl_RemoveProcessStep_consistent _ _ _
        (foldl_RemoveProcessStep_consistent _ _ _ h)))

theorem RemoveProcessCascade_regProcessId (members : ProcessMembers) (a : MutatorArgs)
    (K : EntityType) (E : EntityKey) :
    (RemoveProcessCascade members a).state_.regProcessId K E =
      if E ∈ members.ofType K then none else a.state_.regProcessId K E := by
  rw [RemoveProcessCascade_eq]
  simp only [foldl_RemoveProcessStep_regProcessId]
  cases K <;> simp [ProcessMembers.ofType, State.regProcessId]

theorem RemoveProcessCascade_hasMonitoring (members : ProcessMembers) (a : MutatorArgs)
    (K : EntityType) (E : EntityKey) :
    (RemoveProcessCascade members a).state_.hasMonitoring K E =
      if E ∈ members.ofType K ∧ (a.state_.regProcessId K E).isSome = true then false
      else a.state_.hasMonitoring K E := by
  rw [RemoveProcessCascade_eq]
  simp only [foldl_RemoveProcessStep_hasMonitoring, foldl_RemoveProcessStep_regProcessId]
  cases K <;> simp [ProcessMembers.ofType, State.hasMonitoring]

theorem RemoveProcessCascade_processes (members : ProcessMembers) (a : MutatorArgs) :
    (RemoveProcessCascade members a).state_.processes = a.state_.processes
      ∧ (RemoveProcessCascade members a).state_.process_monitoring
        = a.state_.process_monitoring := by
  rw [RemoveProcessCascade_eq]
  simp only [foldl_RemoveProcessStep_processes, and_self]

theorem RemoveProcessCascade_events (members : ProcessMembers) (a : MutatorArgs)
    (hn : ∀ K, (members.ofType K).Nodup) :
    (RemoveProcessCascade members a).events_ =
      a.events_
        ++ ((members.publishers.filter
              (fun id => (a.state_.regProcessId .publisher id).isSome)).map
              (deletedEvent .publisher)
          ++ ((members.subscribers.filter
              (fun id => (a.state_.regProcessId .subscriber id).isSome)).map
              (deletedEvent .subscriber)
          ++ ((members.servers.filter
              (fun id => (a.state_.regProcessId .server id).isSome)).map
              (deletedEvent .server)
          ++ (members.clients.filter
              (fun id => (a.state_.regProcessId .client id).isSome)).map
              (deletedEvent .client)))) := by
  rw [RemoveProcessCascade_eq]
  have h₁ : members.publishers.Nodup := hn .publisher
  have h₂ : members.subscribers.Nodup := hn .subscriber
  have h₃ : members.servers.Nodup := hn .server
  have h₄ : members.clients.Nodup := hn .client
  rw [foldl_RemoveProcessStep_events _ _ _ h₄, foldl_RemoveProcessStep_events _ _ _ h₃,
    foldl_RemoveProcessStep_events _ _ _ h₂, foldl_RemoveProcessStep_events _ _ _ h₁]
  simp only [foldl_RemoveProcessStep_regProcessId, List.append_assoc]
  simp

theorem RemoveProcessCascade_changed (members : ProcessMembers) (a : MutatorArgs) :
    (RemoveProcessCascade members a).changed_ = true ↔
      a.changed_ = true ∨
        ∃ K, ∃ id ∈ members.ofType K, (a.state_.regProcessId K id).isSome = true := by
  rw [RemoveProcessCascade_eq]
  simp only [foldl_RemoveProcessStep_changed, foldl_RemoveProcessStep_regProcessId]
  constructor
  · rintro ((((h | ⟨id, hid, hs⟩) | ⟨id, hid, hs⟩) | ⟨id, hid, hs⟩) | ⟨id, hid, hs⟩)
    · exact Or.inl h
    · exact Or.inr ⟨.publisher, id, hid, hs⟩
    · exact Or.inr ⟨.subscriber, id, hid, by simpa using hs⟩
    · exact Or.inr ⟨.server, id, hid, by simpa using hs⟩
    · exact Or.inr ⟨.client, id, hid, by simpa using hs⟩
  · rintro (h | ⟨K, id, hid, hs⟩)
    · exact Or.inl (Or.inl (Or.inl (Or.inl h)))
    · cases K with
      | process => simp [ProcessMembers.ofType] at hid
      | publisher => exact Or.inl (Or.inl (Or.inl (Or.inr ⟨id, hid, hs⟩)))
      | subscriber => exact Or.inl (Or.inl (Or.inr ⟨id, hid, by simpa using hs⟩))
      | server => exact Or.inl (Or.inr ⟨id, hid, by simpa using hs⟩)
      | client => exact Or.inr ⟨id, hid, by simpa using hs⟩

theorem State.Consistent.mem_bucket_iff {s : State} (h : s.Consistent) {P : ProcessKey}
    {members : ProcessMembers} (hb : UMap.find s.members_by_process P = some members)
    (K : EntityType) (E : EntityKey) :
    E ∈ members.ofType K ↔ s.regProcessId K E = some P := by
  rw [← h.members_iff]
  unfold memberOf
  simp [hb]

theorem State.Consistent.no_bucket {s : State} (h : s.Consistent) {P : ProcessKey}
    (hb : UMap.find s.members_by_process P = none) (K : EntityType) (E : EntityKey) :
    s.regProcessId K E ≠ some P := by
  intro hh
  rw [← h.members_iff] at hh
  obtain ⟨b, hb', -⟩ := hh
  rw [hb] at hb'
  cases hb'

theorem RemoveProcessFinish_regProcessId (key_ : ProcessKey) (a : MutatorArgs)
    (K : EntityType) (E : EntityKey) :
    (RemoveProcessFinish key_ a).state_.regProcessId K E = a.state_.regProcessId K E := by
  unfold RemoveProcessFinish
  cases K <;> simp only [State.regProcessId] <;> split <;> rfl

theorem RemoveProcessFinish_hasMonitoring (key_ : ProcessKey) (a : MutatorArgs)
    (K : EntityType) (E : EntityKey) :
    (RemoveProcessFinish key_ a).state_.hasMonitoring K E = a.state_.hasMonitoring K E := by
  unfold RemoveProcessFinish
  cases K <;> simp only [State.hasMonitoring] <;> split <;> rfl

theorem RemoveProcessFinish_members (key_ : ProcessKey) (a : MutatorArgs) :
    (RemoveProcessFinish key_ a).state_.members_by_process =
      UMap.erase a.state_.members_by_process key_ := by
  unfold RemoveProcessFinish
  split <;> rfl

theorem RemoveProcessFinish_hasProcess (key_ P : ProcessKey) (a : MutatorArgs) :
    (RemoveProcessFinish key_ a).state_.hasProcess P =
      (if P = key_ then false else a.state_.hasProcess P) := by
  unfold RemoveProcessFinish State.hasProcess
  cases hf : UMap.find a.state_.processes key_ with
  | none =>
    by_cases hP : P = key_
    · subst hP; simp [hf]
    · simp [hP]
  | some r =>
    by_cases hP : P = key_ <;> simp [UMap.find_erase, hP]

theorem RemoveProcessFinish_hasProcessMonitoring (key_ P : ProcessKey) (a : MutatorArgs) :
    (RemoveProcessFinish key_ a).state_.hasProcessMonitoring P =
      (if P = key_ then false else a.state_.hasProcessMonitoring P) := by
  unfold RemoveProcessFinish State.hasProcessMonitoring
  by_cases hP : P = key_ <;> split <;> simp [UMap.find_erase, hP]

theorem RemoveProcessFinish_events (key_ : ProcessKey) (a : MutatorArgs) :
    (RemoveProcessFinish key_ a).events_ =
      a.events_ ++ (if a.state_.hasProcess key_ = true
        then [deletedEvent .process (processEntityKey key_)] else []) := by
  unfold RemoveProcessFinish State.hasProcess
  cases hf : UMap.find a.state_.processes key_ <;> simp [deletedEvent]

theorem RemoveProcessFinish_changed (key_ : ProcessKey) (a : MutatorArgs) :
    (RemoveProcessFinish key_ a).changed_ = (a.changed_ || a.state_.hasProcess key_) := by
  unfold RemoveProcessFinish State.hasProcess
  cases hf : UMap.find a.state_.processes key_ <;> simp

theorem RemoveProcessFinish_consistent (key_ : ProcessKey) (a : MutatorArgs)
    (h : a.state_.Consistent) (hno : ∀ K E, a.state_.regProcessId K E ≠ some key_) :
    (RemoveProcessFinish key_ a).state_.Consistent := by
  refine ⟨?_, ?_, ?_⟩
  · intro P K E
    rw [RemoveProcessFinish_members, RemoveProcessFinish_regProcessId, memberOf_erase,
      h.members_iff]
    constructor
    · exact fun hh => hh.1
    · intro hh
      refine ⟨hh, ?_⟩
      rintro rfl
      exact hno K E hh
  · intro P hP
    rw [RemoveProcessFinish_members, emptyBucket_erase] at hP
    rw [RemoveProcessFinish_hasProcess]
    simp only [hP.2, if_false]
    exact h.empty_bucket P hP.1
  · rw [RemoveProcessFinish_members]
    exact nodupBuckets_erase _ _ h.nodup

theorem RemoveProcessMutator_regProcessId (key_ : ProcessKey) (a : MutatorArgs)
    (h : a.state_.Consistent) (K : EntityType) (E : EntityKey) :
    (RemoveProcessMutator key_ a).state_.regProcessId K E =
      if a.state_.regProcessId K E = some key_ then none else a.state_.regProcessId K E := by
  unfold RemoveProcessMutator
  cases hb : UMap.find a.state_.members_by_process key_ with
  | none =>
    simp only [RemoveProcessFinish_regProcessId, h.no_bucket hb K E, if_false]
  | some members =>
    simp only [RemoveProcessFinish_regProcessId, RemoveProcessCascade_regProcessId,
      h.mem_bucket_iff hb K E]

theorem RemoveProcessMutator_hasMonitoring (key_ : ProcessKey) (a : MutatorArgs)
    (h : a.state_.Consistent) (K : EntityType) (E : EntityKey) :
    (RemoveProcessMutator key_ a).state_.hasMonitoring K E =
      if a.state_.regProcessId K E = some key_ then false else a.state_.hasMonitoring K E := by
  unfold RemoveProcessMutator
  cases hb : UMap.find a.state_.members_by_process key_ with
  | none =>
    simp only [RemoveProcessFinish_hasMonitoring, h.no_bucket hb K E, if_false]
  | some members =>
    simp only [RemoveProcessFinish_hasMonitoring, RemoveProcessCascade_hasMonitoring,
      h.mem_bucket_iff hb K E]
    by_cases ho : a.state_.regProcessId K E = some key_ <;> simp [ho]

theorem RemoveProcessMutator_consistent (key_ : ProcessKey) (a : MutatorArgs)
    (h : a.state_.Consistent) : (RemoveProcessMutator key_ a).state_.Consistent := by
  unfold RemoveProcessMutator
  cases hb : UMap.find a.state_.members_by_process key_ with
  | none => exact RemoveProcessFinish_consistent key_ a h (h.no_bucket hb)
  | some members =>
    refine RemoveProcessFinish_consistent key_ _ (RemoveProcessCascade_consistent _ _ h) ?_
    intro K E
    rw [RemoveProcessCascade_regProcessId]
    by_cases ho : a.state_.regProcessId K E = some key_
    · simp [(h.mem_bucket_iff hb K E).mpr ho]
    · have hm : E ∉ members.ofType K := fun hm => ho ((h.mem_bucket_iff hb K E).mp hm)
      simpa [hm] using ho

theorem RemoveProcessMutator_hasProcess (key_ P : ProcessKey) (a : MutatorArgs) :
    (RemoveProcessMutator key_ a).state_.hasProcess P =
      (if P = key_ then false else a.state_.hasProcess P) := by
  unfold RemoveProcessMutator
  cases hb : UMap.find a.state_.members_by_process key_ with
  | none => exact RemoveProcessFinish_hasProcess key_ P a
  | some members =>
    simp only [RemoveProcessFinish_hasProcess]
    simp only [State.hasProcess, (RemoveProcessCascade_processes members a).1]

theorem RemoveProcessMutator_hasProcessMonitoring (key_ P : ProcessKey) (a : MutatorArgs) :
    (RemoveProcessMutator key_ a).state_.hasProcessMonitoring P =
      (if P = key_ then false else a.state_.hasProcessMonitoring P) := by
  unfold RemoveProcessMutator
  cases hb : UMap.find a.state_.members_by_process key_ with
  | none => exact RemoveProcessFinish_hasProcessMonitoring key_ P a
  | some members =>
    simp only [RemoveProcessFinish_hasProcessMonitoring]
    simp only [State.hasProcessMonitoring, (RemoveProcessCascade_processes members a).2]

theorem RemoveProcessMutator_members (key_ : ProcessKey) (a : MutatorArgs) :
    UMap.find (RemoveProcessMutator key_ a).state_.members_by_process key_ = none := by
  unfold RemoveProcessMutator
  split <;> simp [RemoveProcessFinish_members, UMap.find_erase]

theorem RemoveProcessMutator_events (key_ : ProcessKey) (a : MutatorArgs)
    (h : a.state_.Consistent) :
    (RemoveProcessMutator key_ a).events_ =
      a.events_
        ++ (memberEvents ((UMap.find a.state_.members_by_process key_).getD {})
        ++ (if a.state_.hasProcess key_ = true
          then [deletedEvent .process (processEntityKey key_)] else [])) := by
  unfold RemoveProcessMutator
  cases hb : UMap.find a.state_.members_by_process key_ with
  | none =>
    simp [RemoveProcessFinish_events, memberEvents]
  | some members =>
    simp only [RemoveProcessFinish_events, Option.getD_some]
    rw [RemoveProcessCascade_events members a (h.nodup key_ members hb)]
    have hall : ∀ K, (members.ofType K).filter
        (fun id => (a.state_.regProcessId K id).isSome) = members.ofType K := by
      intro K
      rw [List.filter_eq_self]
      intro E hE
      rw [(h.mem_bucket_iff hb K E).mp hE]
      rfl
    have h₁ := hall .publisher
    have h₂ := hall .subscriber
    have h₃ := hall .server
    have h₄ := hall .client
    simp only [ProcessMembers.ofType] at h₁ h₂ h₃ h₄
    rw [h₁, h₂, h₃, h₄]
    simp only [State.hasProcess, (RemoveProcessCascade_processes members a).1, memberEvents,
      List.append_assoc]

theorem RemoveProcessMutator_changed (key_ : ProcessKey) (a : MutatorArgs)
    (h : a.state_.Consistent) :
    (RemoveProcessMutator key_ a).changed_ = true ↔
      a.changed_ = true ∨ (∃ K E, a.state_.regProcessId K E = some key_)
        ∨ a.state_.hasProcess key_ = true := by
  unfold RemoveProcessMutator
  cases hb : UMap.find a.state_.members_by_process key_ with
  | none =>
    simp only [RemoveProcessFinish_changed, Bool.or_eq_true]
    constructor
    · rintro (hc | hp)
      · exact Or.inl hc
      · exact Or.inr (Or.inr hp)
    · rintro (hc | ⟨K, E, ho⟩ | hp)
      · exact Or.inl hc
      · exact absurd ho (h.no_bucket hb K E)
      · exact Or.inr hp
  | some members =>
    simp only [RemoveProcessFinish_changed, Bool.or_eq_true, RemoveProcessCascade_changed,
      State.hasProcess, (RemoveProcessCascade_processes members a).1]
    constructor
    · rintro ((hc | ⟨K, E, hE, -⟩) | hp)
      · exact Or.inl hc
      · exact Or.inr (Or.inl ⟨K, E, (h.mem_bucket_iff hb K E).mp hE⟩)
      · exact Or.inr (Or.inr hp)
    · rintro (hc | ⟨K, E, ho⟩ | hp)
      · exact Or.inl (Or.inl hc)
      · refine Or.inl (Or.inr ⟨K, E, (h.mem_bucket_iff hb K E).mpr ho, ?_⟩)
        rw [ho]; rfl
      · exact Or.inr hp

/-! ## Consistency of every reachable state -/

theorem AddOrUpdateProcessMutator_consistent (key_ : ProcessKey)
    (delta_ : ProcessRegistrationDelta) (a : MutatorArgs) (h : a.state_.Consistent) :
    (AddOrUpdateProcessMutator key_ delta_ a).state_.Consistent := by
  unfold AddOrUpdateProcessMutator
  cases hf : UMap.find a.state_.processes key_ with
  | none =>
    simp only [EnsureProcessMembership]
    cases hb : UMap.find a.state_.members_by_process key_ with
    | none =>
      simp only
      refine ⟨?_, ?_, ?_⟩
      · intro P K E
        rw [memberOf_emplace_default _ _ _ _ _ hb, h.members_iff]
        cases K <;> rfl
      · intro P hP
        rw [emptyBucket_emplace_default _ _ _ hb] at hP
        simp only [State.hasProcess, UMap.find_emplace _ _ _ _ hf]
        by_cases hk : P = key_
        · simp [hk]
        · simp only [hk, if_false]
          exact h.empty_bucket P (hP.resolve_right hk)
      · exact nodupBuckets_emplace_default _ _ hb h.nodup
    | some b =>
      simp only
      refine ⟨?_, ?_, h.nodup⟩
      · intro P K E
        rw [h.members_iff]
        cases K <;> rfl
      · intro P hP
        simp only [State.hasProcess, UMap.find_emplace _ _ _ _ hf]
        by_cases hk : P = key_
        · simp [hk]
        · simp only [hk, if_false]
          exact h.empty_bucket P hP
  | some r =>
    simp only
    split
    · refine ⟨?_, ?_, h.nodup⟩
      · intro P K E
        rw [h.members_iff]
        cases K <;> rfl
      · intro P hP
        simp only [State.hasProcess, UMap.find_assign]
        by_cases hk : P = key_
        · simp [hk]
        · simp only [hk, if_false]
          exact h.empty_bucket P hP
    · exact h

theorem UpdateProcessMonitoringMutator_consistent (key_ : ProcessKey)
    (delta_ : ProcessMonitoringDelta) (a : MutatorArgs) (h : a.state_.Consistent) :
    (UpdateProcessMonitoringMutator key_ delta_ a).state_.Consistent := by
  unfold UpdateProcessMonitoringMutator
  have hw : State.Consistent { a.state_ with
      process_monitoring := UMap.assign a.state_.process_monitoring key_ delta_ } :=
    ⟨fun P K E => by
      have := h.members_iff P K E
      cases K <;> simpa [State.regProcessId] using this, h.empty_bucket, h.nodup⟩
  cases hf : UMap.find a.state_.process_monitoring key_ with
  | none => exact hw
  | some r =>
    simp only
    split
    · exact hw
    · exact h

theorem TypedOp.mutator_consistent (op : TypedOp) (a : MutatorArgs)
    (h : a.state_.Consistent) : (op.mutator a).state_.Consistent := by
  cases op with
  | AddOrUpdateProcess k d => exact AddOrUpdateProcessMutator_consistent k d a h
  | UpdateProcessMonitoring k d => exact UpdateProcessMonitoringMutator_consistent k d a h
  | RemoveProcess k => exact RemoveProcessMutator_consistent k a h
  | AddOrUpdatePublisher k d => exact AddOrUpdatePublisherMutator_consistent k d a h
  | UpdatePublisherMonitoring k d => exact UpdatePublisherMonitoringMutator_consistent k d a h
  | RemovePublisher k => exact RemovePublisherMutator_consistent k a h
  | AddOrUpdateSubscriber k d => exact AddOrUpdateSubscriberMutator_consistent k d a h
  | UpdateSubscriberMonitoring k d => exact UpdateSubscriberMonitoringMutator_consistent k d a h
  | RemoveSubscriber k => exact RemoveSubscriberMutator_consistent k a h
  | AddOrUpdateServer k d => exact AddOrUpdateServerMutator_consistent k d a h
  | UpdateServerMonitoring k d => exact UpdateServerMonitoringMutator_consistent k d a h
  | RemoveServer k => exact RemoveServerMutator_consistent k a h
  | AddOrUpdateClient k d => exact AddOrUpdateClientMutator_consistent k d a h
  | UpdateClientMonitoring k d => exact UpdateClientMonitoringMutator_consistent k d a h
  | RemoveClient k => exact RemoveClientMutator_consistent k a h

theorem TypedOp.apply_eq (op : TypedOp) (db : CEcalRegistrationDatabase) :
    op.apply db = ApplyMutation op.mutator db := by
  cases op <;> rfl

theorem State.consistent_revision (s : State) (n : Revision) (h : s.Consistent) :
    State.Consistent { s with revision := n } :=
  ⟨fun P K E => by
    have := h.members_iff P K E
    cases K <;> simpa [State.regProcessId] using this, h.empty_bucket, h.nodup⟩

theorem ApplyMutation_state (mutator_ : MutatorT) (db : CEcalRegistrationDatabase) :
    (ApplyMutation mutator_ db).1.current_state_ =
      if (mutator_ ⟨db.current_state_, [], false⟩).changed_ = false then db.current_state_
      else { (mutator_ ⟨db.current_state_, [], false⟩).state_ with
        revision := (db.current_state_.revision + 1) % 2 ^ 64 } := by
  unfold ApplyMutation
  simp only
  split <;> rfl

theorem ApplyMutation_result (mutator_ : MutatorT) (db : CEcalRegistrationDatabase) :
    (ApplyMutation mutator_ db).2 =
      { new_revision := (ApplyMutation mutator_ db).1.current_state_.revision
        events := (mutator_ ⟨db.current_state_, [], false⟩).events_ } := by
  unfold ApplyMutation
  simp only
  split <;> rfl

theorem TypedOp.apply_consistent (op : TypedOp) (db : CEcalRegistrationDatabase)
    (h : db.current_state_.Consistent) : (op.apply db).1.current_state_.Consistent := by
  rw [TypedOp.apply_eq, ApplyMutation_state]
  split
  · exact h
  · exact State.consistent_revision _ _ (op.mutator_consistent _ h)

theorem runTyped_consistent (ops : List TypedOp) (db : CEcalRegistrationDatabase)
    (h : db.current_state_.Consistent) : (runTyped ops db).current_state_.Consistent := by
  induction ops generalizing db with
  | nil => exact h
  | cons op rest ih => exact ih _ (op.apply_consistent db h)

theorem runTyped_append (ops₁ ops₂ : List TypedOp) (db : CEcalRegistrationDatabase) :
    runTyped (ops₁ ++ ops₂) db = runTyped ops₂ (runTyped ops₁ db) := by
  simp [runTyped, List.foldl_append]

theorem ApplySample_db (sample_ : Sample) (db : CEcalRegistrationDatabase) :
    (CEcalRegistrationDatabase.ApplySample sample_ db).1 =
      runTyped (routedMutations sample_) db := by
  unfold CEcalRegistrationDatabase.ApplySample routedMutations
  cases sample_.cmd_type <;> rfl

theorem ApplySamples_fold_db (samples_ : List Sample)
    (acc : CEcalRegistrationDatabase × ApplyResult) :
    (samples_.foldl CEcalRegistrationDatabase.ApplySamplesStep acc).1 =
      runTyped (samples_.flatMap routedMutations) acc.1 := by
  induction samples_ generalizing acc with
  | nil => rfl
  | cons s rest ih =>
    rw [List.foldl_cons, ih, List.flatMap_cons, runTyped_append]
    congr 1
    exact ApplySample_db s acc.1

theorem ApplySamples_db (samples_ : List Sample) (db : CEcalRegistrationDatabase) :
    (CEcalRegistrationDatabase.ApplySamples samples_ db).1 =
      runTyped (samples_.flatMap routedMutations) db :=
  ApplySamples_fold_db samples_ _

theorem Op.apply_db (op : Op) (db : CEcalRegistrationDatabase) :
    (op.apply db).1 = runTyped op.typedOps db := by
  cases op with
  | typed t => rfl
  | ApplySample s => exact ApplySample_db s db
  | ApplySamples l => exact ApplySamples_db l db

theorem runOps_eq_runTyped (ops : List Op) (db : CEcalRegistrationDatabase) :
    runOps ops db = runTyped (ops.flatMap Op.typedOps) db := by
  induction ops generalizing db with
  | nil => rfl
  | cons op rest ih =>
    rw [List.flatMap_cons, runTyped_append, ← Op.apply_db, ← ih]
    rfl

theorem State.consistent_empty : State.Consistent {} :=
  ⟨fun P K E => by cases K <;> simp [memberOf, UMap.find, State.regProcessId],
    fun P h => by simp [emptyBucket, UMap.find] at h,
    fun P b h => by simp [UMap.find] at h⟩

theorem runOps_consistent (ops : List Op) :
    (runOps ops {}).current_state_.Consistent := by
  rw [runOps_eq_runTyped]
  exact runTyped_consistent _ _ State.consistent_empty

/-! ## Invariants of the data model -/

/-- C1, membership-to-registration invariant: after any sequence of public mutations applied
to the empty database, every key listed in a set of the bucket of process `P` has a record
in the registration table of the kind of that set, and that record has `process_id = P`. -/
theorem membership_implies_registration (ops : List Op) (P : ProcessKey)
    (members : ProcessMembers)
    (hb : UMap.find (runOps ops {}).current_state_.members_by_process P = some members) :
    (∀ E ∈ members.publishers, ∃ r,
        UMap.find (runOps ops {}).current_state_.publishers E = some r ∧ r.process_id = P)
    ∧ (∀ E ∈ members.subscribers, ∃ r,
        UMap.find (runOps ops {}).current_state_.subscribers E = some r ∧ r.process_id = P)
    ∧ (∀ E ∈ members.servers, ∃ r,
        UMap.find (runOps ops {}).current_state_.servers E = some r ∧ r.process_id = P)
    ∧ (∀ E ∈ members.clients, ∃ r,
        UMap.find (runOps ops {}).current_state_.clients E = some r ∧ r.process_id = P) := by
  have h := runOps_consistent ops
  have key : ∀ K E, E ∈ members.ofType K →
      (runOps ops {}).current_state_.regProcessId K E = some P :=
    fun K E hE => (h.mem_bucket_iff hb K E).mp hE
  refine ⟨fun E hE => ?_, fun E hE => ?_, fun E hE => ?_, fun E hE => ?_⟩
  · simpa [State.regProcessId] using key .publisher E hE
  · simpa [State.regProcessId] using key .subscriber E hE
  · simpa [State.regProcessId] using key .server E hE
  · simpa [State.regProcessId] using key .client E hE

/-- Witness for C1: after the calls of the cascade test, the bucket of process 1001 lists
10, 11, 12 and 13, each registered under process 1001. -/
theorem membership_implies_registration_witness :
    UMap.find (runOps cascadeSetup {}).current_state_.members_by_process 1001
        = some { publishers := [10], subscribers := [11], servers := [12], clients := [13] }
    ∧ (∀ E ∈ [10], ∃ r,
        UMap.find (runOps cascadeSetup {}).current_state_.publishers E = some r
          ∧ r.process_id = 1001)
    ∧ (∀ E ∈ [11], ∃ r,
        UMap.find (runOps cascadeSetup {}).current_state_.subscribers E = some r
          ∧ r.process_id = 1001)
    ∧ (∀ E ∈ [12], ∃ r,
        UMap.find (runOps cascadeSetup {}).current_state_.servers E = some r
          ∧ r.process_id = 1001)
    ∧ (∀ E ∈ [13], ∃ r,
        UMap.find (runOps cascadeSetup {}).current_state_.clients E = some r
          ∧ r.process_id = 1001) :=
  ⟨by decide, membership_implies_registration cascadeSetup 1001
    { publishers := [10], subscribers := [11], servers := [12], clients := [13] } (by decide)⟩

/-- C2, registration-to-membership invariant: after any sequence of public mutations applied
to the empty database, every registration record of an entity kind, stored under `E` with
`process_id = P`, has `E` listed in the set of that kind of the bucket of `P`, whether or
not `P` has a process record. -/
theorem registration_implies_membership (ops : List Op) :
    (∀ E r, UMap.find (runOps ops {}).current_state_.publishers E = some r →
      ∃ members, UMap.find (runOps ops {}).current_state_.members_by_process r.process_id
        = some members ∧ E ∈ members.publishers)
    ∧ (∀ E r, UMap.find (runOps ops {}).current_state_.subscribers E = some r →
      ∃ members, UMap.find (runOps ops {}).current_state_.members_by_process r.process_id
        = some members ∧ E ∈ members.subscribers)
    ∧ (∀ E r, UMap.find (runOps ops {}).current_state_.servers E = some r →
      ∃ members, UMap.find (runOps ops {}).current_state_.members_by_process r.process_id
        = some members ∧ E ∈ members.servers)
    ∧ (∀ E r, UMap.find (runOps ops {}).current_state_.clients E = some r →
      ∃ members, UMap.find (runOps ops {}).current_state_.members_by_process r.process_id
        = some members ∧ E ∈ members.clients) := by
  have h := runOps_consistent ops
  refine ⟨fun E r hr => ?_, fun E r hr => ?_, fun E r hr => ?_, fun E r hr => ?_⟩
  · exact (h.members_iff r.process_id .publisher E).mpr (by simp [State.regProcessId, hr])
  · exact (h.members_iff r.process_id .subscriber E).mpr (by simp [State.regProcessId, hr])
  · exact (h.members_iff r.process_id .server E).mpr (by simp [State.regProcessId, hr])
  · exact (h.members_iff r.process_id .client E).mpr (by simp [State.regProcessId, hr])

/-! ## Monitoring records and registration records -/

theorem AddOrUpdatePublisherMutator_views (key_ : EntityKey)
    (delta_ : TopicRegistrationDelta) (a : MutatorArgs) :
    (∀ K E, (AddOrUpdatePublisherMutator key_ delta_ a).state_.hasMonitoring K E
        = a.state_.hasMonitoring K E)
    ∧ (∀ K E, a.state_.hasRegistration K E = true →
        (AddOrUpdatePublisherMutator key_ delta_ a).state_.hasRegistration K E = true)
    ∧ (AddOrUpdatePublisherMutator key_ delta_ a).state_.hasRegistration .publisher key_ = true
    ∧ (AddOrUpdatePublisherMutator key_ delta_ a).state_.processes = a.state_.processes
    ∧ (AddOrUpdatePublisherMutator key_ delta_ a).state_.process_monitoring
        = a.state_.process_monitoring := by
  unfold AddOrUpdatePublisherMutator
  cases hf : UMap.find a.state_.publishers key_ with
  | none =>
    refine ⟨fun K E => by cases K <;> rfl, fun K E h => ?_, ?_, rfl, rfl⟩
    · cases K <;>
        simp_all [State.hasRegistration, State.regProcessId, UMap.find_emplace _ _ _ _ hf]
      by_cases hE : E = key_ <;> simp_all
    · simp [State.hasRegistration, State.regProcessId, UMap.find_emplace _ _ _ _ hf]
  | some r =>
    simp only
    split
    · refine ⟨fun K E => by cases K <;> rfl, fun K E h => ?_, ?_, rfl, rfl⟩
      · cases K <;> simp_all [State.hasRegistration, State.regProcessId, UMap.find_assign]
        by_cases hE : E = key_ <;> simp_all
      · simp [State.hasRegistration, State.regProcessId, UMap.find_assign]
    · exact ⟨fun K E => rfl, fun K E h => h,
        by simp [State.hasRegistration, State.regProcessId, hf], rfl, rfl⟩

theorem AddOrUpdatePublisherMutator_monitored (key_ : EntityKey)
    (delta_ : TopicRegistrationDelta) (a : MutatorArgs)
    (h : a.state_.MonitoredRegistered) :
    (AddOrUpdatePublisherMutator key_ delta_ a).state_.MonitoredRegistered := by
  obtain ⟨h₁, h₂, -, h₄, h₅⟩ := AddOrUpdatePublisherMutator_views key_ delta_ a
  refine ⟨fun K E hm => h₂ K E (h.1 K E (by rw [← h₁]; exact hm)), fun P hP => ?_⟩
  simp only [State.hasProcess, State.hasProcessMonitoring, h₄, h₅] at hP ⊢
  exact h.2 P hP

theorem UpdatePublisherMonitoringMutator_monitored (key_ : EntityKey)
    (delta_ : TopicMonitoringDelta) (a : MutatorArgs)
    (h : a.state_.MonitoredRegistered)
    (hk : a.state_.hasRegistration .publisher key_ = true) :
    (UpdatePublisherMonitoringMutator key_ delta_ a).state_.MonitoredRegistered := by
  unfold UpdatePublisherMonitoringMutator
  have hw : State.MonitoredRegistered { a.state_ with
      publisher_monitoring := UMap.assign a.state_.publisher_monitoring key_ delta_ } := by
    refine ⟨fun K E hm => ?_, h.2⟩
    have h₁ := h.1 K E
    cases K <;> simp_all [State.hasMonitoring, State.hasRegistration, State.regProcessId,
      UMap.find_assign]
    by_cases hE : E = key_ <;> simp_all
  cases hf : UMap.find a.state_.publisher_monitoring key_ with
  | none => exact hw
  | some r =>
    simp only
    split
    · exact hw
    · exact h

theorem AddOrUpdateSubscriberMutator_views (key_ : EntityKey)
    (delta_ : TopicRegistrationDelta) (a : MutatorArgs) :
    (∀ K E, (AddOrUpdateSubscriberMutator key_ delta_ a).state_.hasMonitoring K E
        = a.state_.hasMonitoring K E)
    ∧ (∀ K E, a.state_.hasRegistration K E = true →
        (AddOrUpdateSubscriberMutator key_ delta_ a).state_.hasRegistration K E = true)
    ∧ (AddOrUpdateSubscriberMutator key_ delta_ a).state_.hasRegistration .subscriber key_ = true
    ∧ (AddOrUpdateSubscriberMutator key_ delta_ a).state_.processes = a.state_.processes
    ∧ (AddOrUpdateSubscriberMutator key_ delta_ a).state_.process_monitoring
        = a.state_.process_monitoring := by
  unfold AddOrUpdateSubscriberMutator
  cases hf : UMap.find a.state_.subscribers key_ with
  | none =>
    refine ⟨fun K E => by cases K <;> rfl, fun K E h => ?_, ?_, rfl, rfl⟩
    · cases K <;>
        simp_all [State.hasRegistration, State.regProcessId, UMap.find_emplace _ _ _ _ hf]
      by_cases hE : E = key_ <;> simp_all
    · simp [State.hasRegistration, State.regProcessId, UMap.find_emplace _ _ _ _ hf]
  | some r =>
    simp only
    split
    · refine ⟨fun K E => by cases K <;> rfl, fun K E h => ?_, ?_, rfl, rfl⟩
      · cases K <;> simp_all [State.hasRegistration, State.regProcessId, UMap.find_assign]
        by_cases hE : E = key_ <;> simp_all
      · simp [State.hasRegistration, State.regProcessId, UMap.find_assign]
    · exact ⟨fun K E => rfl, fun K E h => h,
        by simp [State.hasRegistration, State.regProcessId, hf], rfl, rfl⟩

theorem AddOrUpdateSubscriberMutator_monitored (key_ : EntityKey)
    (delta_ : TopicRegistrationDelta) (a : MutatorArgs)
    (h : a.state_.MonitoredRegistered) :
    (AddOrUpdateSubscriberMutator key_ delta_ a).state_.MonitoredRegistered := by
  obtain ⟨h₁, h₂, -, h₄, h₅⟩ := AddOrUpdateSubscriberMutator_views key_ delta_ a
  refine ⟨fun K E hm => h₂ K E (h.1 K E (by rw [← h₁]; exact hm)), fun P hP => ?_⟩
  simp only [State.hasProcess, State.hasProcessMonitoring, h₄, h₅] at hP ⊢
  exact h.2 P hP

theorem UpdateSubscriberMonitoringMutator_monitored (key_ : EntityKey)
    (delta_ : TopicMonitoringDelta) (a : MutatorArgs)
    (h : a.state_.MonitoredRegistered)
    (hk : a.state_.hasRegistration .subscriber key_ = true) :
    (UpdateSubscriberMonitoringMutator key_ delta_ a).state_.MonitoredRegistered := by
  unfold UpdateSubscriberMonitoringMutator
  have hw : State.MonitoredRegistered { a.state_ with
      subscriber_monitoring := UMap.assign a.state_.subscriber_monitoring key_ delta_ } := by
    refine ⟨fun K E hm => ?_, h.2⟩
    have h₁ := h.1 K E
    cases K <;> simp_all [State.hasMonitoring, State.hasRegistration, State.regProcessId,
      UMap.find_assign]
    by_cases hE : E = key_ <;> simp_all
  cases hf : UMap.find a.state_.subscriber_monitoring key_ with
  | none => exact hw
  | some r =>
    simp only
    split
    · exact hw
    · exact h

theorem AddOrUpdateServerMutator_views (key_ : EntityKey)
    (delta_ : ServiceRegistrationDelta) (a : MutatorArgs) :
    (∀ K E, (AddOrUpdateServerMutator key_ delta_ a).state_.hasMonitoring K E
        = a.state_.hasMonitoring K E)
    ∧ (∀ K E, a.state_.hasRegistration K E = true →
        (AddOrUpdateServerMutator key_ delta_ a).state_.hasRegistration K E = true)
    ∧ (AddOrUpdateServerMutator key_ delta_ a).state_.hasRegistration .server key_ = true
    ∧ (AddOrUpdateServerMutator key_ delta_ a).state_.processes = a.state_.processes
    ∧ (AddOrUpdateServerMutator key_ delta_ a).state_.process_monitoring
        = a.state_.process_monitoring := by
  unfold AddOrUpdateServerMutator
  cases hf : UMap.find a.state_.servers key_ with
  | none =>
    refine ⟨fun K E => by cases K <;> rfl, fun K E h => ?_, ?_, rfl, rfl⟩
    · cases K <;>
        simp_all [State.hasRegistration, State.regProcessId, UMap.find_emplace _ _ _ _ hf]
      by_cases hE : E = key_ <;> simp_all
    · simp [State.hasRegistration, State.regProcessId, UMap.find_emplace _ _ _ _ hf]
  | some r =>
    simp only
    split
    · refine ⟨fun K E => by cases K <;> rfl, fun K E h => ?_, ?_, rfl, rfl⟩
      · cases K <;> simp_all [State.hasRegistration, State.regProcessId, UMap.find_assign]
        by_cases hE : E = key_ <;> simp_all
      · simp [State.hasRegistration, State.regProcessId, UMap.find_assign]
    · exact ⟨fun K E => rfl, fun K E h => h,
        by simp [State.hasRegistration, State.regProcessId, hf], rfl, rfl⟩

theorem AddOrUpdateServerMutator_monitored (key_ : EntityKey)
    (delta_ : ServiceRegistrationDelta) (a : MutatorArgs)
    (h : a.state_.MonitoredRegistered) :
    (AddOrUpdateServerMutator key_ delta_ a).state_.MonitoredRegistered := by
  obtain ⟨h₁, h₂, -, h₄, h₅⟩ := AddOrUpdateServerMutator_views key_ delta_ a
  refine ⟨fun K E hm => h₂ K E (h.1 K E (by rw [← h₁]; exact hm)), fun P hP => ?_⟩
  simp only [State.hasProcess, State.hasProcessMonitoring, h₄, h₅] at hP ⊢
  exact h.2 P hP

theorem UpdateServerMonitoringMutator_monitored (key_ : EntityKey)
    (delta_ : ServiceMonitoringDelta) (a : MutatorArgs)
    (h : a.state_.MonitoredRegistered)
    (hk : a.state_.hasRegistration .server key_ = true) :
    (UpdateServerMonitoringMutator key_ delta_ a).state_.MonitoredRegistered := by
  unfold UpdateServerMonitoringMutator
  have hw : State.MonitoredRegistered { a.state_ with
      server_monitoring := UMap.assign a.state_.server_monitoring key_ delta_ } := by
    refine ⟨fun K E hm => ?_, h.2⟩
    have h₁ := h.1 K E
    cases K <;> simp_all [State.hasMonitoring, State.hasRegistration, State.regProcessId,
      UMap.find_assign]
    by_cases hE : E = key_ <;> simp_all
  cases hf : UMap.find a.state_.server_monitoring key_ with
  | none => exact hw
  | some r =>
    simp only
    split
    · exact hw
    · exact h

theorem AddOrUpdateClientMutator_views (key_ : EntityKey)
    (delta_ : ClientRegistrationDelta) (a : MutatorArgs) :
    (∀ K E, (AddOrUpdateClientMutator key_ delta_ a).state_.hasMonitoring K E
        = a.state_.hasMonitoring K E)
    ∧ (∀ K E, a.state_.hasRegistration K E = true →
        (AddOrUpdateClientMutator key_ delta_ a).state_.hasRegistration K E = true)
    ∧ (AddOrUpdateClientMutator key_ delta_ a).state_.hasRegistration .client key_ = true
    ∧ (AddOrUpdateClientMutator key_ delta_ a).state_.processes = a.state_.processes
    ∧ (AddOrUpdateClientMutator key_ delta_ a).state_.process_monitoring
        = a.state_.process_monitoring := by
  unfold AddOrUpdateClientMutator
  cases hf : UMap.find a.state_.clients key_ with
  | none =>
    refine ⟨fun K E => by cases K <;> rfl, fun K E h => ?_, ?_, rfl, rfl⟩
    · cases K <;>
        simp_all [State.hasRegistration, State.regProcessId, UMap.find_emplace _ _ _ _ hf]
      by_cases hE : E = key_ <;> simp_all
    · simp [State.hasRegistration, State.regProcessId, UMap.find_emplace _ _ _ _ hf]
  | some r =>
    simp only
    split
    · refine ⟨fun K E => by cases K <;> rfl, fun K E h => ?_, ?_, rfl, rfl⟩
      · cases K <;> simp_all [State.hasRegistration, State.regProcessId, UMap.find_assign]
        by_cases hE : E = key_ <;> simp_all
      · simp [State.hasRegistration, State.regProcessId, UMap.find_assign]
    · exact ⟨fun K E => rfl, fun K E h => h,
        by simp [State.hasRegistration, State.regProcessId, hf], rfl, rfl⟩

theorem AddOrUpdateClientMutator_monitored (key_ : EntityKey)
    (delta_ : ClientRegistrationDelta) (a : MutatorArgs)
    (h : a.state_.MonitoredRegistered) :
    (AddOrUpdateClientMutator key_ delta_ a).state_.MonitoredRegistered := by
  obtain ⟨h₁, h₂, -, h₄, h₅⟩ := AddOrUpdateClientMutator_views key_ delta_ a
  refine ⟨fun K E hm => h₂ K E (h.1 K E (by rw [← h₁]; exact hm)), fun P hP => ?_⟩
  simp only [State.hasProcess, State.hasProcessMonitoring, h₄, h₅] at hP ⊢
  exact h.2 P hP

theorem UpdateClientMonitoringMutator_monitored (key_ : EntityKey)
    (delta_ : ClientMonitoringDelta) (a : MutatorArgs)
    (h : a.state_.MonitoredRegistered)
    (hk : a.state_.hasRegistration .client key_ = true) :
    (UpdateClientMonitoringMutator key_ delta_ a).state_.MonitoredRegistered := by
  unfold UpdateClientMonitoringMutator
  have hw : State.MonitoredRegistered { a.state_ with
      client_monitoring := UMap.assign a.state_.client_monitoring key_ delta_ } := by
    refine ⟨fun K E hm => ?_, h.2⟩
    have h₁ := h.1 K E
    cases K <;> simp_all [State.hasMonitoring, State.hasRegistration, State.regProcessId,
      UMap.find_assign]
    by_cases hE : E = key_ <;> simp_all
  cases hf : UMap.find a.state_.client_monitoring key_ with
  | none => exact hw
  | some r =>
    simp only
    split
    · exact hw
    · exact h

theorem RemoveProcessStep_monitored (K : EntityType) (a : MutatorArgs) (id : EntityKey)
    (h : a.state_.MonitoredRegistered) :
    (RemoveProcessStep K a id).state_.MonitoredRegistered := by
  refine ⟨fun K' E hm => ?_, fun P hP => ?_⟩
  · rw [RemoveProcessStep_hasMonitoring] at hm
    simp only [State.hasRegistration, RemoveProcessStep_regProcessId]
    by_cases hc : K' = K ∧ E = id
    · obtain ⟨rfl, rfl⟩ := hc
      have hr := h.1 K' E
      simp only [State.hasRegistration] at hr
      by_cases hs : (a.state_.regProcessId K' E).isSome = true
      · simp [hs] at hm
      · simp only [true_and, hs, if_false] at hm
        exact absurd (hr hm) hs
    · have hc' : ¬ (K' = K ∧ E = id ∧ (a.state_.regProcessId K id).isSome = true) :=
        fun hh => hc ⟨hh.1, hh.2.1⟩
      simp only [hc', if_false] at hm
      simp only [hc, if_false]
      exact h.1 K' E hm
  · simp only [State.hasProcess, State.hasProcessMonitoring,
      (RemoveProcessStep_processes K a id).1, (RemoveProcessStep_processes K a id).2] at hP ⊢
    exact h.2 P hP

theorem RemoveProcessMutator_monitored (key_ : ProcessKey) (a : MutatorArgs)
    (hc : a.state_.Consistent) (h : a.state_.MonitoredRegistered) :
    (RemoveProcessMutator key_ a).state_.MonitoredRegistered := by
  refine ⟨fun K E hm => ?_, fun P hP => ?_⟩
  · rw [RemoveProcessMutator_hasMonitoring key_ a hc] at hm
    simp only [State.hasRegistration, RemoveProcessMutator_regProcessId key_ a hc]
    by_cases ho : a.state_.regProcessId K E = some key_
    · simp [ho] at hm
    · simp only [ho, if_false] at hm ⊢
      exact h.1 K E hm
  · rw [RemoveProcessMutator_hasProcessMonitoring] at hP
    rw [RemoveProcessMutator_hasProcess]
    by_cases hk : P = key_
    · simp [hk] at hP
    · simp only [hk, if_false] at hP ⊢
      exact h.2 P hP

theorem AddOrUpdateProcessMutator_monitored (key_ : ProcessKey)
    (delta_ : ProcessRegistrationDelta) (a : MutatorArgs)
    (h : a.state_.MonitoredRegistered) :
    (AddOrUpdateProcessMutator key_ delta_ a).state_.MonitoredRegistered := by
  unfold AddOrUpdateProcessMutator
  cases hf : UMap.find a.state_.processes key_ with
  | none =>
    simp only [EnsureProcessMembership]
    refine ⟨fun K E hm => ?_, fun P hP => ?_⟩
    · have h₁ := h.1 K E
      cases hb : UMap.find a.state_.members_by_process key_ <;>
        simp only [hb] at hm ⊢ <;>
        (cases K <;> simp_all [State.hasMonitoring, State.hasRegistration,
          State.regProcessId])
    · have h₂ := h.2 P
      cases hb : UMap.find a.state_.members_by_process key_ <;>
        simp only [hb] at hP ⊢ <;>
        by_cases hk : P = key_ <;>
        simp_all [State.hasProcess, State.hasProcessMonitoring,
            UMap.find_emplace _ _ _ _ hf]
  | some r =>
    simp only
    split
    · refine ⟨fun K E hm => ?_, fun P hP => ?_⟩
      · have h₁ := h.1 K E
        cases K <;> simp_all [State.hasMonitoring, State.hasRegistration, State.regProcessId]
      · have h₂ := h.2 P
        simp_all [State.hasProcess, State.hasProcessMonitoring, UMap.find_assign]
        by_cases hk : P = key_ <;> simp_all
    · exact h

theorem UpdateProcessMonitoringMutator_monitored (key_ : ProcessKey)
    (delta_ : ProcessMonitoringDelta) (a : MutatorArgs)
    (h : a.state_.MonitoredRegistered) (hk : a.state_.hasProcess key_ = true) :
    (UpdateProcessMonitoringMutator key_ delta_ a).state_.MonitoredRegistered := by
  unfold UpdateProcessMonitoringMutator
  have hw : State.MonitoredRegistered { a.state_ with
      process_monitoring := UMap.assign a.state_.process_monitoring key_ delta_ } := by
    refine ⟨fun K E hm => ?_, fun P hP => ?_⟩
    · have h₁ := h.1 K E
      cases K <;> simp_all [State.hasMonitoring, State.hasRegistration, State.regProcessId]
    · have h₂ := h.2 P
      simp_all [State.hasProcess, State.hasProcessMonitoring, UMap.find_assign]
      by_cases hP' : P = key_ <;> simp_all
  cases hf : UMap.find a.state_.process_monitoring key_ with
  | none => exact hw
  | some r =>
    simp only
    split
    · exact hw
    · exact h

theorem TypedOp.mutator_monitored (op : TypedOp) (a : MutatorArgs)
    (hc : a.state_.Consistent) (h : a.state_.MonitoredRegistered)
    (hg : op.monitorsRegistered a.state_ = true) :
    (op.mutator a).state_.MonitoredRegistered := by
  cases op with
  | AddOrUpdateProcess k d => exact AddOrUpdateProcessMutator_monitored k d a h
  | UpdateProcessMonitoring k d => exact UpdateProcessMonitoringMutator_monitored k d a h hg
  | RemoveProcess k => exact RemoveProcessMutator_monitored k a hc h
  | AddOrUpdatePublisher k d => exact AddOrUpdatePublisherMutator_monitored k d a h
  | UpdatePublisherMonitoring k d => exact UpdatePublisherMonitoringMutator_monitored k d a h hg
  | RemovePublisher k => exact RemoveProcessStep_monitored .publisher a k h
  | AddOrUpdateSubscriber k d => exact AddOrUpdateSubscriberMutator_monitored k d a h
  | UpdateSubscriberMonitoring k d =>
    exact UpdateSubscriberMonitoringMutator_monitored k d a h hg
  | RemoveSubscriber k => exact RemoveProcessStep_monitored .subscriber a k h
  | AddOrUpdateServer k d => exact AddOrUpdateServerMutator_monitored k d a h
  | UpdateServerMonitoring k d => exact UpdateServerMonitoringMutator_monitored k d a h hg
  | RemoveServer k => exact RemoveProcessStep_monitored .server a k h
  | AddOrUpdateClient k d => exact AddOrUpdateClientMutator_monitored k d a h
  | UpdateClientMonitoring k d => exact UpdateClientMonitoringMutator_monitored k d a h hg
  | RemoveClient k => exact RemoveProcessStep_monitored .client a k h

theorem State.monitored_revision (s : State) (n : Revision) (h : s.MonitoredRegistered) :
    State.MonitoredRegistered { s with revision := n } :=
  ⟨fun K E hm => by
    have := h.1 K E
    cases K <;> simp_all [State.hasMonitoring, State.hasRegistration, State.regProcessId],
    h.2⟩

theorem TypedOp.apply_monitored (op : TypedOp) (db : CEcalRegistrationDatabase)
    (hc : db.current_state_.Consistent) (h : db.current_state_.MonitoredRegistered)
    (hg : op.monitorsRegistered db.current_state_ = true) :
    (op.apply db).1.current_state_.MonitoredRegistered := by
  rw [TypedOp.apply_eq, ApplyMutation_state]
  split
  · exact h
  · exact State.monitored_revision _ _ (op.mutator_monitored _ hc h hg)

theorem State.hasRegistration_revision (s : State) (n : Revision) (K : EntityType)
    (E : EntityKey) :
    State.hasRegistration { s with revision := n } K E = s.hasRegistration K E := by
  cases K <;> rfl

theorem AddOrUpdatePublisher_registered (key_ : EntityKey) (delta_ : TopicRegistrationDelta)
    (db : CEcalRegistrationDatabase) :
    (CEcalRegistrationDatabase.AddOrUpdatePublisher key_ delta_ db).1.current_state_.hasRegistration
      .publisher key_ = true := by
  unfold CEcalRegistrationDatabase.AddOrUpdatePublisher
  rw [ApplyMutation_state]
  have hv := (AddOrUpdatePublisherMutator_views key_ delta_ ⟨db.current_state_, [], false⟩).2.2.1
  split
  · rename_i hch
    unfold AddOrUpdatePublisherMutator at hch hv
    cases hf : UMap.find db.current_state_.publishers key_ with
    | none => simp [hf] at hch
    | some r => simp [State.hasRegistration, State.regProcessId, hf]
  · rw [State.hasRegistration_revision]
    exact hv
theorem AddOrUpdateSubscriber_registered (key_ : EntityKey) (delta_ : TopicRegistrationDelta)
    (db : CEcalRegistrationDatabase) :
    (CEcalRegistrationDatabase.AddOrUpdateSubscriber key_ delta_ db).1.current_state_.hasRegistration
      .subscriber key_ = true := by
  unfold CEcalRegistrationDatabase.AddOrUpdateSubscriber
  rw [ApplyMutation_state]
  have hv := (AddOrUpdateSubscriberMutator_views key_ delta_ ⟨db.current_state_, [], false⟩).2.2.1
  split
  · rename_i hch
    unfold AddOrUpdateSubscriberMutator at hch hv
    cases hf : UMap.find db.current_state_.subscribers key_ with
    | none => simp [hf] at hch
    | some r => simp [State.hasRegistration, State.regProcessId, hf]
  · rw [State.hasRegistration_revision]
    exact hv

theorem AddOrUpdateServer_registered (key_ : EntityKey) (delta_ : ServiceRegistrationDelta)
    (db : CEcalRegistrationDatabase) :
    (CEcalRegistrationDatabase.AddOrUpdateServer key_ delta_ db).1.current_state_.hasRegistration
      .server key_ = true := by
  unfold CEcalRegistrationDatabase.AddOrUpdateServer
  rw [ApplyMutation_state]
  have hv := (AddOrUpdateServerMutator_views key_ delta_ ⟨db.current_state_, [], false⟩).2.2.1
  split
  · rename_i hch
    unfold AddOrUpdateServerMutator at hch hv
    cases hf : UMap.find db.current_state_.servers key_ with
    | none => simp [hf] at hch
    | some r => simp [State.hasRegistration, State.regProcessId, hf]
  · rw [State.hasRegistration_revision]
    exact hv

theorem AddOrUpdateClient_registered (key_ : EntityKey) (delta_ : ClientRegistrationDelta)
    (db : CEcalRegistrationDatabase) :
    (CEcalRegistrationDatabase.AddOrUpdateClient key_ delta_ db).1.current_state_.hasRegistration
      .client key_ = true := by
  unfold CEcalRegistrationDatabase.AddOrUpdateClient
  rw [ApplyMutation_state]
  have hv := (AddOrUpdateClientMutator_views key_ delta_ ⟨db.current_state_, [], false⟩).2.2.1
  split
  · rename_i hch
    unfold AddOrUpdateClientMutator at hch hv
    cases hf : UMap.find db.current_state_.clients key_ with
    | none => simp [hf] at hch
    | some r => simp [State.hasRegistration, State.regProcessId, hf]
  · rw [State.hasRegistration_revision]
    exact hv

theorem routedMutations_monitored (sample : Sample) (db : CEcalRegistrationDatabase)
    (hc : db.current_state_.Consistent) (hm : db.current_state_.MonitoredRegistered) :
    (runTyped (routedMutations sample) db).current_state_.MonitoredRegistered := by
  unfold routedMutations
  cases sample.cmd_type with
  | bct_none => exact hm
  | bct_set_sample => exact hm
  | bct_other c => exact hm
  | bct_reg_process => exact TypedOp.apply_monitored _ db hc hm rfl
  | bct_unreg_process => exact TypedOp.apply_monitored _ db hc hm rfl
  | bct_unreg_publisher => exact TypedOp.apply_monitored _ db hc hm rfl
  | bct_unreg_subscriber => exact TypedOp.apply_monitored _ db hc hm rfl
  | bct_unreg_service => exact TypedOp.apply_monitored _ db hc hm rfl
  | bct_unreg_client => exact TypedOp.apply_monitored _ db hc hm rfl
  | bct_reg_publisher =>
    exact TypedOp.apply_monitored _ _ (TypedOp.apply_consistent _ db hc)
      (TypedOp.apply_monitored _ db hc hm rfl) (AddOrUpdatePublisher_registered _ _ db)
  | bct_reg_subscriber =>
    exact TypedOp.apply_monitored _ _ (TypedOp.apply_consistent _ db hc)
      (TypedOp.apply_monitored _ db hc hm rfl) (AddOrUpdateSubscriber_registered _ _ db)
  | bct_reg_service =>
    exact TypedOp.apply_monitored _ _ (TypedOp.apply_consistent _ db hc)
      (TypedOp.apply_monitored _ db hc hm rfl) (AddOrUpdateServer_registered _ _ db)
  | bct_reg_client =>
    exact TypedOp.apply_monitored _ _ (TypedOp.apply_consistent _ db hc)
      (TypedOp.apply_monitored _ db hc hm rfl) (AddOrUpdateClient_registered _ _ db)

theorem flatMap_routedMutations_monitored (samples : List Sample)
    (db : CEcalRegistrationDatabase)
    (hc : db.current_state_.Consistent) (hm : db.current_state_.MonitoredRegistered) :
    (runTyped (samples.flatMap routedMutations) db).current_state_.MonitoredRegistered := by
  induction samples generalizing db with
  | nil => exact hm
  | cons s rest ih =>
    rw [List.flatMap_cons, runTyped_append]
    exact ih _ (runTyped_consistent _ db hc) (routedMutations_monitored s db hc hm)

theorem Op.call_consistent (op : Op) (db : CEcalRegistrationDatabase)
    (h : db.current_state_.Consistent) : (op.apply db).1.current_state_.Consistent := by
  rw [Op.apply_db]
  exact runTyped_consistent _ db h

theorem Op.call_monitored (op : Op) (db : CEcalRegistrationDatabase)
    (hc : db.current_state_.Consistent) (hm : db.current_state_.MonitoredRegistered)
    (hg : op.monitorsRegistered db.current_state_ = true) :
    (op.apply db).1.current_state_.MonitoredRegistered := by
  cases op with
  | typed t => exact TypedOp.apply_monitored t db hc hm hg
  | ApplySample s =>
    rw [Op.apply_db]
    exact routedMutations_monitored s db hc hm
  | ApplySamples l =>
    rw [Op.apply_db]
    exact flatMap_routedMutations_monitored l db hc hm

theorem runOps_monitored (ops : List Op) (db : CEcalRegistrationDatabase)
    (hc : db.current_state_.Consistent) (hm : db.current_state_.MonitoredRegistered)
    (hg : monitoringGuarded ops db = true) :
    (runOps ops db).current_state_.MonitoredRegistered := by
  induction ops generalizing db with
  | nil => exact hm
  | cons op rest ih =>
    simp only [monitoringGuarded, Bool.and_eq_true] at hg
    exact ih _ (op.call_consistent db hc) (op.call_monitored db hc hm hg.1) hg.2

theorem State.monitored_empty : State.MonitoredRegistered {} :=
  ⟨fun K E h => by cases K <;> simp [State.hasMonitoring, UMap.find] at h,
    fun P h => by simp [State.hasProcessMonitoring, UMap.find] at h⟩

/-- C3 as stated fails: a monitoring update for a key without registration record stores the
monitoring record. After `UpdatePublisherMonitoring(5, m)` on the empty database the
publisher monitoring table has key 5 and the publisher registration table has not; likewise
for `UpdateProcessMonitoring(1, m)`. -/
theorem monitoring_without_registration :
    (UMap.find (runOps [.typed (.UpdatePublisherMonitoring 5 { registration_clock := 5 })]
        {}).current_state_.publisher_monitoring 5).isSome = true
    ∧ UMap.find (runOps [.typed (.UpdatePublisherMonitoring 5 { registration_clock := 5 })]
        {}).current_state_.publishers 5 = none
    ∧ (UMap.find (runOps [.typed (.UpdateProcessMonitoring 1 {})]
        {}).current_state_.process_monitoring 1).isSome = true
    ∧ UMap.find (runOps [.typed (.UpdateProcessMonitoring 1 {})]
        {}).current_state_.processes 1 = none := by
  decide

/-- C3, amended: after any sequence of public mutations applied to the empty database in
which every direct `Update{Kind}Monitoring(E, m)` call is issued while `E` has a registration
record of that kind (`ApplySample` and `ApplySamples` are unrestricted), every key of a
monitoring table is a key of the registration table of the same kind, for processes,
publishers, subscribers, servers and clients. -/
theorem monitoring_requires_registration (ops : List Op)
    (hg : monitoringGuarded ops {} = true) :
    (∀ P, (UMap.find (runOps ops {}).current_state_.process_monitoring P).isSome = true →
      (UMap.find (runOps ops {}).current_state_.processes P).isSome = true)
    ∧ (∀ E, (UMap.find (runOps ops {}).current_state_.publisher_monitoring E).isSome = true →
      (UMap.find (runOps ops {}).current_state_.publishers E).isSome = true)
    ∧ (∀ E, (UMap.find (runOps ops {}).current_state_.subscriber_monitoring E).isSome = true →
      (UMap.find (runOps ops {}).current_state_.subscribers E).isSome = true)
    ∧ (∀ E, (UMap.find (runOps ops {}).current_state_.server_monitoring E).isSome = true →
      (UMap.find (runOps ops {}).current_state_.servers E).isSome = true)
    ∧ (∀ E, (UMap.find (runOps ops {}).current_state_.client_monitoring E).isSome = true →
      (UMap.find (runOps ops {}).current_state_.clients E).isSome = true) := by
  have h := runOps_monitored ops {} State.consistent_empty State.monitored_empty hg
  refine ⟨h.2, fun E hE => ?_, fun E hE => ?_, fun E hE => ?_, fun E hE => ?_⟩
  · simpa [State.hasRegistration, State.regProcessId] using h.1 .publisher E hE
  · simpa [State.hasRegistration, State.regProcessId] using h.1 .subscriber E hE
  · simpa [State.hasRegistration, State.regProcessId] using h.1 .server E hE
  · simpa [State.hasRegistration, State.regProcessId] using h.1 .client E hE

/-- Witness for C3, amended: the sequence of the revision test (register publisher 5, update
its monitoring, remove it twice) preceded by the publisher sample satisfies the guard. -/
theorem monitoring_requires_registration_witness :
    monitoringGuarded
      [.ApplySample publisherSample,
        .typed (.AddOrUpdatePublisher 5
          { process_id := 1, host_name := "host", topic := { topic_name := "topic" } }),
        .typed (.UpdatePublisherMonitoring 5 { registration_clock := 5 }),
        .typed (.RemovePublisher 5)] {} = true
    ∧ ∀ E, (UMap.find (runOps
        [.ApplySample publisherSample,
          .typed (.AddOrUpdatePublisher 5
            { process_id := 1, host_name := "host", topic := { topic_name := "topic" } }),
          .typed (.UpdatePublisherMonitoring 5 { registration_clock := 5 }),
          .typed (.RemovePublisher 5)] {}).current_state_.publisher_monitoring E).isSome = true →
      (UMap.find (runOps
        [.ApplySample publisherSample,
          .typed (.AddOrUpdatePublisher 5
            { process_id := 1, host_name := "host", topic := { topic_name := "topic" } }),
          .typed (.UpdatePublisherMonitoring 5 { registration_clock := 5 }),
          .typed (.RemovePublisher 5)] {}).current_state_.publishers E).isSome = true :=
  ⟨by decide, (monitoring_requires_registration _ (by decide)).2.1⟩

/-- C4 as stated fails: `AddOrUpdateProcess` on a new process key calls
`EnsureProcessMembership`, which creates a bucket with four empty sets. After
`AddOrUpdateProcess(1001, d)` on the empty database `members_by_process` has an entry for
1001 whose sets are all empty. -/
theorem empty_bucket_after_process_registration :
    UMap.find (runOps [.typed (.AddOrUpdateProcess 1001
        { process := { process_name := "proc_a" }, host_name := "host_a" })]
        {}).current_state_.members_by_process 1001
      = some { publishers := [], subscribers := [], servers := [], clients := [] } := by
  decide

/-- C4, amended: after any sequence of public mutations applied to the empty database,
`members_by_process` has no entry whose four sets are all empty for a process key `P` that
has no process registration record. -/
theorem pruned_bucket_unless_registered (ops : List Op) (P : ProcessKey)
    (members : ProcessMembers)
    (hb : UMap.find (runOps ops {}).current_state_.members_by_process P = some members)
    (hp : UMap.find (runOps ops {}).current_state_.processes P = none) :
    ¬ (members.publishers = [] ∧ members.subscribers = [] ∧ members.servers = []
      ∧ members.clients = []) := by
  rintro ⟨h₁, h₂, h₃, h₄⟩
  have he : emptyBucket (runOps ops {}).current_state_.members_by_process P :=
    ⟨members, hb, by simp [ProcessMembers.allEmpty, USet.empty, h₁, h₂, h₃, h₄]⟩
  have := (runOps_consistent ops).empty_bucket P he
  simp [State.hasProcess, hp] at this

/-- Witness for C4, amended: publisher 7 registered under the unregistered process 1 leaves
a bucket for 1 that is not empty. -/
theorem pruned_bucket_unless_registered_witness :
    UMap.find (runOps collidingSetup {}).current_state_.members_by_process 1
        = some { publishers := [7], subscribers := [], servers := [], clients := [] }
    ∧ UMap.find (runOps collidingSetup {}).current_state_.processes 1 = none
    ∧ ¬ (([7] : USet EntityKey) = [] ∧ ([] : USet EntityKey) = []
      ∧ ([] : USet EntityKey) = [] ∧ ([] : USet EntityKey) = []) :=
  ⟨by decide, by decide,
    pruned_bucket_unless_registered collidingSetup 1
      { publishers := [7], subscribers := [], servers := [], clients := [] }
      (by decide) (by decide)⟩

/-! ## The cascade of `RemoveProcess` on a database -/

theorem State.regProcessId_revision (s : State) (n : Revision) (K : EntityType)
    (E : EntityKey) :
    State.regProcessId { s with revision := n } K E = s.regProcessId K E := by
  cases K <;> rfl

theorem State.hasMonitoring_revision (s : State) (n : Revision) (K : EntityType)
    (E : EntityKey) :
    State.hasMonitoring { s with revision := n } K E = s.hasMonitoring K E := by
  cases K <;> rfl

theorem RemoveProcess_cleared (key_ : ProcessKey) (db : CEcalRegistrationDatabase)
    (hc : db.current_state_.Consistent) (K : EntityType) (E : EntityKey)
    (ho : db.current_state_.regProcessId K E = some key_) :
    (CEcalRegistrationDatabase.RemoveProcess key_ db).1.current_state_.hasRegistration K E
        = false
    ∧ (CEcalRegistrationDatabase.RemoveProcess key_ db).1.current_state_.hasMonitoring K E
        = false
    ∧ ∀ P, ¬ memberOf
        (CEcalRegistrationDatabase.RemoveProcess key_ db).1.current_state_.members_by_process
        P K E := by
  have hc' : (CEcalRegistrationDatabase.RemoveProcess key_ db).1.current_state_.Consistent :=
    TypedOp.apply_consistent (.RemoveProcess key_) db hc
  have hreg : (CEcalRegistrationDatabase.RemoveProcess key_ db).1.current_state_.regProcessId
      K E = none
    ∧ (CEcalRegistrationDatabase.RemoveProcess key_ db).1.current_state_.hasMonitoring K E
        = false := by
    unfold CEcalRegistrationDatabase.RemoveProcess
    rw [ApplyMutation_state]
    split
    · rename_i hch
      have := (RemoveProcessMutator_changed key_ ⟨db.current_state_, [], false⟩ hc).mpr
        (Or.inr (Or.inl ⟨K, E, ho⟩))
      rw [this] at hch
      cases hch
    · rw [State.regProcessId_revision, State.hasMonitoring_revision,
        RemoveProcessMutator_regProcessId key_ _ hc,
        RemoveProcessMutator_hasMonitoring key_ _ hc]
      simp [ho]
  refine ⟨by simp [State.hasRegistration, hreg.1], hreg.2, fun P hm => ?_⟩
  rw [hc'.members_iff, hreg.1] at hm
  cases hm

/-- C5 as stated fails: the key of a removed member may remain in a set of another kind.
With key 7 registered as a publisher of process 1 and as a subscriber of process 2,
`RemoveProcess(1)` removes publisher 7, and 7 is still listed in the subscriber set of the
bucket of process 2. -/
theorem cascade_keeps_key_of_other_kind :
    (UMap.find (runOps collidingSetup {}).current_state_.publishers 7).map
        (fun r => r.process_id) = some 1
    ∧ UMap.find (CEcalRegistrationDatabase.RemoveProcess 1
        (runOps collidingSetup {})).1.current_state_.members_by_process 2
      = some { publishers := [], subscribers := [7], servers := [], clients := [] } := by
  decide

/-- C5, amended: after any sequence of public mutations applied to the empty database,
`RemoveProcess(P)` leaves no registration record of kind `K` under a key `E` whose record of
kind `K` had `process_id = P`, no monitoring record of kind `K` under `E`, and no bucket of
the membership index that lists `E` in its set of kind `K`. -/
theorem cascade_completeness (ops : List Op) (P : ProcessKey) (K : EntityType)
    (E : EntityKey)
    (ho : (runOps ops {}).current_state_.regProcessId K E = some P) :
    (CEcalRegistrationDatabase.RemoveProcess P (runOps ops {})).1.current_state_.hasRegistration
        K E = false
    ∧ (CEcalRegistrationDatabase.RemoveProcess P (runOps ops {})).1.current_state_.hasMonitoring
        K E = false
    ∧ ∀ P' members,
        UMap.find (CEcalRegistrationDatabase.RemoveProcess P
          (runOps ops {})).1.current_state_.members_by_process P' = some members →
        E ∉ members.ofType K := by
  obtain ⟨h₁, h₂, h₃⟩ := RemoveProcess_cleared P (runOps ops {}) (runOps_consistent ops) K E ho
  exact ⟨h₁, h₂, fun P' members hb hE => h₃ P' ⟨members, hb, hE⟩⟩

/-- Witness for C5, amended: in the cascade test, publisher 10 of process 1001 is gone
after `RemoveProcess(1001)`. -/
theorem cascade_completeness_witness :
    (runOps cascadeSetup {}).current_state_.regProcessId .publisher 10 = some 1001
    ∧ (CEcalRegistrationDatabase.RemoveProcess 1001
        (runOps cascadeSetup {})).1.current_state_.hasRegistration .publisher 10 = false
    ∧ (CEcalRegistrationDatabase.RemoveProcess 1001
        (runOps cascadeSetup {})).1.current_state_.hasMonitoring .publisher 10 = false :=
  ⟨by decide, (cascade_completeness cascadeSetup 1001 .publisher 10 (by decide)).1,
    (cascade_completeness cascadeSetup 1001 .publisher 10 (by decide)).2.1⟩

theorem mem_memberEvents (members : ProcessMembers) (e : EntityEvent) :
    e ∈ memberEvents members ↔ ∃ K E, E ∈ members.ofType K ∧ e = deletedEvent K E := by
  simp only [memberEvents, List.mem_append, List.mem_map]
  constructor
  · rintro (⟨E, hE, rfl⟩ | ⟨E, hE, rfl⟩ | ⟨E, hE, rfl⟩ | ⟨E, hE, rfl⟩)
    · exact ⟨.publisher, E, hE, rfl⟩
    · exact ⟨.subscriber, E, hE, rfl⟩
    · exact ⟨.server, E, hE, rfl⟩
    · exact ⟨.client, E, hE, rfl⟩
  · rintro ⟨K, E, hE, rfl⟩
    cases K with
    | process => simp [ProcessMembers.ofType] at hE
    | publisher => exact Or.inl ⟨E, hE, rfl⟩
    | subscriber => exact Or.inr (Or.inl ⟨E, hE, rfl⟩)
    | server => exact Or.inr (Or.inr (Or.inl ⟨E, hE, rfl⟩))
    | client => exact Or.inr (Or.inr (Or.inr ⟨E, hE, rfl⟩))

theorem count_map_deletedEvent (K K' : EntityType) (E : EntityKey) (l : List EntityKey) :
    (l.map (deletedEvent K')).count (deletedEvent K E) = if K' = K then l.count E else 0 := by
  induction l with
  | nil => simp
  | cons x rest ih =>
    rw [List.map_cons, List.count_cons, ih]
    by_cases hK : K' = K
    · subst hK
      by_cases hx : x = E
      · subst hx; simp
      · have hne : ¬ E = x := fun e => hx e.symm
        simp [deletedEvent, hx, List.count_cons]
    · simp [deletedEvent, hK]

theorem count_memberEvents (members : ProcessMembers) (K : EntityType) (E : EntityKey) :
    (memberEvents members).count (deletedEvent K E) = (members.ofType K).count E := by
  simp only [memberEvents, List.count_append, count_map_deletedEvent]
  cases K <;> simp [ProcessMembers.ofType]

theorem RemoveProcess_events (key_ : ProcessKey) (db : CEcalRegistrationDatabase)
    (hc : db.current_state_.Consistent) :
    (CEcalRegistrationDatabase.RemoveProcess key_ db).2.events =
      memberEvents ((UMap.find db.current_state_.members_by_process key_).getD {})
        ++ (if db.current_state_.hasProcess key_ = true
          then [deletedEvent .process (processEntityKey key_)] else []) := by
  unfold CEcalRegistrationDatabase.RemoveProcess
  rw [ApplyMutation_result]
  simp only
  rw [RemoveProcessMutator_events key_ _ hc]
  simp

theorem State.Consistent.bucket_getD {s : State} (h : s.Consistent) (P : ProcessKey)
    (K : EntityType) (E : EntityKey) :
    E ∈ ((UMap.find s.members_by_process P).getD {}).ofType K ↔
      s.regProcessId K E = some P := by
  cases hb : UMap.find s.members_by_process P with
  | none =>
    simp only [Option.getD_none]
    constructor
    · intro hE
      exact absurd hE (ProcessMembers.not_mem_ofType_default K E)
    · intro ho
      exact absurd ho (h.no_bucket hb K E)
  | some members => exact h.mem_bucket_iff hb K E

theorem State.Consistent.bucket_getD_nodup {s : State} (h : s.Consistent) (P : ProcessKey)
    (K : EntityType) : (((UMap.find s.members_by_process P).getD {}).ofType K).Nodup := by
  cases hb : UMap.find s.members_by_process P with
  | none => cases K <;> simp [ProcessMembers.ofType]
  | some members => exact h.nodup P members hb K

/-- C6, cascade events: after any sequence of public mutations applied to the empty
database, the event list returned by `RemoveProcess(P)` is the list of `deleted_entity`
events of the members of the bucket of `P` (publishers, subscribers, servers, clients)
followed by `deleted_entity(process, P)` when `P` had a process record. It contains exactly
one `deleted_entity(K, E)` for each entity whose record of kind `K` had `process_id = P`,
the process event exactly once if `P` was registered and not at all otherwise, no other
event, the member events before the process event; when no record names `P` and `P` is
registered the list is exactly the process event. -/
theorem cascade_events (ops : List Op) (P : ProcessKey) :
    (∀ K E, (runOps ops {}).current_state_.regProcessId K E = some P →
      ((CEcalRegistrationDatabase.RemoveProcess P (runOps ops {})).2.events).count
        (deletedEvent K E) = 1)
    ∧ ((CEcalRegistrationDatabase.RemoveProcess P (runOps ops {})).2.events).count
        (deletedEvent .process (processEntityKey P))
        = (if (runOps ops {}).current_state_.hasProcess P = true then 1 else 0)
    ∧ (∀ e ∈ (CEcalRegistrationDatabase.RemoveProcess P (runOps ops {})).2.events,
        (∃ K E, (runOps ops {}).current_state_.regProcessId K E = some P
          ∧ e = deletedEvent K E)
        ∨ ((runOps ops {}).current_state_.hasProcess P = true
          ∧ e = deletedEvent .process (processEntityKey P)))
    ∧ (∃ memberPart,
        (CEcalRegistrationDatabase.RemoveProcess P (runOps ops {})).2.events
          = memberPart ++ (if (runOps ops {}).current_state_.hasProcess P = true
              then [deletedEvent .process (processEntityKey P)] else [])
        ∧ ∀ e ∈ memberPart, e.entity_type ≠ .process)
    ∧ ((∀ members, UMap.find (runOps ops {}).current_state_.members_by_process P
          = some members → members.allEmpty = true) →
        (runOps ops {}).current_state_.hasProcess P = true →
        (CEcalRegistrationDatabase.RemoveProcess P (runOps ops {})).2.events
          = [deletedEvent .process (processEntityKey P)]) := by
  have hc := runOps_consistent ops
  rw [RemoveProcess_events P _ hc]
  refine ⟨fun K E ho => ?_, ?_, fun e he => ?_, ⟨_, rfl, fun e he => ?_⟩, fun hempty hp => ?_⟩
  · have hK : K ≠ .process := by
      rintro rfl
      simp [State.regProcessId] at ho
    rw [List.count_append, count_memberEvents,
      List.count_eq_one_of_mem (hc.bucket_getD_nodup P K) ((hc.bucket_getD P K E).mpr ho)]
    split
    · have hne : (deletedEvent .process (processEntityKey P) == deletedEvent K E) = false := by
        rw [beq_eq_false_iff_ne]
        intro he
        exact hK (congrArg EntityEvent.entity_type he).symm
      simp [List.count_cons, hne]
    · simp
  · rw [List.count_append, count_memberEvents]
    simp only [ProcessMembers.ofType, List.count_nil, zero_add]
    split <;> simp
  · rw [List.mem_append] at he
    rcases he with he | he
    · obtain ⟨K, E, hE, rfl⟩ := (mem_memberEvents _ e).mp he
      exact Or.inl ⟨K, E, (hc.bucket_getD P K E).mp hE, rfl⟩
    · split at he
      · rename_i hp
        simp only [List.mem_singleton] at he
        exact Or.inr ⟨hp, he⟩
      · simp at he
  · obtain ⟨K, E, hE, rfl⟩ := (mem_memberEvents _ e).mp he
    rintro (hK : K = .process)
    subst hK
    simp [ProcessMembers.ofType] at hE
  · have hnil : memberEvents
        ((UMap.find (runOps ops {}).current_state_.members_by_process P).getD {}) = [] := by
      cases hb : UMap.find (runOps ops {}).current_state_.members_by_process P with
      | none => rfl
      | some members =>
        have he := hempty members hb
        simp only [ProcessMembers.allEmpty, Bool.and_eq_true, USet.empty_iff] at he
        obtain ⟨⟨⟨h₁, h₂⟩, h₃⟩, h₄⟩ := he
        simp [memberEvents, h₁, h₂, h₃, h₄]
    rw [hnil, hp]
    rfl

theorem TypedOp.apply_revision (op : TypedOp) (db : CEcalRegistrationDatabase) :
    (op.apply db).1.current_state_.revision =
      if op.changes db = true then (db.current_state_.revision + 1) % 2 ^ 64
      else db.current_state_.revision := by
  rw [TypedOp.apply_eq, ApplyMutation_state]
  unfold TypedOp.changes
  cases (op.mutator ⟨db.current_state_, [], false⟩).changed_ <;> simp

theorem countChanging_cons (op : TypedOp) (rest : List TypedOp)
    (db : CEcalRegistrationDatabase) :
    countChanging (op :: rest) db =
      (if op.changes db = true then 1 else 0) + countChanging rest (op.apply db).1 := rfl

theorem runTyped_cons (op : TypedOp) (rest : List TypedOp) (db : CEcalRegistrationDatabase) :
    runTyped (op :: rest) db = runTyped rest (op.apply db).1 := rfl

theorem countChanging_append (ops₁ ops₂ : List TypedOp) (db : CEcalRegistrationDatabase) :
    countChanging (ops₁ ++ ops₂) db =
      countChanging ops₁ db + countChanging ops₂ (runTyped ops₁ db) := by
  induction ops₁ generalizing db with
  | nil => simp [countChanging, runTyped]
  | cons op rest ih =>
    rw [List.cons_append, countChanging_cons, countChanging_cons, runTyped_cons, ih,
      Nat.add_assoc]

theorem runTyped_revision (ops : List TypedOp) (db : CEcalRegistrationDatabase)
    (h : db.current_state_.revision + countChanging ops db < 2 ^ 64) :
    (runTyped ops db).current_state_.revision =
      db.current_state_.revision + countChanging ops db := by
  induction ops generalizing db with
  | nil => simp [runTyped, countChanging]
  | cons op rest ih =>
    rw [countChanging_cons] at h ⊢
    rw [runTyped_cons]
    have hstep := TypedOp.apply_revision op db
    unfold Revision at *
    by_cases hch : op.changes db = true
    · rw [if_pos hch] at h hstep ⊢
      have hlt : db.current_state_.revision + 1 < 2 ^ 64 := by unfold Revision; omega
      rw [Nat.mod_eq_of_lt hlt] at hstep
      rw [ih (op.apply db).1 (by rw [hstep]; omega), hstep]
      omega
    · rw [if_neg hch] at h hstep ⊢
      rw [ih (op.apply db).1 (by rw [hstep]; omega), hstep]
      omega

theorem TypedOp.apply_of_not_changes (op : TypedOp) (db : CEcalRegistrationDatabase)
    (h : op.changes db = false) : (op.apply db).1 = db := by
  rw [TypedOp.apply_eq]
  unfold TypedOp.changes at h
  unfold ApplyMutation
  simp [h]

theorem TypedOp.apply_previous (op : TypedOp) (db : CEcalRegistrationDatabase)
    (h : op.changes db = true) :
    (op.apply db).1.previous_revision_ = db.current_state_.revision := by
  rw [TypedOp.apply_eq]
  unfold TypedOp.changes at h
  unfold ApplyMutation
  simp [h]

theorem toggleOps_succ (n : Nat) :
    toggleOps (n + 1) = toggleOps n ++
      [.UpdateServerMonitoring 0 { registration_clock := ((n % 2 : Nat) : Int) }] := rfl

theorem toggle_apply (r p : Nat) (n : Nat) :
    ((TypedOp.UpdateServerMonitoring 0
        { registration_clock := (((n + 1) % 2 : Nat) : Int) }).apply
      { current_state_ :=
          { revision := r
            server_monitoring := [(0, { registration_clock := ((n % 2 : Nat) : Int) })] }
        previous_revision_ := p }).1 =
      { current_state_ :=
          { revision := (r + 1) % 2 ^ 64
            server_monitoring :=
              [(0, { registration_clock := (((n + 1) % 2 : Nat) : Int) })] }
        previous_revision_ := r } := by
  have hne : ¬ (((n % 2 : Nat) : Int) = (((n + 1) % 2 : Nat) : Int)) := by omega
  simp only [TypedOp.apply, CEcalRegistrationDatabase.UpdateServerMonitoring, ApplyMutation,
    UpdateServerMonitoringMutator, UMap.find, UMap.assign, if_true, ne_eq, hne,
    not_false_eq_true]
  rfl

theorem toggleOps_run (n : Nat) :
    runTyped (toggleOps (n + 1)) {} =
      { current_state_ :=
          { revision := (n + 1) % 2 ^ 64
            server_monitoring := [(0, { registration_clock := ((n % 2 : Nat) : Int) })] }
        previous_revision_ := n % 2 ^ 64 } := by
  induction n with
  | zero => rfl
  | succ n ih =>
    rw [toggleOps_succ, runTyped_append, ih]
    have hrev : ((n + 1) % 2 ^ 64 + 1) % 2 ^ 64 = (n + 1 + 1) % 2 ^ 64 := by omega
    show ((TypedOp.UpdateServerMonitoring 0 _).apply _).1 = _
    rw [toggle_apply, hrev]

theorem toggle_changes (r p : Nat) (n : Nat) :
    (TypedOp.UpdateServerMonitoring 0
        { registration_clock := (((n + 1) % 2 : Nat) : Int) }).changes
      { current_state_ :=
          { revision := r
            server_monitoring := [(0, { registration_clock := ((n % 2 : Nat) : Int) })] }
        previous_revision_ := p } = true := by
  have hne : ¬ (((n % 2 : Nat) : Int) = (((n + 1) % 2 : Nat) : Int)) := by omega
  simp only [TypedOp.changes, TypedOp.mutator, UpdateServerMonitoringMutator, UMap.find,
    if_true, ne_eq, hne, not_false_eq_true]

theorem toggleOps_count (n : Nat) : countChanging (toggleOps n) {} = n := by
  induction n with
  | zero => rfl
  | succ n ih =>
    rw [toggleOps_succ, countChanging_append, ih]
    cases n with
    | zero => rfl
    | succ m =>
      rw [toggleOps_run, countChanging_cons, toggle_changes]
      rfl

/-- C7 as stated fails when the 64-bit revision wraps: the sequence `toggleOps (2 ^ 64)` of
`2 ^ 64` monitoring updates of server 0 with alternating registration clock consists of
state-changing mutations only, its first `2 ^ 64 - 1` mutations lead to revision
`2 ^ 64 - 1`, and its last mutation, which changes the state, leads to revision 0. -/
theorem revision_wraps_after_two_pow_64_changes :
    countChanging (toggleOps (2 ^ 64)) {} = 2 ^ 64
    ∧ CEcalRegistrationDatabase.CurrentRevision (runTyped (toggleOps (2 ^ 64 - 1)) {}) = 2 ^ 64 - 1
    ∧ CEcalRegistrationDatabase.CurrentRevision (runTyped (toggleOps (2 ^ 64)) {}) = 0 := by
  refine ⟨toggleOps_count _, ?_, ?_⟩
  · have h := toggleOps_run (2 ^ 64 - 2)
    have e : (2 : Nat) ^ 64 - 2 + 1 = 2 ^ 64 - 1 := by norm_num
    rw [e] at h
    rw [h]
    show (2 ^ 64 - 1) % 2 ^ 64 = 2 ^ 64 - 1
    norm_num
  · have h := toggleOps_run (2 ^ 64 - 1)
    have e : (2 : Nat) ^ 64 - 1 + 1 = 2 ^ 64 := by norm_num
    rw [e] at h
    rw [h]
    show 2 ^ 64 % 2 ^ 64 = 0
    norm_num

/-- C7, amended: for every sequence of typed mutations applied to the empty database of
which fewer than `2 ^ 64` change the state, the final revision is the number of
state-changing mutations, and each mutation of the sequence leaves the revision unchanged
or exactly one larger, one larger exactly when its closure sets `changed`, and never
smaller. -/
theorem revision_counts_changes (ops : List TypedOp) (h : countChanging ops {} < 2 ^ 64) :
    CEcalRegistrationDatabase.CurrentRevision (runTyped ops {}) = countChanging ops {}
    ∧ ∀ pre op post, ops = pre ++ op :: post →
      (CEcalRegistrationDatabase.CurrentRevision (op.apply (runTyped pre {})).1 = CEcalRegistrationDatabase.CurrentRevision (runTyped pre {})
        ∨ CEcalRegistrationDatabase.CurrentRevision (op.apply (runTyped pre {})).1
          = CEcalRegistrationDatabase.CurrentRevision (runTyped pre {}) + 1)
      ∧ (CEcalRegistrationDatabase.CurrentRevision (op.apply (runTyped pre {})).1
          = CEcalRegistrationDatabase.CurrentRevision (runTyped pre {}) + 1 ↔ op.changes (runTyped pre {}) = true)
      ∧ CEcalRegistrationDatabase.CurrentRevision (runTyped pre {}) ≤ CEcalRegistrationDatabase.CurrentRevision (op.apply (runTyped pre {})).1 := by
  have hfinal := runTyped_revision ops {} (by simpa using h)
  refine ⟨by simpa [CEcalRegistrationDatabase.CurrentRevision] using hfinal, ?_⟩
  intro pre op post hops
  subst hops
  rw [countChanging_append, countChanging_cons] at h
  have hpre := runTyped_revision pre {} (by
    show 0 + countChanging pre {} < 2 ^ 64
    omega)
  have hpre' : (runTyped pre {}).current_state_.revision = countChanging pre {} := by
    simpa using hpre
  have hstep := TypedOp.apply_revision op (runTyped pre {})
  simp only [CEcalRegistrationDatabase.CurrentRevision]
  unfold Revision at *
  by_cases hch : op.changes (runTyped pre {}) = true
  · rw [if_pos hch] at h hstep
    have hlt : (runTyped pre {}).current_state_.revision + 1 < 2 ^ 64 := by
      unfold Revision
      omega
    rw [Nat.mod_eq_of_lt hlt] at hstep
    rw [hstep]
    simp [hch]
  · rw [if_neg hch] at hstep
    rw [hstep]
    simp [hch]

/-- Witness for C7, amended: the four calls of the revision test, three of which change the
state, end at revision 3. -/
theorem revision_counts_changes_witness :
    countChanging revisionTest {} < 2 ^ 64
    ∧ CEcalRegistrationDatabase.CurrentRevision (runTyped revisionTest {}) = countChanging revisionTest {}
    ∧ countChanging revisionTest {} = 3 :=
  ⟨by decide, (revision_counts_changes revisionTest (by decide)).1, by decide⟩

theorem TypedOp.apply_previous_inv (op : TypedOp) (db : CEcalRegistrationDatabase)
    (h : db.current_state_.revision < 2 ^ 64
      ∧ (0 < db.current_state_.revision →
        db.previous_revision_ + 1 = db.current_state_.revision)) :
    (op.apply db).1.current_state_.revision < 2 ^ 64
      ∧ (0 < (op.apply db).1.current_state_.revision →
        (op.apply db).1.previous_revision_ + 1 = (op.apply db).1.current_state_.revision) := by
  by_cases hch : op.changes db = true
  · have hrev := TypedOp.apply_revision op db
    rw [if_pos hch] at hrev
    rw [TypedOp.apply_previous op db hch, hrev]
    unfold Revision at *
    omega
  · rw [TypedOp.apply_of_not_changes op db (by simpa using hch)]
    exact h

theorem runTyped_previous_inv (ops : List TypedOp) (db : CEcalRegistrationDatabase)
    (h : db.current_state_.revision < 2 ^ 64
      ∧ (0 < db.current_state_.revision →
        db.previous_revision_ + 1 = db.current_state_.revision)) :
    (runTyped ops db).current_state_.revision < 2 ^ 64
      ∧ (0 < (runTyped ops db).current_state_.revision →
        (runTyped ops db).previous_revision_ + 1
          = (runTyped ops db).current_state_.revision) := by
  induction ops generalizing db with
  | nil => exact h
  | cons op rest ih => exact ih _ (op.apply_previous_inv db h)

/-- C8, previous-revision invariant: the empty database has current and previous revision
0; after any sequence of public mutations applied to it, a positive current revision is the
previous revision plus one; a typed mutation whose closure does not set `changed` leaves the
database, hence both values, as it was; the four calls of the revision test give the pairs
(1,0), (2,1), (3,2), (3,2). -/
theorem previous_revision_invariant :
    (CEcalRegistrationDatabase.CurrentRevision {} = 0
      ∧ CEcalRegistrationDatabase.PreviousRevision {} = 0)
    ∧ (∀ ops : List Op, 0 < CEcalRegistrationDatabase.CurrentRevision (runOps ops {}) →
        CEcalRegistrationDatabase.PreviousRevision (runOps ops {}) + 1
          = CEcalRegistrationDatabase.CurrentRevision (runOps ops {}))
    ∧ (∀ (op : TypedOp) (db : CEcalRegistrationDatabase), op.changes db = false →
        CEcalRegistrationDatabase.CurrentRevision (op.apply db).1
            = CEcalRegistrationDatabase.CurrentRevision db
          ∧ CEcalRegistrationDatabase.PreviousRevision (op.apply db).1
            = CEcalRegistrationDatabase.PreviousRevision db)
    ∧ (List.range 5).map (fun n =>
          (CEcalRegistrationDatabase.CurrentRevision (runTyped (revisionTest.take n) {}),
            CEcalRegistrationDatabase.PreviousRevision (runTyped (revisionTest.take n) {})))
        = [(0, 0), (1, 0), (2, 1), (3, 2), (3, 2)] := by
  refine ⟨⟨rfl, rfl⟩, fun ops hpos => ?_, fun op db hch => ?_, by decide⟩
  · rw [runOps_eq_runTyped] at hpos ⊢
    exact (runTyped_previous_inv _ {} ⟨by decide, fun h => absurd h (by decide)⟩).2 hpos
  · rw [TypedOp.apply_of_not_changes op db hch]
    exact ⟨rfl, rfl⟩

/-! ## The sample router -/

/-- C9, sample equivalence: for every database and every sample, the database installed by
`ApplySample` is the one installed by performing, in order, the typed mutations the router
table of the specification assigns to the command, with key and delta fields copied from
the sample; for `reg_publisher` these are `AddOrUpdatePublisher` with `{process_id,
host_name, topic}` followed by `UpdatePublisherMonitoring` with the nine telemetry fields.
Snapshots of the two databases are equal, so counts, `Has*` results and the publisher
registration and monitoring lookups agree. -/
theorem sample_equivalence (sample : Sample) (db : CEcalRegistrationDatabase) :
    (CEcalRegistrationDatabase.ApplySample sample db).1 = runTyped (routedMutations sample) db
    ∧ (sample.cmd_type = .bct_reg_publisher →
        (CEcalRegistrationDatabase.ApplySample sample db).1 =
          (CEcalRegistrationDatabase.UpdatePublisherMonitoring sample.identifier.entity_id
            { registration_clock := sample.topic.registration_clock
              topic_size := sample.topic.topic_size
              connections_local := sample.topic.connections_local
              connections_external := sample.topic.connections_external
              message_drops := sample.topic.message_drops
              data_id := sample.topic.data_id
              data_clock := sample.topic.data_clock
              data_frequency := sample.topic.data_frequency
              latency_us := sample.topic.latency_us }
            (CEcalRegistrationDatabase.AddOrUpdatePublisher sample.identifier.entity_id
              { process_id := sample.identifier.process_id
                host_name := sample.identifier.host_name
                topic := sample.topic } db).1).1)
    ∧ CEcalRegistrationDatabase.GetSnapshot (CEcalRegistrationDatabase.ApplySample sample db).1
        = CEcalRegistrationDatabase.GetSnapshot (runTyped (routedMutations sample) db)
    ∧ (CEcalRegistrationDatabase.GetSnapshot
          (CEcalRegistrationDatabase.ApplySample sample db).1).PublisherCount
        = (CEcalRegistrationDatabase.GetSnapshot
          (runTyped (routedMutations sample) db)).PublisherCount
    ∧ (∀ key, (CEcalRegistrationDatabase.GetSnapshot
          (CEcalRegistrationDatabase.ApplySample sample db).1).HasPublisher key
        = (CEcalRegistrationDatabase.GetSnapshot
          (runTyped (routedMutations sample) db)).HasPublisher key)
    ∧ (∀ key out, (CEcalRegistrationDatabase.GetSnapshot
          (CEcalRegistrationDatabase.ApplySample sample db).1).GetPublisherRegistration key out
        = (CEcalRegistrationDatabase.GetSnapshot
          (runTyped (routedMutations sample) db)).GetPublisherRegistration key out)
    ∧ (∀ key out, (CEcalRegistrationDatabase.GetSnapshot
          (CEcalRegistrationDatabase.ApplySample sample db).1).GetPublisherMonitoring key out
        = (CEcalRegistrationDatabase.GetSnapshot
          (runTyped (routedMutations sample) db)).GetPublisherMonitoring key out) := by
  have h := ApplySample_db sample db
  refine ⟨h, fun hcmd => ?_, by rw [h], by rw [h], fun key => by rw [h],
    fun key out => by rw [h], fun key out => by rw [h]⟩
  rw [h]
  unfold routedMutations
  rw [hcmd]
  rfl

/-- C10, evaluation of the code at the failing input: publisher 42 is registered by the
sample of the test; the same sample sent again with `registration_clock` 11 instead of 10,
all other fields equal, makes `ApplySample` return `updated_entity(publisher, 42)`. -/
theorem telemetry_tick_emits_updated_entity :
    (CEcalRegistrationDatabase.ApplySample publisherSampleNextTick
        (CEcalRegistrationDatabase.ApplySample publisherSample {}).1).2.events
      = [{ event_type := .updated_entity, entity_type := .publisher, entity_key := 42 }] := by
  decide


/-! ## Effect of the typed mutations on a database -/

theorem ApplyMutation_db (mutator_ : MutatorT) (db : CEcalRegistrationDatabase) :
    (ApplyMutation mutator_ db).1 =
      if (mutator_ ⟨db.current_state_, [], false⟩).changed_ = false then db
      else
        { current_state_ :=
            { (mutator_ ⟨db.current_state_, [], false⟩).state_ with
              revision := (db.current_state_.revision + 1) % 2 ^ 64 }
          previous_revision_ := db.current_state_.revision } := by
  unfold ApplyMutation
  simp only
  split <;> rfl

theorem Double_equal_eq {x y : Double} (h : x.equal y = true) : x = y := by
  cases x <;> cases y <;> simp_all [Double.equal]

theorem Double_equal_self (x : Double) : x.equal x = !decide (x = .nan) := by
  cases x <;> simp [Double.equal]

theorem Statistics_equal_eq {x y : Statistics} (h : x.equal y = true) : x = y := by
  cases x; cases y
  simp only [Statistics.equal] at h
  rw [Double_equal_eq h]

theorem Statistics_equal_self (x : Statistics) :
    x.equal x = !decide (x.latest = .nan) :=
  Double_equal_self x.latest

theorem Topic_equal_eq {x y : Topic} (h : x.equal y = true) : x = y := by
  cases x; cases y
  simp only [Topic.equal, Bool.and_eq_true, decide_eq_true_eq] at h
  obtain ⟨⟨⟨⟨⟨⟨⟨⟨⟨⟨h1, h2⟩, h3⟩, h4⟩, h5⟩, h6⟩, h7⟩, h8⟩, h9⟩, h10⟩, h11⟩ := h
  rw [h1, h2, h3, h4, h5, h6, h7, h8, h9, h10, Statistics_equal_eq h11]

theorem Topic_equal_self (x : Topic) :
    x.equal x = !decide (x.latency_us.latest = .nan) := by
  simp [Topic.equal, Statistics_equal_self]

theorem TopicRegistrationDelta_same_iff (x y : TopicRegistrationDelta) :
    x.same y = true ↔
      (x.topic.equal y.topic = true ∧ x.process_id = y.process_id
        ∧ x.host_name = y.host_name) := by
  simp only [TopicRegistrationDelta.same, Bool.and_eq_true, decide_eq_true_eq, and_assoc]

theorem TopicRegistrationDelta_same_eq {x y : TopicRegistrationDelta}
    (h : x.same y = true) : x = y := by
  rw [TopicRegistrationDelta_same_iff] at h
  cases x; cases y
  simp only at h
  rw [Topic_equal_eq h.1, h.2.1, h.2.2]

theorem TopicRegistrationDelta_same_self (x : TopicRegistrationDelta) :
    x.same x = !decide (x.topic.latency_us.latest = .nan) := by
  simp [TopicRegistrationDelta.same, Topic_equal_self]

theorem TopicRegistrationDelta_unchanged_eq {found : Option TopicRegistrationDelta}
    {delta_ : TopicRegistrationDelta}
    (h : TopicRegistrationDelta.unchanged found delta_ = true) : found = some delta_ := by
  cases found with
  | none => simp [TopicRegistrationDelta.unchanged] at h
  | some r => rw [TopicRegistrationDelta_same_eq h]

theorem TopicRegistrationDelta_unchanged_of_ne {found : Option TopicRegistrationDelta}
    {delta_ : TopicRegistrationDelta} (h : found ≠ some delta_) :
    TopicRegistrationDelta.unchanged found delta_ = false := by
  rw [← Bool.not_eq_true]
  exact fun hu => h (TopicRegistrationDelta_unchanged_eq hu)

theorem TopicMonitoringDelta_same_iff (x y : TopicMonitoringDelta) :
    x.same y = true ↔
      (x.registration_clock = y.registration_clock ∧ x.topic_size = y.topic_size
        ∧ x.connections_local = y.connections_local
        ∧ x.connections_external = y.connections_external
        ∧ x.message_drops = y.message_drops ∧ x.data_id = y.data_id
        ∧ x.data_clock = y.data_clock ∧ x.data_frequency = y.data_frequency
        ∧ x.latency_us.equal y.latency_us = true) := by
  simp only [TopicMonitoringDelta.same, Bool.and_eq_true, decide_eq_true_eq, and_assoc]

theorem TopicMonitoringDelta_same_eq {x y : TopicMonitoringDelta}
    (h : x.same y = true) : x = y := by
  rw [TopicMonitoringDelta_same_iff] at h
  cases x; cases y
  simp only at h
  obtain ⟨h1, h2, h3, h4, h5, h6, h7, h8, h9⟩ := h
  rw [h1, h2, h3, h4, h5, h6, h7, h8, Statistics_equal_eq h9]

theorem TopicMonitoringDelta_same_self (x : TopicMonitoringDelta) :
    x.same x = !decide (x.latency_us.latest = .nan) := by
  simp [TopicMonitoringDelta.same, Statistics_equal_self]

theorem TopicMonitoringDelta_unchanged_eq {found : Option TopicMonitoringDelta}
    {delta_ : TopicMonitoringDelta}
    (h : TopicMonitoringDelta.unchanged found delta_ = true) : found = some delta_ := by
  cases found with
  | none => simp [TopicMonitoringDelta.unchanged] at h
  | some r => rw [TopicMonitoringDelta_same_eq h]

theorem TopicMonitoringDelta_unchanged_of_ne {found : Option TopicMonitoringDelta}
    {delta_ : TopicMonitoringDelta} (h : found ≠ some delta_) :
    TopicMonitoringDelta.unchanged found delta_ = false := by
  rw [← Bool.not_eq_true]
  exact fun hu => h (TopicMonitoringDelta_unchanged_eq hu)

theorem ServiceRegistrationDelta_eq_iff (x y : ServiceRegistrationDelta) :
    (x.service = y.service ∧ x.process_id = y.process_id ∧ x.host_name = y.host_name) ↔
      x = y := by
  cases x; cases y
  simp only [ServiceRegistrationDelta.mk.injEq]
  tauto

theorem ClientRegistrationDelta_eq_iff (x y : ClientRegistrationDelta) :
    (x.client = y.client ∧ x.process_id = y.process_id ∧ x.host_name = y.host_name) ↔
      x = y := by
  cases x; cases y
  simp only [ClientRegistrationDelta.mk.injEq]
  tauto

theorem AddOrUpdatePublisherMutator_find (key_ : EntityKey) (delta_ : TopicRegistrationDelta)
    (a : MutatorArgs) (key : EntityKey) :
    UMap.find (AddOrUpdatePublisherMutator key_ delta_ a).state_.publishers key =
      if key = key_ then some delta_ else UMap.find a.state_.publishers key := by
  unfold AddOrUpdatePublisherMutator
  cases hf : UMap.find a.state_.publishers key_ with
  | none => simp only [UMap.find_emplace _ _ _ _ hf]
  | some r =>
    simp only [← TopicRegistrationDelta_same_iff]
    by_cases hc : r.same delta_ = true
    · have hrd := TopicRegistrationDelta_same_eq hc
      subst hrd
      by_cases hk : key = key_
      · subst hk; simp [hf, hc]
      · simp [hk, hc]
    · simp [hc, UMap.find_assign]

theorem AddOrUpdatePublisherMutator_events (key_ : EntityKey)
    (delta_ : TopicRegistrationDelta) (a : MutatorArgs) :
    (AddOrUpdatePublisherMutator key_ delta_ a).events_ =
      a.events_ ++
        (match UMap.find a.state_.publishers key_ with
          | none => [⟨.new_entity, .publisher, key_⟩]
          | some r =>
            if r.same delta_ = true then [] else [⟨.updated_entity, .publisher, key_⟩]) := by
  unfold AddOrUpdatePublisherMutator
  cases hf : UMap.find a.state_.publishers key_ with
  | none => rfl
  | some r =>
    simp only [← TopicRegistrationDelta_same_iff]
    by_cases hc : r.same delta_ = true <;> simp [hc]

theorem AddOrUpdatePublisherMutator_changed (key_ : EntityKey)
    (delta_ : TopicRegistrationDelta) (a : MutatorArgs) :
    (AddOrUpdatePublisherMutator key_ delta_ a).changed_ =
      (a.changed_
        || !TopicRegistrationDelta.unchanged (UMap.find a.state_.publishers key_) delta_) := by
  unfold AddOrUpdatePublisherMutator
  cases hf : UMap.find a.state_.publishers key_ with
  | none => simp [TopicRegistrationDelta.unchanged]
  | some r =>
    simp only [← TopicRegistrationDelta_same_iff, TopicRegistrationDelta.unchanged]
    by_cases hc : r.same delta_ = true <;> simp [hc]

theorem AddOrUpdatePublisherMutator_members (key_ : EntityKey)
    (delta_ : TopicRegistrationDelta) (a : MutatorArgs) :
    (AddOrUpdatePublisherMutator key_ delta_ a).state_.members_by_process =
      (match UMap.find a.state_.publishers key_ with
        | none => AddMembership a.state_.members_by_process delta_.process_id .publisher key_
        | some r =>
          if r.process_id = delta_.process_id then a.state_.members_by_process
          else AddMembership
            (RemoveMembership a.state_.members_by_process r.process_id .publisher key_)
            delta_.process_id .publisher key_) := by
  unfold AddOrUpdatePublisherMutator
  cases hf : UMap.find a.state_.publishers key_ with
  | none => rfl
  | some r =>
    simp only [← TopicRegistrationDelta_same_iff]
    by_cases hc : r.same delta_ = true
    · have hrd := TopicRegistrationDelta_same_eq hc
      subst hrd; simp [hc]
    · by_cases hp : r.process_id = delta_.process_id <;> simp [hc, hp]

theorem AddOrUpdatePublisherMutator_frame (key_ : EntityKey)
    (delta_ : TopicRegistrationDelta) (a : MutatorArgs) :
    (AddOrUpdatePublisherMutator key_ delta_ a).state_ =
      { a.state_ with
        publishers := (AddOrUpdatePublisherMutator key_ delta_ a).state_.publishers
        members_by_process :=
          (AddOrUpdatePublisherMutator key_ delta_ a).state_.members_by_process } := by
  unfold AddOrUpdatePublisherMutator
  cases hf : UMap.find a.state_.publishers key_ with
  | none => rfl
  | some r =>
    simp only
    split <;> rfl


theorem AddOrUpdatePublisher_spec (key_ : EntityKey) (delta_ : TopicRegistrationDelta)
    (db : CEcalRegistrationDatabase) :
    (CEcalRegistrationDatabase.AddOrUpdatePublisher key_ delta_ db).2.events =
        (match UMap.find db.current_state_.publishers key_ with
          | none => [⟨.new_entity, .publisher, key_⟩]
          | some r =>
            if r.same delta_ = true then [] else [⟨.updated_entity, .publisher, key_⟩])
    ∧ (CEcalRegistrationDatabase.AddOrUpdatePublisher key_ delta_ db).2.new_revision =
        (CEcalRegistrationDatabase.AddOrUpdatePublisher key_ delta_ db).1.current_state_.revision
    ∧ (CEcalRegistrationDatabase.AddOrUpdatePublisher key_ delta_ db).1.current_state_.revision =
        (if TopicRegistrationDelta.unchanged (UMap.find db.current_state_.publishers key_)
            delta_ = true
          then db.current_state_.revision else (db.current_state_.revision + 1) % 2 ^ 64)
    ∧ (∀ key, UMap.find
          (CEcalRegistrationDatabase.AddOrUpdatePublisher key_ delta_ db).1.current_state_.publishers
          key = if key = key_ then some delta_ else UMap.find db.current_state_.publishers key)
    ∧ (TopicRegistrationDelta.unchanged (UMap.find db.current_state_.publishers key_)
          delta_ = true →
        (CEcalRegistrationDatabase.AddOrUpdatePublisher key_ delta_ db).1 = db)
    ∧ (CEcalRegistrationDatabase.AddOrUpdatePublisher key_ delta_ db).1.current_state_.members_by_process =
        (match UMap.find db.current_state_.publishers key_ with
          | none =>
            AddMembership db.current_state_.members_by_process delta_.process_id .publisher key_
          | some r =>
            if r.process_id = delta_.process_id then db.current_state_.members_by_process
            else AddMembership
              (RemoveMembership db.current_state_.members_by_process r.process_id
                .publisher key_)
              delta_.process_id .publisher key_) := by
  have hch := AddOrUpdatePublisherMutator_changed key_ delta_ ⟨db.current_state_, [], false⟩
  have hev := AddOrUpdatePublisherMutator_events key_ delta_ ⟨db.current_state_, [], false⟩
  have hfind := AddOrUpdatePublisherMutator_find key_ delta_ ⟨db.current_state_, [], false⟩
  have hmem := AddOrUpdatePublisherMutator_members key_ delta_ ⟨db.current_state_, [], false⟩
  simp only [Bool.false_or, List.nil_append] at hch hev hfind hmem
  unfold CEcalRegistrationDatabase.AddOrUpdatePublisher
  rw [ApplyMutation_result, ApplyMutation_db]
  by_cases hu : TopicRegistrationDelta.unchanged (UMap.find db.current_state_.publishers key_)
      delta_ = true
  · have hs := TopicRegistrationDelta_unchanged_eq hu
    have hc : (AddOrUpdatePublisherMutator key_ delta_ ⟨db.current_state_, [], false⟩).changed_
        = false := by rw [hch]; simp [hu]
    rw [if_pos hc]
    refine ⟨?_, rfl, ?_, ?_, fun _ => rfl, ?_⟩
    · show (AddOrUpdatePublisherMutator key_ delta_ ⟨db.current_state_, [], false⟩).events_ = _
      rw [hev, hs]
    · simp [hu]
    · intro key
      by_cases hk : key = key_
      · subst hk; simp [hs]
      · simp [hk]
    · rw [hs]
      simp
  · have hc : ¬ (AddOrUpdatePublisherMutator key_ delta_
        ⟨db.current_state_, [], false⟩).changed_ = false := by rw [hch]; simp [hu]
    rw [if_neg hc]
    refine ⟨hev, rfl, ?_, hfind, fun h => absurd h hu, hmem⟩
    simp [hu]

theorem UpdatePublisherMonitoringMutator_eq (key_ : EntityKey) (delta_ : TopicMonitoringDelta)
    (a : MutatorArgs) :
    UpdatePublisherMonitoringMutator key_ delta_ a =
      if TopicMonitoringDelta.unchanged (UMap.find a.state_.publisher_monitoring key_)
          delta_ = true then a
      else
        { a with
          state_ := { a.state_ with
            publisher_monitoring := UMap.assign a.state_.publisher_monitoring key_ delta_ }
          changed_ := true } := by
  unfold UpdatePublisherMonitoringMutator
  cases hf : UMap.find a.state_.publisher_monitoring key_ with
  | none => simp [TopicMonitoringDelta.unchanged]
  | some r =>
    by_cases hc : r.same delta_ = true <;> simp [hc, TopicMonitoringDelta.unchanged]

theorem UpdatePublisherMonitoring_spec (key_ : EntityKey) (delta_ : TopicMonitoringDelta)
    (db : CEcalRegistrationDatabase) :
    (CEcalRegistrationDatabase.UpdatePublisherMonitoring key_ delta_ db).2.events = []
    ∧ (CEcalRegistrationDatabase.UpdatePublisherMonitoring key_ delta_ db).2.new_revision =
        (CEcalRegistrationDatabase.UpdatePublisherMonitoring key_ delta_
          db).1.current_state_.revision
    ∧ (CEcalRegistrationDatabase.UpdatePublisherMonitoring key_ delta_
          db).1.current_state_.revision =
        (if TopicMonitoringDelta.unchanged
            (UMap.find db.current_state_.publisher_monitoring key_) delta_ = true
          then db.current_state_.revision else (db.current_state_.revision + 1) % 2 ^ 64)
    ∧ (∀ key, UMap.find
          (CEcalRegistrationDatabase.UpdatePublisherMonitoring key_ delta_
            db).1.current_state_.publisher_monitoring key =
          if key = key_ then some delta_
          else UMap.find db.current_state_.publisher_monitoring key)
    ∧ (TopicMonitoringDelta.unchanged
          (UMap.find db.current_state_.publisher_monitoring key_) delta_ = true →
        (CEcalRegistrationDatabase.UpdatePublisherMonitoring key_ delta_ db).1 = db) := by
  unfold CEcalRegistrationDatabase.UpdatePublisherMonitoring
  rw [ApplyMutation_result, ApplyMutation_db, UpdatePublisherMonitoringMutator_eq]
  by_cases hu : TopicMonitoringDelta.unchanged
      (UMap.find db.current_state_.publisher_monitoring key_) delta_ = true
  · have hs := TopicMonitoringDelta_unchanged_eq hu
    rw [if_pos hu]
    refine ⟨rfl, rfl, ?_, ?_, fun _ => ?_⟩
    · simp [hu]
    · intro key
      by_cases hk : key = key_
      · subst hk; simp [hs]
      · simp [hk]
    · simp
  · rw [if_neg hu]
    refine ⟨rfl, rfl, ?_, ?_, fun h => absurd h hu⟩
    · simp [hu]
    · intro key
      simp [UMap.find_assign]

theorem RemovePublisher_spec (key_ : EntityKey) (db : CEcalRegistrationDatabase) :
    (UMap.find db.current_state_.publishers key_ = none →
      CEcalRegistrationDatabase.RemovePublisher key_ db
        = (db, { new_revision := db.current_state_.revision, events := [] }))
    ∧ (∀ r, UMap.find db.current_state_.publishers key_ = some r →
      (CEcalRegistrationDatabase.RemovePublisher key_ db).2 =
          { new_revision := (db.current_state_.revision + 1) % 2 ^ 64
            events := [⟨.deleted_entity, .publisher, key_⟩] }
      ∧ (CEcalRegistrationDatabase.RemovePublisher key_ db).1 =
          { current_state_ :=
              { db.current_state_ with
                revision := (db.current_state_.revision + 1) % 2 ^ 64
                members_by_process :=
                  RemoveMembership db.current_state_.members_by_process r.process_id
                    .publisher key_
                publishers := UMap.erase db.current_state_.publishers key_
                publisher_monitoring := UMap.erase db.current_state_.publisher_monitoring key_ }
            previous_revision_ := db.current_state_.revision }) := by
  unfold CEcalRegistrationDatabase.RemovePublisher ApplyMutation RemovePublisherMutator
  refine ⟨fun h => ?_, fun r h => ?_⟩
  · simp [h]
  · simp [h]

theorem AddOrUpdateSubscriberMutator_find (key_ : EntityKey) (delta_ : TopicRegistrationDelta)
    (a : MutatorArgs) (key : EntityKey) :
    UMap.find (AddOrUpdateSubscriberMutator key_ delta_ a).state_.subscribers key =
      if key = key_ then some delta_ else UMap.find a.state_.subscribers key := by
  unfold AddOrUpdateSubscriberMutator
  cases hf : UMap.find a.state_.subscribers key_ with
  | none => simp only [UMap.find_emplace _ _ _ _ hf]
  | some r =>
    simp only [← TopicRegistrationDelta_same_iff]
    by_cases hc : r.same delta_ = true
    · have hrd := TopicRegistrationDelta_same_eq hc
      subst hrd
      by_cases hk : key = key_
      · subst hk; simp [hf, hc]
      · simp [hk, hc]
    · simp [hc, UMap.find_assign]

theorem AddOrUpdateSubscriberMutator_events (key_ : EntityKey)
    (delta_ : TopicRegistrationDelta) (a : MutatorArgs) :
    (AddOrUpdateSubscriberMutator key_ delta_ a).events_ =
      a.events_ ++
        (match UMap.find a.state_.subscribers key_ with
          | none => [⟨.new_entity, .subscriber, key_⟩]
          | some r =>
            if r.same delta_ = true then [] else [⟨.updated_entity, .subscriber, key_⟩]) := by
  unfold AddOrUpdateSubscriberMutator
  cases hf : UMap.find a.state_.subscribers key_ with
  | none => rfl
  | some r =>
    simp only [← TopicRegistrationDelta_same_iff]
    by_cases hc : r.same delta_ = true <;> simp [hc]

theorem AddOrUpdateSubscriberMutator_changed (key_ : EntityKey)
    (delta_ : TopicRegistrationDelta) (a : MutatorArgs) :
    (AddOrUpdateSubscriberMutator key_ delta_ a).changed_ =
      (a.changed_
        || !TopicRegistrationDelta.unchanged (UMap.find a.state_.subscribers key_) delta_) := by
  unfold AddOrUpdateSubscriberMutator
  cases hf : UMap.find a.state_.subscribers key_ with
  | none => simp [TopicRegistrationDelta.unchanged]
  | some r =>
    simp only [← TopicRegistrationDelta_same_iff, TopicRegistrationDelta.unchanged]
    by_cases hc : r.same delta_ = true <;> simp [hc]

theorem AddOrUpdateSubscriberMutator_members (key_ : EntityKey)
    (delta_ : TopicRegistrationDelta) (a : MutatorArgs) :
    (AddOrUpdateSubscriberMutator key_ delta_ a).state_.members_by_process =
      (match UMap.find a.state_.subscribers key_ with
        | none => AddMembership a.state_.members_by_process delta_.process_id .subscriber key_
        | some r =>
          if r.process_id = delta_.process_id then a.state_.members_by_process
          else AddMembership
            (RemoveMembership a.state_.members_by_process r.process_id .subscriber key_)
            delta_.process_id .subscriber key_) := by
  unfold AddOrUpdateSubscriberMutator
  cases hf : UMap.find a.state_.subscribers key_ with
  | none => rfl
  | some r =>
    simp only [← TopicRegistrationDelta_same_iff]
    by_cases hc : r.same delta_ = true
    · have hrd := TopicRegistrationDelta_same_eq hc
      subst hrd; simp [hc]
    · by_cases hp : r.process_id = delta_.process_id <;> simp [hc, hp]

theorem AddOrUpdateSubscriberMutator_frame (key_ : EntityKey)
    (delta_ : TopicRegistrationDelta) (a : MutatorArgs) :
    (AddOrUpdateSubscriberMutator key_ delta_ a).state_ =
      { a.state_ with
        subscribers := (AddOrUpdateSubscriberMutator key_ delta_ a).state_.subscribers
        members_by_process :=
          (AddOrUpdateSubscriberMutator key_ delta_ a).state_.members_by_process } := by
  unfold AddOrUpdateSubscriberMutator
  cases hf : UMap.find a.state_.subscribers key_ with
  | none => rfl
  | some r =>
    simp only
    split <;> rfl


theorem AddOrUpdateSubscriber_spec (key_ : EntityKey) (delta_ : TopicRegistrationDelta)
    (db : CEcalRegistrationDatabase) :
    (CEcalRegistrationDatabase.AddOrUpdateSubscriber key_ delta_ db).2.events =
        (match UMap.find db.current_state_.subscribers key_ with
          | none => [⟨.new_entity, .subscriber, key_⟩]
          | some r =>
            if r.same delta_ = true then [] else [⟨.updated_entity, .subscriber, key_⟩])
    ∧ (CEcalRegistrationDatabase.AddOrUpdateSubscriber key_ delta_ db).2.new_revision =
        (CEcalRegistrationDatabase.AddOrUpdateSubscriber key_ delta_ db).1.current_state_.revision
    ∧ (CEcalRegistrationDatabase.AddOrUpdateSubscriber key_ delta_ db).1.current_state_.revision =
        (if TopicRegistrationDelta.unchanged (UMap.find db.current_state_.subscribers key_)
            delta_ = true
          then db.current_state_.revision else (db.current_state_.revision + 1) % 2 ^ 64)
    ∧ (∀ key, UMap.find
          (CEcalRegistrationDatabase.AddOrUpdateSubscriber key_ delta_ db).1.current_state_.subscribers
          key = if key = key_ then some delta_ else UMap.find db.current_state_.subscribers key)
    ∧ (TopicRegistrationDelta.unchanged (UMap.find db.current_state_.subscribers key_)
          delta_ = true →
        (CEcalRegistrationDatabase.AddOrUpdateSubscriber key_ delta_ db).1 = db)
    ∧ (CEcalRegistrationDatabase.AddOrUpdateSubscriber key_ delta_ db).1.current_state_.members_by_process =
        (match UMap.find db.current_state_.subscribers key_ with
          | none =>
            AddMembership db.current_state_.members_by_process delta_.process_id .subscriber key_
          | some r =>
            if r.process_id = delta_.process_id then db.current_state_.members_by_process
            else AddMembership
              (RemoveMembership db.current_state_.members_by_process r.process_id
                .subscriber key_)
              delta_.process_id .subscriber key_) := by
  have hch := AddOrUpdateSubscriberMutator_changed key_ delta_ ⟨db.current_state_, [], false⟩
  have hev := AddOrUpdateSubscriberMutator_events key_ delta_ ⟨db.current_state_, [], false⟩
  have hfind := AddOrUpdateSubscriberMutator_find key_ delta_ ⟨db.current_state_, [], false⟩
  have hmem := AddOrUpdateSubscriberMutator_members key_ delta_ ⟨db.current_state_, [], false⟩
  simp only [Bool.false_or, List.nil_append] at hch hev hfind hmem
  unfold CEcalRegistrationDatabase.AddOrUpdateSubscriber
  rw [ApplyMutation_result, ApplyMutation_db]
  by_cases hu : TopicRegistrationDelta.unchanged (UMap.find db.current_state_.subscribers key_)
      delta_ = true
  · have hs := TopicRegistrationDelta_unchanged_eq hu
    have hc : (AddOrUpdateSubscriberMutator key_ delta_ ⟨db.current_state_, [], false⟩).changed_
        = false := by rw [hch]; simp [hu]
    rw [if_pos hc]
    refine ⟨?_, rfl, ?_, ?_, fun _ => rfl, ?_⟩
    · show (AddOrUpdateSubscriberMutator key_ delta_ ⟨db.current_state_, [], false⟩).events_ = _
      rw [hev, hs]
    · simp [hu]
    · intro key
      by_cases hk : key = key_
      · subst hk; simp [hs]
      · simp [hk]
    · rw [hs]
      simp
  · have hc : ¬ (AddOrUpdateSubscriberMutator key_ delta_
        ⟨db.current_state_, [], false⟩).changed_ = false := by rw [hch]; simp [hu]
    rw [if_neg hc]
    refine ⟨hev, rfl, ?_, hfind, fun h => absurd h hu, hmem⟩
    simp [hu]

theorem UpdateSubscriberMonitoringMutator_eq (key_ : EntityKey) (delta_ : TopicMonitoringDelta)
    (a : MutatorArgs) :
    UpdateSubscriberMonitoringMutator key_ delta_ a =
      if TopicMonitoringDelta.unchanged (UMap.find a.state_.subscriber_monitoring key_)
          delta_ = true then a
      else
        { a with
          state_ := { a.state_ with
            subscriber_monitoring := UMap.assign a.state_.subscriber_monitoring key_ delta_ }
          changed_ := true } := by
  unfold UpdateSubscriberMonitoringMutator
  cases hf : UMap.find a.state_.subscriber_monitoring key_ with
  | none => simp [TopicMonitoringDelta.unchanged]
  | some r =>
    by_cases hc : r.same delta_ = true <;> simp [hc, TopicMonitoringDelta.unchanged]

theorem UpdateSubscriberMonitoring_spec (key_ : EntityKey) (delta_ : TopicMonitoringDelta)
    (db : CEcalRegistrationDatabase) :
    (CEcalRegistrationDatabase.UpdateSubscriberMonitoring key_ delta_ db).2.events = []
    ∧ (CEcalRegistrationDatabase.UpdateSubscriberMonitoring key_ delta_ db).2.new_revision =
        (CEcalRegistrationDatabase.UpdateSubscriberMonitoring key_ delta_
          db).1.current_state_.revision
    ∧ (CEcalRegistrationDatabase.UpdateSubscriberMonitoring key_ delta_
          db).1.current_state_.revision =
        (if TopicMonitoringDelta.unchanged
            (UMap.find db.current_state_.subscriber_monitoring key_) delta_ = true
          then db.current_state_.revision else (db.current_state_.revision + 1) % 2 ^ 64)
    ∧ (∀ key, UMap.find
          (CEcalRegistrationDatabase.UpdateSubscriberMonitoring key_ delta_
            db).1.current_state_.subscriber_monitoring key =
          if key = key_ then some delta_
          else UMap.find db.current_state_.subscriber_monitoring key)
    ∧ (TopicMonitoringDelta.unchanged
          (UMap.find db.current_state_.subscriber_monitoring key_) delta_ = true →
        (CEcalRegistrationDatabase.UpdateSubscriberMonitoring key_ delta_ db).1 = db) := by
  unfold CEcalRegistrationDatabase.UpdateSubscriberMonitoring
  rw [ApplyMutation_result, ApplyMutation_db, UpdateSubscriberMonitoringMutator_eq]
  by_cases hu : TopicMonitoringDelta.unchanged
      (UMap.find db.current_state_.subscriber_monitoring key_) delta_ = true
  · have hs := TopicMonitoringDelta_unchanged_eq hu
    rw [if_pos hu]
    refine ⟨rfl, rfl, ?_, ?_, fun _ => ?_⟩
    · simp [hu]
    · intro key
      by_cases hk : key = key_
      · subst hk; simp [hs]
      · simp [hk]
    · simp
  · rw [if_neg hu]
    refine ⟨rfl, rfl, ?_, ?_, fun h => absurd h hu⟩
    · simp [hu]
    · intro key
      simp [UMap.find_assign]

theorem RemoveSubscriber_spec (key_ : EntityKey) (db : CEcalRegistrationDatabase) :
    (UMap.find db.current_state_.subscribers key_ = none →
      CEcalRegistrationDatabase.RemoveSubscriber key_ db
        = (db, { new_revision := db.current_state_.revision, events := [] }))
    ∧ (∀ r, UMap.find db.current_state_.subscribers key_ = some r →
      (CEcalRegistrationDatabase.RemoveSubscriber key_ db).2 =
          { new_revision := (db.current_state_.revision + 1) % 2 ^ 64
            events := [⟨.deleted_entity, .subscriber, key_⟩] }
      ∧ (CEcalRegistrationDatabase.RemoveSubscriber key_ db).1 =
          { current_state_ :=
              { db.current_state_ with
                revision := (db.current_state_.revision + 1) % 2 ^ 64
                members_by_process :=
                  RemoveMembership db.current_state_.members_by_process r.process_id
                    .subscriber key_
                subscribers := UMap.erase db.current_state_.subscribers key_
                subscriber_monitoring := UMap.erase db.current_state_.subscriber_monitoring key_ }
            previous_revision_ := db.current_state_.revision }) := by
  unfold CEcalRegistrationDatabase.RemoveSubscriber ApplyMutation RemoveSubscriberMutator
  refine ⟨fun h => ?_, fun r h => ?_⟩
  · simp [h]
  · simp [h]

theorem AddOrUpdateServerMutator_find (key_ : EntityKey) (delta_ : ServiceRegistrationDelta)
    (a : MutatorArgs) (key : EntityKey) :
    UMap.find (AddOrUpdateServerMutator key_ delta_ a).state_.servers key =
      if key = key_ then some delta_ else UMap.find a.state_.servers key := by
  unfold AddOrUpdateServerMutator
  cases hf : UMap.find a.state_.servers key_ with
  | none => simp only [UMap.find_emplace _ _ _ _ hf]
  | some r =>
    simp only [ServiceRegistrationDelta_eq_iff]
    by_cases hc : r = delta_
    · subst hc
      by_cases hk : key = key_
      · subst hk; simp [hf]
      · simp [hk]
    · simp only [hc, not_false_eq_true, if_true, UMap.find_assign]

theorem AddOrUpdateServerMutator_events (key_ : EntityKey)
    (delta_ : ServiceRegistrationDelta) (a : MutatorArgs) :
    (AddOrUpdateServerMutator key_ delta_ a).events_ =
      a.events_ ++
        (match UMap.find a.state_.servers key_ with
          | none => [⟨.new_entity, .server, key_⟩]
          | some r => if r = delta_ then [] else [⟨.updated_entity, .server, key_⟩]) := by
  unfold AddOrUpdateServerMutator
  cases hf : UMap.find a.state_.servers key_ with
  | none => rfl
  | some r =>
    simp only [ServiceRegistrationDelta_eq_iff]
    by_cases hc : r = delta_ <;> simp [hc]

theorem AddOrUpdateServerMutator_changed (key_ : EntityKey)
    (delta_ : ServiceRegistrationDelta) (a : MutatorArgs) :
    (AddOrUpdateServerMutator key_ delta_ a).changed_ =
      (a.changed_ || decide (UMap.find a.state_.servers key_ ≠ some delta_)) := by
  unfold AddOrUpdateServerMutator
  cases hf : UMap.find a.state_.servers key_ with
  | none => simp
  | some r =>
    simp only [ServiceRegistrationDelta_eq_iff]
    by_cases hc : r = delta_ <;> simp [hc]

theorem AddOrUpdateServerMutator_members (key_ : EntityKey)
    (delta_ : ServiceRegistrationDelta) (a : MutatorArgs) :
    (AddOrUpdateServerMutator key_ delta_ a).state_.members_by_process =
      (match UMap.find a.state_.servers key_ with
        | none => AddMembership a.state_.members_by_process delta_.process_id .server key_
        | some r =>
          if r.process_id = delta_.process_id then a.state_.members_by_process
          else AddMembership
            (RemoveMembership a.state_.members_by_process r.process_id .server key_)
            delta_.process_id .server key_) := by
  unfold AddOrUpdateServerMutator
  cases hf : UMap.find a.state_.servers key_ with
  | none => rfl
  | some r =>
    simp only [ServiceRegistrationDelta_eq_iff]
    by_cases hc : r = delta_
    · subst hc; simp
    · by_cases hp : r.process_id = delta_.process_id <;> simp [hc, hp]

theorem AddOrUpdateServerMutator_frame (key_ : EntityKey)
    (delta_ : ServiceRegistrationDelta) (a : MutatorArgs) :
    (AddOrUpdateServerMutator key_ delta_ a).state_ =
      { a.state_ with
        servers := (AddOrUpdateServerMutator key_ delta_ a).state_.servers
        members_by_process :=
          (AddOrUpdateServerMutator key_ delta_ a).state_.members_by_process } := by
  unfold AddOrUpdateServerMutator
  cases hf : UMap.find a.state_.servers key_ with
  | none => rfl
  | some r =>
    simp only
    split <;> rfl


theorem AddOrUpdateServer_spec (key_ : EntityKey) (delta_ : ServiceRegistrationDelta)
    (db : CEcalRegistrationDatabase) :
    (CEcalRegistrationDatabase.AddOrUpdateServer key_ delta_ db).2.events =
        (match UMap.find db.current_state_.servers key_ with
          | none => [⟨.new_entity, .server, key_⟩]
          | some r => if r = delta_ then [] else [⟨.updated_entity, .server, key_⟩])
    ∧ (CEcalRegistrationDatabase.AddOrUpdateServer key_ delta_ db).2.new_revision =
        (CEcalRegistrationDatabase.AddOrUpdateServer key_ delta_ db).1.current_state_.revision
    ∧ (CEcalRegistrationDatabase.AddOrUpdateServer key_ delta_ db).1.current_state_.revision =
        (if UMap.find db.current_state_.servers key_ = some delta_
          then db.current_state_.revision else (db.current_state_.revision + 1) % 2 ^ 64)
    ∧ (∀ key, UMap.find
          (CEcalRegistrationDatabase.AddOrUpdateServer key_ delta_ db).1.current_state_.servers
          key = if key = key_ then some delta_ else UMap.find db.current_state_.servers key)
    ∧ (UMap.find db.current_state_.servers key_ = some delta_ →
        (CEcalRegistrationDatabase.AddOrUpdateServer key_ delta_ db).1 = db)
    ∧ (CEcalRegistrationDatabase.AddOrUpdateServer key_ delta_ db).1.current_state_.members_by_process =
        (match UMap.find db.current_state_.servers key_ with
          | none =>
            AddMembership db.current_state_.members_by_process delta_.process_id .server key_
          | some r =>
            if r.process_id = delta_.process_id then db.current_state_.members_by_process
            else AddMembership
              (RemoveMembership db.current_state_.members_by_process r.process_id
                .server key_)
              delta_.process_id .server key_) := by
  have hch := AddOrUpdateServerMutator_changed key_ delta_ ⟨db.current_state_, [], false⟩
  have hev := AddOrUpdateServerMutator_events key_ delta_ ⟨db.current_state_, [], false⟩
  have hfind := AddOrUpdateServerMutator_find key_ delta_ ⟨db.current_state_, [], false⟩
  have hmem := AddOrUpdateServerMutator_members key_ delta_ ⟨db.current_state_, [], false⟩
  simp only [Bool.false_or, List.nil_append] at hch hev hfind hmem
  unfold CEcalRegistrationDatabase.AddOrUpdateServer
  rw [ApplyMutation_result, ApplyMutation_db]
  by_cases hs : UMap.find db.current_state_.servers key_ = some delta_
  · have hc : (AddOrUpdateServerMutator key_ delta_ ⟨db.current_state_, [], false⟩).changed_
        = false := by rw [hch]; simp [hs]
    rw [if_pos hc]
    refine ⟨?_, rfl, ?_, ?_, fun _ => rfl, ?_⟩
    · show (AddOrUpdateServerMutator key_ delta_ ⟨db.current_state_, [], false⟩).events_ = _
      rw [hev, hs]
    · simp [hs]
    · intro key
      by_cases hk : key = key_
      · subst hk; simp [hs]
      · simp [hk]
    · rw [hs]
      simp
  · have hc : ¬ (AddOrUpdateServerMutator key_ delta_
        ⟨db.current_state_, [], false⟩).changed_ = false := by rw [hch]; simp [hs]
    rw [if_neg hc]
    refine ⟨hev, rfl, ?_, hfind, fun h => absurd h hs, hmem⟩
    simp [hs]

theorem UpdateServerMonitoringMutator_eq (key_ : EntityKey) (delta_ : ServiceMonitoringDelta)
    (a : MutatorArgs) :
    UpdateServerMonitoringMutator key_ delta_ a =
      if UMap.find a.state_.server_monitoring key_ = some delta_ then a
      else
        { a with
          state_ := { a.state_ with
            server_monitoring := UMap.assign a.state_.server_monitoring key_ delta_ }
          changed_ := true } := by
  unfold UpdateServerMonitoringMutator
  cases hf : UMap.find a.state_.server_monitoring key_ with
  | none => simp
  | some r =>
    by_cases hc : r = delta_
    · subst hc
      simp
    · have hs : r.registration_clock ≠ delta_.registration_clock := by
        intro h
        apply hc
        cases r; cases delta_
        simpa using h
      simp [hs, hc]

theorem UpdateServerMonitoring_spec (key_ : EntityKey) (delta_ : ServiceMonitoringDelta)
    (db : CEcalRegistrationDatabase) :
    (CEcalRegistrationDatabase.UpdateServerMonitoring key_ delta_ db).2.events = []
    ∧ (CEcalRegistrationDatabase.UpdateServerMonitoring key_ delta_ db).2.new_revision =
        (CEcalRegistrationDatabase.UpdateServerMonitoring key_ delta_
          db).1.current_state_.revision
    ∧ (CEcalRegistrationDatabase.UpdateServerMonitoring key_ delta_
          db).1.current_state_.revision =
        (if UMap.find db.current_state_.server_monitoring key_ = some delta_
          then db.current_state_.revision else (db.current_state_.revision + 1) % 2 ^ 64)
    ∧ (∀ key, UMap.find
          (CEcalRegistrationDatabase.UpdateServerMonitoring key_ delta_
            db).1.current_state_.server_monitoring key =
          if key = key_ then some delta_
          else UMap.find db.current_state_.server_monitoring key)
    ∧ (UMap.find db.current_state_.server_monitoring key_ = some delta_ →
        (CEcalRegistrationDatabase.UpdateServerMonitoring key_ delta_ db).1 = db) := by
  unfold CEcalRegistrationDatabase.UpdateServerMonitoring
  rw [ApplyMutation_result, ApplyMutation_db, UpdateServerMonitoringMutator_eq]
  by_cases hs : UMap.find db.current_state_.server_monitoring key_ = some delta_
  · rw [if_pos hs]
    refine ⟨rfl, rfl, ?_, ?_, fun _ => ?_⟩
    · simp [hs]
    · intro key
      by_cases hk : key = key_
      · subst hk; simp [hs]
      · simp [hk]
    · simp [hs]
  · rw [if_neg hs]
    refine ⟨rfl, rfl, ?_, ?_, fun h => absurd h hs⟩
    · simp [hs]
    · intro key
      simp [UMap.find_assign]

theorem RemoveServer_spec (key_ : EntityKey) (db : CEcalRegistrationDatabase) :
    (UMap.find db.current_state_.servers key_ = none →
      CEcalRegistrationDatabase.RemoveServer key_ db
        = (db, { new_revision := db.current_state_.revision, events := [] }))
    ∧ (∀ r, UMap.find db.current_state_.servers key_ = some r →
      (CEcalRegistrationDatabase.RemoveServer key_ db).2 =
          { new_revision := (db.current_state_.revision + 1) % 2 ^ 64
            events := [⟨.deleted_entity, .server, key_⟩] }
      ∧ (CEcalRegistrationDatabase.RemoveServer key_ db).1 =
          { current_state_ :=
              { db.current_state_ with
                revision := (db.current_state_.revision + 1) % 2 ^ 64
                members_by_process :=
                  RemoveMembership db.current_state_.members_by_process r.process_id
                    .server key_
                servers := UMap.erase db.current_state_.servers key_
                server_monitoring := UMap.erase db.current_state_.server_monitoring key_ }
            previous_revision_ := db.current_state_.revision }) := by
  unfold CEcalRegistrationDatabase.RemoveServer ApplyMutation RemoveServerMutator
  refine ⟨fun h => ?_, fun r h => ?_⟩
  · simp [h]
  · simp [h]

theorem AddOrUpdateClientMutator_find (key_ : EntityKey) (delta_ : ClientRegistrationDelta)
    (a : MutatorArgs) (key : EntityKey) :
    UMap.find (AddOrUpdateClientMutator key_ delta_ a).state_.clients key =
      if key = key_ then some delta_ else UMap.find a.state_.clients key := by
  unfold AddOrUpdateClientMutator
  cases hf : UMap.find a.state_.clients key_ with
  | none => simp only [UMap.find_emplace _ _ _ _ hf]
  | some r =>
    simp only [ClientRegistrationDelta_eq_iff]
    by_cases hc : r = delta_
    · subst hc
      by_cases hk : key = key_
      · subst hk; simp [hf]
      · simp [hk]
    · simp only [hc, not_false_eq_true, if_true, UMap.find_assign]

theorem AddOrUpdateClientMutator_events (key_ : EntityKey)
    (delta_ : ClientRegistrationDelta) (a : MutatorArgs) :
    (AddOrUpdateClientMutator key_ delta_ a).events_ =
      a.events_ ++
        (match UMap.find a.state_.clients key_ with
          | none => [⟨.new_entity, .client, key_⟩]
          | some r => if r = delta_ then [] else [⟨.updated_entity, .client, key_⟩]) := by
  unfold AddOrUpdateClientMutator
  cases hf : UMap.find a.state_.clients key_ with
  | none => rfl
  | some r =>
    simp only [ClientRegistrationDelta_eq_iff]
    by_cases hc : r = delta_ <;> simp [hc]

theorem AddOrUpdateClientMutator_changed (key_ : EntityKey)
    (delta_ : ClientRegistrationDelta) (a : MutatorArgs) :
    (AddOrUpdateClientMutator key_ delta_ a).changed_ =
      (a.changed_ || decide (UMap.find a.state_.clients key_ ≠ some delta_)) := by
  unfold AddOrUpdateClientMutator
  cases hf : UMap.find a.state_.clients key_ with
  | none => simp
  | some r =>
    simp only [ClientRegistrationDelta_eq_iff]
    by_cases hc : r = delta_ <;> simp [hc]

theorem AddOrUpdateClientMutator_members (key_ : EntityKey)
    (delta_ : ClientRegistrationDelta) (a : MutatorArgs) :
    (AddOrUpdateClientMutator key_ delta_ a).state_.members_by_process =
      (match UMap.find a.state_.clients key_ with
        | none => AddMembership a.state_.members_by_process delta_.process_id .client key_
        | some r =>
          if r.process_id = delta_.process_id then a.state_.members_by_process
          else AddMembership
            (RemoveMembership a.state_.members_by_process r.process_id .client key_)
            delta_.process_id .client key_) := by
  unfold AddOrUpdateClientMutator
  cases hf : UMap.find a.state_.clients key_ with
  | none => rfl
  | some r =>
    simp only [ClientRegistrationDelta_eq_iff]
    by_cases hc : r = delta_
    · subst hc; simp
    · by_cases hp : r.process_id = delta_.process_id <;> simp [hc, hp]

theorem AddOrUpdateClientMutator_frame (key_ : EntityKey)
    (delta_ : ClientRegistrationDelta) (a : MutatorArgs) :
    (AddOrUpdateClientMutator key_ delta_ a).state_ =
      { a.state_ with
        clients := (AddOrUpdateClientMutator key_ delta_ a).state_.clients
        members_by_process :=
          (AddOrUpdateClientMutator key_ delta_ a).state_.members_by_process } := by
  unfold AddOrUpdateClientMutator
  cases hf : UMap.find a.state_.clients key_ with
  | none => rfl
  | some r =>
    simp only
    split <;> rfl


theorem AddOrUpdateClient_spec (key_ : EntityKey) (delta_ : ClientRegistrationDelta)
    (db : CEcalRegistrationDatabase) :
    (CEcalRegistrationDatabase.AddOrUpdateClient key_ delta_ db).2.events =
        (match UMap.find db.current_state_.clients key_ with
          | none => [⟨.new_entity, .client, key_⟩]
          | some r => if r = delta_ then [] else [⟨.updated_entity, .client, key_⟩])
    ∧ (CEcalRegistrationDatabase.AddOrUpdateClient key_ delta_ db).2.new_revision =
        (CEcalRegistrationDatabase.AddOrUpdateClient key_ delta_ db).1.current_state_.revision
    ∧ (CEcalRegistrationDatabase.AddOrUpdateClient key_ delta_ db).1.current_state_.revision =
        (if UMap.find db.current_state_.clients key_ = some delta_
          then db.current_state_.revision else (db.current_state_.revision + 1) % 2 ^ 64)
    ∧ (∀ key, UMap.find
          (CEcalRegistrationDatabase.AddOrUpdateClient key_ delta_ db).1.current_state_.clients
          key = if key = key_ then some delta_ else UMap.find db.current_state_.clients key)
    ∧ (UMap.find db.current_state_.clients key_ = some delta_ →
        (CEcalRegistrationDatabase.AddOrUpdateClient key_ delta_ db).1 = db)
    ∧ (CEcalRegistrationDatabase.AddOrUpdateClient key_ delta_ db).1.current_state_.members_by_process =
        (match UMap.find db.current_state_.clients key_ with
          | none =>
            AddMembership db.current_state_.members_by_process delta_.process_id .client key_
          | some r =>
            if r.process_id = delta_.process_id then db.current_state_.members_by_process
            else AddMembership
              (RemoveMembership db.current_state_.members_by_process r.process_id
                .client key_)
              delta_.process_id .client key_) := by
  have hch := AddOrUpdateClientMutator_changed key_ delta_ ⟨db.current_state_, [], false⟩
  have hev := AddOrUpdateClientMutator_events key_ delta_ ⟨db.current_state_, [], false⟩
  have hfind := AddOrUpdateClientMutator_find key_ delta_ ⟨db.current_state_, [], false⟩
  have hmem := AddOrUpdateClientMutator_members key_ delta_ ⟨db.current_state_, [], false⟩
  simp only [Bool.false_or, List.nil_append] at hch hev hfind hmem
  unfold CEcalRegistrationDatabase.AddOrUpdateClient
  rw [ApplyMutation_result, ApplyMutation_db]
  by_cases hs : UMap.find db.current_state_.clients key_ = some delta_
  · have hc : (AddOrUpdateClientMutator key_ delta_ ⟨db.current_state_, [], false⟩).changed_
        = false := by rw [hch]; simp [hs]
    rw [if_pos hc]
    refine ⟨?_, rfl, ?_, ?_, fun _ => rfl, ?_⟩
    · show (AddOrUpdateClientMutator key_ delta_ ⟨db.current_state_, [], false⟩).events_ = _
      rw [hev, hs]
    · simp [hs]
    · intro key
      by_cases hk : key = key_
      · subst hk; simp [hs]
      · simp [hk]
    · rw [hs]
      simp
  · have hc : ¬ (AddOrUpdateClientMutator key_ delta_
        ⟨db.current_state_, [], false⟩).changed_ = false := by rw [hch]; simp [hs]
    rw [if_neg hc]
    refine ⟨hev, rfl, ?_, hfind, fun h => absurd h hs, hmem⟩
    simp [hs]

theorem UpdateClientMonitoringMutator_eq (key_ : EntityKey) (delta_ : ClientMonitoringDelta)
    (a : MutatorArgs) :
    UpdateClientMonitoringMutator key_ delta_ a =
      if UMap.find a.state_.client_monitoring key_ = some delta_ then a
      else
        { a with
          state_ := { a.state_ with
            client_monitoring := UMap.assign a.state_.client_monitoring key_ delta_ }
          changed_ := true } := by
  unfold UpdateClientMonitoringMutator
  cases hf : UMap.find a.state_.client_monitoring key_ with
  | none => simp
  | some r =>
    by_cases hc : r = delta_
    · subst hc
      simp
    · have hs : r.registration_clock ≠ delta_.registration_clock := by
        intro h
        apply hc
        cases r; cases delta_
        simpa using h
      simp [hs, hc]

theorem UpdateClientMonitoring_spec (key_ : EntityKey) (delta_ : ClientMonitoringDelta)
    (db : CEcalRegistrationDatabase) :
    (CEcalRegistrationDatabase.UpdateClientMonitoring key_ delta_ db).2.events = []
    ∧ (CEcalRegistrationDatabase.UpdateClientMonitoring key_ delta_ db).2.new_revision =
        (CEcalRegistrationDatabase.UpdateClientMonitoring key_ delta_
          db).1.current_state_.revision
    ∧ (CEcalRegistrationDatabase.UpdateClientMonitoring key_ delta_
          db).1.current_state_.revision =
        (if UMap.find db.current_state_.client_monitoring key_ = some delta_
          then db.current_state_.revision else (db.current_state_.revision + 1) % 2 ^ 64)
    ∧ (∀ key, UMap.find
          (CEcalRegistrationDatabase.UpdateClientMonitoring key_ delta_
            db).1.current_state_.client_monitoring key =
          if key = key_ then some delta_
          else UMap.find db.current_state_.client_monitoring key)
    ∧ (UMap.find db.current_state_.client_monitoring key_ = some delta_ →
        (CEcalRegistrationDatabase.UpdateClientMonitoring key_ delta_ db).1 = db) := by
  unfold CEcalRegistrationDatabase.UpdateClientMonitoring
  rw [ApplyMutation_result, ApplyMutation_db, UpdateClientMonitoringMutator_eq]
  by_cases hs : UMap.find db.current_state_.client_monitoring key_ = some delta_
  · rw [if_pos hs]
    refine ⟨rfl, rfl, ?_, ?_, fun _ => ?_⟩
    · simp [hs]
    · intro key
      by_cases hk : key = key_
      · subst hk; simp [hs]
      · simp [hk]
    · simp [hs]
  · rw [if_neg hs]
    refine ⟨rfl, rfl, ?_, ?_, fun h => absurd h hs⟩
    · simp [hs]
    · intro key
      simp [UMap.find_assign]

theorem RemoveClient_spec (key_ : EntityKey) (db : CEcalRegistrationDatabase) :
    (UMap.find db.current_state_.clients key_ = none →
      CEcalRegistrationDatabase.RemoveClient key_ db
        = (db, { new_revision := db.current_state_.revision, events := [] }))
    ∧ (∀ r, UMap.find db.current_state_.clients key_ = some r →
      (CEcalRegistrationDatabase.RemoveClient key_ db).2 =
          { new_revision := (db.current_state_.revision + 1) % 2 ^ 64
            events := [⟨.deleted_entity, .client, key_⟩] }
      ∧ (CEcalRegistrationDatabase.RemoveClient key_ db).1 =
          { current_state_ :=
              { db.current_state_ with
                revision := (db.current_state_.revision + 1) % 2 ^ 64
                members_by_process :=
                  RemoveMembership db.current_state_.members_by_process r.process_id
                    .client key_
                clients := UMap.erase db.current_state_.clients key_
                client_monitoring := UMap.erase db.current_state_.client_monitoring key_ }
            previous_revision_ := db.current_state_.revision }) := by
  unfold CEcalRegistrationDatabase.RemoveClient ApplyMutation RemoveClientMutator
  refine ⟨fun h => ?_, fun r h => ?_⟩
  · simp [h]
  · simp [h]


theorem ProcessRegistrationDelta_eq_iff (x y : ProcessRegistrationDelta) :
    (x.process = y.process ∧ x.host_name = y.host_name) ↔ x = y := by
  cases x; cases y
  simp only [ProcessRegistrationDelta.mk.injEq]

theorem ProcessMonitoringDelta_eq_iff (x y : ProcessMonitoringDelta) :
    (x.state = y.state ∧ x.time_sync_state = y.time_sync_state) ↔ x = y := by
  cases x; cases y
  simp only [ProcessMonitoringDelta.mk.injEq]

theorem AddOrUpdateProcessMutator_eq (key_ : ProcessKey) (delta_ : ProcessRegistrationDelta)
    (a : MutatorArgs) :
    AddOrUpdateProcessMutator key_ delta_ a =
      (match UMap.find a.state_.processes key_ with
        | none =>
          { state_ := EnsureProcessMembership
              { a.state_ with processes := UMap.emplace a.state_.processes key_ delta_ } key_
            events_ := a.events_ ++ [⟨.new_entity, .process, processEntityKey key_⟩]
            changed_ := true }
        | some r =>
          if r = delta_ then a
          else
            { state_ := { a.state_ with
                processes := UMap.assign a.state_.processes key_ delta_ }
              events_ := a.events_ ++ [⟨.updated_entity, .process, processEntityKey key_⟩]
              changed_ := true }) := by
  unfold AddOrUpdateProcessMutator
  cases hf : UMap.find a.state_.processes key_ with
  | none => rfl
  | some r =>
    simp only [ProcessRegistrationDelta_eq_iff]
    by_cases hc : r = delta_ <;> simp [hc]

theorem AddOrUpdateProcess_spec (key_ : ProcessKey) (delta_ : ProcessRegistrationDelta)
    (db : CEcalRegistrationDatabase) :
    (CEcalRegistrationDatabase.AddOrUpdateProcess key_ delta_ db).2.events =
        (match UMap.find db.current_state_.processes key_ with
          | none => [⟨.new_entity, .process, processEntityKey key_⟩]
          | some r =>
            if r = delta_ then [] else [⟨.updated_entity, .process, processEntityKey key_⟩])
    ∧ (CEcalRegistrationDatabase.AddOrUpdateProcess key_ delta_ db).2.new_revision =
        (CEcalRegistrationDatabase.AddOrUpdateProcess key_ delta_ db).1.current_state_.revision
    ∧ (CEcalRegistrationDatabase.AddOrUpdateProcess key_ delta_ db).1.current_state_.revision =
        (if UMap.find db.current_state_.processes key_ = some delta_
          then db.current_state_.revision else (db.current_state_.revision + 1) % 2 ^ 64)
    ∧ (∀ P, UMap.find
          (CEcalRegistrationDatabase.AddOrUpdateProcess key_ delta_ db).1.current_state_.processes
          P = if P = key_ then some delta_ else UMap.find db.current_state_.processes P)
    ∧ (UMap.find db.current_state_.processes key_ = some delta_ →
        (CEcalRegistrationDatabase.AddOrUpdateProcess key_ delta_ db).1 = db)
    ∧ (CEcalRegistrationDatabase.AddOrUpdateProcess key_ delta_
          db).1.current_state_.members_by_process =
        (match UMap.find db.current_state_.processes key_ with
          | none =>
            (match UMap.find db.current_state_.members_by_process key_ with
              | none => UMap.emplace db.current_state_.members_by_process key_ {}
              | some _ => db.current_state_.members_by_process)
          | some _ => db.current_state_.members_by_process) := by
  unfold CEcalRegistrationDatabase.AddOrUpdateProcess
  rw [ApplyMutation_result, ApplyMutation_db, AddOrUpdateProcessMutator_eq]
  cases hf : UMap.find db.current_state_.processes key_ with
  | none =>
    cases hb : UMap.find db.current_state_.members_by_process key_ <;>
      (refine ⟨?_, ?_, ?_, ?_, ?_, ?_⟩ <;>
        simp [EnsureProcessMembership, hb, UMap.find_emplace _ _ _ _ hf])
  | some r =>
    by_cases hc : r = delta_
    · subst hc
      refine ⟨?_, ?_, ?_, ?_, ?_, ?_⟩ <;> simp
      intro P
      by_cases hP : P = key_
      · subst hP; simp [hf]
      · simp [hP]
    · refine ⟨?_, ?_, ?_, ?_, ?_, ?_⟩ <;> simp [hc, UMap.find_assign]

theorem UpdateProcessMonitoringMutator_eq (key_ : ProcessKey) (delta_ : ProcessMonitoringDelta)
    (a : MutatorArgs) :
    UpdateProcessMonitoringMutator key_ delta_ a =
      if UMap.find a.state_.process_monitoring key_ = some delta_ then a
      else
        { a with
          state_ := { a.state_ with
            process_monitoring := UMap.assign a.state_.process_monitoring key_ delta_ }
          changed_ := true } := by
  unfold UpdateProcessMonitoringMutator
  cases hf : UMap.find a.state_.process_monitoring key_ with
  | none => simp
  | some r =>
    simp only [ProcessMonitoringDelta_eq_iff]
    by_cases hc : r = delta_ <;> simp [hc]

theorem UpdateProcessMonitoring_spec (key_ : ProcessKey) (delta_ : ProcessMonitoringDelta)
    (db : CEcalRegistrationDatabase) :
    (CEcalRegistrationDatabase.UpdateProcessMonitoring key_ delta_ db).2.events = []
    ∧ (CEcalRegistrationDatabase.UpdateProcessMonitoring key_ delta_ db).2.new_revision =
        (CEcalRegistrationDatabase.UpdateProcessMonitoring key_ delta_
          db).1.current_state_.revision
    ∧ (CEcalRegistrationDatabase.UpdateProcessMonitoring key_ delta_
          db).1.current_state_.revision =
        (if UMap.find db.current_state_.process_monitoring key_ = some delta_
          then db.current_state_.revision else (db.current_state_.revision + 1) % 2 ^ 64)
    ∧ (∀ key, UMap.find
          (CEcalRegistrationDatabase.UpdateProcessMonitoring key_ delta_
            db).1.current_state_.process_monitoring key =
          if key = key_ then some delta_
          else UMap.find db.current_state_.process_monitoring key)
    ∧ (UMap.find db.current_state_.process_monitoring key_ = some delta_ →
        (CEcalRegistrationDatabase.UpdateProcessMonitoring key_ delta_ db).1 = db) := by
  unfold CEcalRegistrationDatabase.UpdateProcessMonitoring
  rw [ApplyMutation_result, ApplyMutation_db, UpdateProcessMonitoringMutator_eq]
  by_cases hs : UMap.find db.current_state_.process_monitoring key_ = some delta_
  · rw [if_pos hs]
    refine ⟨rfl, rfl, ?_, ?_, fun _ => ?_⟩
    · simp [hs]
    · intro key
      by_cases hk : key = key_
      · subst hk; simp [hs]
      · simp [hk]
    · simp [hs]
  · rw [if_neg hs]
    refine ⟨rfl, rfl, ?_, ?_, fun h => absurd h hs⟩
    · simp [hs]
    · intro key
      simp [UMap.find_assign]


/-! ## Typed mutations: re-announcement, monitoring, removal -/

theorem AddOrUpdateProcess_twice (key_ : ProcessKey) (delta_ : ProcessRegistrationDelta)
    (db : CEcalRegistrationDatabase) :
    (CEcalRegistrationDatabase.AddOrUpdateProcess key_ delta_
        (CEcalRegistrationDatabase.AddOrUpdateProcess key_ delta_ db).1).2.new_revision
      = (CEcalRegistrationDatabase.AddOrUpdateProcess key_ delta_ db).2.new_revision
    ∧ (CEcalRegistrationDatabase.AddOrUpdateProcess key_ delta_
        (CEcalRegistrationDatabase.AddOrUpdateProcess key_ delta_ db).1).2.events = []
    ∧ (CEcalRegistrationDatabase.AddOrUpdateProcess key_ delta_
        (CEcalRegistrationDatabase.AddOrUpdateProcess key_ delta_ db).1).1
      = (CEcalRegistrationDatabase.AddOrUpdateProcess key_ delta_ db).1 := by
  obtain ⟨-, hrev₁, -, hfind₁, -, -⟩ := AddOrUpdateProcess_spec key_ delta_ db
  have hstored := hfind₁ key_
  rw [if_pos rfl] at hstored
  obtain ⟨hev₂, hrev₂, -, -, hsame₂, -⟩ := AddOrUpdateProcess_spec key_ delta_
    (CEcalRegistrationDatabase.AddOrUpdateProcess key_ delta_ db).1
  have hdb := hsame₂ hstored
  refine ⟨?_, ?_, hdb⟩
  · rw [hrev₂, hdb, hrev₁]
  · rw [hev₂, hstored]
    simp

theorem AddOrUpdatePublisher_twice (key_ : EntityKey) (delta_ : TopicRegistrationDelta)
    (db : CEcalRegistrationDatabase) (hd : delta_.topic.equal delta_.topic = true) :
    (CEcalRegistrationDatabase.AddOrUpdatePublisher key_ delta_
        (CEcalRegistrationDatabase.AddOrUpdatePublisher key_ delta_ db).1).2.new_revision
      = (CEcalRegistrationDatabase.AddOrUpdatePublisher key_ delta_ db).2.new_revision
    ∧ (CEcalRegistrationDatabase.AddOrUpdatePublisher key_ delta_
        (CEcalRegistrationDatabase.AddOrUpdatePublisher key_ delta_ db).1).2.events = []
    ∧ (CEcalRegistrationDatabase.AddOrUpdatePublisher key_ delta_
        (CEcalRegistrationDatabase.AddOrUpdatePublisher key_ delta_ db).1).1
      = (CEcalRegistrationDatabase.AddOrUpdatePublisher key_ delta_ db).1 := by
  obtain ⟨-, hrev₁, -, hfind₁, -, -⟩ := AddOrUpdatePublisher_spec key_ delta_ db
  have hstored := hfind₁ key_
  rw [if_pos rfl] at hstored
  have hself : delta_.same delta_ = true :=
    (TopicRegistrationDelta_same_iff delta_ delta_).mpr ⟨hd, rfl, rfl⟩
  obtain ⟨hev₂, hrev₂, -, -, hsame₂, -⟩ := AddOrUpdatePublisher_spec key_ delta_
    (CEcalRegistrationDatabase.AddOrUpdatePublisher key_ delta_ db).1
  have hdb := hsame₂ (by rw [hstored]; exact hself)
  refine ⟨?_, ?_, hdb⟩
  · rw [hrev₂, hdb, hrev₁]
  · rw [hev₂, hstored]
    simp [hself]

theorem AddOrUpdateSubscriber_twice (key_ : EntityKey) (delta_ : TopicRegistrationDelta)
    (db : CEcalRegistrationDatabase) (hd : delta_.topic.equal delta_.topic = true) :
    (CEcalRegistrationDatabase.AddOrUpdateSubscriber key_ delta_
        (CEcalRegistrationDatabase.AddOrUpdateSubscriber key_ delta_ db).1).2.new_revision
      = (CEcalRegistrationDatabase.AddOrUpdateSubscriber key_ delta_ db).2.new_revision
    ∧ (CEcalRegistrationDatabase.AddOrUpdateSubscriber key_ delta_
        (CEcalRegistrationDatabase.AddOrUpdateSubscriber key_ delta_ db).1).2.events = []
    ∧ (CEcalRegistrationDatabase.AddOrUpdateSubscriber key_ delta_
        (CEcalRegistrationDatabase.AddOrUpdateSubscriber key_ delta_ db).1).1
      = (CEcalRegistrationDatabase.AddOrUpdateSubscriber key_ delta_ db).1 := by
  obtain ⟨-, hrev₁, -, hfind₁, -, -⟩ := AddOrUpdateSubscriber_spec key_ delta_ db
  have hstored := hfind₁ key_
  rw [if_pos rfl] at hstored
  have hself : delta_.same delta_ = true :=
    (TopicRegistrationDelta_same_iff delta_ delta_).mpr ⟨hd, rfl, rfl⟩
  obtain ⟨hev₂, hrev₂, -, -, hsame₂, -⟩ := AddOrUpdateSubscriber_spec key_ delta_
    (CEcalRegistrationDatabase.AddOrUpdateSubscriber key_ delta_ db).1
  have hdb := hsame₂ (by rw [hstored]; exact hself)
  refine ⟨?_, ?_, hdb⟩
  · rw [hrev₂, hdb, hrev₁]
  · rw [hev₂, hstored]
    simp [hself]

theorem AddOrUpdateServer_twice (key_ : EntityKey) (delta_ : ServiceRegistrationDelta)
    (db : CEcalRegistrationDatabase) :
    (CEcalRegistrationDatabase.AddOrUpdateServer key_ delta_
        (CEcalRegistrationDatabase.AddOrUpdateServer key_ delta_ db).1).2.new_revision
      = (CEcalRegistrationDatabase.AddOrUpdateServer key_ delta_ db).2.new_revision
    ∧ (CEcalRegistrationDatabase.AddOrUpdateServer key_ delta_
        (CEcalRegistrationDatabase.AddOrUpdateServer key_ delta_ db).1).2.events = []
    ∧ (CEcalRegistrationDatabase.AddOrUpdateServer key_ delta_
        (CEcalRegistrationDatabase.AddOrUpdateServer key_ delta_ db).1).1
      = (CEcalRegistrationDatabase.AddOrUpdateServer key_ delta_ db).1 := by
  obtain ⟨-, hrev₁, -, hfind₁, -, -⟩ := AddOrUpdateServer_spec key_ delta_ db
  have hstored := hfind₁ key_
  rw [if_pos rfl] at hstored
  obtain ⟨hev₂, hrev₂, -, -, hsame₂, -⟩ := AddOrUpdateServer_spec key_ delta_
    (CEcalRegistrationDatabase.AddOrUpdateServer key_ delta_ db).1
  have hdb := hsame₂ hstored
  refine ⟨?_, ?_, hdb⟩
  · rw [hrev₂, hdb, hrev₁]
  · rw [hev₂, hstored]
    simp

theorem AddOrUpdateClient_twice (key_ : EntityKey) (delta_ : ClientRegistrationDelta)
    (db : CEcalRegistrationDatabase) :
    (CEcalRegistrationDatabase.AddOrUpdateClient key_ delta_
        (CEcalRegistrationDatabase.AddOrUpdateClient key_ delta_ db).1).2.new_revision
      = (CEcalRegistrationDatabase.AddOrUpdateClient key_ delta_ db).2.new_revision
    ∧ (CEcalRegistrationDatabase.AddOrUpdateClient key_ delta_
        (CEcalRegistrationDatabase.AddOrUpdateClient key_ delta_ db).1).2.events = []
    ∧ (CEcalRegistrationDatabase.AddOrUpdateClient key_ delta_
        (CEcalRegistrationDatabase.AddOrUpdateClient key_ delta_ db).1).1
      = (CEcalRegistrationDatabase.AddOrUpdateClient key_ delta_ db).1 := by
  obtain ⟨-, hrev₁, -, hfind₁, -, -⟩ := AddOrUpdateClient_spec key_ delta_ db
  have hstored := hfind₁ key_
  rw [if_pos rfl] at hstored
  obtain ⟨hev₂, hrev₂, -, -, hsame₂, -⟩ := AddOrUpdateClient_spec key_ delta_
    (CEcalRegistrationDatabase.AddOrUpdateClient key_ delta_ db).1
  have hdb := hsame₂ hstored
  refine ⟨?_, ?_, hdb⟩
  · rw [hrev₂, hdb, hrev₁]
  · rw [hev₂, hstored]
    simp

/-- C11 as stated fails for a delta that does not compare equal to itself: the latency
statistic of a topic is a floating point value, and `nanLatencyDelta` carries a not-a-number
there. On the empty database the first `AddOrUpdatePublisher(5, nanLatencyDelta)` returns
`[new_entity(publisher, 5)]` and revision 1; the second, identical call finds the stored topic
unequal to the topic of the delta, returns `[updated_entity(publisher, 5)]` and revision 2, and
installs a state with that revision. -/
theorem reannounce_of_nan_latency_is_update :
    nanLatencyDelta.topic.equal nanLatencyDelta.topic = false
    ∧ (CEcalRegistrationDatabase.AddOrUpdatePublisher 5 nanLatencyDelta {}).2
      = { new_revision := 1
          events := [{ event_type := .new_entity, entity_type := .publisher, entity_key := 5 }] }
    ∧ (CEcalRegistrationDatabase.AddOrUpdatePublisher 5 nanLatencyDelta
        (CEcalRegistrationDatabase.AddOrUpdatePublisher 5 nanLatencyDelta {}).1).2
      = { new_revision := 2
          events :=
            [{ event_type := .updated_entity, entity_type := .publisher, entity_key := 5 }] }
    ∧ (CEcalRegistrationDatabase.AddOrUpdatePublisher 5 nanLatencyDelta
        (CEcalRegistrationDatabase.AddOrUpdatePublisher 5 nanLatencyDelta {}).1).1
      ≠ (CEcalRegistrationDatabase.AddOrUpdatePublisher 5 nanLatencyDelta {}).1 := by
  decide

/-- C11, amended: for every database, key and delta, and for each of the five entity kinds,
where the topic of a publisher or subscriber delta compares equal to itself with `==` (its
latency statistic is not a not-a-number): the second of two successive calls
`AddOrUpdate{Kind}(E, d)` returns the revision the first call returned and no event, and
leaves the database (installed state and previous revision) as the first call left it. -/
theorem reannounce_idempotent (db : CEcalRegistrationDatabase) :
    (∀ (E : ProcessKey) (d : ProcessRegistrationDelta),
      (CEcalRegistrationDatabase.AddOrUpdateProcess E d
          (CEcalRegistrationDatabase.AddOrUpdateProcess E d db).1).2.new_revision
        = (CEcalRegistrationDatabase.AddOrUpdateProcess E d db).2.new_revision
      ∧ (CEcalRegistrationDatabase.AddOrUpdateProcess E d
          (CEcalRegistrationDatabase.AddOrUpdateProcess E d db).1).2.events = []
      ∧ (CEcalRegistrationDatabase.AddOrUpdateProcess E d
          (CEcalRegistrationDatabase.AddOrUpdateProcess E d db).1).1
        = (CEcalRegistrationDatabase.AddOrUpdateProcess E d db).1)
    ∧ (∀ (E : EntityKey) (d : TopicRegistrationDelta), d.topic.equal d.topic = true →
      (CEcalRegistrationDatabase.AddOrUpdatePublisher E d
          (CEcalRegistrationDatabase.AddOrUpdatePublisher E d db).1).2.new_revision
        = (CEcalRegistrationDatabase.AddOrUpdatePublisher E d db).2.new_revision
      ∧ (CEcalRegistrationDatabase.AddOrUpdatePublisher E d
          (CEcalRegistrationDatabase.AddOrUpdatePublisher E d db).1).2.events = []
      ∧ (CEcalRegistrationDatabase.AddOrUpdatePublisher E d
          (CEcalRegistrationDatabase.AddOrUpdatePublisher E d db).1).1
        = (CEcalRegistrationDatabase.AddOrUpdatePublisher E d db).1)
    ∧ (∀ (E : EntityKey) (d : TopicRegistrationDelta), d.topic.equal d.topic = true →
      (CEcalRegistrationDatabase.AddOrUpdateSubscriber E d
          (CEcalRegistrationDatabase.AddOrUpdateSubscriber E d db).1).2.new_revision
        = (CEcalRegistrationDatabase.AddOrUpdateSubscriber E d db).2.new_revision
      ∧ (CEcalRegistrationDatabase.AddOrUpdateSubscriber E d
          (CEcalRegistrationDatabase.AddOrUpdateSubscriber E d db).1).2.events = []
      ∧ (CEcalRegistrationDatabase.AddOrUpdateSubscriber E d
          (CEcalRegistrationDatabase.AddOrUpdateSubscriber E d db).1).1
        = (CEcalRegistrationDatabase.AddOrUpdateSubscriber E d db).1)
    ∧ (∀ (E : EntityKey) (d : ServiceRegistrationDelta),
      (CEcalRegistrationDatabase.AddOrUpdateServer E d
          (CEcalRegistrationDatabase.AddOrUpdateServer E d db).1).2.new_revision
        = (CEcalRegistrationDatabase.AddOrUpdateServer E d db).2.new_revision
      ∧ (CEcalRegistrationDatabase.AddOrUpdateServer E d
          (CEcalRegistrationDatabase.AddOrUpdateServer E d db).1).2.events = []
      ∧ (CEcalRegistrationDatabase.AddOrUpdateServer E d
          (CEcalRegistrationDatabase.AddOrUpdateServer E d db).1).1
        = (CEcalRegistrationDatabase.AddOrUpdateServer E d db).1)
    ∧ (∀ (E : EntityKey) (d : ClientRegistrationDelta),
      (CEcalRegistrationDatabase.AddOrUpdateClient E d
          (CEcalRegistrationDatabase.AddOrUpdateClient E d db).1).2.new_revision
        = (CEcalRegistrationDatabase.AddOrUpdateClient E d db).2.new_revision
      ∧ (CEcalRegistrationDatabase.AddOrUpdateClient E d
          (CEcalRegistrationDatabase.AddOrUpdateClient E d db).1).2.events = []
      ∧ (CEcalRegistrationDatabase.AddOrUpdateClient E d
          (CEcalRegistrationDatabase.AddOrUpdateClient E d db).1).1
        = (CEcalRegistrationDatabase.AddOrUpdateClient E d db).1) :=
  ⟨fun E d => AddOrUpdateProcess_twice E d db,
    fun E d hd => AddOrUpdatePublisher_twice E d db hd,
    fun E d hd => AddOrUpdateSubscriber_twice E d db hd,
    fun E d => AddOrUpdateServer_twice E d db,
    fun E d => AddOrUpdateClient_twice E d db⟩

/-- Witness for C11: the publisher registration of the test sample, whose latency statistic
is `12.0`, compares equal to itself, and announcing it twice on the empty database yields no
event the second time. -/
theorem reannounce_idempotent_witness :
    publisherSample.topic.equal publisherSample.topic = true
    ∧ (CEcalRegistrationDatabase.AddOrUpdatePublisher 42
        { process_id := 1001, host_name := "host_a", topic := publisherSample.topic }
        (CEcalRegistrationDatabase.AddOrUpdatePublisher 42
          { process_id := 1001, host_name := "host_a", topic := publisherSample.topic }
          {}).1).2.events = [] :=
  ⟨by decide,
    ((reannounce_idempotent {}).2.1 42
      { process_id := 1001, host_name := "host_a", topic := publisherSample.topic }
      (by decide)).2.1⟩

/-- C17, removal of an absent entity: for every database and every key without a
registration record of the kind, `RemovePublisher`, `RemoveSubscriber`, `RemoveServer` and
`RemoveClient` return the current revision and no event and leave the database (installed
state and previous revision) unchanged. -/
theorem remove_absent_is_noop (db : CEcalRegistrationDatabase) :
    (∀ E, UMap.find db.current_state_.publishers E = none →
      (CEcalRegistrationDatabase.RemovePublisher E db).2.events = []
      ∧ (CEcalRegistrationDatabase.RemovePublisher E db).2.new_revision
        = CEcalRegistrationDatabase.CurrentRevision db
      ∧ (CEcalRegistrationDatabase.RemovePublisher E db).1.current_state_ = db.current_state_
      ∧ CEcalRegistrationDatabase.PreviousRevision (CEcalRegistrationDatabase.RemovePublisher E db).1
        = CEcalRegistrationDatabase.PreviousRevision db)
    ∧ (∀ E, UMap.find db.current_state_.subscribers E = none →
      (CEcalRegistrationDatabase.RemoveSubscriber E db).2.events = []
      ∧ (CEcalRegistrationDatabase.RemoveSubscriber E db).2.new_revision
        = CEcalRegistrationDatabase.CurrentRevision db
      ∧ (CEcalRegistrationDatabase.RemoveSubscriber E db).1.current_state_ = db.current_state_
      ∧ CEcalRegistrationDatabase.PreviousRevision (CEcalRegistrationDatabase.RemoveSubscriber E db).1
        = CEcalRegistrationDatabase.PreviousRevision db)
    ∧ (∀ E, UMap.find db.current_state_.servers E = none →
      (CEcalRegistrationDatabase.RemoveServer E db).2.events = []
      ∧ (CEcalRegistrationDatabase.RemoveServer E db).2.new_revision
        = CEcalRegistrationDatabase.CurrentRevision db
      ∧ (CEcalRegistrationDatabase.RemoveServer E db).1.current_state_ = db.current_state_
      ∧ CEcalRegistrationDatabase.PreviousRevision (CEcalRegistrationDatabase.RemoveServer E db).1
        = CEcalRegistrationDatabase.PreviousRevision db)
    ∧ (∀ E, UMap.find db.current_state_.clients E = none →
      (CEcalRegistrationDatabase.RemoveClient E db).2.events = []
      ∧ (CEcalRegistrationDatabase.RemoveClient E db).2.new_revision
        = CEcalRegistrationDatabase.CurrentRevision db
      ∧ (CEcalRegistrationDatabase.RemoveClient E db).1.current_state_ = db.current_state_
      ∧ CEcalRegistrationDatabase.PreviousRevision (CEcalRegistrationDatabase.RemoveClient E db).1
        = CEcalRegistrationDatabase.PreviousRevision db) := by
  refine ⟨fun E h => ?_, fun E h => ?_, fun E h => ?_, fun E h => ?_⟩
  · rw [(RemovePublisher_spec E db).1 h]
    exact ⟨rfl, rfl, rfl, rfl⟩
  · rw [(RemoveSubscriber_spec E db).1 h]
    exact ⟨rfl, rfl, rfl, rfl⟩
  · rw [(RemoveServer_spec E db).1 h]
    exact ⟨rfl, rfl, rfl, rfl⟩
  · rw [(RemoveClient_spec E db).1 h]
    exact ⟨rfl, rfl, rfl, rfl⟩


/-! ## The database at the largest revision -/

theorem toggleOps_wrap :
    runTyped (toggleOps (2 ^ 64 - 1)) {} =
      { current_state_ :=
          { revision := 2 ^ 64 - 1
            server_monitoring := [(0, { registration_clock := 0 })] }
        previous_revision_ := 2 ^ 64 - 2 } := by
  have h := toggleOps_run (2 ^ 64 - 2)
  have e : (2 : Nat) ^ 64 - 2 + 1 = 2 ^ 64 - 1 := by norm_num
  rw [e] at h
  rw [h]
  have h₁ : (2 ^ 64 - 1) % 2 ^ 64 = 2 ^ 64 - 1 := by norm_num
  have h₂ : (2 ^ 64 - 2) % 2 ^ 64 = 2 ^ 64 - 2 := by norm_num
  have h₃ : (((2 ^ 64 - 2) % 2 : Nat) : Int) = 0 := by norm_num
  rw [h₁, h₂, h₃]

theorem toggleOps_before_wrap :
    runTyped (toggleOps (2 ^ 64 - 2)) {} =
      { current_state_ :=
          { revision := 2 ^ 64 - 2
            server_monitoring := [(0, { registration_clock := 1 })] }
        previous_revision_ := 2 ^ 64 - 3 } := by
  have h := toggleOps_run (2 ^ 64 - 3)
  have e : (2 : Nat) ^ 64 - 3 + 1 = 2 ^ 64 - 2 := by norm_num
  rw [e] at h
  rw [h]
  have h₁ : (2 ^ 64 - 2) % 2 ^ 64 = 2 ^ 64 - 2 := by norm_num
  have h₂ : (2 ^ 64 - 3) % 2 ^ 64 = 2 ^ 64 - 3 := by norm_num
  have h₃ : (((2 ^ 64 - 3) % 2 : Nat) : Int) = 1 := by norm_num
  rw [h₁, h₂, h₃]


theorem wrap_succ_ne (r : Nat) : (r + 1) % 2 ^ 64 ≠ r := by
  omega

/-- C12 as stated fails at the largest revision: the database reached by the `2 ^ 64 - 1`
state-changing mutations `toggleOps (2 ^ 64 - 1)` has revision `2 ^ 64 - 1` and no
monitoring record for publisher 5; `UpdatePublisherMonitoring(5, m)` stores the record and
returns revision 0, not the previous revision plus one. -/
theorem monitoring_update_wraps_revision :
    CEcalRegistrationDatabase.CurrentRevision (runTyped (toggleOps (2 ^ 64 - 1)) {}) = 2 ^ 64 - 1
    ∧ UMap.find (runTyped (toggleOps (2 ^ 64 - 1)) {}).current_state_.publisher_monitoring 5
      = none
    ∧ (CEcalRegistrationDatabase.UpdatePublisherMonitoring 5 { registration_clock := 5 }
        (runTyped (toggleOps (2 ^ 64 - 1)) {})).2 = { new_revision := 0, events := [] } := by
  rw [toggleOps_wrap]
  decide

/-- C12, amended: for every database, entity kind, key and monitoring delta, every
`Update{Kind}Monitoring(E, m)` call returns an empty event list, and when the call changes
the stored monitoring value (no record under `E`, or a stored record other than `m`) the
returned revision is the previous revision plus one modulo `2 ^ 64`. -/
theorem monitoring_isolation (db : CEcalRegistrationDatabase) :
    (∀ (E : ProcessKey) (m : ProcessMonitoringDelta),
      (CEcalRegistrationDatabase.UpdateProcessMonitoring E m db).2.events = []
      ∧ (UMap.find db.current_state_.process_monitoring E ≠ some m →
        (CEcalRegistrationDatabase.UpdateProcessMonitoring E m db).2.new_revision
          = (CEcalRegistrationDatabase.CurrentRevision db + 1) % 2 ^ 64))
    ∧ (∀ (E : EntityKey) (m : TopicMonitoringDelta),
      (CEcalRegistrationDatabase.UpdatePublisherMonitoring E m db).2.events = []
      ∧ (UMap.find db.current_state_.publisher_monitoring E ≠ some m →
        (CEcalRegistrationDatabase.UpdatePublisherMonitoring E m db).2.new_revision
          = (CEcalRegistrationDatabase.CurrentRevision db + 1) % 2 ^ 64))
    ∧ (∀ (E : EntityKey) (m : TopicMonitoringDelta),
      (CEcalRegistrationDatabase.UpdateSubscriberMonitoring E m db).2.events = []
      ∧ (UMap.find db.current_state_.subscriber_monitoring E ≠ some m →
        (CEcalRegistrationDatabase.UpdateSubscriberMonitoring E m db).2.new_revision
          = (CEcalRegistrationDatabase.CurrentRevision db + 1) % 2 ^ 64))
    ∧ (∀ (E : EntityKey) (m : ServiceMonitoringDelta),
      (CEcalRegistrationDatabase.UpdateServerMonitoring E m db).2.events = []
      ∧ (UMap.find db.current_state_.server_monitoring E ≠ some m →
        (CEcalRegistrationDatabase.UpdateServerMonitoring E m db).2.new_revision
          = (CEcalRegistrationDatabase.CurrentRevision db + 1) % 2 ^ 64))
    ∧ (∀ (E : EntityKey) (m : ClientMonitoringDelta),
      (CEcalRegistrationDatabase.UpdateClientMonitoring E m db).2.events = []
      ∧ (UMap.find db.current_state_.client_monitoring E ≠ some m →
        (CEcalRegistrationDatabase.UpdateClientMonitoring E m db).2.new_revision
          = (CEcalRegistrationDatabase.CurrentRevision db + 1) % 2 ^ 64)) := by
  refine ⟨fun E m => ?_, fun E m => ?_, fun E m => ?_, fun E m => ?_, fun E m => ?_⟩
  · obtain ⟨hev, hrev, hval, -, -⟩ := UpdateProcessMonitoring_spec E m db
    refine ⟨hev, fun hne => ?_⟩
    rw [hrev, hval, if_neg hne]
    rfl
  · obtain ⟨hev, hrev, hval, -, -⟩ := UpdatePublisherMonitoring_spec E m db
    refine ⟨hev, fun hne => ?_⟩
    rw [hrev, hval, if_neg (by rw [TopicMonitoringDelta_unchanged_of_ne hne]; decide)]
    rfl
  · obtain ⟨hev, hrev, hval, -, -⟩ := UpdateSubscriberMonitoring_spec E m db
    refine ⟨hev, fun hne => ?_⟩
    rw [hrev, hval, if_neg (by rw [TopicMonitoringDelta_unchanged_of_ne hne]; decide)]
    rfl
  · obtain ⟨hev, hrev, hval, -, -⟩ := UpdateServerMonitoring_spec E m db
    refine ⟨hev, fun hne => ?_⟩
    rw [hrev, hval, if_neg hne]
    rfl
  · obtain ⟨hev, hrev, hval, -, -⟩ := UpdateClientMonitoring_spec E m db
    refine ⟨hev, fun hne => ?_⟩
    rw [hrev, hval, if_neg hne]
    rfl

/-- C16 as stated fails at the largest revision: the database reached by
`toggleOps (2 ^ 64 - 2)` followed by `AddOrUpdatePublisher(5, d)` has revision `2 ^ 64 - 1`
and holds publisher 5; `RemovePublisher(5)` returns `[deleted_entity(publisher, 5)]` with
revision 0, not revision + 1. -/
theorem removal_wraps_revision :
    CEcalRegistrationDatabase.CurrentRevision (runTyped (toggleOps (2 ^ 64 - 2) ++ [.AddOrUpdatePublisher 5
        { process_id := 1, host_name := "host", topic := { topic_name := "topic" } }])
        {}) = 2 ^ 64 - 1
    ∧ (UMap.find (runTyped (toggleOps (2 ^ 64 - 2) ++ [.AddOrUpdatePublisher 5
        { process_id := 1, host_name := "host", topic := { topic_name := "topic" } }])
        {}).current_state_.publishers 5).isSome = true
    ∧ (CEcalRegistrationDatabase.RemovePublisher 5 (runTyped (toggleOps (2 ^ 64 - 2) ++ [.AddOrUpdatePublisher 5
        { process_id := 1, host_name := "host", topic := { topic_name := "topic" } }])
        {})).2
      = { new_revision := 0
          events :=
            [{ event_type := .deleted_entity, entity_type := .publisher, entity_key := 5 }] } := by
  rw [runTyped_append, toggleOps_before_wrap]
  decide

/-- C16, amended: for every database in which entity `E` of kind publisher, subscriber,
server or client has a registration record with `process_id = P`, `Remove{Kind}(E)` returns
exactly `[deleted_entity(kind, E)]` and the revision plus one modulo `2 ^ 64`, and in the
new state `E` is absent from the registration table and from the monitoring table of the
kind and from the set of the kind of the bucket of `P`. -/
theorem remove_present_entity (db : CEcalRegistrationDatabase) :
    (∀ (E : EntityKey) r, UMap.find db.current_state_.publishers E = some r →
      (CEcalRegistrationDatabase.RemovePublisher E db).2 =
          { new_revision := (CEcalRegistrationDatabase.CurrentRevision db + 1) % 2 ^ 64
            events := [{ event_type := .deleted_entity, entity_type := .publisher, entity_key := E }] }
      ∧ UMap.find (CEcalRegistrationDatabase.RemovePublisher E db).1.current_state_.publishers E = none
      ∧ UMap.find (CEcalRegistrationDatabase.RemovePublisher E db).1.current_state_.publisher_monitoring E = none
      ∧ ∀ members,
        UMap.find (CEcalRegistrationDatabase.RemovePublisher E db).1.current_state_.members_by_process r.process_id
          = some members → E ∉ members.publishers)
    ∧ (∀ (E : EntityKey) r, UMap.find db.current_state_.subscribers E = some r →
      (CEcalRegistrationDatabase.RemoveSubscriber E db).2 =
          { new_revision := (CEcalRegistrationDatabase.CurrentRevision db + 1) % 2 ^ 64
            events := [{ event_type := .deleted_entity, entity_type := .subscriber, entity_key := E }] }
      ∧ UMap.find (CEcalRegistrationDatabase.RemoveSubscriber E db).1.current_state_.subscribers E = none
      ∧ UMap.find (CEcalRegistrationDatabase.RemoveSubscriber E db).1.current_state_.subscriber_monitoring E = none
      ∧ ∀ members,
        UMap.find (CEcalRegistrationDatabase.RemoveSubscriber E db).1.current_state_.members_by_process r.process_id
          = some members → E ∉ members.subscribers)
    ∧ (∀ (E : EntityKey) r, UMap.find db.current_state_.servers E = some r →
      (CEcalRegistrationDatabase.RemoveServer E db).2 =
          { new_revision := (CEcalRegistrationDatabase.CurrentRevision db + 1) % 2 ^ 64
            events := [{ event_type := .deleted_entity, entity_type := .server, entity_key := E }] }
      ∧ UMap.find (CEcalRegistrationDatabase.RemoveServer E db).1.current_state_.servers E = none
      ∧ UMap.find (CEcalRegistrationDatabase.RemoveServer E db).1.current_state_.server_monitoring E = none
      ∧ ∀ members,
        UMap.find (CEcalRegistrationDatabase.RemoveServer E db).1.current_state_.members_by_process r.process_id
          = some members → E ∉ members.servers)
    ∧ (∀ (E : EntityKey) r, UMap.find db.current_state_.clients E = some r →
      (CEcalRegistrationDatabase.RemoveClient E db).2 =
          { new_revision := (CEcalRegistrationDatabase.CurrentRevision db + 1) % 2 ^ 64
            events := [{ event_type := .deleted_entity, entity_type := .client, entity_key := E }] }
      ∧ UMap.find (CEcalRegistrationDatabase.RemoveClient E db).1.current_state_.clients E = none
      ∧ UMap.find (CEcalRegistrationDatabase.RemoveClient E db).1.current_state_.client_monitoring E = none
      ∧ ∀ members,
        UMap.find (CEcalRegistrationDatabase.RemoveClient E db).1.current_state_.members_by_process r.process_id
          = some members → E ∉ members.clients) := by
  refine ⟨fun E r hr => ?_, fun E r hr => ?_, fun E r hr => ?_, fun E r hr => ?_⟩
  · obtain ⟨hres, hdb⟩ := (RemovePublisher_spec E db).2 r hr
    rw [hres, hdb]
    refine ⟨rfl, by simp [UMap.find_erase], by simp [UMap.find_erase], ?_⟩
    intro members hm hE
    have hmem : memberOf (RemoveMembership db.current_state_.members_by_process r.process_id
        .publisher E) r.process_id .publisher E := ⟨members, hm, hE⟩
    rw [memberOf_RemoveMembership] at hmem
    exact hmem.2 ⟨rfl, rfl, rfl⟩
  · obtain ⟨hres, hdb⟩ := (RemoveSubscriber_spec E db).2 r hr
    rw [hres, hdb]
    refine ⟨rfl, by simp [UMap.find_erase], by simp [UMap.find_erase], ?_⟩
    intro members hm hE
    have hmem : memberOf (RemoveMembership db.current_state_.members_by_process r.process_id
        .subscriber E) r.process_id .subscriber E := ⟨members, hm, hE⟩
    rw [memberOf_RemoveMembership] at hmem
    exact hmem.2 ⟨rfl, rfl, rfl⟩
  · obtain ⟨hres, hdb⟩ := (RemoveServer_spec E db).2 r hr
    rw [hres, hdb]
    refine ⟨rfl, by simp [UMap.find_erase], by simp [UMap.find_erase], ?_⟩
    intro members hm hE
    have hmem : memberOf (RemoveMembership db.current_state_.members_by_process r.process_id
        .server E) r.process_id .server E := ⟨members, hm, hE⟩
    rw [memberOf_RemoveMembership] at hmem
    exact hmem.2 ⟨rfl, rfl, rfl⟩
  · obtain ⟨hres, hdb⟩ := (RemoveClient_spec E db).2 r hr
    rw [hres, hdb]
    refine ⟨rfl, by simp [UMap.find_erase], by simp [UMap.find_erase], ?_⟩
    intro members hm hE
    have hmem : memberOf (RemoveMembership db.current_state_.members_by_process r.process_id
        .client E) r.process_id .client E := ⟨members, hm, hE⟩
    rw [memberOf_RemoveMembership] at hmem
    exact hmem.2 ⟨rfl, rfl, rfl⟩


/-! ## Migration between processes and process registration -/

theorem find_migrated_old (m : UMap ProcessKey ProcessMembers) (P₁ P₂ : ProcessKey)
    (K : EntityType) (E : EntityKey) (b : ProcessMembers) (hne : P₂ ≠ P₁)
    (hb : UMap.find m P₁ = some b) (he : (b.eraseMember K E).allEmpty = true) :
    UMap.find (AddMembership (RemoveMembership m P₁ K E) P₂ K E) P₁ = none := by
  unfold AddMembership
  rw [UMap.find_assign, if_neg (fun h => hne h.symm)]
  unfold RemoveMembership
  rw [hb]
  simp [he, UMap.find_erase]

theorem AddOrUpdatePublisher_migration (E : EntityKey) (r d : TopicRegistrationDelta)
    (db : CEcalRegistrationDatabase)
    (hr : UMap.find db.current_state_.publishers E = some r)
    (hne : d.process_id ≠ r.process_id) :
    (CEcalRegistrationDatabase.AddOrUpdatePublisher E d db).2.events =
        [{ event_type := .updated_entity, entity_type := .publisher, entity_key := E }]
    ∧ (∀ members,
        UMap.find (CEcalRegistrationDatabase.AddOrUpdatePublisher E d db).1.current_state_.members_by_process r.process_id
          = some members → E ∉ members.publishers)
    ∧ (∀ b, UMap.find db.current_state_.members_by_process r.process_id = some b →
        (b.eraseMember .publisher E).allEmpty = true →
        UMap.find (CEcalRegistrationDatabase.AddOrUpdatePublisher E d db).1.current_state_.members_by_process r.process_id
          = none)
    ∧ (∃ members,
        UMap.find (CEcalRegistrationDatabase.AddOrUpdatePublisher E d db).1.current_state_.members_by_process d.process_id
          = some members ∧ E ∈ members.publishers) := by
  obtain ⟨hev, -, -, -, -, hmem⟩ := AddOrUpdatePublisher_spec E d db
  have hrd : ¬ r.same d = true := fun h => hne (by rw [TopicRegistrationDelta_same_eq h])
  rw [hr] at hev hmem
  dsimp only at hev hmem
  rw [if_neg hrd] at hev
  rw [if_neg (fun h => hne h.symm)] at hmem
  rw [hmem]
  refine ⟨hev, fun members hm hE => ?_, fun b hb he => ?_, ?_⟩
  · have hin : memberOf (AddMembership (RemoveMembership db.current_state_.members_by_process
        r.process_id .publisher E) d.process_id .publisher E) r.process_id .publisher E := ⟨members, hm, hE⟩
    rw [memberOf_AddMembership, memberOf_RemoveMembership] at hin
    rcases hin with ⟨-, hn⟩ | ⟨-, hp, -, -⟩
    · exact hn ⟨rfl, rfl, rfl⟩
    · exact hne hp.symm
  · exact find_migrated_old _ _ _ _ _ b hne hb he
  · have hin : memberOf (AddMembership (RemoveMembership db.current_state_.members_by_process
        r.process_id .publisher E) d.process_id .publisher E) d.process_id .publisher E := by
      rw [memberOf_AddMembership]
      exact Or.inr ⟨by decide, rfl, rfl, rfl⟩
    exact hin

theorem AddOrUpdateSubscriber_migration (E : EntityKey) (r d : TopicRegistrationDelta)
    (db : CEcalRegistrationDatabase)
    (hr : UMap.find db.current_state_.subscribers E = some r)
    (hne : d.process_id ≠ r.process_id) :
    (CEcalRegistrationDatabase.AddOrUpdateSubscriber E d db).2.events =
        [{ event_type := .updated_entity, entity_type := .subscriber, entity_key := E }]
    ∧ (∀ members,
        UMap.find (CEcalRegistrationDatabase.AddOrUpdateSubscriber E d db).1.current_state_.members_by_process r.process_id
          = some members → E ∉ members.subscribers)
    ∧ (∀ b, UMap.find db.current_state_.members_by_process r.process_id = some b →
        (b.eraseMember .subscriber E).allEmpty = true →
        UMap.find (CEcalRegistrationDatabase.AddOrUpdateSubscriber E d db).1.current_state_.members_by_process r.process_id
          = none)
    ∧ (∃ members,
        UMap.find (CEcalRegistrationDatabase.AddOrUpdateSubscriber E d db).1.current_state_.members_by_process d.process_id
          = some members ∧ E ∈ members.subscribers) := by
  obtain ⟨hev, -, -, -, -, hmem⟩ := AddOrUpdateSubscriber_spec E d db
  have hrd : ¬ r.same d = true := fun h => hne (by rw [TopicRegistrationDelta_same_eq h])
  rw [hr] at hev hmem
  dsimp only at hev hmem
  rw [if_neg hrd] at hev
  rw [if_neg (fun h => hne h.symm)] at hmem
  rw [hmem]
  refine ⟨hev, fun members hm hE => ?_, fun b hb he => ?_, ?_⟩
  · have hin : memberOf (AddMembership (RemoveMembership db.current_state_.members_by_process
        r.process_id .subscriber E) d.process_id .subscriber E) r.process_id .subscriber E := ⟨members, hm, hE⟩
    rw [memberOf_AddMembership, memberOf_RemoveMembership] at hin
    rcases hin with ⟨-, hn⟩ | ⟨-, hp, -, -⟩
    · exact hn ⟨rfl, rfl, rfl⟩
    · exact hne hp.symm
  · exact find_migrated_old _ _ _ _ _ b hne hb he
  · have hin : memberOf (AddMembership (RemoveMembership db.current_state_.members_by_process
        r.process_id .subscriber E) d.process_id .subscriber E) d.process_id .subscriber E := by
      rw [memberOf_AddMembership]
      exact Or.inr ⟨by decide, rfl, rfl, rfl⟩
    exact hin

theorem AddOrUpdateServer_migration (E : EntityKey) (r d : ServiceRegistrationDelta)
    (db : CEcalRegistrationDatabase)
    (hr : UMap.find db.current_state_.servers E = some r)
    (hne : d.process_id ≠ r.process_id) :
    (CEcalRegistrationDatabase.AddOrUpdateServer E d db).2.events =
        [{ event_type := .updated_entity, entity_type := .server, entity_key := E }]
    ∧ (∀ members,
        UMap.find (CEcalRegistrationDatabase.AddOrUpdateServer E d db).1.current_state_.members_by_process r.process_id
          = some members → E ∉ members.servers)
    ∧ (∀ b, UMap.find db.current_state_.members_by_process r.process_id = some b →
        (b.eraseMember .server E).allEmpty = true →
        UMap.find (CEcalRegistrationDatabase.AddOrUpdateServer E d db).1.current_state_.members_by_process r.process_id
          = none)
    ∧ (∃ members,
        UMap.find (CEcalRegistrationDatabase.AddOrUpdateServer E d db).1.current_state_.members_by_process d.process_id
          = some members ∧ E ∈ members.servers) := by
  obtain ⟨hev, -, -, -, -, hmem⟩ := AddOrUpdateServer_spec E d db
  have hrd : r ≠ d := fun h => hne (by rw [h])
  rw [hr] at hev hmem
  dsimp only at hev hmem
  rw [if_neg hrd] at hev
  rw [if_neg (fun h => hne h.symm)] at hmem
  rw [hmem]
  refine ⟨hev, fun members hm hE => ?_, fun b hb he => ?_, ?_⟩
  · have hin : memberOf (AddMembership (RemoveMembership db.current_state_.members_by_process
        r.process_id .server E) d.process_id .server E) r.process_id .server E := ⟨members, hm, hE⟩
    rw [memberOf_AddMembership, memberOf_RemoveMembership] at hin
    rcases hin with ⟨-, hn⟩ | ⟨-, hp, -, -⟩
    · exact hn ⟨rfl, rfl, rfl⟩
    · exact hne hp.symm
  · exact find_migrated_old _ _ _ _ _ b hne hb he
  · have hin : memberOf (AddMembership (RemoveMembership db.current_state_.members_by_process
        r.process_id .server E) d.process_id .server E) d.process_id .server E := by
      rw [memberOf_AddMembership]
      exact Or.inr ⟨by decide, rfl, rfl, rfl⟩
    exact hin

theorem AddOrUpdateClient_migration (E : EntityKey) (r d : ClientRegistrationDelta)
    (db : CEcalRegistrationDatabase)
    (hr : UMap.find db.current_state_.clients E = some r)
    (hne : d.process_id ≠ r.process_id) :
    (CEcalRegistrationDatabase.AddOrUpdateClient E d db).2.events =
        [{ event_type := .updated_entity, entity_type := .client, entity_key := E }]
    ∧ (∀ members,
        UMap.find (CEcalRegistrationDatabase.AddOrUpdateClient E d db).1.current_state_.members_by_process r.process_id
          = some members → E ∉ members.clients)
    ∧ (∀ b, UMap.find db.current_state_.members_by_process r.process_id = some b →
        (b.eraseMember .client E).allEmpty = true →
        UMap.find (CEcalRegistrationDatabase.AddOrUpdateClient E d db).1.current_state_.members_by_process r.process_id
          = none)
    ∧ (∃ members,
        UMap.find (CEcalRegistrationDatabase.AddOrUpdateClient E d db).1.current_state_.members_by_process d.process_id
          = some members ∧ E ∈ members.clients) := by
  obtain ⟨hev, -, -, -, -, hmem⟩ := AddOrUpdateClient_spec E d db
  have hrd : r ≠ d := fun h => hne (by rw [h])
  rw [hr] at hev hmem
  dsimp only at hev hmem
  rw [if_neg hrd] at hev
  rw [if_neg (fun h => hne h.symm)] at hmem
  rw [hmem]
  refine ⟨hev, fun members hm hE => ?_, fun b hb he => ?_, ?_⟩
  · have hin : memberOf (AddMembership (RemoveMembership db.current_state_.members_by_process
        r.process_id .client E) d.process_id .client E) r.process_id .client E := ⟨members, hm, hE⟩
    rw [memberOf_AddMembership, memberOf_RemoveMembership] at hin
    rcases hin with ⟨-, hn⟩ | ⟨-, hp, -, -⟩
    · exact hn ⟨rfl, rfl, rfl⟩
    · exact hne hp.symm
  · exact find_migrated_old _ _ _ _ _ b hne hb he
  · have hin : memberOf (AddMembership (RemoveMembership db.current_state_.members_by_process
        r.process_id .client E) d.process_id .client E) d.process_id .client E := by
      rw [memberOf_AddMembership]
      exact Or.inr ⟨by decide, rfl, rfl, rfl⟩
    exact hin

/-- C15, process-id migration: for every database (reachable or not) in which entity `E` of
kind publisher, subscriber, server or client is registered under process `P1`,
`AddOrUpdate{Kind}(E, d)` with `d.process_id = P2` other than `P1` returns exactly
`[updated_entity(kind, E)]` and installs a state in which `E` is not in the set of the kind
of the bucket of `P1`, the bucket of `P1` is erased if the removal left its four sets empty,
and the bucket of `P2` exists and lists `E` in the set of the kind, whether or not `P2` has
a process record. -/
theorem process_id_migration (db : CEcalRegistrationDatabase) :
    (∀ (E : EntityKey) (r d : TopicRegistrationDelta),
      UMap.find db.current_state_.publishers E = some r → d.process_id ≠ r.process_id →
      (CEcalRegistrationDatabase.AddOrUpdatePublisher E d db).2.events =
          [{ event_type := .updated_entity, entity_type := .publisher, entity_key := E }]
      ∧ (∀ members,
          UMap.find (CEcalRegistrationDatabase.AddOrUpdatePublisher E d db).1.current_state_.members_by_process
            r.process_id = some members → E ∉ members.publishers)
      ∧ (∀ b, UMap.find db.current_state_.members_by_process r.process_id = some b →
          (b.eraseMember .publisher E).allEmpty = true →
          UMap.find (CEcalRegistrationDatabase.AddOrUpdatePublisher E d db).1.current_state_.members_by_process
            r.process_id = none)
      ∧ (∃ members,
          UMap.find (CEcalRegistrationDatabase.AddOrUpdatePublisher E d db).1.current_state_.members_by_process
            d.process_id = some members ∧ E ∈ members.publishers))
    ∧ (∀ (E : EntityKey) (r d : TopicRegistrationDelta),
      UMap.find db.current_state_.subscribers E = some r → d.process_id ≠ r.process_id →
      (CEcalRegistrationDatabase.AddOrUpdateSubscriber E d db).2.events =
          [{ event_type := .updated_entity, entity_type := .subscriber, entity_key := E }]
      ∧ (∀ members,
          UMap.find (CEcalRegistrationDatabase.AddOrUpdateSubscriber E d db).1.current_state_.members_by_process
            r.process_id = some members → E ∉ members.subscribers)
      ∧ (∀ b, UMap.find db.current_state_.members_by_process r.process_id = some b →
          (b.eraseMember .subscriber E).allEmpty = true →
          UMap.find (CEcalRegistrationDatabase.AddOrUpdateSubscriber E d db).1.current_state_.members_by_process
            r.process_id = none)
      ∧ (∃ members,
          UMap.find (CEcalRegistrationDatabase.AddOrUpdateSubscriber E d db).1.current_state_.members_by_process
            d.process_id = some members ∧ E ∈ members.subscribers))
    ∧ (∀ (E : EntityKey) (r d : ServiceRegistrationDelta),
      UMap.find db.current_state_.servers E = some r → d.process_id ≠ r.process_id →
      (CEcalRegistrationDatabase.AddOrUpdateServer E d db).2.events =
          [{ event_type := .updated_entity, entity_type := .server, entity_key := E }]
      ∧ (∀ members,
          UMap.find (CEcalRegistrationDatabase.AddOrUpdateServer E d db).1.current_state_.members_by_process
            r.process_id = some members → E ∉ members.servers)
      ∧ (∀ b, UMap.find db.current_state_.members_by_process r.process_id = some b →
          (b.eraseMember .server E).allEmpty = true →
          UMap.find (CEcalRegistrationDatabase.AddOrUpdateServer E d db).1.current_state_.members_by_process
            r.process_id = none)
      ∧ (∃ members,
          UMap.find (CEcalRegistrationDatabase.AddOrUpdateServer E d db).1.current_state_.members_by_process
            d.process_id = some members ∧ E ∈ members.servers))
    ∧ (∀ (E : EntityKey) (r d : ClientRegistrationDelta),
      UMap.find db.current_state_.clients E = some r → d.process_id ≠ r.process_id →
      (CEcalRegistrationDatabase.AddOrUpdateClient E d db).2.events =
          [{ event_type := .updated_entity, entity_type := .client, entity_key := E }]
      ∧ (∀ members,
          UMap.find (CEcalRegistrationDatabase.AddOrUpdateClient E d db).1.current_state_.members_by_process
            r.process_id = some members → E ∉ members.clients)
      ∧ (∀ b, UMap.find db.current_state_.members_by_process r.process_id = some b →
          (b.eraseMember .client E).allEmpty = true →
          UMap.find (CEcalRegistrationDatabase.AddOrUpdateClient E d db).1.current_state_.members_by_process
            r.process_id = none)
      ∧ (∃ members,
          UMap.find (CEcalRegistrationDatabase.AddOrUpdateClient E d db).1.current_state_.members_by_process
            d.process_id = some members ∧ E ∈ members.clients)) :=
  ⟨fun E r d hr hne => AddOrUpdatePublisher_migration E r d db hr hne,
    fun E r d hr hne => AddOrUpdateSubscriber_migration E r d db hr hne,
    fun E r d hr hne => AddOrUpdateServer_migration E r d db hr hne,
    fun E r d hr hne => AddOrUpdateClient_migration E r d db hr hne⟩

/-- C18, evaluation of the code at the failing input: after `UpdateProcessMonitoring(1, m)`
on the empty database, `RemoveProcess(1)` finds neither members nor a process record, so
its closure leaves `changed` unset and the copy from which it erased the monitoring record
is discarded: the call returns the unchanged revision 1 and the installed state still has
the process monitoring record of 1. -/
theorem remove_process_keeps_orphan_monitoring :
    (CEcalRegistrationDatabase.RemoveProcess 1
        (runOps [.typed (.UpdateProcessMonitoring 1 {})] {})).2
      = { new_revision := 1, events := [] }
    ∧ UMap.find (CEcalRegistrationDatabase.RemoveProcess 1
        (runOps [.typed (.UpdateProcessMonitoring 1 {})] {})).1.current_state_.process_monitoring
        1 = some {} := by
  decide

/-- C19 as stated fails for a registered process whose bucket was pruned: after
`prunedBucketSetup` process 1 is registered and has no bucket; `AddOrUpdateProcess(1, d)`
with another host name returns `[updated_entity(process, 1)]`, stores `d`, and
`members_by_process` still has no entry for 1. -/
theorem process_update_creates_no_bucket :
    (CEcalRegistrationDatabase.AddOrUpdateProcess 1 { process := { process_name := "proc" }, host_name := "g" }
        (runOps prunedBucketSetup {})).2.events
      = [{ event_type := .updated_entity, entity_type := .process, entity_key := 1 }]
    ∧ UMap.find (CEcalRegistrationDatabase.AddOrUpdateProcess 1
        { process := { process_name := "proc" }, host_name := "g" }
        (runOps prunedBucketSetup {})).1.current_state_.processes 1
      = some { process := { process_name := "proc" }, host_name := "g" }
    ∧ UMap.find (CEcalRegistrationDatabase.AddOrUpdateProcess 1
        { process := { process_name := "proc" }, host_name := "g" }
        (runOps prunedBucketSetup {})).1.current_state_.members_by_process 1 = none := by
  decide

/-- C19, amended: for every database, process key `P` and delta `d`, after
`AddOrUpdateProcess(P, d)` the process registration table maps `P` to `d`;
`members_by_process` contains an entry for `P` when `P` was absent before the call, and is
left as it was when `P` was present; the call returns `[new_entity(process, P)]` when `P`
was absent, `[updated_entity(process, P)]` when `P` was present with a different
`(process, host_name)`, and no event otherwise. -/
theorem add_or_update_process_postcondition (db : CEcalRegistrationDatabase) (P : ProcessKey)
    (d : ProcessRegistrationDelta) :
    UMap.find (CEcalRegistrationDatabase.AddOrUpdateProcess P d db).1.current_state_.processes P = some d
    ∧ (UMap.find db.current_state_.processes P = none →
        (∃ members, UMap.find
          (CEcalRegistrationDatabase.AddOrUpdateProcess P d db).1.current_state_.members_by_process P = some members)
        ∧ (CEcalRegistrationDatabase.AddOrUpdateProcess P d db).2.events =
          [{ event_type := .new_entity, entity_type := .process
             entity_key := processEntityKey P }])
    ∧ (∀ r, UMap.find db.current_state_.processes P = some r →
        (CEcalRegistrationDatabase.AddOrUpdateProcess P d db).1.current_state_.members_by_process
          = db.current_state_.members_by_process)
    ∧ (∀ r, UMap.find db.current_state_.processes P = some r →
        (r.process ≠ d.process ∨ r.host_name ≠ d.host_name) →
        (CEcalRegistrationDatabase.AddOrUpdateProcess P d db).2.events =
          [{ event_type := .updated_entity, entity_type := .process
             entity_key := processEntityKey P }])
    ∧ (∀ r, UMap.find db.current_state_.processes P = some r →
        (r.process = d.process ∧ r.host_name = d.host_name) →
        (CEcalRegistrationDatabase.AddOrUpdateProcess P d db).2.events = []) := by
  obtain ⟨hev, -, -, hfind, -, hmem⟩ := AddOrUpdateProcess_spec P d db
  refine ⟨by rw [hfind P, if_pos rfl], fun hn => ?_, fun r hr => ?_, fun r hr hd => ?_,
    fun r hr he => ?_⟩
  · rw [hn] at hev hmem
    refine ⟨?_, hev⟩
    rw [hmem]
    cases hb : UMap.find db.current_state_.members_by_process P with
    | none => exact ⟨{}, by simp [UMap.find_emplace _ _ _ _ hb]⟩
    | some b => exact ⟨b, hb⟩
  · rw [hmem, hr]
  · have hne : r ≠ d := by
      rw [ne_eq, ← ProcessRegistrationDelta_eq_iff]
      tauto
    rw [hev, hr]
    simp [hne]
  · have heq : r = d := (ProcessRegistrationDelta_eq_iff r d).mp he
    rw [hev, hr]
    simp [heq]

/-! ## The event log: no second `new_entity` without a `deleted_entity` -/

theorem processKeyOf_processEntityKey (P : ProcessKey) (h : inInt32 P = true) :
    processKeyOf (processEntityKey P) = P := by
  unfold inInt32 at h
  simp only [decide_eq_true_eq] at h
  unfold processKeyOf processEntityKey
  have e₁ : (2 : Int) ^ 64 = 18446744073709551616 := by norm_num
  have e₂ : (2 : Nat) ^ 63 = 9223372036854775808 := by norm_num
  have e₃ : (2 : Int) ^ 31 = 2147483648 := by norm_num
  rw [e₁, e₂]
  rw [e₃] at h
  have hcast : (((P % 18446744073709551616).toNat : Nat) : Int) = P % 18446744073709551616 :=
    Int.toNat_of_nonneg (Int.emod_nonneg _ (by norm_num))
  generalize (P % 18446744073709551616).toNat = n at hcast ⊢
  have hP : -2147483648 ≤ (P : Int) ∧ (P : Int) < 2147483648 := h
  split
  · rename_i hlt
    have hlt' : (n : Nat) < 9223372036854775808 := hlt
    show ((n : Nat) : Int) = (P : Int)
    omega
  · rename_i hlt
    have hlt' : ¬ (n : Nat) < 9223372036854775808 := hlt
    show ((n : Nat) : Int) - 18446744073709551616 = (P : Int)
    omega

theorem scanEvents_append (K : EntityType) (E : EntityKey) (p : Bool)
    (l₁ l₂ : List EntityEvent) :
    scanEvents K E p (l₁ ++ l₂) = (scanEvents K E p l₁).bind (fun q => scanEvents K E q l₂) := by
  induction l₁ generalizing p with
  | nil => rfl
  | cons e rest ih =>
    simp only [List.cons_append, scanEvents]
    split
    · split
      · rfl
      · exact ih true
    · split
      · exact ih false
      · exact ih p

theorem scanEvents_second_new (K : EntityType) (E : EntityKey)
    (between after : List EntityEvent) (h : deletedEvent K E ∉ between) :
    scanEvents K E true (between ++ newEvent K E :: after) = none := by
  induction between with
  | nil => simp [scanEvents]
  | cons e rest ih =>
    have hr : deletedEvent K E ∉ rest := fun hm => h (List.mem_cons_of_mem _ hm)
    have he : e ≠ deletedEvent K E := fun heq => h (by rw [heq]; exact List.mem_cons_self _ _)
    simp only [List.cons_append, scanEvents, he, if_false, if_true]
    split
    · rfl
    · exact ih hr

theorem scanEvents_sound (K : EntityType) (E : EntityKey) (p q : Bool)
    (before between after : List EntityEvent)
    (h : scanEvents K E p (before ++ newEvent K E :: (between ++ newEvent K E :: after))
      = some q) :
    deletedEvent K E ∈ between := by
  by_contra hn
  rw [scanEvents_append] at h
  cases hb : scanEvents K E p before with
  | none => rw [hb] at h; cases h
  | some q₀ =>
    rw [hb] at h
    simp only [Option.some_bind, scanEvents, if_true] at h
    cases q₀ with
    | true => simp at h
    | false =>
      simp only [Bool.false_eq_true, if_false] at h
      rw [scanEvents_second_new K E between after hn] at h
      cases h

theorem scanEvents_no_new (K : EntityType) (E : EntityKey) (p : Bool) (l : List EntityEvent)
    (h : ∀ e ∈ l, e.event_type ≠ .new_entity) :
    scanEvents K E p l = some (if deletedEvent K E ∈ l then false else p) := by
  induction l generalizing p with
  | nil => simp [scanEvents]
  | cons e rest ih =>
    have hr : ∀ e ∈ rest, e.event_type ≠ .new_entity :=
      fun x hx => h x (List.mem_cons_of_mem _ hx)
    have he : e ≠ newEvent K E := fun heq => h e (List.mem_cons_self _ _) (by rw [heq]; rfl)
    simp only [scanEvents, he, if_false]
    by_cases hd : e = deletedEvent K E
    · subst hd
      rw [if_pos rfl, ih false hr]
      simp
    · have hd' : ¬ deletedEvent K E = e := fun x => hd x.symm
      rw [if_neg hd, ih p hr]
      simp [hd']

theorem typedEventLog_append (ops₁ ops₂ : List TypedOp) (db : CEcalRegistrationDatabase) :
    typedEventLog (ops₁ ++ ops₂) db =
      typedEventLog ops₁ db ++ typedEventLog ops₂ (runTyped ops₁ db) := by
  induction ops₁ generalizing db with
  | nil => rfl
  | cons op rest ih =>
    show (op.apply db).2.events ++ typedEventLog (rest ++ ops₂) (op.apply db).1 =
      ((op.apply db).2.events ++ typedEventLog rest (op.apply db).1)
        ++ typedEventLog ops₂ (runTyped rest (op.apply db).1)
    rw [ih, List.append_assoc]

theorem ApplySample_events (sample_ : Sample) (db : CEcalRegistrationDatabase) :
    (CEcalRegistrationDatabase.ApplySample sample_ db).2.events =
      typedEventLog (routedMutations sample_) db := by
  unfold CEcalRegistrationDatabase.ApplySample routedMutations
  cases sample_.cmd_type <;>
    simp [typedEventLog, TypedOp.apply, CEcalRegistrationDatabase.CurrentRevision,
      (UpdatePublisherMonitoring_spec _ _ _).1, (UpdateSubscriberMonitoring_spec _ _ _).1,
      (UpdateServerMonitoring_spec _ _ _).1, (UpdateClientMonitoring_spec _ _ _).1]

theorem ApplySamples_fold_events (samples_ : List Sample)
    (acc : CEcalRegistrationDatabase × ApplyResult) :
    (samples_.foldl CEcalRegistrationDatabase.ApplySamplesStep acc).2.events =
      acc.2.events ++ typedEventLog (samples_.flatMap routedMutations) acc.1 := by
  induction samples_ generalizing acc with
  | nil => simp [typedEventLog]
  | cons s rest ih =>
    rw [List.foldl_cons, ih, List.flatMap_cons, typedEventLog_append, ← ApplySample_events,
      ← ApplySample_db]
    simp [CEcalRegistrationDatabase.ApplySamplesStep, List.append_assoc]

theorem Op.apply_events (op : Op) (db : CEcalRegistrationDatabase) :
    (op.apply db).2.events = typedEventLog op.typedOps db := by
  cases op with
  | typed t => simp [Op.apply, Op.typedOps, typedEventLog]
  | ApplySample s => exact ApplySample_events s db
  | ApplySamples l =>
    have := ApplySamples_fold_events l
      (db, { new_revision := CEcalRegistrationDatabase.CurrentRevision db, events := [] })
    simpa [Op.apply, Op.typedOps, CEcalRegistrationDatabase.ApplySamples] using this

theorem eventLog_eq_typedEventLog (ops : List Op) (db : CEcalRegistrationDatabase) :
    eventLog ops db = typedEventLog (ops.flatMap Op.typedOps) db := by
  induction ops generalizing db with
  | nil => rfl
  | cons op rest ih =>
    rw [List.flatMap_cons, typedEventLog_append, ← Op.apply_db, ← Op.apply_events, ← ih]
    rfl

theorem routedMutations_inRange (s : Sample) (h : inInt32 s.identifier.process_id = true) :
    ∀ t ∈ routedMutations s, t.processKeyInRange = true := by
  unfold routedMutations
  cases s.cmd_type <;> simp [TypedOp.processKeyInRange, h]

theorem Op.typedOps_inRange (op : Op) (h : op.processKeyInRange = true) :
    ∀ t ∈ op.typedOps, t.processKeyInRange = true := by
  cases op with
  | typed t => simpa [Op.typedOps, Op.processKeyInRange] using h
  | ApplySample s => exact routedMutations_inRange s h
  | ApplySamples l =>
    intro t ht
    simp only [Op.typedOps, List.mem_flatMap] at ht
    obtain ⟨s, hs, ht⟩ := ht
    simp only [Op.processKeyInRange, List.all_eq_true] at h
    exact routedMutations_inRange s (h s hs) t ht

theorem State.present_revision (s : State) (n : Revision) (K : EntityType) (E : EntityKey) :
    State.present { s with revision := n } K E = s.present K E := by
  cases K <;> rfl

theorem scanEvents_nil (K : EntityType) (E : EntityKey) (p : Bool) :
    scanEvents K E p [] = some p := rfl

theorem scanEvents_updated (K K' : EntityType) (E E' : EntityKey) (p : Bool) :
    scanEvents K E p [⟨.updated_entity, K', E'⟩] = some p := by
  simp [scanEvents, newEvent, deletedEvent]

theorem scanEvents_new (K K' : EntityType) (E E' : EntityKey) (p : Bool) :
    scanEvents K E p [⟨.new_entity, K', E'⟩] =
      if K' = K ∧ E' = E then (if p = true then none else some true) else some p := by
  by_cases h : K' = K ∧ E' = E
  · obtain ⟨rfl, rfl⟩ := h
    simp [scanEvents, newEvent]
  · have hne : (⟨.new_entity, K', E'⟩ : EntityEvent) ≠ newEvent K E := by
      simp only [newEvent, ne_eq, EntityEvent.mk.injEq, true_and]
      exact h
    simp [scanEvents, hne, deletedEvent, h]

theorem scanEvents_deleted (K K' : EntityType) (E E' : EntityKey) (p : Bool) :
    scanEvents K E p [⟨.deleted_entity, K', E'⟩] =
      some (if K' = K ∧ E' = E then false else p) := by
  by_cases h : K' = K ∧ E' = E
  · obtain ⟨rfl, rfl⟩ := h
    simp [scanEvents, newEvent, deletedEvent]
  · have hne : (⟨.deleted_entity, K', E'⟩ : EntityEvent) ≠ deletedEvent K E := by
      simp only [deletedEvent, ne_eq, EntityEvent.mk.injEq, true_and]
      exact h
    simp [scanEvents, hne, newEvent, h]

theorem UpdatePublisherMonitoring_present (key_ : EntityKey) (delta_ : TopicMonitoringDelta)
    (db : CEcalRegistrationDatabase) (K : EntityType) (E : EntityKey) :
    (CEcalRegistrationDatabase.UpdatePublisherMonitoring key_ delta_
      db).1.current_state_.present K E = db.current_state_.present K E := by
  unfold CEcalRegistrationDatabase.UpdatePublisherMonitoring
  rw [ApplyMutation_state, UpdatePublisherMonitoringMutator_eq]
  by_cases hs : TopicMonitoringDelta.unchanged
      (UMap.find db.current_state_.publisher_monitoring key_) delta_ = true
  · simp [hs]
  · rw [Bool.not_eq_true] at hs
    simp only [hs, Bool.false_eq_true, if_false]
    cases K <;> rfl

theorem AddOrUpdatePublisher_present (key_ : EntityKey) (delta_ : TopicRegistrationDelta)
    (db : CEcalRegistrationDatabase) (K : EntityType) (E : EntityKey) :
    (CEcalRegistrationDatabase.AddOrUpdatePublisher key_ delta_
      db).1.current_state_.present K E =
      (decide (K = .publisher ∧ E = key_) || db.current_state_.present K E) := by
  unfold CEcalRegistrationDatabase.AddOrUpdatePublisher
  rw [ApplyMutation_state, AddOrUpdatePublisherMutator_changed]
  by_cases hu : TopicRegistrationDelta.unchanged
      (UMap.find db.current_state_.publishers key_) delta_ = true
  · have hs := TopicRegistrationDelta_unchanged_eq hu
    by_cases hk : K = .publisher ∧ E = key_
    · obtain ⟨rfl, rfl⟩ := hk
      rw [hu]
      simp [hs, State.present, State.hasRegistration, State.regProcessId]
    · simp [hu, hk]
  · rw [Bool.not_eq_true] at hu
    simp only [hu, Bool.false_or, Bool.not_false, Bool.true_eq_false, if_false]
    rw [State.present_revision, AddOrUpdatePublisherMutator_frame]
    cases K <;>
      simp [State.present, State.hasRegistration, State.regProcessId, State.hasProcess,
        AddOrUpdatePublisherMutator_find]
    by_cases hE : E = key_ <;> simp [hE]

theorem AddOrUpdatePublisher_scan (key_ : EntityKey) (delta_ : TopicRegistrationDelta)
    (db : CEcalRegistrationDatabase) (K : EntityType) (E : EntityKey) :
    scanEvents K E (db.current_state_.present K E)
        (CEcalRegistrationDatabase.AddOrUpdatePublisher key_ delta_ db).2.events =
      some ((CEcalRegistrationDatabase.AddOrUpdatePublisher key_ delta_
        db).1.current_state_.present K E) := by
  rw [AddOrUpdatePublisher_present, (AddOrUpdatePublisher_spec key_ delta_ db).1]
  cases hf : UMap.find db.current_state_.publishers key_ with
  | none =>
    simp only [scanEvents_new]
    by_cases hk : EntityType.publisher = K ∧ key_ = E
    · obtain ⟨rfl, rfl⟩ := hk
      simp [State.present, State.hasRegistration, State.regProcessId, hf]
    · have hk' : ¬ (K = EntityType.publisher ∧ E = key_) := fun h => hk ⟨h.1.symm, h.2.symm⟩
      simp [hk, hk']
  | some r =>
    have hp : ∀ h : K = EntityType.publisher ∧ E = key_,
        db.current_state_.present K E = true := by
      rintro ⟨rfl, rfl⟩
      simp [State.present, State.hasRegistration, State.regProcessId, hf]
    have hb : (decide (K = EntityType.publisher ∧ E = key_) || db.current_state_.present K E)
        = db.current_state_.present K E := by
      by_cases hk : K = EntityType.publisher ∧ E = key_
      · simp [hp hk]
      · simp [hk]
    rw [hb]
    simp only
    split
    · rfl
    · exact scanEvents_updated _ _ _ _ _

theorem RemovePublisher_scan (key_ : EntityKey) (db : CEcalRegistrationDatabase)
    (K : EntityType) (E : EntityKey) :
    scanEvents K E (db.current_state_.present K E)
        (CEcalRegistrationDatabase.RemovePublisher key_ db).2.events =
      some ((CEcalRegistrationDatabase.RemovePublisher key_ db).1.current_state_.present K E) := by
  cases hf : UMap.find db.current_state_.publishers key_ with
  | none =>
    rw [(RemovePublisher_spec key_ db).1 hf]
    rfl
  | some r =>
    obtain ⟨h₂, h₁⟩ := (RemovePublisher_spec key_ db).2 r hf
    rw [h₁, h₂]
    simp only [scanEvents_deleted]
    by_cases hk : EntityType.publisher = K ∧ key_ = E
    · obtain ⟨rfl, rfl⟩ := hk
      simp [State.present, State.hasRegistration, State.regProcessId, UMap.find_erase]
    · rw [if_neg hk]
      cases K <;>
        simp [State.present, State.hasRegistration, State.regProcessId, State.hasProcess,
          UMap.find_erase]
      have hE : ¬ E = key_ := fun h => hk ⟨rfl, h.symm⟩
      simp [hE]

theorem UpdateSubscriberMonitoring_present (key_ : EntityKey) (delta_ : TopicMonitoringDelta)
    (db : CEcalRegistrationDatabase) (K : EntityType) (E : EntityKey) :
    (CEcalRegistrationDatabase.UpdateSubscriberMonitoring key_ delta_
      db).1.current_state_.present K E = db.current_state_.present K E := by
  unfold CEcalRegistrationDatabase.UpdateSubscriberMonitoring
  rw [ApplyMutation_state, UpdateSubscriberMonitoringMutator_eq]
  by_cases hs : TopicMonitoringDelta.unchanged
      (UMap.find db.current_state_.subscriber_monitoring key_) delta_ = true
  · simp [hs]
  · rw [Bool.not_eq_true] at hs
    simp only [hs, Bool.false_eq_true, if_false]
    cases K <;> rfl

theorem AddOrUpdateSubscriber_present (key_ : EntityKey) (delta_ : TopicRegistrationDelta)
    (db : CEcalRegistrationDatabase) (K : EntityType) (E : EntityKey) :
    (CEcalRegistrationDatabase.AddOrUpdateSubscriber key_ delta_
      db).1.current_state_.present K E =
      (decide (K = .subscriber ∧ E = key_) || db.current_state_.present K E) := by
  unfold CEcalRegistrationDatabase.AddOrUpdateSubscriber
  rw [ApplyMutation_state, AddOrUpdateSubscriberMutator_changed]
  by_cases hu : TopicRegistrationDelta.unchanged
      (UMap.find db.current_state_.subscribers key_) delta_ = true
  · have hs := TopicRegistrationDelta_unchanged_eq hu
    by_cases hk : K = .subscriber ∧ E = key_
    · obtain ⟨rfl, rfl⟩ := hk
      rw [hu]
      simp [hs, State.present, State.hasRegistration, State.regProcessId]
    · simp [hu, hk]
  · rw [Bool.not_eq_true] at hu
    simp only [hu, Bool.false_or, Bool.not_false, Bool.true_eq_false, if_false]
    rw [State.present_revision, AddOrUpdateSubscriberMutator_frame]
    cases K <;>
      simp [State.present, State.hasRegistration, State.regProcessId, State.hasProcess,
        AddOrUpdateSubscriberMutator_find]
    by_cases hE : E = key_ <;> simp [hE]

theorem AddOrUpdateSubscriber_scan (key_ : EntityKey) (delta_ : TopicRegistrationDelta)
    (db : CEcalRegistrationDatabase) (K : EntityType) (E : EntityKey) :
    scanEvents K E (db.current_state_.present K E)
        (CEcalRegistrationDatabase.AddOrUpdateSubscriber key_ delta_ db).2.events =
      some ((CEcalRegistrationDatabase.AddOrUpdateSubscriber key_ delta_
        db).1.current_state_.present K E) := by
  rw [AddOrUpdateSubscriber_present, (AddOrUpdateSubscriber_spec key_ delta_ db).1]
  cases hf : UMap.find db.current_state_.subscribers key_ with
  | none =>
    simp only [scanEvents_new]
    by_cases hk : EntityType.subscriber = K ∧ key_ = E
    · obtain ⟨rfl, rfl⟩ := hk
      simp [State.present, State.hasRegistration, State.regProcessId, hf]
    · have hk' : ¬ (K = EntityType.subscriber ∧ E = key_) := fun h => hk ⟨h.1.symm, h.2.symm⟩
      simp [hk, hk']
  | some r =>
    have hp : ∀ h : K = EntityType.subscriber ∧ E = key_,
        db.current_state_.present K E = true := by
      rintro ⟨rfl, rfl⟩
      simp [State.present, State.hasRegistration, State.regProcessId, hf]
    have hb : (decide (K = EntityType.subscriber ∧ E = key_) || db.current_state_.present K E)
        = db.current_state_.present K E := by
      by_cases hk : K = EntityType.subscriber ∧ E = key_
      · simp [hp hk]
      · simp [hk]
    rw [hb]
    simp only
    split
    · rfl
    · exact scanEvents_updated _ _ _ _ _

theorem RemoveSubscriber_scan (key_ : EntityKey) (db : CEcalRegistrationDatabase)
    (K : EntityType) (E : EntityKey) :
    scanEvents K E (db.current_state_.present K E)
        (CEcalRegistrationDatabase.RemoveSubscriber key_ db).2.events =
      some ((CEcalRegistrationDatabase.RemoveSubscriber key_ db).1.current_state_.present K E) := by
  cases hf : UMap.find db.current_state_.subscribers key_ with
  | none =>
    rw [(RemoveSubscriber_spec key_ db).1 hf]
    rfl
  | some r =>
    obtain ⟨h₂, h₁⟩ := (RemoveSubscriber_spec key_ db).2 r hf
    rw [h₁, h₂]
    simp only [scanEvents_deleted]
    by_cases hk : EntityType.subscriber = K ∧ key_ = E
    · obtain ⟨rfl, rfl⟩ := hk
      simp [State.present, State.hasRegistration, State.regProcessId, UMap.find_erase]
    · rw [if_neg hk]
      cases K <;>
        simp [State.present, State.hasRegistration, State.regProcessId, State.hasProcess,
          UMap.find_erase]
      have hE : ¬ E = key_ := fun h => hk ⟨rfl, h.symm⟩
      simp [hE]

theorem UpdateServerMonitoring_present (key_ : EntityKey) (delta_ : ServiceMonitoringDelta)
    (db : CEcalRegistrationDatabase) (K : EntityType) (E : EntityKey) :
    (CEcalRegistrationDatabase.UpdateServerMonitoring key_ delta_
      db).1.current_state_.present K E = db.current_state_.present K E := by
  unfold CEcalRegistrationDatabase.UpdateServerMonitoring
  rw [ApplyMutation_state, UpdateServerMonitoringMutator_eq]
  by_cases hs : UMap.find db.current_state_.server_monitoring key_ = some delta_
  · simp [hs]
  · simp only [hs, if_false]
    cases K <;> rfl

theorem AddOrUpdateServer_present (key_ : EntityKey) (delta_ : ServiceRegistrationDelta)
    (db : CEcalRegistrationDatabase) (K : EntityType) (E : EntityKey) :
    (CEcalRegistrationDatabase.AddOrUpdateServer key_ delta_
      db).1.current_state_.present K E =
      (decide (K = .server ∧ E = key_) || db.current_state_.present K E) := by
  unfold CEcalRegistrationDatabase.AddOrUpdateServer
  rw [ApplyMutation_state, AddOrUpdateServerMutator_changed]
  by_cases hs : UMap.find db.current_state_.servers key_ = some delta_
  · by_cases hk : K = .server ∧ E = key_
    · obtain ⟨rfl, rfl⟩ := hk
      simp [hs, State.present, State.hasRegistration, State.regProcessId]
    · simp [hs, hk]
  · simp only [hs, Bool.false_or, ne_eq, not_false_eq_true, decide_True, Bool.true_eq_false,
      if_false]
    rw [State.present_revision, AddOrUpdateServerMutator_frame]
    cases K <;>
      simp [State.present, State.hasRegistration, State.regProcessId, State.hasProcess,
        AddOrUpdateServerMutator_find]
    by_cases hE : E = key_ <;> simp [hE]

theorem AddOrUpdateServer_scan (key_ : EntityKey) (delta_ : ServiceRegistrationDelta)
    (db : CEcalRegistrationDatabase) (K : EntityType) (E : EntityKey) :
    scanEvents K E (db.current_state_.present K E)
        (CEcalRegistrationDatabase.AddOrUpdateServer key_ delta_ db).2.events =
      some ((CEcalRegistrationDatabase.AddOrUpdateServer key_ delta_
        db).1.current_state_.present K E) := by
  rw [AddOrUpdateServer_present, (AddOrUpdateServer_spec key_ delta_ db).1]
  cases hf : UMap.find db.current_state_.servers key_ with
  | none =>
    simp only [scanEvents_new]
    by_cases hk : EntityType.server = K ∧ key_ = E
    · obtain ⟨rfl, rfl⟩ := hk
      simp [State.present, State.hasRegistration, State.regProcessId, hf]
    · have hk' : ¬ (K = EntityType.server ∧ E = key_) := fun h => hk ⟨h.1.symm, h.2.symm⟩
      simp [hk, hk']
  | some r =>
    have hp : ∀ h : K = EntityType.server ∧ E = key_,
        db.current_state_.present K E = true := by
      rintro ⟨rfl, rfl⟩
      simp [State.present, State.hasRegistration, State.regProcessId, hf]
    have hb : (decide (K = EntityType.server ∧ E = key_) || db.current_state_.present K E)
        = db.current_state_.present K E := by
      by_cases hk : K = EntityType.server ∧ E = key_
      · simp [hp hk]
      · simp [hk]
    rw [hb]
    simp only
    split
    · rfl
    · exact scanEvents_updated _ _ _ _ _

theorem RemoveServer_scan (key_ : EntityKey) (db : CEcalRegistrationDatabase)
    (K : EntityType) (E : EntityKey) :
    scanEvents K E (db.current_state_.present K E)
        (CEcalRegistrationDatabase.RemoveServer key_ db).2.events =
      some ((CEcalRegistrationDatabase.RemoveServer key_ db).1.current_state_.present K E) := by
  cases hf : UMap.find db.current_state_.servers key_ with
  | none =>
    rw [(RemoveServer_spec key_ db).1 hf]
    rfl
  | some r =>
    obtain ⟨h₂, h₁⟩ := (RemoveServer_spec key_ db).2 r hf
    rw [h₁, h₂]
    simp only [scanEvents_deleted]
    by_cases hk : EntityType.server = K ∧ key_ = E
    · obtain ⟨rfl, rfl⟩ := hk
      simp [State.present, State.hasRegistration, State.regProcessId, UMap.find_erase]
    · rw [if_neg hk]
      cases K <;>
        simp [State.present, State.hasRegistration, State.regProcessId, State.hasProcess,
          UMap.find_erase]
      have hE : ¬ E = key_ := fun h => hk ⟨rfl, h.symm⟩
      simp [hE]

theorem UpdateClientMonitoring_present (key_ : EntityKey) (delta_ : ClientMonitoringDelta)
    (db : CEcalRegistrationDatabase) (K : EntityType) (E : EntityKey) :
    (CEcalRegistrationDatabase.UpdateClientMonitoring key_ delta_
      db).1.current_state_.present K E = db.current_state_.present K E := by
  unfold CEcalRegistrationDatabase.UpdateClientMonitoring
  rw [ApplyMutation_state, UpdateClientMonitoringMutator_eq]
  by_cases hs : UMap.find db.current_state_.client_monitoring key_ = some delta_
  · simp [hs]
  · simp only [hs, if_false]
    cases K <;> rfl

theorem AddOrUpdateClient_present (key_ : EntityKey) (delta_ : ClientRegistrationDelta)
    (db : CEcalRegistrationDatabase) (K : EntityType) (E : EntityKey) :
    (CEcalRegistrationDatabase.AddOrUpdateClient key_ delta_
      db).1.current_state_.present K E =
      (decide (K = .client ∧ E = key_) || db.current_state_.present K E) := by
  unfold CEcalRegistrationDatabase.AddOrUpdateClient
  rw [ApplyMutation_state, AddOrUpdateClientMutator_changed]
  by_cases hs : UMap.find db.current_state_.clients key_ = some delta_
  · by_cases hk : K = .client ∧ E = key_
    · obtain ⟨rfl, rfl⟩ := hk
      simp [hs, State.present, State.hasRegistration, State.regProcessId]
    · simp [hs, hk]
  · simp only [hs, Bool.false_or, ne_eq, not_false_eq_true, decide_True, Bool.true_eq_false,
      if_false]
    rw [State.present_revision, AddOrUpdateClientMutator_frame]
    cases K <;>
      simp [State.present, State.hasRegistration, State.regProcessId, State.hasProcess,
        AddOrUpdateClientMutator_find]
    by_cases hE : E = key_ <;> simp [hE]

theorem AddOrUpdateClient_scan (key_ : EntityKey) (delta_ : ClientRegistrationDelta)
    (db : CEcalRegistrationDatabase) (K : EntityType) (E : EntityKey) :
    scanEvents K E (db.current_state_.present K E)
        (CEcalRegistrationDatabase.AddOrUpdateClient key_ delta_ db).2.events =
      some ((CEcalRegistrationDatabase.AddOrUpdateClient key_ delta_
        db).1.current_state_.present K E) := by
  rw [AddOrUpdateClient_present, (AddOrUpdateClient_spec key_ delta_ db).1]
  cases hf : UMap.find db.current_state_.clients key_ with
  | none =>
    simp only [scanEvents_new]
    by_cases hk : EntityType.client = K ∧ key_ = E
    · obtain ⟨rfl, rfl⟩ := hk
      simp [State.present, State.hasRegistration, State.regProcessId, hf]
    · have hk' : ¬ (K = EntityType.client ∧ E = key_) := fun h => hk ⟨h.1.symm, h.2.symm⟩
      simp [hk, hk']
  | some r =>
    have hp : ∀ h : K = EntityType.client ∧ E = key_,
        db.current_state_.present K E = true := by
      rintro ⟨rfl, rfl⟩
      simp [State.present, State.hasRegistration, State.regProcessId, hf]
    have hb : (decide (K = EntityType.client ∧ E = key_) || db.current_state_.present K E)
        = db.current_state_.present K E := by
      by_cases hk : K = EntityType.client ∧ E = key_
      · simp [hp hk]
      · simp [hk]
    rw [hb]
    simp only
    split
    · rfl
    · exact scanEvents_updated _ _ _ _ _

theorem RemoveClient_scan (key_ : EntityKey) (db : CEcalRegistrationDatabase)
    (K : EntityType) (E : EntityKey) :
    scanEvents K E (db.current_state_.present K E)
        (CEcalRegistrationDatabase.RemoveClient key_ db).2.events =
      some ((CEcalRegistrationDatabase.RemoveClient key_ db).1.current_state_.present K E) := by
  cases hf : UMap.find db.current_state_.clients key_ with
  | none =>
    rw [(RemoveClient_spec key_ db).1 hf]
    rfl
  | some r =>
    obtain ⟨h₂, h₁⟩ := (RemoveClient_spec key_ db).2 r hf
    rw [h₁, h₂]
    simp only [scanEvents_deleted]
    by_cases hk : EntityType.client = K ∧ key_ = E
    · obtain ⟨rfl, rfl⟩ := hk
      simp [State.present, State.hasRegistration, State.regProcessId, UMap.find_erase]
    · rw [if_neg hk]
      cases K <;>
        simp [State.present, State.hasRegistration, State.regProcessId, State.hasProcess,
          UMap.find_erase]
      have hE : ¬ E = key_ := fun h => hk ⟨rfl, h.symm⟩
      simp [hE]

theorem UpdateProcessMonitoring_present (key_ : ProcessKey) (delta_ : ProcessMonitoringDelta)
    (db : CEcalRegistrationDatabase) (K : EntityType) (E : EntityKey) :
    (CEcalRegistrationDatabase.UpdateProcessMonitoring key_ delta_
      db).1.current_state_.present K E = db.current_state_.present K E := by
  unfold CEcalRegistrationDatabase.UpdateProcessMonitoring
  rw [ApplyMutation_state, UpdateProcessMonitoringMutator_eq]
  by_cases hs : UMap.find db.current_state_.process_monitoring key_ = some delta_
  · simp [hs]
  · simp only [hs, if_false]
    cases K <;> rfl

theorem EnsureProcessMembership_present (s : State) (P : ProcessKey) (K : EntityType)
    (E : EntityKey) : (EnsureProcessMembership s P).present K E = s.present K E := by
  unfold EnsureProcessMembership
  split
  · cases K <;> rfl
  · rfl

theorem AddOrUpdateProcess_present (key_ : ProcessKey) (delta_ : ProcessRegistrationDelta)
    (db : CEcalRegistrationDatabase) (K : EntityType) (E : EntityKey) :
    (CEcalRegistrationDatabase.AddOrUpdateProcess key_ delta_
      db).1.current_state_.present K E =
      (decide (K = .process ∧ processKeyOf E = key_ ∧ processEntityKey key_ = E)
        || db.current_state_.present K E) := by
  have hfind := (AddOrUpdateProcess_spec key_ delta_ db).2.2.2.1
  cases K with
  | process =>
    simp only [State.present, State.hasProcess, hfind, true_and]
    by_cases hk : processKeyOf E = key_
    · subst hk
      by_cases hv : processEntityKey (processKeyOf E) = E <;> simp [hv]
    · simp [hk]
  | publisher | subscriber | server | client =>
    unfold CEcalRegistrationDatabase.AddOrUpdateProcess
    rw [ApplyMutation_state, AddOrUpdateProcessMutator_eq]
    simp only [reduceCtorEq, false_and, decide_False, Bool.false_or]
    split
    · rfl
    · rw [State.present_revision]
      cases hf : UMap.find db.current_state_.processes key_ with
      | none => exact EnsureProcessMembership_present _ _ _ _
      | some r =>
        simp only
        split <;> rfl

theorem AddOrUpdateProcess_scan (key_ : ProcessKey) (delta_ : ProcessRegistrationDelta)
    (db : CEcalRegistrationDatabase) (hr : inInt32 key_ = true) (K : EntityType)
    (E : EntityKey) :
    scanEvents K E (db.current_state_.present K E)
        (CEcalRegistrationDatabase.AddOrUpdateProcess key_ delta_ db).2.events =
      some ((CEcalRegistrationDatabase.AddOrUpdateProcess key_ delta_
        db).1.current_state_.present K E) := by
  rw [AddOrUpdateProcess_present, (AddOrUpdateProcess_spec key_ delta_ db).1]
  cases hf : UMap.find db.current_state_.processes key_ with
  | none =>
    simp only [scanEvents_new]
    by_cases hk : EntityType.process = K ∧ processEntityKey key_ = E
    · obtain ⟨rfl, rfl⟩ := hk
      simp [State.present, State.hasProcess, processKeyOf_processEntityKey key_ hr, hf]
    · have hk' : ¬ (K = EntityType.process ∧ processKeyOf E = key_ ∧ processEntityKey key_ = E) :=
        fun h => hk ⟨h.1.symm, h.2.2⟩
      simp [hk, hk']
  | some r =>
    have hp : ∀ h : K = EntityType.process ∧ processKeyOf E = key_ ∧ processEntityKey key_ = E,
        db.current_state_.present K E = true := by
      rintro ⟨rfl, h₁, h₂⟩
      simp [State.present, State.hasProcess, h₁, h₂, hf]
    have hb : (decide (K = EntityType.process ∧ processKeyOf E = key_ ∧ processEntityKey key_ = E)
          || db.current_state_.present K E) = db.current_state_.present K E := by
      by_cases hk : K = EntityType.process ∧ processKeyOf E = key_ ∧ processEntityKey key_ = E
      · simp [hp hk]
      · simp [hk]
    rw [hb]
    simp only
    split
    · rfl
    · exact scanEvents_updated _ _ _ _ _

theorem RemoveProcess_views (key_ : ProcessKey) (db : CEcalRegistrationDatabase)
    (hc : db.current_state_.Consistent) :
    (∀ K E, (CEcalRegistrationDatabase.RemoveProcess key_ db).1.current_state_.regProcessId K E
        = if db.current_state_.regProcessId K E = some key_ then none
          else db.current_state_.regProcessId K E)
    ∧ (∀ P, (CEcalRegistrationDatabase.RemoveProcess key_ db).1.current_state_.hasProcess P
        = if P = key_ then false else db.current_state_.hasProcess P) := by
  have hch := RemoveProcessMutator_changed key_ ⟨db.current_state_, [], false⟩ hc
  unfold CEcalRegistrationDatabase.RemoveProcess
  rw [ApplyMutation_state]
  split
  · rename_i hu
    rw [hu] at hch
    simp only [Bool.false_eq_true, false_or, false_iff, not_or, not_exists,
      Bool.not_eq_true] at hch
    refine ⟨fun K E => ?_, fun P => ?_⟩
    · rw [if_neg (hch.1 K E)]
    · by_cases hP : P = key_
      · subst hP; simp [hch.2]
      · simp [hP]
  · refine ⟨fun K E => ?_, fun P => ?_⟩
    · rw [State.regProcessId_revision, RemoveProcessMutator_regProcessId key_ _ hc]
    · have := RemoveProcessMutator_hasProcess key_ P ⟨db.current_state_, [], false⟩
      simpa [State.hasProcess] using this

theorem RemoveProcess_scan (key_ : ProcessKey) (db : CEcalRegistrationDatabase)
    (hc : db.current_state_.Consistent) (hr : inInt32 key_ = true) (K : EntityType)
    (E : EntityKey) :
    scanEvents K E (db.current_state_.present K E)
        (CEcalRegistrationDatabase.RemoveProcess key_ db).2.events =
      some ((CEcalRegistrationDatabase.RemoveProcess key_ db).1.current_state_.present K E) := by
  obtain ⟨hreg, hproc⟩ := RemoveProcess_views key_ db hc
  have hmem : ∀ K', K' ≠ EntityType.process →
      (deletedEvent K' E ∈ (CEcalRegistrationDatabase.RemoveProcess key_ db).2.events ↔
        db.current_state_.regProcessId K' E = some key_) := by
    intro K' hK'
    rw [RemoveProcess_events key_ db hc, List.mem_append, mem_memberEvents]
    constructor
    · rintro (⟨K₁, E₁, hE, he⟩ | hp)
      · simp only [deletedEvent, EntityEvent.mk.injEq, true_and] at he
        obtain ⟨rfl, rfl⟩ := he
        exact (hc.bucket_getD key_ K' E).mp hE
      · split at hp
        · simp only [List.mem_singleton, deletedEvent, EntityEvent.mk.injEq, true_and] at hp
          exact absurd hp.1 hK'
        · cases hp
    · intro ho
      exact Or.inl ⟨K', E, (hc.bucket_getD key_ K' E).mpr ho, rfl⟩
  have hnew : ∀ e ∈ (CEcalRegistrationDatabase.RemoveProcess key_ db).2.events,
      e.event_type ≠ .new_entity := by
    intro e he
    rw [RemoveProcess_events key_ db hc, List.mem_append, mem_memberEvents] at he
    rcases he with ⟨K₁, E₁, -, rfl⟩ | hp
    · simp [deletedEvent]
    · split at hp
      · simp only [List.mem_singleton] at hp
        subst hp
        simp [deletedEvent]
      · cases hp
  rw [scanEvents_no_new K E _ _ hnew]
  congr 1
  cases K with
  | process =>
    have hin : deletedEvent .process E ∈
        (CEcalRegistrationDatabase.RemoveProcess key_ db).2.events ↔
        (db.current_state_.hasProcess key_ = true ∧ processEntityKey key_ = E) := by
      rw [RemoveProcess_events key_ db hc, List.mem_append, mem_memberEvents]
      constructor
      · rintro (⟨K₁, E₁, hE, he⟩ | hp)
        · simp only [deletedEvent, EntityEvent.mk.injEq, true_and] at he
          obtain ⟨rfl, rfl⟩ := he
          simp [ProcessMembers.ofType] at hE
        · split at hp
          · rename_i hh
            simp only [List.mem_singleton, deletedEvent, EntityEvent.mk.injEq, true_and] at hp
            exact ⟨hh, hp.symm⟩
          · cases hp
      · rintro ⟨hh, rfl⟩
        right
        rw [if_pos hh]
        exact List.mem_singleton_self _
    simp only [State.present, hproc]
    by_cases hd : db.current_state_.hasProcess key_ = true ∧ processEntityKey key_ = E
    · rw [if_pos (hin.mpr hd)]
      obtain ⟨-, rfl⟩ := hd
      simp [processKeyOf_processEntityKey key_ hr]
    · rw [if_neg (fun h => hd (hin.mp h))]
      by_cases hk : processKeyOf E = key_
      · subst hk
        simp only [if_true, Bool.false_and]
        by_cases hh : db.current_state_.hasProcess (processKeyOf E) = true
        · have hv : ¬ processEntityKey (processKeyOf E) = E := fun h => hd ⟨hh, h⟩
          simp [hv]
        · simp [hh]
      · simp [hk]
  | publisher =>
    simp only [State.present, State.hasRegistration, hreg, hmem .publisher (by decide)]
    split <;> simp_all
  | subscriber =>
    simp only [State.present, State.hasRegistration, hreg, hmem .subscriber (by decide)]
    split <;> simp_all
  | server =>
    simp only [State.present, State.hasRegistration, hreg, hmem .server (by decide)]
    split <;> simp_all
  | client =>
    simp only [State.present, State.hasRegistration, hreg, hmem .client (by decide)]
    split <;> simp_all

theorem TypedOp.apply_scan (op : TypedOp) (db : CEcalRegistrationDatabase)
    (hc : db.current_state_.Consistent) (hr : op.processKeyInRange = true) (K : EntityType)
    (E : EntityKey) :
    scanEvents K E (db.current_state_.present K E) (op.apply db).2.events =
      some ((op.apply db).1.current_state_.present K E) := by
  cases op with
  | AddOrUpdateProcess k d => exact AddOrUpdateProcess_scan k d db hr K E
  | RemoveProcess k => exact RemoveProcess_scan k db hc hr K E
  | AddOrUpdatePublisher k d => exact AddOrUpdatePublisher_scan k d db K E
  | AddOrUpdateSubscriber k d => exact AddOrUpdateSubscriber_scan k d db K E
  | AddOrUpdateServer k d => exact AddOrUpdateServer_scan k d db K E
  | AddOrUpdateClient k d => exact AddOrUpdateClient_scan k d db K E
  | RemovePublisher k => exact RemovePublisher_scan k db K E
  | RemoveSubscriber k => exact RemoveSubscriber_scan k db K E
  | RemoveServer k => exact RemoveServer_scan k db K E
  | RemoveClient k => exact RemoveClient_scan k db K E
  | UpdateProcessMonitoring k d =>
    show scanEvents K E _ (CEcalRegistrationDatabase.UpdateProcessMonitoring k d db).2.events
      = some ((CEcalRegistrationDatabase.UpdateProcessMonitoring k d
        db).1.current_state_.present K E)
    rw [(UpdateProcessMonitoring_spec k d db).1, UpdateProcessMonitoring_present]
    rfl
  | UpdatePublisherMonitoring k d =>
    show scanEvents K E _ (CEcalRegistrationDatabase.UpdatePublisherMonitoring k d db).2.events
      = some ((CEcalRegistrationDatabase.UpdatePublisherMonitoring k d
        db).1.current_state_.present K E)
    rw [(UpdatePublisherMonitoring_spec k d db).1, UpdatePublisherMonitoring_present]
    rfl
  | UpdateSubscriberMonitoring k d =>
    show scanEvents K E _ (CEcalRegistrationDatabase.UpdateSubscriberMonitoring k d db).2.events
      = some ((CEcalRegistrationDatabase.UpdateSubscriberMonitoring k d
        db).1.current_state_.present K E)
    rw [(UpdateSubscriberMonitoring_spec k d db).1, UpdateSubscriberMonitoring_present]
    rfl
  | UpdateServerMonitoring k d =>
    show scanEvents K E _ (CEcalRegistrationDatabase.UpdateServerMonitoring k d db).2.events
      = some ((CEcalRegistrationDatabase.UpdateServerMonitoring k d
        db).1.current_state_.present K E)
    rw [(UpdateServerMonitoring_spec k d db).1, UpdateServerMonitoring_present]
    rfl
  | UpdateClientMonitoring k d =>
    show scanEvents K E _ (CEcalRegistrationDatabase.UpdateClientMonitoring k d db).2.events
      = some ((CEcalRegistrationDatabase.UpdateClientMonitoring k d
        db).1.current_state_.present K E)
    rw [(UpdateClientMonitoring_spec k d db).1, UpdateClientMonitoring_present]
    rfl

theorem typedEventLog_scan (ops : List TypedOp) (db : CEcalRegistrationDatabase)
    (hc : db.current_state_.Consistent) (hr : ∀ op ∈ ops, op.processKeyInRange = true)
    (K : EntityType) (E : EntityKey) :
    scanEvents K E (db.current_state_.present K E) (typedEventLog ops db) =
      some ((runTyped ops db).current_state_.present K E) := by
  induction ops generalizing db with
  | nil => rfl
  | cons op rest ih =>
    show scanEvents K E _ ((op.apply db).2.events ++ typedEventLog rest (op.apply db).1) = _
    rw [scanEvents_append, op.apply_scan db hc (hr op (List.mem_cons_self _ _)) K E]
    exact ih _ (op.apply_consistent db hc) (fun t ht => hr t (List.mem_cons_of_mem _ ht))

/-- C20, no duplicate `new_entity` without an intervening `deleted_entity`: for every
sequence of public calls (typed mutations, `ApplySample`, `ApplySamples`) applied to the
empty database whose process keys are `int32_t` values, every entity kind `K` and key `E`:
whenever the concatenation of the returned event lists contains `new_entity(K, E)` at two
positions, written as `before`, the event, `between`, the event, `after`, the part
`between` contains `deleted_entity(K, E)`. -/
theorem no_duplicate_new_entity (ops : List Op)
    (hr : ∀ op ∈ ops, op.processKeyInRange = true)
    (K : EntityType) (E : EntityKey) (before between after : List EntityEvent)
    (h : eventLog ops {} = before ++ newEvent K E :: (between ++ newEvent K E :: after)) :
    deletedEvent K E ∈ between := by
  have hr' : ∀ t ∈ ops.flatMap Op.typedOps, t.processKeyInRange = true := by
    intro t ht
    rw [List.mem_flatMap] at ht
    obtain ⟨op, hop, ht⟩ := ht
    exact op.typedOps_inRange (hr op hop) t ht
  have hs := typedEventLog_scan (ops.flatMap Op.typedOps) {} State.consistent_empty hr' K E
  rw [← eventLog_eq_typedEventLog, h] at hs
  exact scanEvents_sound K E _ _ before between after hs

/-- Instance of C20: registering publisher 5, removing it and registering it again logs
`new_entity`, `deleted_entity`, `new_entity` for `(publisher, 5)`; the part between the two
`new_entity` events contains the `deleted_entity` event. -/
theorem no_duplicate_new_entity_witness :
    eventLog [.typed (.AddOrUpdatePublisher 5 {}), .typed (.RemovePublisher 5),
        .typed (.AddOrUpdatePublisher 5 {})] {}
      = [] ++ newEvent .publisher 5 ::
          ([deletedEvent .publisher 5] ++ newEvent .publisher 5 :: [])
    ∧ deletedEvent .publisher 5 ∈ [deletedEvent .publisher 5] :=
  ⟨by decide,
    no_duplicate_new_entity
      [.typed (.AddOrUpdatePublisher 5 {}), .typed (.RemovePublisher 5),
        .typed (.AddOrUpdatePublisher 5 {})]
      (by decide) .publisher 5 [] [deletedEvent .publisher 5] [] (by decide)⟩

/-! ## The sample router -/

theorem UMap.size_emplace_fresh {K V : Type} [DecidableEq K] (m : UMap K V) (k : K) (v : V)
    (h : UMap.find m k = none) : UMap.size (UMap.emplace m k v) = UMap.size m + 1 := by
  simp [UMap.size, UMap.emplace, h]

theorem wrap_succ_succ (r : Nat) : ((r + 1) % 2 ^ 64 + 1) % 2 ^ 64 = (r + 2) % 2 ^ 64 := by
  omega

theorem AddOrUpdatePublisher_fresh (key_ : EntityKey) (delta_ : TopicRegistrationDelta)
    (db : CEcalRegistrationDatabase)
    (h : UMap.find db.current_state_.publishers key_ = none) :
    (CEcalRegistrationDatabase.AddOrUpdatePublisher key_ delta_ db).1.current_state_ =
      { db.current_state_ with
        revision := (db.current_state_.revision + 1) % 2 ^ 64
        publishers := UMap.emplace db.current_state_.publishers key_ delta_
        members_by_process :=
          AddMembership db.current_state_.members_by_process delta_.process_id
            .publisher key_ } := by
  unfold CEcalRegistrationDatabase.AddOrUpdatePublisher ApplyMutation
    AddOrUpdatePublisherMutator
  simp [h]

theorem UpdatePublisherMonitoring_frame (key_ : EntityKey) (delta_ : TopicMonitoringDelta)
    (db : CEcalRegistrationDatabase) :
    (CEcalRegistrationDatabase.UpdatePublisherMonitoring key_ delta_
      db).1.current_state_.publishers = db.current_state_.publishers := by
  unfold CEcalRegistrationDatabase.UpdatePublisherMonitoring
  rw [ApplyMutation_state, UpdatePublisherMonitoringMutator_eq]
  by_cases hs : TopicMonitoringDelta.unchanged
      (UMap.find db.current_state_.publisher_monitoring key_) delta_ = true
  · simp [hs]
  · simp [hs]

theorem ApplySample_reg_publisher (s : Sample) (db : CEcalRegistrationDatabase)
    (hc : s.cmd_type = .bct_reg_publisher) :
    CEcalRegistrationDatabase.ApplySample s db =
      ((CEcalRegistrationDatabase.UpdatePublisherMonitoring s.identifier.entity_id
          (CEcalRegistrationDatabase.topicMonitoringOf s.topic)
          (CEcalRegistrationDatabase.AddOrUpdatePublisher s.identifier.entity_id
            { process_id := s.identifier.process_id, host_name := s.identifier.host_name
              topic := s.topic } db).1).1,
        { new_revision :=
            (CEcalRegistrationDatabase.UpdatePublisherMonitoring s.identifier.entity_id
              (CEcalRegistrationDatabase.topicMonitoringOf s.topic)
              (CEcalRegistrationDatabase.AddOrUpdatePublisher s.identifier.entity_id
                { process_id := s.identifier.process_id, host_name := s.identifier.host_name
                  topic := s.topic } db).1).2.new_revision
          events :=
            (CEcalRegistrationDatabase.AddOrUpdatePublisher s.identifier.entity_id
              { process_id := s.identifier.process_id, host_name := s.identifier.host_name
                topic := s.topic } db).2.events }) := by
  unfold CEcalRegistrationDatabase.ApplySample
  rw [hc]

theorem ApplySample_fresh_publisher (s : Sample) (db : CEcalRegistrationDatabase)
    (hc : s.cmd_type = .bct_reg_publisher)
    (hr : UMap.find db.current_state_.publishers s.identifier.entity_id = none)
    (hm : UMap.find db.current_state_.publisher_monitoring s.identifier.entity_id = none) :
    (CEcalRegistrationDatabase.ApplySample s db).2 =
        { new_revision := (CEcalRegistrationDatabase.CurrentRevision db + 2) % 2 ^ 64
          events := [{ event_type := .new_entity, entity_type := .publisher
                       entity_key := s.identifier.entity_id }] }
    ∧ (CEcalRegistrationDatabase.GetSnapshot
        (CEcalRegistrationDatabase.ApplySample s db).1).HasPublisher s.identifier.entity_id
        = true
    ∧ (CEcalRegistrationDatabase.GetSnapshot
        (CEcalRegistrationDatabase.ApplySample s db).1).PublisherCount
        = (CEcalRegistrationDatabase.GetSnapshot db).PublisherCount + 1 := by
  rw [ApplySample_reg_publisher s db hc]
  have hfresh := AddOrUpdatePublisher_fresh s.identifier.entity_id
    { process_id := s.identifier.process_id, host_name := s.identifier.host_name
      topic := s.topic } db hr
  obtain ⟨hev, -, -, -, -, -⟩ := AddOrUpdatePublisher_spec s.identifier.entity_id
    { process_id := s.identifier.process_id, host_name := s.identifier.host_name
      topic := s.topic } db
  obtain ⟨-, hrev, hrev', -, -⟩ := UpdatePublisherMonitoring_spec s.identifier.entity_id
    (CEcalRegistrationDatabase.topicMonitoringOf s.topic)
    (CEcalRegistrationDatabase.AddOrUpdatePublisher s.identifier.entity_id
      { process_id := s.identifier.process_id, host_name := s.identifier.host_name
        topic := s.topic } db).1
  have hframe := UpdatePublisherMonitoring_frame s.identifier.entity_id
    (CEcalRegistrationDatabase.topicMonitoringOf s.topic)
    (CEcalRegistrationDatabase.AddOrUpdatePublisher s.identifier.entity_id
      { process_id := s.identifier.process_id, host_name := s.identifier.host_name
        topic := s.topic } db).1
  rw [hr] at hev
  rw [hfresh] at hrev'
  simp only [hm, TopicMonitoringDelta.unchanged, Bool.false_eq_true, reduceCtorEq,
    if_false] at hrev'
  refine ⟨?_, ?_, ?_⟩
  · simp only [hev, hrev, hrev', CEcalRegistrationDatabase.CurrentRevision, wrap_succ_succ]
  · simp only [CEcalRegistrationDatabase.GetSnapshot, Snapshot.HasPublisher, hframe, hfresh,
      UMap.find_emplace _ _ _ _ hr, if_true, Option.isSome_some]
  · simp only [CEcalRegistrationDatabase.GetSnapshot, Snapshot.PublisherCount, hframe, hfresh,
      UMap.size_emplace_fresh _ _ _ hr]

theorem AddOrUpdateSubscriber_fresh (key_ : EntityKey) (delta_ : TopicRegistrationDelta)
    (db : CEcalRegistrationDatabase)
    (h : UMap.find db.current_state_.subscribers key_ = none) :
    (CEcalRegistrationDatabase.AddOrUpdateSubscriber key_ delta_ db).1.current_state_ =
      { db.current_state_ with
        revision := (db.current_state_.revision + 1) % 2 ^ 64
        subscribers := UMap.emplace db.current_state_.subscribers key_ delta_
        members_by_process :=
          AddMembership db.current_state_.members_by_process delta_.process_id
            .subscriber key_ } := by
  unfold CEcalRegistrationDatabase.AddOrUpdateSubscriber ApplyMutation
    AddOrUpdateSubscriberMutator
  simp [h]

theorem UpdateSubscriberMonitoring_frame (key_ : EntityKey) (delta_ : TopicMonitoringDelta)
    (db : CEcalRegistrationDatabase) :
    (CEcalRegistrationDatabase.UpdateSubscriberMonitoring key_ delta_
      db).1.current_state_.subscribers = db.current_state_.subscribers := by
  unfold CEcalRegistrationDatabase.UpdateSubscriberMonitoring
  rw [ApplyMutation_state, UpdateSubscriberMonitoringMutator_eq]
  by_cases hs : TopicMonitoringDelta.unchanged
      (UMap.find db.current_state_.subscriber_monitoring key_) delta_ = true
  · simp [hs]
  · simp [hs]

theorem ApplySample_reg_subscriber (s : Sample) (db : CEcalRegistrationDatabase)
    (hc : s.cmd_type = .bct_reg_subscriber) :
    CEcalRegistrationDatabase.ApplySample s db =
      ((CEcalRegistrationDatabase.UpdateSubscriberMonitoring s.identifier.entity_id
          (CEcalRegistrationDatabase.topicMonitoringOf s.topic)
          (CEcalRegistrationDatabase.AddOrUpdateSubscriber s.identifier.entity_id
            { process_id := s.identifier.process_id, host_name := s.identifier.host_name
              topic := s.topic } db).1).1,
        { new_revision :=
            (CEcalRegistrationDatabase.UpdateSubscriberMonitoring s.identifier.entity_id
              (CEcalRegistrationDatabase.topicMonitoringOf s.topic)
              (CEcalRegistrationDatabase.AddOrUpdateSubscriber s.identifier.entity_id
                { process_id := s.identifier.process_id, host_name := s.identifier.host_name
                  topic := s.topic } db).1).2.new_revision
          events :=
            (CEcalRegistrationDatabase.AddOrUpdateSubscriber s.identifier.entity_id
              { process_id := s.identifier.process_id, host_name := s.identifier.host_name
                topic := s.topic } db).2.events }) := by
  unfold CEcalRegistrationDatabase.ApplySample
  rw [hc]

theorem ApplySample_fresh_subscriber (s : Sample) (db : CEcalRegistrationDatabase)
    (hc : s.cmd_type = .bct_reg_subscriber)
    (hr : UMap.find db.current_state_.subscribers s.identifier.entity_id = none)
    (hm : UMap.find db.current_state_.subscriber_monitoring s.identifier.entity_id = none) :
    (CEcalRegistrationDatabase.ApplySample s db).2 =
        { new_revision := (CEcalRegistrationDatabase.CurrentRevision db + 2) % 2 ^ 64
          events := [{ event_type := .new_entity, entity_type := .subscriber
                       entity_key := s.identifier.entity_id }] }
    ∧ (CEcalRegistrationDatabase.GetSnapshot
        (CEcalRegistrationDatabase.ApplySample s db).1).HasSubscriber s.identifier.entity_id
        = true
    ∧ (CEcalRegistrationDatabase.GetSnapshot
        (CEcalRegistrationDatabase.ApplySample s db).1).SubscriberCount
        = (CEcalRegistrationDatabase.GetSnapshot db).SubscriberCount + 1 := by
  rw [ApplySample_reg_subscriber s db hc]
  have hfresh := AddOrUpdateSubscriber_fresh s.identifier.entity_id
    { process_id := s.identifier.process_id, host_name := s.identifier.host_name
      topic := s.topic } db hr
  obtain ⟨hev, -, -, -, -, -⟩ := AddOrUpdateSubscriber_spec s.identifier.entity_id
    { process_id := s.identifier.process_id, host_name := s.identifier.host_name
      topic := s.topic } db
  obtain ⟨-, hrev, hrev', -, -⟩ := UpdateSubscriberMonitoring_spec s.identifier.entity_id
    (CEcalRegistrationDatabase.topicMonitoringOf s.topic)
    (CEcalRegistrationDatabase.AddOrUpdateSubscriber s.identifier.entity_id
      { process_id := s.identifier.process_id, host_name := s.identifier.host_name
        topic := s.topic } db).1
  have hframe := UpdateSubscriberMonitoring_frame s.identifier.entity_id
    (CEcalRegistrationDatabase.topicMonitoringOf s.topic)
    (CEcalRegistrationDatabase.AddOrUpdateSubscriber s.identifier.entity_id
      { process_id := s.identifier.process_id, host_name := s.identifier.host_name
        topic := s.topic } db).1
  rw [hr] at hev
  rw [hfresh] at hrev'
  simp only [hm, TopicMonitoringDelta.unchanged, Bool.false_eq_true, reduceCtorEq,
    if_false] at hrev'
  refine ⟨?_, ?_, ?_⟩
  · simp only [hev, hrev, hrev', CEcalRegistrationDatabase.CurrentRevision, wrap_succ_succ]
  · simp only [CEcalRegistrationDatabase.GetSnapshot, Snapshot.HasSubscriber, hframe, hfresh,
      UMap.find_emplace _ _ _ _ hr, if_true, Option.isSome_some]
  · simp only [CEcalRegistrationDatabase.GetSnapshot, Snapshot.SubscriberCount, hframe, hfresh,
      UMap.size_emplace_fresh _ _ _ hr]

theorem AddOrUpdateServer_fresh (key_ : EntityKey) (delta_ : ServiceRegistrationDelta)
    (db : CEcalRegistrationDatabase)
    (h : UMap.find db.current_state_.servers key_ = none) :
    (CEcalRegistrationDatabase.AddOrUpdateServer key_ delta_ db).1.current_state_ =
      { db.current_state_ with
        revision := (db.current_state_.revision + 1) % 2 ^ 64
        servers := UMap.emplace db.current_state_.servers key_ delta_
        members_by_process :=
          AddMembership db.current_state_.members_by_process delta_.process_id
            .server key_ } := by
  unfold CEcalRegistrationDatabase.AddOrUpdateServer ApplyMutation
    AddOrUpdateServerMutator
  simp [h]

theorem UpdateServerMonitoring_frame (key_ : EntityKey) (delta_ : ServiceMonitoringDelta)
    (db : CEcalRegistrationDatabase) :
    (CEcalRegistrationDatabase.UpdateServerMonitoring key_ delta_
      db).1.current_state_.servers = db.current_state_.servers := by
  unfold CEcalRegistrationDatabase.UpdateServerMonitoring
  rw [ApplyMutation_state, UpdateServerMonitoringMutator_eq]
  by_cases hs : UMap.find db.current_state_.server_monitoring key_ = some delta_
  · simp [hs]
  · simp [hs]

theorem ApplySample_reg_server (s : Sample) (db : CEcalRegistrationDatabase)
    (hc : s.cmd_type = .bct_reg_service) :
    CEcalRegistrationDatabase.ApplySample s db =
      ((CEcalRegistrationDatabase.UpdateServerMonitoring s.identifier.entity_id
          { registration_clock := s.service.registration_clock }
          (CEcalRegistrationDatabase.AddOrUpdateServer s.identifier.entity_id
            { process_id := s.identifier.process_id, host_name := s.identifier.host_name
              service := s.service } db).1).1,
        { new_revision :=
            (CEcalRegistrationDatabase.UpdateServerMonitoring s.identifier.entity_id
              { registration_clock := s.service.registration_clock }
              (CEcalRegistrationDatabase.AddOrUpdateServer s.identifier.entity_id
                { process_id := s.identifier.process_id, host_name := s.identifier.host_name
                  service := s.service } db).1).2.new_revision
          events :=
            (CEcalRegistrationDatabase.AddOrUpdateServer s.identifier.entity_id
              { process_id := s.identifier.process_id, host_name := s.identifier.host_name
                service := s.service } db).2.events }) := by
  unfold CEcalRegistrationDatabase.ApplySample
  rw [hc]

theorem ApplySample_fresh_server (s : Sample) (db : CEcalRegistrationDatabase)
    (hc : s.cmd_type = .bct_reg_service)
    (hr : UMap.find db.current_state_.servers s.identifier.entity_id = none)
    (hm : UMap.find db.current_state_.server_monitoring s.identifier.entity_id = none) :
    (CEcalRegistrationDatabase.ApplySample s db).2 =
        { new_revision := (CEcalRegistrationDatabase.CurrentRevision db + 2) % 2 ^ 64
          events := [{ event_type := .new_entity, entity_type := .server
                       entity_key := s.identifier.entity_id }] }
    ∧ (CEcalRegistrationDatabase.GetSnapshot
        (CEcalRegistrationDatabase.ApplySample s db).1).HasServer s.identifier.entity_id
        = true
    ∧ (CEcalRegistrationDatabase.GetSnapshot
        (CEcalRegistrationDatabase.ApplySample s db).1).ServerCount
        = (CEcalRegistrationDatabase.GetSnapshot db).ServerCount + 1 := by
  rw [ApplySample_reg_server s db hc]
  have hfresh := AddOrUpdateServer_fresh s.identifier.entity_id
    { process_id := s.identifier.process_id, host_name := s.identifier.host_name
      service := s.service } db hr
  obtain ⟨hev, -, -, -, -, -⟩ := AddOrUpdateServer_spec s.identifier.entity_id
    { process_id := s.identifier.process_id, host_name := s.identifier.host_name
      service := s.service } db
  obtain ⟨-, hrev, hrev', -, -⟩ := UpdateServerMonitoring_spec s.identifier.entity_id
    { registration_clock := s.service.registration_clock }
    (CEcalRegistrationDatabase.AddOrUpdateServer s.identifier.entity_id
      { process_id := s.identifier.process_id, host_name := s.identifier.host_name
        service := s.service } db).1
  have hframe := UpdateServerMonitoring_frame s.identifier.entity_id
    { registration_clock := s.service.registration_clock }
    (CEcalRegistrationDatabase.AddOrUpdateServer s.identifier.entity_id
      { process_id := s.identifier.process_id, host_name := s.identifier.host_name
        service := s.service } db).1
  rw [hr] at hev
  rw [hfresh] at hrev'
  simp only [hm, TopicMonitoringDelta.unchanged, Bool.false_eq_true, reduceCtorEq,
    if_false] at hrev'
  refine ⟨?_, ?_, ?_⟩
  · simp only [hev, hrev, hrev', CEcalRegistrationDatabase.CurrentRevision, wrap_succ_succ]
  · simp only [CEcalRegistrationDatabase.GetSnapshot, Snapshot.HasServer, hframe, hfresh,
      UMap.find_emplace _ _ _ _ hr, if_true, Option.isSome_some]
  · simp only [CEcalRegistrationDatabase.GetSnapshot, Snapshot.ServerCount, hframe, hfresh,
      UMap.size_emplace_fresh _ _ _ hr]

theorem AddOrUpdateClient_fresh (key_ : EntityKey) (delta_ : ClientRegistrationDelta)
    (db : CEcalRegistrationDatabase)
    (h : UMap.find db.current_state_.clients key_ = none) :
    (CEcalRegistrationDatabase.AddOrUpdateClient key_ delta_ db).1.current_state_ =
      { db.current_state_ with
        revision := (db.current_state_.revision + 1) % 2 ^ 64
        clients := UMap.emplace db.current_state_.clients key_ delta_
        members_by_process :=
          AddMembership db.current_state_.members_by_process delta_.process_id
            .client key_ } := by
  unfold CEcalRegistrationDatabase.AddOrUpdateClient ApplyMutation
    AddOrUpdateClientMutator
  simp [h]

theorem UpdateClientMonitoring_frame (key_ : EntityKey) (delta_ : ClientMonitoringDelta)
    (db : CEcalRegistrationDatabase) :
    (CEcalRegistrationDatabase.UpdateClientMonitoring key_ delta_
      db).1.current_state_.clients = db.current_state_.clients := by
  unfold CEcalRegistrationDatabase.UpdateClientMonitoring
  rw [ApplyMutation_state, UpdateClientMonitoringMutator_eq]
  by_cases hs : UMap.find db.current_state_.client_monitoring key_ = some delta_
  · simp [hs]
  · simp [hs]

theorem ApplySample_reg_client (s : Sample) (db : CEcalRegistrationDatabase)
    (hc : s.cmd_type = .bct_reg_client) :
    CEcalRegistrationDatabase.ApplySample s db =
      ((CEcalRegistrationDatabase.UpdateClientMonitoring s.identifier.entity_id
          { registration_clock := s.client.registration_clock }
          (CEcalRegistrationDatabase.AddOrUpdateClient s.identifier.entity_id
            { process_id := s.identifier.process_id, host_name := s.identifier.host_name
              client := s.client } db).1).1,
        { new_revision :=
            (CEcalRegistrationDatabase.UpdateClientMonitoring s.identifier.entity_id
              { registration_clock := s.client.registration_clock }
              (CEcalRegistrationDatabase.AddOrUpdateClient s.identifier.entity_id
                { process_id := s.identifier.process_id, host_name := s.identifier.host_name
                  client := s.client } db).1).2.new_revision
          events :=
            (CEcalRegistrationDatabase.AddOrUpdateClient s.identifier.entity_id
              { process_id := s.identifier.process_id, host_name := s.identifier.host_name
                client := s.client } db).2.events }) := by
  unfold CEcalRegistrationDatabase.ApplySample
  rw [hc]

theorem ApplySample_fresh_client (s : Sample) (db : CEcalRegistrationDatabase)
    (hc : s.cmd_type = .bct_reg_client)
    (hr : UMap.find db.current_state_.clients s.identifier.entity_id = none)
    (hm : UMap.find db.current_state_.client_monitoring s.identifier.entity_id = none) :
    (CEcalRegistrationDatabase.ApplySample s db).2 =
        { new_revision := (CEcalRegistrationDatabase.CurrentRevision db + 2) % 2 ^ 64
          events := [{ event_type := .new_entity, entity_type := .client
                       entity_key := s.identifier.entity_id }] }
    ∧ (CEcalRegistrationDatabase.GetSnapshot
        (CEcalRegistrationDatabase.ApplySample s db).1).HasClient s.identifier.entity_id
        = true
    ∧ (CEcalRegistrationDatabase.GetSnapshot
        (CEcalRegistrationDatabase.ApplySample s db).1).ClientCount
        = (CEcalRegistrationDatabase.GetSnapshot db).ClientCount + 1 := by
  rw [ApplySample_reg_client s db hc]
  have hfresh := AddOrUpdateClient_fresh s.identifier.entity_id
    { process_id := s.identifier.process_id, host_name := s.identifier.host_name
      client := s.client } db hr
  obtain ⟨hev, -, -, -, -, -⟩ := AddOrUpdateClient_spec s.identifier.entity_id
    { process_id := s.identifier.process_id, host_name := s.identifier.host_name
      client := s.client } db
  obtain ⟨-, hrev, hrev', -, -⟩ := UpdateClientMonitoring_spec s.identifier.entity_id
    { registration_clock := s.client.registration_clock }
    (CEcalRegistrationDatabase.AddOrUpdateClient s.identifier.entity_id
      { process_id := s.identifier.process_id, host_name := s.identifier.host_name
        client := s.client } db).1
  have hframe := UpdateClientMonitoring_frame s.identifier.entity_id
    { registration_clock := s.client.registration_clock }
    (CEcalRegistrationDatabase.AddOrUpdateClient s.identifier.entity_id
      { process_id := s.identifier.process_id, host_name := s.identifier.host_name
        client := s.client } db).1
  rw [hr] at hev
  rw [hfresh] at hrev'
  simp only [hm, TopicMonitoringDelta.unchanged, Bool.false_eq_true, reduceCtorEq,
    if_false] at hrev'
  refine ⟨?_, ?_, ?_⟩
  · simp only [hev, hrev, hrev', CEcalRegistrationDatabase.CurrentRevision, wrap_succ_succ]
  · simp only [CEcalRegistrationDatabase.GetSnapshot, Snapshot.HasClient, hframe, hfresh,
      UMap.find_emplace _ _ _ _ hr, if_true, Option.isSome_some]
  · simp only [CEcalRegistrationDatabase.GetSnapshot, Snapshot.ClientCount, hframe, hfresh,
      UMap.size_emplace_fresh _ _ _ hr]

/-- C21 as stated fails at the largest revision: on the database reached by
`toggleOps (2 ^ 64 - 1)`, which has revision `2 ^ 64 - 1` and neither a registration nor a
monitoring record of publisher 42, `ApplySample` of the publisher sample of the test returns
`[new_entity(publisher, 42)]` with revision 1, not the previous revision plus 2. -/
theorem sample_registration_wraps_revision :
    CEcalRegistrationDatabase.CurrentRevision (runTyped (toggleOps (2 ^ 64 - 1)) {}) = 2 ^ 64 - 1
    ∧ UMap.find (runTyped (toggleOps (2 ^ 64 - 1)) {}).current_state_.publishers 42 = none
    ∧ UMap.find (runTyped (toggleOps (2 ^ 64 - 1)) {}).current_state_.publisher_monitoring 42
      = none
    ∧ (CEcalRegistrationDatabase.ApplySample publisherSample (runTyped (toggleOps (2 ^ 64 - 1)) {})).2
      = { new_revision := 1
          events := [{ event_type := .new_entity, entity_type := .publisher
                       entity_key := 42 }] } := by
  rw [toggleOps_wrap]
  decide

/-- C21, amended: for every database and every sample `s` of command `reg_publisher`,
`reg_subscriber`, `reg_service` or `reg_client` whose key `E = s.identifier.entity_id` has
neither a registration nor a monitoring record of the kind, `ApplySample(s)` returns the
previous revision plus 2 modulo `2 ^ 64` and exactly `[new_entity(kind, E)]`, and afterwards
`Has{Kind}(E)` is true and the count of the kind is one larger; on the empty database the
publisher sample of the test (`E = 42`) gives `PublisherCount() = 1` and revision 2. -/
theorem sample_registers_fresh_entity (db : CEcalRegistrationDatabase) :
    (∀ s : Sample, s.cmd_type = .bct_reg_publisher →
      UMap.find db.current_state_.publishers s.identifier.entity_id = none →
      UMap.find db.current_state_.publisher_monitoring s.identifier.entity_id = none →
      (CEcalRegistrationDatabase.ApplySample s db).2 =
          { new_revision := (CEcalRegistrationDatabase.CurrentRevision db + 2) % 2 ^ 64
            events := [{ event_type := .new_entity, entity_type := .publisher
                         entity_key := s.identifier.entity_id }] }
      ∧ (CEcalRegistrationDatabase.GetSnapshot (CEcalRegistrationDatabase.ApplySample s db).1).HasPublisher s.identifier.entity_id = true
      ∧ (CEcalRegistrationDatabase.GetSnapshot (CEcalRegistrationDatabase.ApplySample s db).1).PublisherCount
          = (CEcalRegistrationDatabase.GetSnapshot db).PublisherCount + 1)
    ∧ (∀ s : Sample, s.cmd_type = .bct_reg_subscriber →
      UMap.find db.current_state_.subscribers s.identifier.entity_id = none →
      UMap.find db.current_state_.subscriber_monitoring s.identifier.entity_id = none →
      (CEcalRegistrationDatabase.ApplySample s db).2 =
          { new_revision := (CEcalRegistrationDatabase.CurrentRevision db + 2) % 2 ^ 64
            events := [{ event_type := .new_entity, entity_type := .subscriber
                         entity_key := s.identifier.entity_id }] }
      ∧ (CEcalRegistrationDatabase.GetSnapshot (CEcalRegistrationDatabase.ApplySample s db).1).HasSubscriber s.identifier.entity_id = true
      ∧ (CEcalRegistrationDatabase.GetSnapshot (CEcalRegistrationDatabase.ApplySample s db).1).SubscriberCount
          = (CEcalRegistrationDatabase.GetSnapshot db).SubscriberCount + 1)
    ∧ (∀ s : Sample, s.cmd_type = .bct_reg_service →
      UMap.find db.current_state_.servers s.identifier.entity_id = none →
      UMap.find db.current_state_.server_monitoring s.identifier.entity_id = none →
      (CEcalRegistrationDatabase.ApplySample s db).2 =
          { new_revision := (CEcalRegistrationDatabase.CurrentRevision db + 2) % 2 ^ 64
            events := [{ event_type := .new_entity, entity_type := .server
                         entity_key := s.identifier.entity_id }] }
      ∧ (CEcalRegistrationDatabase.GetSnapshot (CEcalRegistrationDatabase.ApplySample s db).1).HasServer s.identifier.entity_id = true
      ∧ (CEcalRegistrationDatabase.GetSnapshot (CEcalRegistrationDatabase.ApplySample s db).1).ServerCount
          = (CEcalRegistrationDatabase.GetSnapshot db).ServerCount + 1)
    ∧ (∀ s : Sample, s.cmd_type = .bct_reg_client →
      UMap.find db.current_state_.clients s.identifier.entity_id = none →
      UMap.find db.current_state_.client_monitoring s.identifier.entity_id = none →
      (CEcalRegistrationDatabase.ApplySample s db).2 =
          { new_revision := (CEcalRegistrationDatabase.CurrentRevision db + 2) % 2 ^ 64
            events := [{ event_type := .new_entity, entity_type := .client
                         entity_key := s.identifier.entity_id }] }
      ∧ (CEcalRegistrationDatabase.GetSnapshot (CEcalRegistrationDatabase.ApplySample s db).1).HasClient s.identifier.entity_id = true
      ∧ (CEcalRegistrationDatabase.GetSnapshot (CEcalRegistrationDatabase.ApplySample s db).1).ClientCount
          = (CEcalRegistrationDatabase.GetSnapshot db).ClientCount + 1)
    ∧ ((CEcalRegistrationDatabase.GetSnapshot (CEcalRegistrationDatabase.ApplySample publisherSample {}).1).PublisherCount = 1
      ∧ (CEcalRegistrationDatabase.GetSnapshot (CEcalRegistrationDatabase.ApplySample publisherSample {}).1).HasPublisher 42 = true
      ∧ (CEcalRegistrationDatabase.ApplySample publisherSample {}).2 =
          { new_revision := 2
            events := [{ event_type := .new_entity, entity_type := .publisher
                         entity_key := 42 }] }) :=
  ⟨fun s hc hr hm => ApplySample_fresh_publisher s db hc hr hm,
    fun s hc hr hm => ApplySample_fresh_subscriber s db hc hr hm,
    fun s hc hr hm => ApplySample_fresh_server s db hc hr hm,
    fun s hc hr hm => ApplySample_fresh_client s db hc hr hm,
    by decide⟩

/-- C22, router result composition: for every database and every sample of command
`reg_publisher`, `reg_subscriber`, `reg_service` or `reg_client`, the result of `ApplySample`
has the revision returned by the monitoring mutation, which is the current revision of the
database afterwards, and its events are the events of the registration mutation followed by
the events of the monitoring mutation. -/
theorem router_result_composition (db : CEcalRegistrationDatabase) :
    (∀ s : Sample, s.cmd_type = .bct_reg_publisher →
      (CEcalRegistrationDatabase.ApplySample s db).2.new_revision =
        (CEcalRegistrationDatabase.UpdatePublisherMonitoring s.identifier.entity_id
          (CEcalRegistrationDatabase.topicMonitoringOf s.topic)
          (CEcalRegistrationDatabase.AddOrUpdatePublisher s.identifier.entity_id
            { process_id := s.identifier.process_id, host_name := s.identifier.host_name
              topic := s.topic } db).1).2.new_revision
      ∧ (CEcalRegistrationDatabase.ApplySample s db).2.new_revision =
        CEcalRegistrationDatabase.CurrentRevision (CEcalRegistrationDatabase.ApplySample s db).1
      ∧ (CEcalRegistrationDatabase.ApplySample s db).2.events =
        (CEcalRegistrationDatabase.AddOrUpdatePublisher s.identifier.entity_id
            { process_id := s.identifier.process_id, host_name := s.identifier.host_name
              topic := s.topic } db).2.events ++
        (CEcalRegistrationDatabase.UpdatePublisherMonitoring s.identifier.entity_id
          (CEcalRegistrationDatabase.topicMonitoringOf s.topic)
          (CEcalRegistrationDatabase.AddOrUpdatePublisher s.identifier.entity_id
            { process_id := s.identifier.process_id, host_name := s.identifier.host_name
              topic := s.topic } db).1).2.events)
    ∧ (∀ s : Sample, s.cmd_type = .bct_reg_subscriber →
      (CEcalRegistrationDatabase.ApplySample s db).2.new_revision =
        (CEcalRegistrationDatabase.UpdateSubscriberMonitoring s.identifier.entity_id
          (CEcalRegistrationDatabase.topicMonitoringOf s.topic)
          (CEcalRegistrationDatabase.AddOrUpdateSubscriber s.identifier.entity_id
            { process_id := s.identifier.process_id, host_name := s.identifier.host_name
              topic := s.topic } db).1).2.new_revision
      ∧ (CEcalRegistrationDatabase.ApplySample s db).2.new_revision =
        CEcalRegistrationDatabase.CurrentRevision (CEcalRegistrationDatabase.ApplySample s db).1
      ∧ (CEcalRegistrationDatabase.ApplySample s db).2.events =
        (CEcalRegistrationDatabase.AddOrUpdateSubscriber s.identifier.entity_id
            { process_id := s.identifier.process_id, host_name := s.identifier.host_name
              topic := s.topic } db).2.events ++
        (CEcalRegistrationDatabase.UpdateSubscriberMonitoring s.identifier.entity_id
          (CEcalRegistrationDatabase.topicMonitoringOf s.topic)
          (CEcalRegistrationDatabase.AddOrUpdateSubscriber s.identifier.entity_id
            { process_id := s.identifier.process_id, host_name := s.identifier.host_name
              topic := s.topic } db).1).2.events)
    ∧ (∀ s : Sample, s.cmd_type = .bct_reg_service →
      (CEcalRegistrationDatabase.ApplySample s db).2.new_revision =
        (CEcalRegistrationDatabase.UpdateServerMonitoring s.identifier.entity_id
          { registration_clock := s.service.registration_clock }
          (CEcalRegistrationDatabase.AddOrUpdateServer s.identifier.entity_id
            { process_id := s.identifier.process_id, host_name := s.identifier.host_name
              service := s.service } db).1).2.new_revision
      ∧ (CEcalRegistrationDatabase.ApplySample s db).2.new_revision =
        CEcalRegistrationDatabase.CurrentRevision (CEcalRegistrationDatabase.ApplySample s db).1
      ∧ (CEcalRegistrationDatabase.ApplySample s db).2.events =
        (CEcalRegistrationDatabase.AddOrUpdateServer s.identifier.entity_id
            { process_id := s.identifier.process_id, host_name := s.identifier.host_name
              service := s.service } db).2.events ++
        (CEcalRegistrationDatabase.UpdateServerMonitoring s.identifier.entity_id
          { registration_clock := s.service.registration_clock }
          (CEcalRegistrationDatabase.AddOrUpdateServer s.identifier.entity_id
            { process_id := s.identifier.process_id, host_name := s.identifier.host_name
              service := s.service } db).1).2.events)
    ∧ (∀ s : Sample, s.cmd_type = .bct_reg_client →
      (CEcalRegistrationDatabase.ApplySample s db).2.new_revision =
        (CEcalRegistrationDatabase.UpdateClientMonitoring s.identifier.entity_id
          { registration_clock := s.client.registration_clock }
          (CEcalRegistrationDatabase.AddOrUpdateClient s.identifier.entity_id
            { process_id := s.identifier.process_id, host_name := s.identifier.host_name
              client := s.client } db).1).2.new_revision
      ∧ (CEcalRegistrationDatabase.ApplySample s db).2.new_revision =
        CEcalRegistrationDatabase.CurrentRevision (CEcalRegistrationDatabase.ApplySample s db).1
      ∧ (CEcalRegistrationDatabase.ApplySample s db).2.events =
        (CEcalRegistrationDatabase.AddOrUpdateClient s.identifier.entity_id
            { process_id := s.identifier.process_id, host_name := s.identifier.host_name
              client := s.client } db).2.events ++
        (CEcalRegistrationDatabase.UpdateClientMonitoring s.identifier.entity_id
          { registration_clock := s.client.registration_clock }
          (CEcalRegistrationDatabase.AddOrUpdateClient s.identifier.entity_id
            { process_id := s.identifier.process_id, host_name := s.identifier.host_name
              client := s.client } db).1).2.events) := by
  refine ⟨?_, ?_, ?_, ?_⟩
  · intro s hc
    rw [ApplySample_reg_publisher s db hc]
    refine ⟨rfl, ?_, ?_⟩
    · exact (UpdatePublisherMonitoring_spec _ _ _).2.1
    · rw [(UpdatePublisherMonitoring_spec _ _ _).1, List.append_nil]
  · intro s hc
    rw [ApplySample_reg_subscriber s db hc]
    refine ⟨rfl, ?_, ?_⟩
    · exact (UpdateSubscriberMonitoring_spec _ _ _).2.1
    · rw [(UpdateSubscriberMonitoring_spec _ _ _).1, List.append_nil]
  · intro s hc
    rw [ApplySample_reg_server s db hc]
    refine ⟨rfl, ?_, ?_⟩
    · exact (UpdateServerMonitoring_spec _ _ _).2.1
    · rw [(UpdateServerMonitoring_spec _ _ _).1, List.append_nil]
  · intro s hc
    rw [ApplySample_reg_client s db hc]
    refine ⟨rfl, ?_, ?_⟩
    · exact (UpdateClientMonitoring_spec _ _ _).2.1
    · rw [(UpdateClientMonitoring_spec _ _ _).1, List.append_nil]

theorem ApplySample_revision (s : Sample) (db : CEcalRegistrationDatabase) :
    (CEcalRegistrationDatabase.ApplySample s db).2.new_revision =
      CEcalRegistrationDatabase.CurrentRevision (CEcalRegistrationDatabase.ApplySample s db).1 := by
  unfold CEcalRegistrationDatabase.ApplySample
  cases s.cmd_type <;>
    simp only [CEcalRegistrationDatabase.CurrentRevision,
      CEcalRegistrationDatabase.AddOrUpdateProcess, CEcalRegistrationDatabase.RemoveProcess,
      CEcalRegistrationDatabase.RemovePublisher, CEcalRegistrationDatabase.RemoveSubscriber,
      CEcalRegistrationDatabase.RemoveServer, CEcalRegistrationDatabase.RemoveClient,
      CEcalRegistrationDatabase.UpdatePublisherMonitoring,
      CEcalRegistrationDatabase.UpdateSubscriberMonitoring,
      CEcalRegistrationDatabase.UpdateServerMonitoring,
      CEcalRegistrationDatabase.UpdateClientMonitoring, ApplyMutation_result]

theorem ApplySamples_fold (samples_ : List Sample)
    (acc : CEcalRegistrationDatabase × ApplyResult) :
    (samples_.foldl CEcalRegistrationDatabase.ApplySamplesStep acc).1 = (foldSamples samples_ acc.1).1
    ∧ (samples_.foldl CEcalRegistrationDatabase.ApplySamplesStep acc).2.events =
        acc.2.events ++ (foldSamples samples_ acc.1).2.flatMap (fun r => r.events)
    ∧ (samples_.foldl CEcalRegistrationDatabase.ApplySamplesStep acc).2.new_revision =
        (match (foldSamples samples_ acc.1).2.getLast? with
          | some r => r.new_revision
          | none => acc.2.new_revision) := by
  induction samples_ generalizing acc with
  | nil => simp [foldSamples]
  | cons s rest ih =>
    obtain ⟨h₁, h₂, h₃⟩ := ih (CEcalRegistrationDatabase.ApplySamplesStep acc s)
    have hs₁ : (CEcalRegistrationDatabase.ApplySamplesStep acc s).1 =
        (CEcalRegistrationDatabase.ApplySample s acc.1).1 := rfl
    have hs₂ : (CEcalRegistrationDatabase.ApplySamplesStep acc s).2 =
        { new_revision := (CEcalRegistrationDatabase.ApplySample s acc.1).2.new_revision
          events := acc.2.events ++ (CEcalRegistrationDatabase.ApplySample s acc.1).2.events } :=
      rfl
    rw [hs₁] at h₁ h₂ h₃
    rw [hs₂] at h₂ h₃
    refine ⟨?_, ?_, ?_⟩
    · rw [List.foldl_cons, h₁]
      rfl
    · rw [List.foldl_cons, h₂]
      simp [foldSamples, List.append_assoc]
    · rw [List.foldl_cons, h₃]
      simp only [foldSamples]
      cases hl : (foldSamples rest (CEcalRegistrationDatabase.ApplySample s acc.1).1).2 with
      | nil => simp
      | cons r rs =>
        rw [List.getLast?_cons_cons, List.getLast?_eq_getLast _ (List.cons_ne_nil r rs)]

theorem foldSamples_revision (samples_ : List Sample) (db : CEcalRegistrationDatabase) :
    (match (foldSamples samples_ db).2.getLast? with
      | some r => r.new_revision
      | none => CEcalRegistrationDatabase.CurrentRevision db) =
      CEcalRegistrationDatabase.CurrentRevision (foldSamples samples_ db).1 := by
  induction samples_ generalizing db with
  | nil => rfl
  | cons s rest ih =>
    have := ih (CEcalRegistrationDatabase.ApplySample s db).1
    simp only [foldSamples]
    cases hl : (foldSamples rest (CEcalRegistrationDatabase.ApplySample s db).1).2 with
    | nil =>
      rw [hl] at this
      simp only [List.getLast?_nil] at this
      simp only [List.getLast?_singleton]
      rw [ApplySample_revision]
      exact this
    | cons r rs =>
      rw [hl] at this
      simp only [List.getLast?_cons_cons]
      exact this

/-- C23, `ApplySamples` is a left fold of `ApplySample`: for every database and sample list,
the database `ApplySamples` leaves is the one obtained by applying `ApplySample` to each
element in order, the returned events are the per-sample event lists concatenated in order,
and the returned revision is the revision the last sample returned (the current revision
when the list is empty), which is the current revision of the database after the whole
list; for the empty list the result is the current revision with no events and the
database is unchanged. -/
theorem apply_samples_is_left_fold (samples_ : List Sample) (db : CEcalRegistrationDatabase) :
    (CEcalRegistrationDatabase.ApplySamples samples_ db).1 = (foldSamples samples_ db).1
    ∧ (CEcalRegistrationDatabase.ApplySamples samples_ db).2.events =
        (foldSamples samples_ db).2.flatMap (fun r => r.events)
    ∧ (CEcalRegistrationDatabase.ApplySamples samples_ db).2.new_revision =
        (match (foldSamples samples_ db).2.getLast? with
          | some r => r.new_revision
          | none => CEcalRegistrationDatabase.CurrentRevision db)
    ∧ (CEcalRegistrationDatabase.ApplySamples samples_ db).2.new_revision =
        CEcalRegistrationDatabase.CurrentRevision
          (CEcalRegistrationDatabase.ApplySamples samples_ db).1
    ∧ CEcalRegistrationDatabase.ApplySamples [] db =
        (db, { new_revision := CEcalRegistrationDatabase.CurrentRevision db, events := [] }) := by
  obtain ⟨h₁, h₂, h₃⟩ := ApplySamples_fold samples_
    (db, { new_revision := CEcalRegistrationDatabase.CurrentRevision db, events := [] })
  simp only [List.nil_append] at h₂
  refine ⟨h₁, h₂, h₃, ?_, rfl⟩
  unfold CEcalRegistrationDatabase.ApplySamples
  rw [h₃, h₁]
  exact foldSamples_revision samples_ db

/-- C24, unknown commands are no-ops: for every database and every sample whose `cmd_type`
is none of the ten `reg_`/`unreg_` commands (`none`, `set_sample` or any other value),
`ApplySample` returns the current revision and no event, and leaves the installed state and
the previous revision unchanged. -/
theorem unknown_command_is_noop (s : Sample) (db : CEcalRegistrationDatabase)
    (h : s.cmd_type ∉ [eCmdType.bct_reg_process, .bct_unreg_process, .bct_reg_publisher,
      .bct_unreg_publisher, .bct_reg_subscriber, .bct_unreg_subscriber, .bct_reg_service,
      .bct_unreg_service, .bct_reg_client, .bct_unreg_client]) :
    (CEcalRegistrationDatabase.ApplySample s db).2 =
        { new_revision := CEcalRegistrationDatabase.CurrentRevision db, events := [] }
    ∧ (CEcalRegistrationDatabase.ApplySample s db).1.current_state_ = db.current_state_
    ∧ CEcalRegistrationDatabase.PreviousRevision (CEcalRegistrationDatabase.ApplySample s db).1
        = CEcalRegistrationDatabase.PreviousRevision db := by
  unfold CEcalRegistrationDatabase.ApplySample
  cases hc : s.cmd_type <;> simp [hc] at h ⊢

/-- Instance of C24: the sample with the command value 99, which is none of the ten
commands, returns revision 2 and no event on the database reached by the publisher sample
and leaves it as it is. -/
theorem unknown_command_is_noop_witness :
    (CEcalRegistrationDatabase.ApplySample { cmd_type := .bct_other 99 }
        (CEcalRegistrationDatabase.ApplySample publisherSample {}).1).2 =
        { new_revision := 2, events := [] }
    ∧ (CEcalRegistrationDatabase.ApplySample { cmd_type := .bct_other 99 }
        (CEcalRegistrationDatabase.ApplySample publisherSample {}).1).1.current_state_
        = (CEcalRegistrationDatabase.ApplySample publisherSample {}).1.current_state_
    ∧ CEcalRegistrationDatabase.PreviousRevision
        (CEcalRegistrationDatabase.ApplySample { cmd_type := .bct_other 99 }
          (CEcalRegistrationDatabase.ApplySample publisherSample {}).1).1 = 1 :=
  unknown_command_is_noop { cmd_type := .bct_other 99 }
    (CEcalRegistrationDatabase.ApplySample publisherSample {}).1 (by decide)

/-! ## Snapshot lookups and the changed flag -/

theorem AddOrUpdatePublisherMutator_accurate (key_ : EntityKey)
    (delta_ : TopicRegistrationDelta) (s : State) (hd : delta_.same delta_ = true) :
    (AddOrUpdatePublisherMutator key_ delta_ ⟨s, [], false⟩).changed_ = true ↔
      (AddOrUpdatePublisherMutator key_ delta_ ⟨s, [], false⟩).state_ ≠ s := by
  have hch := AddOrUpdatePublisherMutator_changed key_ delta_ ⟨s, [], false⟩
  have hfind := AddOrUpdatePublisherMutator_find key_ delta_ ⟨s, [], false⟩ key_
  simp only [Bool.false_or, if_true] at hch hfind
  by_cases hu : TopicRegistrationDelta.unchanged (UMap.find s.publishers key_) delta_ = true
  · have hs := TopicRegistrationDelta_unchanged_eq hu
    have hst : (AddOrUpdatePublisherMutator key_ delta_ ⟨s, [], false⟩).state_ = s := by
      unfold AddOrUpdatePublisherMutator
      simp [hs, ((TopicRegistrationDelta_same_iff delta_ delta_).mp hd).1]
    rw [hch, hst]
    simp [hu]
  · rw [hch]
    simp only [hu, Bool.not_false, ne_eq, true_iff]
    intro heq
    rw [heq] at hfind
    rw [hfind] at hu
    exact hu hd

theorem UpdatePublisherMonitoringMutator_accurate (key_ : EntityKey)
    (delta_ : TopicMonitoringDelta) (s : State) (hd : delta_.same delta_ = true) :
    (UpdatePublisherMonitoringMutator key_ delta_ ⟨s, [], false⟩).changed_ = true ↔
      (UpdatePublisherMonitoringMutator key_ delta_ ⟨s, [], false⟩).state_ ≠ s := by
  rw [UpdatePublisherMonitoringMutator_eq]
  by_cases hu : TopicMonitoringDelta.unchanged (UMap.find s.publisher_monitoring key_) delta_ = true
  · simp [hu]
  · rw [if_neg hu]
    simp only [ne_eq, true_iff]
    intro heq
    have hfind : UMap.find (UMap.assign s.publisher_monitoring key_ delta_) key_ = some delta_ := by
      simp [UMap.find_assign]
    have := congrArg State.publisher_monitoring heq
    simp only at this
    rw [this] at hfind
    rw [hfind] at hu
    exact hu hd

theorem RemovePublisherMutator_accurate (key_ : EntityKey) (s : State) :
    (RemovePublisherMutator key_ ⟨s, [], false⟩).changed_ = true ↔
      (RemovePublisherMutator key_ ⟨s, [], false⟩).state_ ≠ s := by
  unfold RemovePublisherMutator
  cases hf : UMap.find s.publishers key_ with
  | none => simp [hf]
  | some r =>
    simp only [hf, ne_eq, true_iff]
    intro heq
    have hfind : UMap.find (UMap.erase s.publishers key_) key_ = none := by
      simp [UMap.find_erase]
    have := congrArg State.publishers heq
    simp only at this
    rw [this, hf] at hfind
    cases hfind

theorem AddOrUpdateSubscriberMutator_accurate (key_ : EntityKey)
    (delta_ : TopicRegistrationDelta) (s : State) (hd : delta_.same delta_ = true) :
    (AddOrUpdateSubscriberMutator key_ delta_ ⟨s, [], false⟩).changed_ = true ↔
      (AddOrUpdateSubscriberMutator key_ delta_ ⟨s, [], false⟩).state_ ≠ s := by
  have hch := AddOrUpdateSubscriberMutator_changed key_ delta_ ⟨s, [], false⟩
  have hfind := AddOrUpdateSubscriberMutator_find key_ delta_ ⟨s, [], false⟩ key_
  simp only [Bool.false_or, if_true] at hch hfind
  by_cases hu : TopicRegistrationDelta.unchanged (UMap.find s.subscribers key_) delta_ = true
  · have hs := TopicRegistrationDelta_unchanged_eq hu
    have hst : (AddOrUpdateSubscriberMutator key_ delta_ ⟨s, [], false⟩).state_ = s := by
      unfold AddOrUpdateSubscriberMutator
      simp [hs, ((TopicRegistrationDelta_same_iff delta_ delta_).mp hd).1]
    rw [hch, hst]
    simp [hu]
  · rw [hch]
    simp only [hu, Bool.not_false, ne_eq, true_iff]
    intro heq
    rw [heq] at hfind
    rw [hfind] at hu
    exact hu hd

theorem UpdateSubscriberMonitoringMutator_accurate (key_ : EntityKey)
    (delta_ : TopicMonitoringDelta) (s : State) (hd : delta_.same delta_ = true) :
    (UpdateSubscriberMonitoringMutator key_ delta_ ⟨s, [], false⟩).changed_ = true ↔
      (UpdateSubscriberMonitoringMutator key_ delta_ ⟨s, [], false⟩).state_ ≠ s := by
  rw [UpdateSubscriberMonitoringMutator_eq]
  by_cases hu : TopicMonitoringDelta.unchanged (UMap.find s.subscriber_monitoring key_) delta_ = true
  · simp [hu]
  · rw [if_neg hu]
    simp only [ne_eq, true_iff]
    intro heq
    have hfind : UMap.find (UMap.assign s.subscriber_monitoring key_ delta_) key_ = some delta_ := by
      simp [UMap.find_assign]
    have := congrArg State.subscriber_monitoring heq
    simp only at this
    rw [this] at hfind
    rw [hfind] at hu
    exact hu hd

theorem RemoveSubscriberMutator_accurate (key_ : EntityKey) (s : State) :
    (RemoveSubscriberMutator key_ ⟨s, [], false⟩).changed_ = true ↔
      (RemoveSubscriberMutator key_ ⟨s, [], false⟩).state_ ≠ s := by
  unfold RemoveSubscriberMutator
  cases hf : UMap.find s.subscribers key_ with
  | none => simp [hf]
  | some r =>
    simp only [hf, ne_eq, true_iff]
    intro heq
    have hfind : UMap.find (UMap.erase s.subscribers key_) key_ = none := by
      simp [UMap.find_erase]
    have := congrArg State.subscribers heq
    simp only at this
    rw [this, hf] at hfind
    cases hfind

theorem AddOrUpdateServerMutator_accurate (key_ : EntityKey)
    (delta_ : ServiceRegistrationDelta) (s : State) :
    (AddOrUpdateServerMutator key_ delta_ ⟨s, [], false⟩).changed_ = true ↔
      (AddOrUpdateServerMutator key_ delta_ ⟨s, [], false⟩).state_ ≠ s := by
  have hch := AddOrUpdateServerMutator_changed key_ delta_ ⟨s, [], false⟩
  have hfind := AddOrUpdateServerMutator_find key_ delta_ ⟨s, [], false⟩ key_
  simp only [Bool.false_or, if_true] at hch hfind
  by_cases hs : UMap.find s.servers key_ = some delta_
  · have hst : (AddOrUpdateServerMutator key_ delta_ ⟨s, [], false⟩).state_ = s := by
      unfold AddOrUpdateServerMutator
      simp [hs]
    rw [hch, hst]
    simp [hs]
  · rw [hch]
    simp only [ne_eq, hs, not_false_eq_true, decide_True, true_iff]
    intro heq
    rw [heq] at hfind
    exact hs hfind

theorem UpdateServerMonitoringMutator_accurate (key_ : EntityKey)
    (delta_ : ServiceMonitoringDelta) (s : State) :
    (UpdateServerMonitoringMutator key_ delta_ ⟨s, [], false⟩).changed_ = true ↔
      (UpdateServerMonitoringMutator key_ delta_ ⟨s, [], false⟩).state_ ≠ s := by
  rw [UpdateServerMonitoringMutator_eq]
  by_cases hs : UMap.find s.server_monitoring key_ = some delta_
  · simp [hs]
  · simp only [hs, if_false, ne_eq, true_iff]
    intro heq
    have hfind : UMap.find (UMap.assign s.server_monitoring key_ delta_) key_ = some delta_ := by
      simp [UMap.find_assign]
    have := congrArg State.server_monitoring heq
    simp only at this
    rw [this] at hfind
    exact hs hfind

theorem RemoveServerMutator_accurate (key_ : EntityKey) (s : State) :
    (RemoveServerMutator key_ ⟨s, [], false⟩).changed_ = true ↔
      (RemoveServerMutator key_ ⟨s, [], false⟩).state_ ≠ s := by
  unfold RemoveServerMutator
  cases hf : UMap.find s.servers key_ with
  | none => simp [hf]
  | some r =>
    simp only [hf, ne_eq, true_iff]
    intro heq
    have hfind : UMap.find (UMap.erase s.servers key_) key_ = none := by
      simp [UMap.find_erase]
    have := congrArg State.servers heq
    simp only at this
    rw [this, hf] at hfind
    cases hfind

theorem AddOrUpdateClientMutator_accurate (key_ : EntityKey)
    (delta_ : ClientRegistrationDelta) (s : State) :
    (AddOrUpdateClientMutator key_ delta_ ⟨s, [], false⟩).changed_ = true ↔
      (AddOrUpdateClientMutator key_ delta_ ⟨s, [], false⟩).state_ ≠ s := by
  have hch := AddOrUpdateClientMutator_changed key_ delta_ ⟨s, [], false⟩
  have hfind := AddOrUpdateClientMutator_find key_ delta_ ⟨s, [], false⟩ key_
  simp only [Bool.false_or, if_true] at hch hfind
  by_cases hs : UMap.find s.clients key_ = some delta_
  · have hst : (AddOrUpdateClientMutator key_ delta_ ⟨s, [], false⟩).state_ = s := by
      unfold AddOrUpdateClientMutator
      simp [hs]
    rw [hch, hst]
    simp [hs]
  · rw [hch]
    simp only [ne_eq, hs, not_false_eq_true, decide_True, true_iff]
    intro heq
    rw [heq] at hfind
    exact hs hfind

theorem UpdateClientMonitoringMutator_accurate (key_ : EntityKey)
    (delta_ : ClientMonitoringDelta) (s : State) :
    (UpdateClientMonitoringMutator key_ delta_ ⟨s, [], false⟩).changed_ = true ↔
      (UpdateClientMonitoringMutator key_ delta_ ⟨s, [], false⟩).state_ ≠ s := by
  rw [UpdateClientMonitoringMutator_eq]
  by_cases hs : UMap.find s.client_monitoring key_ = some delta_
  · simp [hs]
  · simp only [hs, if_false, ne_eq, true_iff]
    intro heq
    have hfind : UMap.find (UMap.assign s.client_monitoring key_ delta_) key_ = some delta_ := by
      simp [UMap.find_assign]
    have := congrArg State.client_monitoring heq
    simp only at this
    rw [this] at hfind
    exact hs hfind

theorem RemoveClientMutator_accurate (key_ : EntityKey) (s : State) :
    (RemoveClientMutator key_ ⟨s, [], false⟩).changed_ = true ↔
      (RemoveClientMutator key_ ⟨s, [], false⟩).state_ ≠ s := by
  unfold RemoveClientMutator
  cases hf : UMap.find s.clients key_ with
  | none => simp [hf]
  | some r =>
    simp only [hf, ne_eq, true_iff]
    intro heq
    have hfind : UMap.find (UMap.erase s.clients key_) key_ = none := by
      simp [UMap.find_erase]
    have := congrArg State.clients heq
    simp only at this
    rw [this, hf] at hfind
    cases hfind

theorem AddOrUpdateProcessMutator_accurate (key_ : ProcessKey)
    (delta_ : ProcessRegistrationDelta) (s : State) :
    (AddOrUpdateProcessMutator key_ delta_ ⟨s, [], false⟩).changed_ = true ↔
      (AddOrUpdateProcessMutator key_ delta_ ⟨s, [], false⟩).state_ ≠ s := by
  rw [AddOrUpdateProcessMutator_eq]
  cases hf : UMap.find s.processes key_ with
  | none =>
    simp only [ne_eq, true_iff]
    intro heq
    have hfind : UMap.find (EnsureProcessMembership
        { s with processes := UMap.emplace s.processes key_ delta_ } key_).processes key_
        = some delta_ := by
      unfold EnsureProcessMembership
      split <;> simp [UMap.find_emplace _ _ _ _ hf]
    rw [heq, hf] at hfind
    cases hfind
  | some r =>
    by_cases hc : r = delta_
    · simp [hc]
    · simp only [hc, if_false, ne_eq, true_iff]
      intro heq
      have hfind : UMap.find (UMap.assign s.processes key_ delta_) key_ = some delta_ := by
        simp [UMap.find_assign]
      have := congrArg State.processes heq
      simp only at this
      rw [this, hf] at hfind
      exact hc (Option.some.inj hfind)

theorem UpdateProcessMonitoringMutator_accurate (key_ : ProcessKey)
    (delta_ : ProcessMonitoringDelta) (s : State) :
    (UpdateProcessMonitoringMutator key_ delta_ ⟨s, [], false⟩).changed_ = true ↔
      (UpdateProcessMonitoringMutator key_ delta_ ⟨s, [], false⟩).state_ ≠ s := by
  rw [UpdateProcessMonitoringMutator_eq]
  by_cases hs : UMap.find s.process_monitoring key_ = some delta_
  · simp [hs]
  · simp only [hs, if_false, ne_eq, true_iff]
    intro heq
    have hfind : UMap.find (UMap.assign s.process_monitoring key_ delta_) key_ = some delta_ := by
      simp [UMap.find_assign]
    have := congrArg State.process_monitoring heq
    simp only at this
    rw [this] at hfind
    exact hs hfind

theorem TypedOp.changed_accurate (op : TypedOp) (s : State)
    (h : ∀ key_, op ≠ .RemoveProcess key_) (hd : op.selfEqual = true) :
    (op.mutator ⟨s, [], false⟩).changed_ = true ↔ (op.mutator ⟨s, [], false⟩).state_ ≠ s := by
  cases op with
  | RemoveProcess k => exact absurd rfl (h k)
  | AddOrUpdateProcess k d => exact AddOrUpdateProcessMutator_accurate k d s
  | UpdateProcessMonitoring k d => exact UpdateProcessMonitoringMutator_accurate k d s
  | AddOrUpdatePublisher k d => exact AddOrUpdatePublisherMutator_accurate k d s hd
  | UpdatePublisherMonitoring k d => exact UpdatePublisherMonitoringMutator_accurate k d s hd
  | RemovePublisher k => exact RemovePublisherMutator_accurate k s
  | AddOrUpdateSubscriber k d => exact AddOrUpdateSubscriberMutator_accurate k d s hd
  | UpdateSubscriberMonitoring k d => exact UpdateSubscriberMonitoringMutator_accurate k d s hd
  | RemoveSubscriber k => exact RemoveSubscriberMutator_accurate k s
  | AddOrUpdateServer k d => exact AddOrUpdateServerMutator_accurate k d s
  | UpdateServerMonitoring k d => exact UpdateServerMonitoringMutator_accurate k d s
  | RemoveServer k => exact RemoveServerMutator_accurate k s
  | AddOrUpdateClient k d => exact AddOrUpdateClientMutator_accurate k d s
  | UpdateClientMonitoring k d => exact UpdateClientMonitoringMutator_accurate k d s
  | RemoveClient k => exact RemoveClientMutator_accurate k s

/-- C28, evaluation of the code at the failing input: on the state reached by
`UpdateProcessMonitoring(1, m)` from the empty database, the closure of `RemoveProcess(1)`
leaves `changed` unset although the state it leaves in the copy differs from the state it
was given (the process monitoring record of 1 is erased). -/
theorem remove_process_changes_without_flag :
    (RemoveProcessMutator 1
        ⟨(runOps [.typed (.UpdateProcessMonitoring 1 {})] {}).current_state_, [], false⟩).changed_
      = false
    ∧ (RemoveProcessMutator 1
        ⟨(runOps [.typed (.UpdateProcessMonitoring 1 {})] {}).current_state_, [], false⟩).state_
      ≠ (runOps [.typed (.UpdateProcessMonitoring 1 {})] {}).current_state_ := by
  decide

/-- C29, atomic discard on no change: for every typed mutation and every database, if the
call returns the revision the database had before the call, then the installed state (all
tables and the membership index) and the previous revision are what they were before the
call. -/
theorem atomic_discard_on_no_change (op : TypedOp) (db : CEcalRegistrationDatabase)
    (h : (op.apply db).2.new_revision = CEcalRegistrationDatabase.CurrentRevision db) :
    (op.apply db).1.current_state_ = db.current_state_
    ∧ CEcalRegistrationDatabase.PreviousRevision (op.apply db).1 = CEcalRegistrationDatabase.PreviousRevision db := by
  rw [TypedOp.apply_eq] at h ⊢
  rw [ApplyMutation_result, ApplyMutation_state] at h
  rw [ApplyMutation_db]
  by_cases hc : (op.mutator ⟨db.current_state_, [], false⟩).changed_ = false
  · rw [if_pos hc]
    exact ⟨rfl, rfl⟩
  · rw [if_neg hc] at h
    exact absurd h (wrap_succ_ne _)

/-- Instance of C29: `RemovePublisher(5)` on the database reached by the publisher sample
of the test returns the revision 2 the database had and leaves state and previous revision
unchanged. -/
theorem atomic_discard_on_no_change_witness :
    (TypedOp.RemovePublisher 5).apply (CEcalRegistrationDatabase.ApplySample publisherSample {}).1
      = ((CEcalRegistrationDatabase.ApplySample publisherSample {}).1, { new_revision := 2, events := [] })
    ∧ ((TypedOp.RemovePublisher 5).apply
        (CEcalRegistrationDatabase.ApplySample publisherSample {}).1).1.current_state_
      = (CEcalRegistrationDatabase.ApplySample publisherSample {}).1.current_state_
    ∧ CEcalRegistrationDatabase.PreviousRevision ((TypedOp.RemovePublisher 5).apply
        (CEcalRegistrationDatabase.ApplySample publisherSample {}).1).1
      = CEcalRegistrationDatabase.PreviousRevision (CEcalRegistrationDatabase.ApplySample publisherSample {}).1 :=
  ⟨by decide,
    atomic_discard_on_no_change (.RemovePublisher 5)
      (CEcalRegistrationDatabase.ApplySample publisherSample {}).1 (by decide)⟩

/-! ## The cascade for a process without a process record -/

/-- C30 as stated fails at the largest revision: the database reached by
`toggleOps (2 ^ 64 - 2)` followed by `AddOrUpdatePublisher(5, d)` with `d.process_id = 1`
has revision `2 ^ 64 - 1`, no process record for 1 and the bucket of 1 lists publisher 5;
`RemoveProcess(1)` returns `[deleted_entity(publisher, 5)]` with revision 0, so the revision
is not bumped by one. -/
theorem cascade_wraps_revision :
    CEcalRegistrationDatabase.CurrentRevision (runTyped (toggleOps (2 ^ 64 - 2) ++
        [.AddOrUpdatePublisher 5
          { process_id := 1, host_name := "host", topic := { topic_name := "topic" } }])
        {}) = 2 ^ 64 - 1
    ∧ (runTyped (toggleOps (2 ^ 64 - 2) ++
        [.AddOrUpdatePublisher 5
          { process_id := 1, host_name := "host", topic := { topic_name := "topic" } }])
        {}).current_state_.hasProcess 1 = false
    ∧ UMap.find (runTyped (toggleOps (2 ^ 64 - 2) ++
        [.AddOrUpdatePublisher 5
          { process_id := 1, host_name := "host", topic := { topic_name := "topic" } }])
        {}).current_state_.members_by_process 1 = some { publishers := [5] }
    ∧ (CEcalRegistrationDatabase.RemoveProcess 1 (runTyped (toggleOps (2 ^ 64 - 2) ++
        [.AddOrUpdatePublisher 5
          { process_id := 1, host_name := "host", topic := { topic_name := "topic" } }])
        {})).2
      = { new_revision := 0
          events :=
            [{ event_type := .deleted_entity, entity_type := .publisher, entity_key := 5 }] } := by
  rw [runTyped_append, toggleOps_before_wrap]
  decide

/-- C30, amended: in every state reached from the empty database by public mutations in
which process key `P` has no process record and the bucket of `P` is non-empty,
`RemoveProcess(P)` removes the registration and the monitoring record of every member of
the bucket, returns exactly the `deleted_entity` events of the members (each once) and no
`deleted_entity(process, P)`, and returns the revision plus one modulo `2 ^ 64`. -/
theorem cascade_without_process_record (ops : List Op) (P : ProcessKey)
    (members : ProcessMembers)
    (hp : (runOps ops {}).current_state_.hasProcess P = false)
    (hb : UMap.find (runOps ops {}).current_state_.members_by_process P = some members)
    (hne : members.allEmpty = false) :
    (∀ K E, E ∈ members.ofType K →
      (CEcalRegistrationDatabase.RemoveProcess P
        (runOps ops {})).1.current_state_.hasRegistration K E = false
      ∧ (CEcalRegistrationDatabase.RemoveProcess P
        (runOps ops {})).1.current_state_.hasMonitoring K E = false)
    ∧ (CEcalRegistrationDatabase.RemoveProcess P (runOps ops {})).2.events
        = memberEvents members
    ∧ (∀ K E, E ∈ members.ofType K →
        (CEcalRegistrationDatabase.RemoveProcess P (runOps ops {})).2.events.count
          (deletedEvent K E) = 1)
    ∧ deletedEvent .process (processEntityKey P) ∉
        (CEcalRegistrationDatabase.RemoveProcess P (runOps ops {})).2.events
    ∧ (CEcalRegistrationDatabase.RemoveProcess P (runOps ops {})).2.new_revision
        = (CEcalRegistrationDatabase.CurrentRevision (runOps ops {}) + 1) % 2 ^ 64 := by
  have hc := runOps_consistent ops
  have hev : (CEcalRegistrationDatabase.RemoveProcess P (runOps ops {})).2.events
      = memberEvents members := by
    rw [RemoveProcess_events P _ hc, hb, hp]
    simp
  refine ⟨fun K E hE => ?_, hev, fun K E hE => ?_, ?_, ?_⟩
  · have ho := (hc.mem_bucket_iff hb K E).mp hE
    have h := RemoveProcess_cleared P _ hc K E ho
    exact ⟨h.1, h.2.1⟩
  · rw [hev, count_memberEvents]
    exact List.count_eq_one_of_mem (hc.nodup P members hb K) hE
  · rw [hev, mem_memberEvents]
    rintro ⟨K, E, hE, he⟩
    simp only [deletedEvent, EntityEvent.mk.injEq, true_and] at he
    obtain ⟨rfl, -⟩ := he
    simp [ProcessMembers.ofType] at hE
  · have hex : ∃ K E, E ∈ members.ofType K := by
      by_contra hn
      have : members.allEmpty = true :=
        (ProcessMembers.allEmpty_iff members).mpr (fun K E hE => hn ⟨K, E, hE⟩)
      rw [this] at hne
      cases hne
    obtain ⟨K, E, hE⟩ := hex
    have ho := (hc.mem_bucket_iff hb K E).mp hE
    have hch := (RemoveProcessMutator_changed P ⟨(runOps ops {}).current_state_, [], false⟩
      hc).mpr (Or.inr (Or.inl ⟨K, E, ho⟩))
    unfold CEcalRegistrationDatabase.RemoveProcess
    rw [ApplyMutation_result, ApplyMutation_state]
    simp [hch, CEcalRegistrationDatabase.CurrentRevision]

/-- Instance of C30: with publisher 5 registered under the unregistered process 1,
`RemoveProcess(1)` returns `[deleted_entity(publisher, 5)]` and revision 2, and publisher 5
is gone. -/
theorem cascade_without_process_record_witness :
    (runOps orphanMemberSetup {}).current_state_.hasProcess 1 = false
    ∧ UMap.find (runOps orphanMemberSetup {}).current_state_.members_by_process 1
      = some { publishers := [5] }
    ∧ (CEcalRegistrationDatabase.RemoveProcess 1 (runOps orphanMemberSetup {})).2.events
      = memberEvents { publishers := [5] }
    ∧ (CEcalRegistrationDatabase.RemoveProcess 1 (runOps orphanMemberSetup {})).2.new_revision
      = 2 :=
  ⟨by decide, by decide,
    (cascade_without_process_record orphanMemberSetup 1 { publishers := [5] }
      (by decide) (by decide) (by decide)).2.1,
    (cascade_without_process_record orphanMemberSetup 1 { publishers := [5] }
      (by decide) (by decide) (by decide)).2.2.2.2⟩

/-! ## Snapshots and shared states -/

theorem derefState_append_left (store : List State) (x : State) (ptr : Nat)
    (h : ptr < store.length) : derefState (store ++ [x]) ptr = derefState store ptr := by
  simp [derefState, List.getD_eq_getElem?_getD, List.getElem?_append_left h]

theorem derefState_append_length (store : List State) (x : State) :
    derefState (store ++ [x]) store.length = x := by
  simp [derefState, List.getD_eq_getElem?_getD]

theorem derefState_set_ne (store : List State) (x : State) (i ptr : Nat) (h : i ≠ ptr) :
    derefState (store.set i x) ptr = derefState store ptr := by
  simp [derefState, List.getD_eq_getElem?_getD, List.getElem?_set_ne h]

theorem derefState_set_self (store : List State) (x : State) (i : Nat) (h : i < store.length) :
    derefState (store.set i x) i = x := by
  simp [derefState, List.getD_eq_getElem?_getD, List.getElem?_set_self h]

namespace SharedDatabase

theorem Preserved.refl (db : SharedDatabase) : Preserved db db :=
  ⟨Nat.le_refl _, fun _ _ => rfl⟩

theorem Preserved.trans {db₁ db₂ db₃ : SharedDatabase} (h₁ : Preserved db₁ db₂)
    (h₂ : Preserved db₂ db₃) : Preserved db₁ db₃ :=
  ⟨Nat.le_trans h₁.1 h₂.1, fun ptr hp =>
    (h₂.2 ptr (Nat.lt_of_lt_of_le hp h₁.1)).trans (h₁.2 ptr hp)⟩

theorem ApplyMutation_sound (mutator_ : MutatorT) (db : SharedDatabase) (hv : db.Valid) :
    (ApplyMutation mutator_ db).1.Valid
    ∧ Preserved db (ApplyMutation mutator_ db).1
    ∧ (ApplyMutation mutator_ db).1.value = (eCAL.Registration.ApplyMutation mutator_ db.value).1
    ∧ (ApplyMutation mutator_ db).2 = (eCAL.Registration.ApplyMutation mutator_ db.value).2 := by
  unfold Valid at hv
  have hne : db.store.length ≠ db.current_state_ := Nat.ne_of_gt hv
  have hlen : db.store.length < (db.store ++ [derefState db.store db.current_state_]).length := by
    simp
  have hcopy : derefState (db.store ++ [derefState db.store db.current_state_]) db.store.length
      = derefState db.store db.current_state_ := derefState_append_length _ _
  unfold ApplyMutation eCAL.Registration.ApplyMutation Valid Preserved value
  simp only [hcopy]
  split
  · rename_i hch
    refine ⟨?_, ⟨?_, fun ptr hp => ?_⟩, ?_, ?_⟩
    · simp only [List.length_set, List.length_append, List.length_singleton]
      omega
    · simp only [List.length_set, List.length_append, List.length_singleton]
      omega
    · rw [derefState_set_ne _ _ _ _ (Nat.ne_of_gt hp), derefState_append_left _ _ _ hp]
    · simp only [hch, if_true]
      rw [derefState_set_ne _ _ _ _ hne, derefState_append_left _ _ _ hv]
    · simp only [hch, if_true]
      rw [derefState_set_ne _ _ _ _ hne, derefState_append_left _ _ _ hv]
  · rename_i hch
    refine ⟨?_, ⟨?_, fun ptr hp => ?_⟩, ?_, ?_⟩
    · simp only [List.length_set, List.length_append, List.length_singleton]
      omega
    · simp only [List.length_set, List.length_append, List.length_singleton]
      omega
    · rw [derefState_set_ne _ _ _ _ (Nat.ne_of_gt hp),
        derefState_set_ne _ _ _ _ (Nat.ne_of_gt hp), derefState_append_left _ _ _ hp]
    · simp only [hch, if_false]
      rw [derefState_set_self _ _ _ (by simp),
        derefState_set_self _ _ _ hlen,
        derefState_set_ne _ _ _ _ hne, derefState_append_left _ _ _ hv]
    · simp only [hch, if_false]
      rw [derefState_set_self _ _ _ (by simp),
        derefState_set_self _ _ _ hlen,
        derefState_set_ne _ _ _ _ hne, derefState_append_left _ _ _ hv]

theorem ApplyMutation_twice_sound (m₁ m₂ : MutatorT) (db : SharedDatabase) (hv : db.Valid) :
    (ApplyMutation m₂ (ApplyMutation m₁ db).1).1.Valid
    ∧ Preserved db (ApplyMutation m₂ (ApplyMutation m₁ db).1).1
    ∧ (ApplyMutation m₂ (ApplyMutation m₁ db).1).1.value =
        (eCAL.Registration.ApplyMutation m₂
          (eCAL.Registration.ApplyMutation m₁ db.value).1).1
    ∧ ({ new_revision := (ApplyMutation m₂ (ApplyMutation m₁ db).1).2.new_revision
         events := (ApplyMutation m₁ db).2.events } : ApplyResult) =
        { new_revision := (eCAL.Registration.ApplyMutation m₂
            (eCAL.Registration.ApplyMutation m₁ db.value).1).2.new_revision
          events := (eCAL.Registration.ApplyMutation m₁ db.value).2.events } := by
  obtain ⟨h₁, h₂, h₃, h₄⟩ := ApplyMutation_sound m₁ db hv
  obtain ⟨k₁, k₂, k₃, k₄⟩ := ApplyMutation_sound m₂ (ApplyMutation m₁ db).1 h₁
  rw [h₃] at k₃ k₄
  exact ⟨k₁, h₂.trans k₂, k₃, by rw [k₄, h₄]⟩

theorem ApplySample_sound (sample_ : Sample) (db : SharedDatabase) (hv : db.Valid) :
    (ApplySample sample_ db).1.Valid
    ∧ Preserved db (ApplySample sample_ db).1
    ∧ (ApplySample sample_ db).1.value =
        (CEcalRegistrationDatabase.ApplySample sample_ db.value).1
    ∧ (ApplySample sample_ db).2 = (CEcalRegistrationDatabase.ApplySample sample_ db.value).2 := by
  unfold ApplySample CEcalRegistrationDatabase.ApplySample
  cases sample_.cmd_type with
  | bct_none => exact ⟨hv, Preserved.refl db, rfl, rfl⟩
  | bct_set_sample => exact ⟨hv, Preserved.refl db, rfl, rfl⟩
  | bct_other c => exact ⟨hv, Preserved.refl db, rfl, rfl⟩
  | bct_reg_process => exact ApplyMutation_sound _ db hv
  | bct_unreg_process => exact ApplyMutation_sound _ db hv
  | bct_unreg_publisher => exact ApplyMutation_sound _ db hv
  | bct_unreg_subscriber => exact ApplyMutation_sound _ db hv
  | bct_unreg_service => exact ApplyMutation_sound _ db hv
  | bct_unreg_client => exact ApplyMutation_sound _ db hv
  | bct_reg_publisher => exact ApplyMutation_twice_sound _ _ db hv
  | bct_reg_subscriber => exact ApplyMutation_twice_sound _ _ db hv
  | bct_reg_service => exact ApplyMutation_twice_sound _ _ db hv
  | bct_reg_client => exact ApplyMutation_twice_sound _ _ db hv

theorem ApplySamples_fold_sound (samples_ : List Sample)
    (acc : SharedDatabase × ApplyResult) (hv : acc.1.Valid) :
    (samples_.foldl ApplySamplesStep acc).1.Valid
    ∧ Preserved acc.1 (samples_.foldl ApplySamplesStep acc).1
    ∧ (samples_.foldl ApplySamplesStep acc).1.value =
        (samples_.foldl CEcalRegistrationDatabase.ApplySamplesStep (acc.1.value, acc.2)).1
    ∧ (samples_.foldl ApplySamplesStep acc).2 =
        (samples_.foldl CEcalRegistrationDatabase.ApplySamplesStep (acc.1.value, acc.2)).2 := by
  induction samples_ generalizing acc with
  | nil => exact ⟨hv, Preserved.refl _, rfl, rfl⟩
  | cons s rest ih =>
    obtain ⟨h₁, h₂, h₃, h₄⟩ := ApplySample_sound s acc.1 hv
    have hstep : ((ApplySamplesStep acc s).1.value, (ApplySamplesStep acc s).2) =
        CEcalRegistrationDatabase.ApplySamplesStep (acc.1.value, acc.2) s := by
      show ((ApplySample s acc.1).1.value,
          ({ new_revision := (ApplySample s acc.1).2.new_revision
             events := acc.2.events ++ (ApplySample s acc.1).2.events } : ApplyResult)) =
        ((CEcalRegistrationDatabase.ApplySample s acc.1.value).1,
          { new_revision := (CEcalRegistrationDatabase.ApplySample s acc.1.value).2.new_revision
            events := acc.2.events ++ (CEcalRegistrationDatabase.ApplySample s acc.1.value).2.events })
      rw [h₃, h₄]
    obtain ⟨k₁, k₂, k₃, k₄⟩ := ih (ApplySamplesStep acc s) h₁
    rw [hstep] at k₃ k₄
    exact ⟨k₁, Preserved.trans h₂ k₂, k₃, k₄⟩

theorem ApplySamples_sound (samples_ : List Sample) (db : SharedDatabase) (hv : db.Valid) :
    (ApplySamples samples_ db).1.Valid
    ∧ Preserved db (ApplySamples samples_ db).1
    ∧ (ApplySamples samples_ db).1.value =
        (CEcalRegistrationDatabase.ApplySamples samples_ db.value).1
    ∧ (ApplySamples samples_ db).2 =
        (CEcalRegistrationDatabase.ApplySamples samples_ db.value).2 :=
  ApplySamples_fold_sound samples_ _ hv

end SharedDatabase

theorem Op.applyShared_sound (op : Op) (db : SharedDatabase) (hv : db.Valid) :
    (op.applyShared db).1.Valid
    ∧ SharedDatabase.Preserved db (op.applyShared db).1
    ∧ (op.applyShared db).1.value = (op.apply db.value).1
    ∧ (op.applyShared db).2 = (op.apply db.value).2 := by
  cases op with
  | typed t =>
    have h := SharedDatabase.ApplyMutation_sound t.mutator db hv
    rw [← TypedOp.apply_eq] at h
    exact h
  | ApplySample s => exact SharedDatabase.ApplySample_sound s db hv
  | ApplySamples l => exact SharedDatabase.ApplySamples_sound l db hv

/-- C25, snapshot immutability: for every database whose `current_state_` points to an
allocated state, the snapshot `S` obtained by `GetSnapshot()` and every subsequent public
mutation (typed mutation, `ApplySample`, `ApplySamples`): the state `S` refers to is the same
after the mutation as before, so that `GetRevision`, the `Has` and `Count` queries,
`GetPublisherRegistration` and `GetPublisherMonitoring` on `S` return what they returned
before; the mutation leaves every allocated state as it was and installs a state of its
own, the one the call computes from the state before the call. -/
theorem snapshot_immutability (db : SharedDatabase) (hv : db.Valid) (op : Op) :
    db.GetSnapshot.view (op.applyShared db).1.store = db.GetSnapshot.view db.store
    ∧ (db.GetSnapshot.view (op.applyShared db).1.store).GetRevision
        = (db.GetSnapshot.view db.store).GetRevision
    ∧ (∀ P, (db.GetSnapshot.view (op.applyShared db).1.store).HasProcess P
        = (db.GetSnapshot.view db.store).HasProcess P)
    ∧ (∀ E, (db.GetSnapshot.view (op.applyShared db).1.store).HasPublisher E
          = (db.GetSnapshot.view db.store).HasPublisher E
        ∧ (db.GetSnapshot.view (op.applyShared db).1.store).HasSubscriber E
          = (db.GetSnapshot.view db.store).HasSubscriber E
        ∧ (db.GetSnapshot.view (op.applyShared db).1.store).HasServer E
          = (db.GetSnapshot.view db.store).HasServer E
        ∧ (db.GetSnapshot.view (op.applyShared db).1.store).HasClient E
          = (db.GetSnapshot.view db.store).HasClient E)
    ∧ ((db.GetSnapshot.view (op.applyShared db).1.store).ProcessCount
          = (db.GetSnapshot.view db.store).ProcessCount
        ∧ (db.GetSnapshot.view (op.applyShared db).1.store).PublisherCount
          = (db.GetSnapshot.view db.store).PublisherCount
        ∧ (db.GetSnapshot.view (op.applyShared db).1.store).SubscriberCount
          = (db.GetSnapshot.view db.store).SubscriberCount
        ∧ (db.GetSnapshot.view (op.applyShared db).1.store).ServerCount
          = (db.GetSnapshot.view db.store).ServerCount
        ∧ (db.GetSnapshot.view (op.applyShared db).1.store).ClientCount
          = (db.GetSnapshot.view db.store).ClientCount)
    ∧ (∀ E out, (db.GetSnapshot.view (op.applyShared db).1.store).GetPublisherRegistration E out
        = (db.GetSnapshot.view db.store).GetPublisherRegistration E out)
    ∧ (∀ E out, (db.GetSnapshot.view (op.applyShared db).1.store).GetPublisherMonitoring E out
        = (db.GetSnapshot.view db.store).GetPublisherMonitoring E out)
    ∧ (∀ ptr, ptr < db.store.length →
        derefState (op.applyShared db).1.store ptr = derefState db.store ptr)
    ∧ ((op.applyShared db).1.GetSnapshot.view (op.applyShared db).1.store).state_
        = (op.apply db.value).1.current_state_ := by
  obtain ⟨-, hp, hval, -⟩ := op.applyShared_sound db hv
  have hview : db.GetSnapshot.view (op.applyShared db).1.store = db.GetSnapshot.view db.store := by
    unfold SharedSnapshot.view SharedDatabase.GetSnapshot
    rw [hp.2 db.current_state_ hv]
  refine ⟨hview, ?_, fun P => ?_, fun E => ⟨?_, ?_, ?_, ?_⟩, ⟨?_, ?_, ?_, ?_, ?_⟩,
    fun E out => ?_, fun E out => ?_, hp.2, ?_⟩
  all_goals first
    | rw [hview]
    | exact congrArg CEcalRegistrationDatabase.current_state_ hval

/-- Instance of C25: the snapshot taken from the freshly constructed database still reports
no publisher after `ApplySample` of the publisher sample of the test, while a snapshot taken
afterwards reports one publisher. -/
theorem snapshot_immutability_witness :
    (({} : SharedDatabase).GetSnapshot.view
        ((Op.ApplySample publisherSample).applyShared {}).1.store).PublisherCount = 0
    ∧ (((Op.ApplySample publisherSample).applyShared {}).1.GetSnapshot.view
        ((Op.ApplySample publisherSample).applyShared {}).1.store).PublisherCount = 1
    ∧ ({} : SharedDatabase).GetSnapshot.view
        ((Op.ApplySample publisherSample).applyShared {}).1.store
      = ({} : SharedDatabase).GetSnapshot.view ({} : SharedDatabase).store :=
  ⟨by decide, by decide,
    (snapshot_immutability {} (by simp [SharedDatabase.Valid]) (.ApplySample publisherSample)).1⟩

/-! ## Collisions, frames and process event keys -/

/-- C33, weak bucket invariant: in every state reached from the empty database by public
mutations, if `members_by_process` has an entry for `P` whose four sets are all empty, then
process `P` has a registration record. -/
theorem empty_bucket_implies_process (ops : List Op) (P : ProcessKey)
    (members : ProcessMembers)
    (hb : UMap.find (runOps ops {}).current_state_.members_by_process P = some members)
    (he : members.allEmpty = true) :
    (CEcalRegistrationDatabase.GetSnapshot (runOps ops {})).HasProcess P = true :=
  (runOps_consistent ops).empty_bucket P ⟨members, hb, he⟩

/-- Instance of C33: after `AddOrUpdateProcess(2, d)` on the empty database the bucket of
process 2 exists with four empty sets, and process 2 is registered. -/
theorem empty_bucket_implies_process_witness :
    UMap.find (runOps [.typed (.AddOrUpdateProcess 2 {})] {}).current_state_.members_by_process 2
      = some {}
    ∧ (CEcalRegistrationDatabase.GetSnapshot
        (runOps [.typed (.AddOrUpdateProcess 2 {})] {})).HasProcess 2 = true :=
  ⟨by decide,
    empty_bucket_implies_process [.typed (.AddOrUpdateProcess 2 {})] 2 {} (by decide)
      (by decide)⟩

theorem UpdateProcessMonitoring_only (key_ : ProcessKey) (delta_ : ProcessMonitoringDelta)
    (db : CEcalRegistrationDatabase) :
    { (CEcalRegistrationDatabase.UpdateProcessMonitoring key_ delta_ db).1.current_state_ with
        process_monitoring := db.current_state_.process_monitoring
        revision := db.current_state_.revision } = db.current_state_
    ∧ ∀ key, key ≠ key_ →
      UMap.find (CEcalRegistrationDatabase.UpdateProcessMonitoring key_ delta_ db).1.current_state_.process_monitoring key
        = UMap.find db.current_state_.process_monitoring key := by
  unfold CEcalRegistrationDatabase.UpdateProcessMonitoring
  rw [ApplyMutation_state, UpdateProcessMonitoringMutator_eq]
  by_cases hs : UMap.find db.current_state_.process_monitoring key_ = some delta_
  · simp [hs]
  · rw [if_neg hs, if_neg (by simp)]
    refine ⟨rfl, fun key hk => ?_⟩
    simp [UMap.find_assign, hk]

theorem UpdatePublisherMonitoring_only (key_ : EntityKey) (delta_ : TopicMonitoringDelta)
    (db : CEcalRegistrationDatabase) :
    { (CEcalRegistrationDatabase.UpdatePublisherMonitoring key_ delta_ db).1.current_state_ with
        publisher_monitoring := db.current_state_.publisher_monitoring
        revision := db.current_state_.revision } = db.current_state_
    ∧ ∀ key, key ≠ key_ →
      UMap.find (CEcalRegistrationDatabase.UpdatePublisherMonitoring key_ delta_ db).1.current_state_.publisher_monitoring key
        = UMap.find db.current_state_.publisher_monitoring key := by
  unfold CEcalRegistrationDatabase.UpdatePublisherMonitoring
  rw [ApplyMutation_state, UpdatePublisherMonitoringMutator_eq]
  by_cases hs : TopicMonitoringDelta.unchanged
      (UMap.find db.current_state_.publisher_monitoring key_) delta_ = true
  · simp [hs]
  · rw [if_neg hs, if_neg (by simp)]
    refine ⟨rfl, fun key hk => ?_⟩
    simp [UMap.find_assign, hk]

theorem UpdateSubscriberMonitoring_only (key_ : EntityKey) (delta_ : TopicMonitoringDelta)
    (db : CEcalRegistrationDatabase) :
    { (CEcalRegistrationDatabase.UpdateSubscriberMonitoring key_ delta_ db).1.current_state_ with
        subscriber_monitoring := db.current_state_.subscriber_monitoring
        revision := db.current_state_.revision } = db.current_state_
    ∧ ∀ key, key ≠ key_ →
      UMap.find (CEcalRegistrationDatabase.UpdateSubscriberMonitoring key_ delta_ db).1.current_state_.subscriber_monitoring key
        = UMap.find db.current_state_.subscriber_monitoring key := by
  unfold CEcalRegistrationDatabase.UpdateSubscriberMonitoring
  rw [ApplyMutation_state, UpdateSubscriberMonitoringMutator_eq]
  by_cases hs : TopicMonitoringDelta.unchanged
      (UMap.find db.current_state_.subscriber_monitoring key_) delta_ = true
  · simp [hs]
  · rw [if_neg hs, if_neg (by simp)]
    refine ⟨rfl, fun key hk => ?_⟩
    simp [UMap.find_assign, hk]

theorem UpdateServerMonitoring_only (key_ : EntityKey) (delta_ : ServiceMonitoringDelta)
    (db : CEcalRegistrationDatabase) :
    { (CEcalRegistrationDatabase.UpdateServerMonitoring key_ delta_ db).1.current_state_ with
        server_monitoring := db.current_state_.server_monitoring
        revision := db.current_state_.revision } = db.current_state_
    ∧ ∀ key, key ≠ key_ →
      UMap.find (CEcalRegistrationDatabase.UpdateServerMonitoring key_ delta_ db).1.current_state_.server_monitoring key
        = UMap.find db.current_state_.server_monitoring key := by
  unfold CEcalRegistrationDatabase.UpdateServerMonitoring
  rw [ApplyMutation_state, UpdateServerMonitoringMutator_eq]
  by_cases hs : UMap.find db.current_state_.server_monitoring key_ = some delta_
  · simp [hs]
  · rw [if_neg hs, if_neg (by simp)]
    refine ⟨rfl, fun key hk => ?_⟩
    simp [UMap.find_assign, hk]

theorem UpdateClientMonitoring_only (key_ : EntityKey) (delta_ : ClientMonitoringDelta)
    (db : CEcalRegistrationDatabase) :
    { (CEcalRegistrationDatabase.UpdateClientMonitoring key_ delta_ db).1.current_state_ with
        client_monitoring := db.current_state_.client_monitoring
        revision := db.current_state_.revision } = db.current_state_
    ∧ ∀ key, key ≠ key_ →
      UMap.find (CEcalRegistrationDatabase.UpdateClientMonitoring key_ delta_ db).1.current_state_.client_monitoring key
        = UMap.find db.current_state_.client_monitoring key := by
  unfold CEcalRegistrationDatabase.UpdateClientMonitoring
  rw [ApplyMutation_state, UpdateClientMonitoringMutator_eq]
  by_cases hs : UMap.find db.current_state_.client_monitoring key_ = some delta_
  · simp [hs]
  · rw [if_neg hs, if_neg (by simp)]
    refine ⟨rfl, fun key hk => ?_⟩
    simp [UMap.find_assign, hk]

/-- C35, monitoring update frame: for every database, entity kind, key `E` and monitoring
delta, `Update{Kind}Monitoring(E, m)` changes at most the monitoring table of the kind and
the revision: putting the old monitoring table of the kind and the old revision back into
the installed state gives the old state (all five registration tables, the other four
monitoring tables and the membership index are as before), and every key other than `E`
has in the monitoring table of the kind the entry it had before. -/
theorem monitoring_update_frame (db : CEcalRegistrationDatabase) :
    (∀ (E : ProcessKey) (m : ProcessMonitoringDelta),
      { (CEcalRegistrationDatabase.UpdateProcessMonitoring E m db).1.current_state_ with
          process_monitoring := db.current_state_.process_monitoring
          revision := db.current_state_.revision } = db.current_state_
      ∧ ∀ key, key ≠ E →
        UMap.find (CEcalRegistrationDatabase.UpdateProcessMonitoring E m db).1.current_state_.process_monitoring key
          = UMap.find db.current_state_.process_monitoring key)
    ∧ (∀ (E : EntityKey) (m : TopicMonitoringDelta),
      { (CEcalRegistrationDatabase.UpdatePublisherMonitoring E m db).1.current_state_ with
          publisher_monitoring := db.current_state_.publisher_monitoring
          revision := db.current_state_.revision } = db.current_state_
      ∧ ∀ key, key ≠ E →
        UMap.find (CEcalRegistrationDatabase.UpdatePublisherMonitoring E m db).1.current_state_.publisher_monitoring key
          = UMap.find db.current_state_.publisher_monitoring key)
    ∧ (∀ (E : EntityKey) (m : TopicMonitoringDelta),
      { (CEcalRegistrationDatabase.UpdateSubscriberMonitoring E m db).1.current_state_ with
          subscriber_monitoring := db.current_state_.subscriber_monitoring
          revision := db.current_state_.revision } = db.current_state_
      ∧ ∀ key, key ≠ E →
        UMap.find (CEcalRegistrationDatabase.UpdateSubscriberMonitoring E m db).1.current_state_.subscriber_monitoring key
          = UMap.find db.current_state_.subscriber_monitoring key)
    ∧ (∀ (E : EntityKey) (m : ServiceMonitoringDelta),
      { (CEcalRegistrationDatabase.UpdateServerMonitoring E m db).1.current_state_ with
          server_monitoring := db.current_state_.server_monitoring
          revision := db.current_state_.revision } = db.current_state_
      ∧ ∀ key, key ≠ E →
        UMap.find (CEcalRegistrationDatabase.UpdateServerMonitoring E m db).1.current_state_.server_monitoring key
          = UMap.find db.current_state_.server_monitoring key)
    ∧ (∀ (E : EntityKey) (m : ClientMonitoringDelta),
      { (CEcalRegistrationDatabase.UpdateClientMonitoring E m db).1.current_state_ with
          client_monitoring := db.current_state_.client_monitoring
          revision := db.current_state_.revision } = db.current_state_
      ∧ ∀ key, key ≠ E →
        UMap.find (CEcalRegistrationDatabase.UpdateClientMonitoring E m db).1.current_state_.client_monitoring key
          = UMap.find db.current_state_.client_monitoring key) :=
  ⟨fun E m => UpdateProcessMonitoring_only E m db,
    fun E m => UpdatePublisherMonitoring_only E m db,
    fun E m => UpdateSubscriberMonitoring_only E m db,
    fun E m => UpdateServerMonitoring_only E m db,
    fun E m => UpdateClientMonitoring_only E m db⟩

/-- C31 as stated fails when the key is already registered in the other kind: after
`collidingSetup` key 7 is registered as a publisher and as a subscriber, and
`AddOrUpdateSubscriber(7, d)` with another host name is an update, returning
`[updated_entity(subscriber, 7)]` and not `[new_entity(subscriber, 7)]`. -/
theorem collision_on_registered_key_is_update :
    (UMap.find (runOps collidingSetup {}).current_state_.publishers 7).isSome = true
    ∧ (CEcalRegistrationDatabase.AddOrUpdateSubscriber 7
        { process_id := 2, host_name := "g", topic := { topic_name := "t" } }
        (runOps collidingSetup {})).2.events
      = [{ event_type := .updated_entity, entity_type := .subscriber, entity_key := 7 }] := by
  decide

/-- C31, amended: for every database in which key `E` is registered as a publisher and has
no record in the subscriber (server, client) table, `AddOrUpdateSubscriber(E, d)`
(`AddOrUpdateServer`, `AddOrUpdateClient`) is an insert: it returns exactly
`[new_entity(kind, E)]`, stores `d` under `E` in the table of the kind, and leaves the
publisher registration and the publisher monitoring of `E` as they were, so that `E` is
then present in two registration tables. -/
theorem cross_kind_collision_undetected (db : CEcalRegistrationDatabase) (E : EntityKey)
    (r : TopicRegistrationDelta)
    (hpub : UMap.find db.current_state_.publishers E = some r) :
    (∀ d : TopicRegistrationDelta, UMap.find db.current_state_.subscribers E = none →
      (CEcalRegistrationDatabase.AddOrUpdateSubscriber E d db).2.events
        = [{ event_type := .new_entity, entity_type := .subscriber, entity_key := E }]
      ∧ UMap.find (CEcalRegistrationDatabase.AddOrUpdateSubscriber E d db).1.current_state_.subscribers E = some d
      ∧ UMap.find (CEcalRegistrationDatabase.AddOrUpdateSubscriber E d db).1.current_state_.publishers E = some r
      ∧ UMap.find (CEcalRegistrationDatabase.AddOrUpdateSubscriber E d db).1.current_state_.publisher_monitoring E
        = UMap.find db.current_state_.publisher_monitoring E)
    ∧ (∀ d : ServiceRegistrationDelta, UMap.find db.current_state_.servers E = none →
      (CEcalRegistrationDatabase.AddOrUpdateServer E d db).2.events
        = [{ event_type := .new_entity, entity_type := .server, entity_key := E }]
      ∧ UMap.find (CEcalRegistrationDatabase.AddOrUpdateServer E d db).1.current_state_.servers E = some d
      ∧ UMap.find (CEcalRegistrationDatabase.AddOrUpdateServer E d db).1.current_state_.publishers E = some r
      ∧ UMap.find (CEcalRegistrationDatabase.AddOrUpdateServer E d db).1.current_state_.publisher_monitoring E
        = UMap.find db.current_state_.publisher_monitoring E)
    ∧ (∀ d : ClientRegistrationDelta, UMap.find db.current_state_.clients E = none →
      (CEcalRegistrationDatabase.AddOrUpdateClient E d db).2.events
        = [{ event_type := .new_entity, entity_type := .client, entity_key := E }]
      ∧ UMap.find (CEcalRegistrationDatabase.AddOrUpdateClient E d db).1.current_state_.clients E = some d
      ∧ UMap.find (CEcalRegistrationDatabase.AddOrUpdateClient E d db).1.current_state_.publishers E = some r
      ∧ UMap.find (CEcalRegistrationDatabase.AddOrUpdateClient E d db).1.current_state_.publisher_monitoring E
        = UMap.find db.current_state_.publisher_monitoring E) := by
  refine ⟨fun d hf => ?_, fun d hf => ?_, fun d hf => ?_⟩
  · have hev := (AddOrUpdateSubscriber_spec E d db).1
    rw [hf] at hev
    rw [AddOrUpdateSubscriber_fresh E d db hf]
    exact ⟨hev, by simp [UMap.find_emplace _ _ _ _ hf], hpub, rfl⟩
  · have hev := (AddOrUpdateServer_spec E d db).1
    rw [hf] at hev
    rw [AddOrUpdateServer_fresh E d db hf]
    exact ⟨hev, by simp [UMap.find_emplace _ _ _ _ hf], hpub, rfl⟩
  · have hev := (AddOrUpdateClient_spec E d db).1
    rw [hf] at hev
    rw [AddOrUpdateClient_fresh E d db hf]
    exact ⟨hev, by simp [UMap.find_emplace _ _ _ _ hf], hpub, rfl⟩

/-- Instance of C31: on the database that holds publisher 7 only, `AddOrUpdateSubscriber(7,
d)` returns `[new_entity(subscriber, 7)]` and publisher 7 keeps its record. -/
theorem cross_kind_collision_undetected_witness :
    (CEcalRegistrationDatabase.AddOrUpdateSubscriber 7 {}
        (runOps [.typed (.AddOrUpdatePublisher 7 {})] {})).2.events
      = [{ event_type := .new_entity, entity_type := .subscriber, entity_key := 7 }]
    ∧ UMap.find (CEcalRegistrationDatabase.AddOrUpdateSubscriber 7 {}
        (runOps [.typed (.AddOrUpdatePublisher 7 {})] {})).1.current_state_.subscribers 7
      = some {}
    ∧ UMap.find (CEcalRegistrationDatabase.AddOrUpdateSubscriber 7 {}
        (runOps [.typed (.AddOrUpdatePublisher 7 {})] {})).1.current_state_.publishers 7
      = some {} :=
  ⟨((cross_kind_collision_undetected (runOps [.typed (.AddOrUpdatePublisher 7 {})] {}) 7 {}
      (by decide)).1 {} (by decide)).1,
    ((cross_kind_collision_undetected (runOps [.typed (.AddOrUpdatePublisher 7 {})] {}) 7 {}
      (by decide)).1 {} (by decide)).2.1,
    ((cross_kind_collision_undetected (runOps [.typed (.AddOrUpdatePublisher 7 {})] {}) 7 {}
      (by decide)).1 {} (by decide)).2.2.1⟩

/-- C32, `PerChannelWriter.FindOrCreateWriter`: for a channel name present in
`channel_writer_map` the writer creator is invoked once more (with `path/channel_name`),
the map keeps its entries and the existing entry is returned; for a channel name absent
from the map no writer is created, the map is unchanged and `end()` is returned. -/
theorem find_or_create_writer_inverted {W : Type} (self : PerChannelWriter W)
    (channel_name : String) :
    (∀ w, UMap.find self.channel_writer_map channel_name = some w →
      (self.FindOrCreateWriter channel_name).1.creator_calls
          = self.creator_calls ++ [self.path ++ "/" ++ channel_name]
      ∧ (self.FindOrCreateWriter channel_name).1.channel_writer_map = self.channel_writer_map
      ∧ (self.FindOrCreateWriter channel_name).2 = some (channel_name, w))
    ∧ (UMap.find self.channel_writer_map channel_name = none →
      (self.FindOrCreateWriter channel_name).1.creator_calls = self.creator_calls
      ∧ (self.FindOrCreateWriter channel_name).1.channel_writer_map = self.channel_writer_map
      ∧ (self.FindOrCreateWriter channel_name).2 = none) := by
  refine ⟨fun w hf => ?_, fun hf => ?_⟩
  · simp [PerChannelWriter.FindOrCreateWriter, PerChannelWriter.CreateNewChannelWriter, hf,
      UMap.emplace]
  · simp [PerChannelWriter.FindOrCreateWriter, hf]

theorem foldl_RemoveProcessStep_event_types (K : EntityType) (l : List EntityKey)
    (a : MutatorArgs) (e : EntityEvent) (he : e ∈ (l.foldl (RemoveProcessStep K) a).events_) :
    e ∈ a.events_ ∨ e.entity_type = K := by
  induction l generalizing a with
  | nil => exact Or.inl he
  | cons id rest ih =>
    rcases ih (RemoveProcessStep K a id) he with h | h
    · rw [RemoveProcessStep_events, List.mem_append] at h
      rcases h with h | h
      · exact Or.inl h
      · split at h
        · simp only [List.mem_singleton] at h
          exact Or.inr (by rw [h]; rfl)
        · cases h
    · exact Or.inr h

theorem RemoveProcessCascade_event_types (members : ProcessMembers) (a : MutatorArgs)
    (e : EntityEvent) (he : e ∈ (RemoveProcessCascade members a).events_) :
    e ∈ a.events_ ∨ e.entity_type ≠ .process := by
  rw [RemoveProcessCascade_eq] at he
  rcases foldl_RemoveProcessStep_event_types _ _ _ e he with h | h
  · rcases foldl_RemoveProcessStep_event_types _ _ _ e h with h | h
    · rcases foldl_RemoveProcessStep_event_types _ _ _ e h with h | h
      · rcases foldl_RemoveProcessStep_event_types _ _ _ e h with h | h
        · exact Or.inl h
        · exact Or.inr (by rw [h]; decide)
      · exact Or.inr (by rw [h]; decide)
    · exact Or.inr (by rw [h]; decide)
  · exact Or.inr (by rw [h]; decide)

theorem RemoveProcess_process_event (key_ : ProcessKey) (db : CEcalRegistrationDatabase)
    (e : EntityEvent) (he : e ∈ (CEcalRegistrationDatabase.RemoveProcess key_ db).2.events)
    (ht : e.entity_type = .process) :
    e = deletedEvent .process (processEntityKey key_) := by
  unfold CEcalRegistrationDatabase.RemoveProcess at he
  rw [ApplyMutation_result] at he
  simp only at he
  unfold RemoveProcessMutator at he
  have hfin : ∀ a : MutatorArgs, e ∈ (RemoveProcessFinish key_ a).events_ →
      e ∈ a.events_ ∨ e = deletedEvent .process (processEntityKey key_) := by
    intro a h
    rw [RemoveProcessFinish_events, List.mem_append] at h
    rcases h with h | h
    · exact Or.inl h
    · split at h
      · exact Or.inr (List.mem_singleton.mp h)
      · cases h
  split at he
  · rcases hfin _ he with h | h
    · rcases RemoveProcessCascade_event_types _ _ e h with h | h
      · cases h
      · exact absurd ht h
    · exact h
  · rcases hfin _ he with h | h
    · cases h
    · exact h

theorem processEntityKey_cast (P : ProcessKey) :
    ((processEntityKey P : Nat) : Int) = P % 2 ^ 64 := by
  unfold processEntityKey
  exact Int.toNat_of_nonneg (Int.emod_nonneg _ (by norm_num))

theorem int32_emod (p : Int) (h : -(2 ^ 31) ≤ p ∧ p < 2 ^ 31) :
    (0 ≤ p → p % 2 ^ 64 = p) ∧ (p < 0 → p % 2 ^ 64 = p + 2 ^ 64) := by
  have e₁ : (2 : Int) ^ 64 = 18446744073709551616 := by norm_num
  have e₃ : (2 : Int) ^ 31 = 2147483648 := by norm_num
  rw [e₁]
  rw [e₃] at h
  constructor <;> intro h0 <;> omega

/-- C38, process event keys: for every 32-bit signed process key `P`, every event returned
by `AddOrUpdateProcess(P, d)` and every process event returned by `RemoveProcess(P)`, on
any database, carries the entity key `P` converted to unsigned 64-bit, which is
`P mod 2 ^ 64`: `P` itself for `P` not negative and `P + 2 ^ 64` for negative `P`; the
conversion is injective on 32-bit signed keys, so distinct process keys yield distinct
process event keys. -/
theorem process_event_keys (P Q : ProcessKey) (hP : inInt32 P = true)
    (hQ : inInt32 Q = true) :
    (∀ (db : CEcalRegistrationDatabase) (d : ProcessRegistrationDelta) (e : EntityEvent),
      e ∈ (CEcalRegistrationDatabase.AddOrUpdateProcess P d db).2.events →
      e.entity_type = .process ∧ e.entity_key = processEntityKey P)
    ∧ (∀ (db : CEcalRegistrationDatabase) (e : EntityEvent),
      e ∈ (CEcalRegistrationDatabase.RemoveProcess P db).2.events →
      e.entity_type = .process → e.entity_key = processEntityKey P)
    ∧ ((processEntityKey P : Nat) : Int) = P % 2 ^ 64
    ∧ (0 ≤ P → ((processEntityKey P : Nat) : Int) = P)
    ∧ (P < 0 → ((processEntityKey P : Nat) : Int) = P + 2 ^ 64)
    ∧ (processEntityKey P = processEntityKey Q → P = Q) := by
  have hmod := processEntityKey_cast P
  have hP' : -(2 ^ 31) ≤ (P : Int) ∧ (P : Int) < 2 ^ 31 := by
    have := hP
    unfold inInt32 at this
    simp only [decide_eq_true_eq] at this
    exact this
  have hcases := int32_emod P hP'
  refine ⟨fun db d e he => ?_, fun db e he ht => ?_, hmod, fun h0 => ?_, fun h0 => ?_,
    fun heq => ?_⟩
  · rw [(AddOrUpdateProcess_spec P d db).1] at he
    cases hf : UMap.find db.current_state_.processes P with
    | none =>
      rw [hf] at he
      simp only [List.mem_singleton] at he
      rw [he]
      exact ⟨rfl, rfl⟩
    | some r =>
      rw [hf] at he
      simp only at he
      split at he
      · cases he
      · simp only [List.mem_singleton] at he
        rw [he]
        exact ⟨rfl, rfl⟩
  · rw [RemoveProcess_process_event P db e he ht]
    rfl
  · rw [hmod]
    exact hcases.1 h0
  · rw [hmod]
    exact hcases.2 h0
  · have h₁ := processKeyOf_processEntityKey P hP
    have h₂ := processKeyOf_processEntityKey Q hQ
    rw [heq] at h₁
    exact h₁.symm.trans h₂

/-- Instance of C38: the process keys `-1` and `1` are 32-bit signed values; the events of
`AddOrUpdateProcess(-1, d)` on the empty database carry the key `2 ^ 64 - 1`, and the event
keys of `-1` and `1` differ. -/
theorem process_event_keys_witness :
    (CEcalRegistrationDatabase.AddOrUpdateProcess (-1) {} {}).2.events
      = [{ event_type := .new_entity, entity_type := .process, entity_key := 2 ^ 64 - 1 }]
    ∧ ((processEntityKey (-1) : Nat) : Int) = -1 + 2 ^ 64
    ∧ (processEntityKey (-1) = processEntityKey 1 → (-1 : ProcessKey) = 1) :=
  ⟨by decide, (process_event_keys (-1) 1 (by decide) (by decide)).2.2.2.2.1 (by decide),
    (process_event_keys (-1) 1 (by decide) (by decide)).2.2.2.2.2⟩

/-! ## The frame of the cascade -/

theorem RemoveProcessPublisherStep_frame (a : MutatorArgs) (id : EntityKey) :
    { (RemoveProcessPublisherStep a id).state_ with
        publishers := a.state_.publishers
        publisher_monitoring := a.state_.publisher_monitoring
        members_by_process := a.state_.members_by_process } = a.state_
    ∧ ∀ E, E ≠ id →
      UMap.find (RemoveProcessPublisherStep a id).state_.publishers E
          = UMap.find a.state_.publishers E
      ∧ UMap.find (RemoveProcessPublisherStep a id).state_.publisher_monitoring E
          = UMap.find a.state_.publisher_monitoring E := by
  unfold RemoveProcessPublisherStep
  cases hf : UMap.find a.state_.publishers id with
  | none => exact ⟨rfl, fun E _ => ⟨rfl, rfl⟩⟩
  | some r =>
    refine ⟨rfl, fun E hE => ?_⟩
    simp [UMap.find_erase, hE]

theorem foldl_RemoveProcessPublisherStep_frame (l : List EntityKey) (a : MutatorArgs) :
    { (l.foldl RemoveProcessPublisherStep a).state_ with
        publishers := a.state_.publishers
        publisher_monitoring := a.state_.publisher_monitoring
        members_by_process := a.state_.members_by_process } = a.state_
    ∧ ∀ E, E ∉ l →
      UMap.find (l.foldl RemoveProcessPublisherStep a).state_.publishers E
          = UMap.find a.state_.publishers E
      ∧ UMap.find (l.foldl RemoveProcessPublisherStep a).state_.publisher_monitoring E
          = UMap.find a.state_.publisher_monitoring E := by
  induction l generalizing a with
  | nil => exact ⟨rfl, fun E _ => ⟨rfl, rfl⟩⟩
  | cons id rest ih =>
    obtain ⟨h₁, h₂⟩ := ih (RemoveProcessPublisherStep a id)
    obtain ⟨k₁, k₂⟩ := RemoveProcessPublisherStep_frame a id
    rw [List.foldl_cons]
    refine ⟨?_, fun E hE => ?_⟩
    · rw [← k₁]
      conv_rhs => rw [← h₁]
    · have hne : E ≠ id := fun h => hE (by rw [h]; exact List.mem_cons_self _ _)
      have hr : E ∉ rest := fun h => hE (List.mem_cons_of_mem _ h)
      exact ⟨(h₂ E hr).1.trans (k₂ E hne).1, (h₂ E hr).2.trans (k₂ E hne).2⟩

theorem RemoveProcessSubscriberStep_frame (a : MutatorArgs) (id : EntityKey) :
    { (RemoveProcessSubscriberStep a id).state_ with
        subscribers := a.state_.subscribers
        subscriber_monitoring := a.state_.subscriber_monitoring
        members_by_process := a.state_.members_by_process } = a.state_
    ∧ ∀ E, E ≠ id →
      UMap.find (RemoveProcessSubscriberStep a id).state_.subscribers E
          = UMap.find a.state_.subscribers E
      ∧ UMap.find (RemoveProcessSubscriberStep a id).state_.subscriber_monitoring E
          = UMap.find a.state_.subscriber_monitoring E := by
  unfold RemoveProcessSubscriberStep
  cases hf : UMap.find a.state_.subscribers id with
  | none => exact ⟨rfl, fun E _ => ⟨rfl, rfl⟩⟩
  | some r =>
    refine ⟨rfl, fun E hE => ?_⟩
    simp [UMap.find_erase, hE]

theorem foldl_RemoveProcessSubscriberStep_frame (l : List EntityKey) (a : MutatorArgs) :
    { (l.foldl RemoveProcessSubscriberStep a).state_ with
        subscribers := a.state_.subscribers
        subscriber_monitoring := a.state_.subscriber_monitoring
        members_by_process := a.state_.members_by_process } = a.state_
    ∧ ∀ E, E ∉ l →
      UMap.find (l.foldl RemoveProcessSubscriberStep a).state_.subscribers E
          = UMap.find a.state_.subscribers E
      ∧ UMap.find (l.foldl RemoveProcessSubscriberStep a).state_.subscriber_monitoring E
          = UMap.find a.state_.subscriber_monitoring E := by
  induction l generalizing a with
  | nil => exact ⟨rfl, fun E _ => ⟨rfl, rfl⟩⟩
  | cons id rest ih =>
    obtain ⟨h₁, h₂⟩ := ih (RemoveProcessSubscriberStep a id)
    obtain ⟨k₁, k₂⟩ := RemoveProcessSubscriberStep_frame a id
    rw [List.foldl_cons]
    refine ⟨?_, fun E hE => ?_⟩
    · rw [← k₁]
      conv_rhs => rw [← h₁]
    · have hne : E ≠ id := fun h => hE (by rw [h]; exact List.mem_cons_self _ _)
      have hr : E ∉ rest := fun h => hE (List.mem_cons_of_mem _ h)
      exact ⟨(h₂ E hr).1.trans (k₂ E hne).1, (h₂ E hr).2.trans (k₂ E hne).2⟩

theorem RemoveProcessServerStep_frame (a : MutatorArgs) (id : EntityKey) :
    { (RemoveProcessServerStep a id).state_ with
        servers := a.state_.servers
        server_monitoring := a.state_.server_monitoring
        members_by_process := a.state_.members_by_process } = a.state_
    ∧ ∀ E, E ≠ id →
      UMap.find (RemoveProcessServerStep a id).state_.servers E
          = UMap.find a.state_.servers E
      ∧ UMap.find (RemoveProcessServerStep a id).state_.server_monitoring E
          = UMap.find a.state_.server_monitoring E := by
  unfold RemoveProcessServerStep
  cases hf : UMap.find a.state_.servers id with
  | none => exact ⟨rfl, fun E _ => ⟨rfl, rfl⟩⟩
  | some r =>
    refine ⟨rfl, fun E hE => ?_⟩
    simp [UMap.find_erase, hE]

theorem foldl_RemoveProcessServerStep_frame (l : List EntityKey) (a : MutatorArgs) :
    { (l.foldl RemoveProcessServerStep a).state_ with
        servers := a.state_.servers
        server_monitoring := a.state_.server_monitoring
        members_by_process := a.state_.members_by_process } = a.state_
    ∧ ∀ E, E ∉ l →
      UMap.find (l.foldl RemoveProcessServerStep a).state_.servers E
          = UMap.find a.state_.servers E
      ∧ UMap.find (l.foldl RemoveProcessServerStep a).state_.server_monitoring E
          = UMap.find a.state_.server_monitoring E := by
  induction l generalizing a with
  | nil => exact ⟨rfl, fun E _ => ⟨rfl, rfl⟩⟩
  | cons id rest ih =>
    obtain ⟨h₁, h₂⟩ := ih (RemoveProcessServerStep a id)
    obtain ⟨k₁, k₂⟩ := RemoveProcessServerStep_frame a id
    rw [List.foldl_cons]
    refine ⟨?_, fun E hE => ?_⟩
    · rw [← k₁]
      conv_rhs => rw [← h₁]
    · have hne : E ≠ id := fun h => hE (by rw [h]; exact List.mem_cons_self _ _)
      have hr : E ∉ rest := fun h => hE (List.mem_cons_of_mem _ h)
      exact ⟨(h₂ E hr).1.trans (k₂ E hne).1, (h₂ E hr).2.trans (k₂ E hne).2⟩

theorem RemoveProcessClientStep_frame (a : MutatorArgs) (id : EntityKey) :
    { (RemoveProcessClientStep a id).state_ with
        clients := a.state_.clients
        client_monitoring := a.state_.client_monitoring
        members_by_process := a.state_.members_by_process } = a.state_
    ∧ ∀ E, E ≠ id →
      UMap.find (RemoveProcessClientStep a id).state_.clients E
          = UMap.find a.state_.clients E
      ∧ UMap.find (RemoveProcessClientStep a id).state_.client_monitoring E
          = UMap.find a.state_.client_monitoring E := by
  unfold RemoveProcessClientStep
  cases hf : UMap.find a.state_.clients id with
  | none => exact ⟨rfl, fun E _ => ⟨rfl, rfl⟩⟩
  | some r =>
    refine ⟨rfl, fun E hE => ?_⟩
    simp [UMap.find_erase, hE]

theorem foldl_RemoveProcessClientStep_frame (l : List EntityKey) (a : MutatorArgs) :
    { (l.foldl RemoveProcessClientStep a).state_ with
        clients := a.state_.clients
        client_monitoring := a.state_.client_monitoring
        members_by_process := a.state_.members_by_process } = a.state_
    ∧ ∀ E, E ∉ l →
      UMap.find (l.foldl RemoveProcessClientStep a).state_.clients E
          = UMap.find a.state_.clients E
      ∧ UMap.find (l.foldl RemoveProcessClientStep a).state_.client_monitoring E
          = UMap.find a.state_.client_monitoring E := by
  induction l generalizing a with
  | nil => exact ⟨rfl, fun E _ => ⟨rfl, rfl⟩⟩
  | cons id rest ih =>
    obtain ⟨h₁, h₂⟩ := ih (RemoveProcessClientStep a id)
    obtain ⟨k₁, k₂⟩ := RemoveProcessClientStep_frame a id
    rw [List.foldl_cons]
    refine ⟨?_, fun E hE => ?_⟩
    · rw [← k₁]
      conv_rhs => rw [← h₁]
    · have hne : E ≠ id := fun h => hE (by rw [h]; exact List.mem_cons_self _ _)
      have hr : E ∉ rest := fun h => hE (List.mem_cons_of_mem _ h)
      exact ⟨(h₂ E hr).1.trans (k₂ E hne).1, (h₂ E hr).2.trans (k₂ E hne).2⟩

theorem find_RemoveMembership_ne (m : UMap ProcessKey ProcessMembers) (P Q : ProcessKey)
    (K : EntityType) (E : EntityKey) (h : Q ≠ P) :
    UMap.find (RemoveMembership m P K E) Q = UMap.find m Q := by
  unfold RemoveMembership
  cases hf : UMap.find m P with
  | none => rfl
  | some b =>
    simp only
    split
    · simp [UMap.find_erase, h]
    · simp [UMap.find_assign, h]

theorem RemoveProcessStep_members_ne (K : EntityType) (a : MutatorArgs) (id : EntityKey)
    (Q : ProcessKey) (h : a.state_.regProcessId K id ≠ some Q) :
    UMap.find (RemoveProcessStep K a id).state_.members_by_process Q
      = UMap.find a.state_.members_by_process Q := by
  cases K with
  | process => rfl
  | publisher =>
    simp only [RemoveProcessStep, RemoveProcessPublisherStep]
    cases hf : UMap.find a.state_.publishers id with
    | none => rfl
    | some r =>
      have hne : Q ≠ r.process_id := by
        intro hq
        apply h
        simp [State.regProcessId, hf, hq]
      exact find_RemoveMembership_ne _ _ _ _ _ hne
  | subscriber =>
    simp only [RemoveProcessStep, RemoveProcessSubscriberStep]
    cases hf : UMap.find a.state_.subscribers id with
    | none => rfl
    | some r =>
      have hne : Q ≠ r.process_id := by
        intro hq
        apply h
        simp [State.regProcessId, hf, hq]
      exact find_RemoveMembership_ne _ _ _ _ _ hne
  | server =>
    simp only [RemoveProcessStep, RemoveProcessServerStep]
    cases hf : UMap.find a.state_.servers id with
    | none => rfl
    | some r =>
      have hne : Q ≠ r.process_id := by
        intro hq
        apply h
        simp [State.regProcessId, hf, hq]
      exact find_RemoveMembership_ne _ _ _ _ _ hne
  | client =>
    simp only [RemoveProcessStep, RemoveProcessClientStep]
    cases hf : UMap.find a.state_.clients id with
    | none => rfl
    | some r =>
      have hne : Q ≠ r.process_id := by
        intro hq
        apply h
        simp [State.regProcessId, hf, hq]
      exact find_RemoveMembership_ne _ _ _ _ _ hne

theorem foldl_RemoveProcessStep_members_ne (K : EntityType) (l : List EntityKey)
    (a : MutatorArgs) (Q : ProcessKey)
    (h : ∀ id ∈ l, a.state_.regProcessId K id ≠ some Q) :
    UMap.find (l.foldl (RemoveProcessStep K) a).state_.members_by_process Q
      = UMap.find a.state_.members_by_process Q := by
  induction l generalizing a with
  | nil => rfl
  | cons id rest ih =>
    rw [List.foldl_cons, ih, RemoveProcessStep_members_ne K a id Q (h id (List.mem_cons_self _ _))]
    intro x hx
    rw [RemoveProcessStep_regProcessId]
    split
    · simp
    · exact h x (List.mem_cons_of_mem _ hx)

theorem RemoveProcessCascade_members_ne (members : ProcessMembers) (a : MutatorArgs)
    (Q : ProcessKey)
    (h : ∀ K id, id ∈ members.ofType K → a.state_.regProcessId K id ≠ some Q) :
    UMap.find (RemoveProcessCascade members a).state_.members_by_process Q
      = UMap.find a.state_.members_by_process Q := by
  have keep : ∀ (K K' : EntityType) (l : List EntityKey) (b : MutatorArgs),
      (∀ id ∈ members.ofType K', b.state_.regProcessId K' id ≠ some Q) →
      ∀ id ∈ members.ofType K',
        (l.foldl (RemoveProcessStep K) b).state_.regProcessId K' id ≠ some Q := by
    intro K K' l b hb id hid
    rw [foldl_RemoveProcessStep_regProcessId]
    split
    · simp
    · exact hb id hid
  rw [RemoveProcessCascade_eq]
  rw [foldl_RemoveProcessStep_members_ne .client, foldl_RemoveProcessStep_members_ne .server,
    foldl_RemoveProcessStep_members_ne .subscriber,
    foldl_RemoveProcessStep_members_ne .publisher]
  · exact h .publisher
  · exact keep .publisher .subscriber _ _ (h .subscriber)
  · exact keep .subscriber .server _ _ (keep .publisher .server _ _ (h .server))
  · exact keep .server .client _ _
      (keep .subscriber .client _ _ (keep .publisher .client _ _ (h .client)))

theorem RemoveProcessCascade_publisher_frame (members : ProcessMembers) (a : MutatorArgs)
    (E : EntityKey) (hE : E ∉ members.publishers) :
    UMap.find (RemoveProcessCascade members a).state_.publishers E = UMap.find a.state_.publishers E
    ∧ UMap.find (RemoveProcessCascade members a).state_.publisher_monitoring E
        = UMap.find a.state_.publisher_monitoring E := by
  unfold RemoveProcessCascade
  simp only
  have h3 := (foldl_RemoveProcessClientStep_frame members.clients (members.servers.foldl RemoveProcessServerStep (members.subscribers.foldl RemoveProcessSubscriberStep (members.publishers.foldl RemoveProcessPublisherStep a)))).1
  have h2 := (foldl_RemoveProcessServerStep_frame members.servers (members.subscribers.foldl RemoveProcessSubscriberStep (members.publishers.foldl RemoveProcessPublisherStep a))).1
  have h1 := (foldl_RemoveProcessSubscriberStep_frame members.subscribers (members.publishers.foldl RemoveProcessPublisherStep a)).1
  have h0 := (foldl_RemoveProcessPublisherStep_frame members.publishers a).2 E hE
  constructor
  · calc UMap.find (members.clients.foldl RemoveProcessClientStep (members.servers.foldl RemoveProcessServerStep (members.subscribers.foldl RemoveProcessSubscriberStep (members.publishers.foldl RemoveProcessPublisherStep a)))).state_.publishers E
        _ = UMap.find (members.servers.foldl RemoveProcessServerStep (members.subscribers.foldl RemoveProcessSubscriberStep (members.publishers.foldl RemoveProcessPublisherStep a))).state_.publishers E := by
          have e := congrArg State.publishers h3
          rw [show (members.clients.foldl RemoveProcessClientStep (members.servers.foldl RemoveProcessServerStep (members.subscribers.foldl RemoveProcessSubscriberStep (members.publishers.foldl RemoveProcessPublisherStep a)))).state_.publishers = (members.servers.foldl RemoveProcessServerStep (members.subscribers.foldl RemoveProcessSubscriberStep (members.publishers.foldl RemoveProcessPublisherStep a))).state_.publishers from e]
        _ = UMap.find (members.subscribers.foldl RemoveProcessSubscriberStep (members.publishers.foldl RemoveProcessPublisherStep a)).state_.publishers E := by
          have e := congrArg State.publishers h2
          rw [show (members.servers.foldl RemoveProcessServerStep (members.subscribers.foldl RemoveProcessSubscriberStep (members.publishers.foldl RemoveProcessPublisherStep a))).state_.publishers = (members.subscribers.foldl RemoveProcessSubscriberStep (members.publishers.foldl RemoveProcessPublisherStep a)).state_.publishers from e]
        _ = UMap.find (members.publishers.foldl RemoveProcessPublisherStep a).state_.publishers E := by
          have e := congrArg State.publishers h1
          rw [show (members.subscribers.foldl RemoveProcessSubscriberStep (members.publishers.foldl RemoveProcessPublisherStep a)).state_.publishers = (members.publishers.foldl RemoveProcessPublisherStep a).state_.publishers from e]
        _ = UMap.find a.state_.publishers E := h0.1
  · calc UMap.find (members.clients.foldl RemoveProcessClientStep (members.servers.foldl RemoveProcessServerStep (members.subscribers.foldl RemoveProcessSubscriberStep (members.publishers.foldl RemoveProcessPublisherStep a)))).state_.publisher_monitoring E
        _ = UMap.find (members.servers.foldl RemoveProcessServerStep (members.subscribers.foldl RemoveProcessSubscriberStep (members.publishers.foldl RemoveProcessPublisherStep a))).state_.publisher_monitoring E := by
          have e := congrArg State.publisher_monitoring h3
          rw [show (members.clients.foldl RemoveProcessClientStep (members.servers.foldl RemoveProcessServerStep (members.subscribers.foldl RemoveProcessSubscriberStep (members.publishers.foldl RemoveProcessPublisherStep a)))).state_.publisher_monitoring = (members.servers.foldl RemoveProcessServerStep (members.subscribers.foldl RemoveProcessSubscriberStep (members.publishers.foldl RemoveProcessPublisherStep a))).state_.publisher_monitoring from e]
        _ = UMap.find (members.subscribers.foldl RemoveProcessSubscriberStep (members.publishers.foldl RemoveProcessPublisherStep a)).state_.publisher_monitoring E := by
          have e := congrArg State.publisher_monitoring h2
          rw [show (members.servers.foldl RemoveProcessServerStep (members.subscribers.foldl RemoveProcessSubscriberStep (members.publishers.foldl RemoveProcessPublisherStep a))).state_.publisher_monitoring = (members.subscribers.foldl RemoveProcessSubscriberStep (members.publishers.foldl RemoveProcessPublisherStep a)).state_.publisher_monitoring from e]
        _ = UMap.find (members.publishers.foldl RemoveProcessPublisherStep a).state_.publisher_monitoring E := by
          have e := congrArg State.publisher_monitoring h1
          rw [show (members.subscribers.foldl RemoveProcessSubscriberStep (members.publishers.foldl RemoveProcessPublisherStep a)).state_.publisher_monitoring = (members.publishers.foldl RemoveProcessPublisherStep a).state_.publisher_monitoring from e]
        _ = UMap.find a.state_.publisher_monitoring E := h0.2

theorem RemoveProcessCascade_subscriber_frame (members : ProcessMembers) (a : MutatorArgs)
    (E : EntityKey) (hE : E ∉ members.subscribers) :
    UMap.find (RemoveProcessCascade members a).state_.subscribers E = UMap.find a.state_.subscribers E
    ∧ UMap.find (RemoveProcessCascade members a).state_.subscriber_monitoring E
        = UMap.find a.state_.subscriber_monitoring E := by
  unfold RemoveProcessCascade
  simp only
  have h3 := (foldl_RemoveProcessClientStep_frame members.clients (members.servers.foldl RemoveProcessServerStep (members.subscribers.foldl RemoveProcessSubscriberStep (members.publishers.foldl RemoveProcessPublisherStep a)))).1
  have h2 := (foldl_RemoveProcessServerStep_frame members.servers (members.subscribers.foldl RemoveProcessSubscriberStep (members.publishers.foldl RemoveProcessPublisherStep a))).1
  have h1 := (foldl_RemoveProcessSubscriberStep_frame members.subscribers (members.publishers.foldl RemoveProcessPublisherStep a)).2 E hE
  have h0 := (foldl_RemoveProcessPublisherStep_frame members.publishers a).1
  constructor
  · calc UMap.find (members.clients.foldl RemoveProcessClientStep (members.servers.foldl RemoveProcessServerStep (members.subscribers.foldl RemoveProcessSubscriberStep (members.publishers.foldl RemoveProcessPublisherStep a)))).state_.subscribers E
        _ = UMap.find (members.servers.foldl RemoveProcessServerStep (members.subscribers.foldl RemoveProcessSubscriberStep (members.publishers.foldl RemoveProcessPublisherStep a))).state_.subscribers E := by
          have e := congrArg State.subscribers h3
          rw [show (members.clients.foldl RemoveProcessClientStep (members.servers.foldl RemoveProcessServerStep (members.subscribers.foldl RemoveProcessSubscriberStep (members.publishers.foldl RemoveProcessPublisherStep a)))).state_.subscribers = (members.servers.foldl RemoveProcessServerStep (members.subscribers.foldl RemoveProcessSubscriberStep (members.publishers.foldl RemoveProcessPublisherStep a))).state_.subscribers from e]
        _ = UMap.find (members.subscribers.foldl RemoveProcessSubscriberStep (members.publishers.foldl RemoveProcessPublisherStep a)).state_.subscribers E := by
          have e := congrArg State.subscribers h2
          rw [show (members.servers.foldl RemoveProcessServerStep (members.subscribers.foldl RemoveProcessSubscriberStep (members.publishers.foldl RemoveProcessPublisherStep a))).state_.subscribers = (members.subscribers.foldl RemoveProcessSubscriberStep (members.publishers.foldl RemoveProcessPublisherStep a)).state_.subscribers from e]
        _ = UMap.find (members.publishers.foldl RemoveProcessPublisherStep a).state_.subscribers E := h1.1
        _ = UMap.find a.state_.subscribers E := by
          have e := congrArg State.subscribers h0
          rw [show (members.publishers.foldl RemoveProcessPublisherStep a).state_.subscribers = a.state_.subscribers from e]
  · calc UMap.find (members.clients.foldl RemoveProcessClientStep (members.servers.foldl RemoveProcessServerStep (members.subscribers.foldl RemoveProcessSubscriberStep (members.publishers.foldl RemoveProcessPublisherStep a)))).state_.subscriber_monitoring E
        _ = UMap.find (members.servers.foldl RemoveProcessServerStep (members.subscribers.foldl RemoveProcessSubscriberStep (members.publishers.foldl RemoveProcessPublisherStep a))).state_.subscriber_monitoring E := by
          have e := congrArg State.subscriber_monitoring h3
          rw [show (members.clients.foldl RemoveProcessClientStep (members.servers.foldl RemoveProcessServerStep (members.subscribers.foldl RemoveProcessSubscriberStep (members.publishers.foldl RemoveProcessPublisherStep a)))).state_.subscriber_monitoring = (members.servers.foldl RemoveProcessServerStep (members.subscribers.foldl RemoveProcessSubscriberStep (members.publishers.foldl RemoveProcessPublisherStep a))).state_.subscriber_monitoring from e]
        _ = UMap.find (members.subscribers.foldl RemoveProcessSubscriberStep (members.publishers.foldl RemoveProcessPublisherStep a)).state_.subscriber_monitoring E := by
          have e := congrArg State.subscriber_monitoring h2
          rw [show (members.servers.foldl RemoveProcessServerStep (members.subscribers.foldl RemoveProcessSubscriberStep (members.publishers.foldl RemoveProcessPublisherStep a))).state_.subscriber_monitoring = (members.subscribers.foldl RemoveProcessSubscriberStep (members.publishers.foldl RemoveProcessPublisherStep a)).state_.subscriber_monitoring from e]
        _ = UMap.find (members.publishers.foldl RemoveProcessPublisherStep a).state_.subscriber_monitoring E := h1.2
        _ = UMap.find a.state_.subscriber_monitoring E := by
          have e := congrArg State.subscriber_monitoring h0
          rw [show (members.publishers.foldl RemoveProcessPublisherStep a).state_.subscriber_monitoring = a.state_.subscriber_monitoring from e]

theorem RemoveProcessCascade_server_frame (members : ProcessMembers) (a : MutatorArgs)
    (E : EntityKey) (hE : E ∉ members.servers) :
    UMap.find (RemoveProcessCascade members a).state_.servers E = UMap.find a.state_.servers E
    ∧ UMap.find (RemoveProcessCascade members a).state_.server_monitoring E
        = UMap.find a.state_.server_monitoring E := by
  unfold RemoveProcessCascade
  simp only
  have h3 := (foldl_RemoveProcessClientStep_frame members.clients (members.servers.foldl RemoveProcessServerStep (members.subscribers.foldl RemoveProcessSubscriberStep (members.publishers.foldl RemoveProcessPublisherStep a)))).1
  have h2 := (foldl_RemoveProcessServerStep_frame members.servers (members.subscribers.foldl RemoveProcessSubscriberStep (members.publishers.foldl RemoveProcessPublisherStep a))).2 E hE
  have h1 := (foldl_RemoveProcessSubscriberStep_frame members.subscribers (members.publishers.foldl RemoveProcessPublisherStep a)).1
  have h0 := (foldl_RemoveProcessPublisherStep_frame members.publishers a).1
  constructor
  · calc UMap.find (members.clients.foldl RemoveProcessClientStep (members.servers.foldl RemoveProcessServerStep (members.subscribers.foldl RemoveProcessSubscriberStep (members.publishers.foldl RemoveProcessPublisherStep a)))).state_.servers E
        _ = UMap.find (members.servers.foldl RemoveProcessServerStep (members.subscribers.foldl RemoveProcessSubscriberStep (members.publishers.foldl RemoveProcessPublisherStep a))).state_.servers E := by
          have e := congrArg State.servers h3
          rw [show (members.clients.foldl RemoveProcessClientStep (members.servers.foldl RemoveProcessServerStep (members.subscribers.foldl RemoveProcessSubscriberStep (members.publishers.foldl RemoveProcessPublisherStep a)))).state_.servers = (members.servers.foldl RemoveProcessServerStep (members.subscribers.foldl RemoveProcessSubscriberStep (members.publishers.foldl RemoveProcessPublisherStep a))).state_.servers from e]
        _ = UMap.find (members.subscribers.foldl RemoveProcessSubscriberStep (members.publishers.foldl RemoveProcessPublisherStep a)).state_.servers E := h2.1
        _ = UMap.find (members.publishers.foldl RemoveProcessPublisherStep a).state_.servers E := by
          have e := congrArg State.servers h1
          rw [show (members.subscribers.foldl RemoveProcessSubscriberStep (members.publishers.foldl RemoveProcessPublisherStep a)).state_.servers = (members.publishers.foldl RemoveProcessPublisherStep a).state_.servers from e]
        _ = UMap.find a.state_.servers E := by
          have e := congrArg State.servers h0
          rw [show (members.publishers.foldl RemoveProcessPublisherStep a).state_.servers = a.state_.servers from e]
  · calc UMap.find (members.clients.foldl RemoveProcessClientStep (members.servers.foldl RemoveProcessServerStep (members.subscribers.foldl RemoveProcessSubscriberStep (members.publishers.foldl RemoveProcessPublisherStep a)))).state_.server_monitoring E
        _ = UMap.find (members.servers.foldl RemoveProcessServerStep (members.subscribers.foldl RemoveProcessSubscriberStep (members.publishers.foldl RemoveProcessPublisherStep a))).state_.server_monitoring E := by
          have e := congrArg State.server_monitoring h3
          rw [show (members.clients.foldl RemoveProcessClientStep (members.servers.foldl RemoveProcessServerStep (members.subscribers.foldl RemoveProcessSubscriberStep (members.publishers.foldl RemoveProcessPublisherStep a)))).state_.server_monitoring = (members.servers.foldl RemoveProcessServerStep (members.subscribers.foldl RemoveProcessSubscriberStep (members.publishers.foldl RemoveProcessPublisherStep a))).state_.server_monitoring from e]
        _ = UMap.find (members.subscribers.foldl RemoveProcessSubscriberStep (members.publishers.foldl RemoveProcessPublisherStep a)).state_.server_monitoring E := h2.2
        _ = UMap.find (members.publishers.foldl RemoveProcessPublisherStep a).state_.server_monitoring E := by
          have e := congrArg State.server_monitoring h1
          rw [show (members.subscribers.foldl RemoveProcessSubscriberStep (members.publishers.foldl RemoveProcessPublisherStep a)).state_.server_monitoring = (members.publishers.foldl RemoveProcessPublisherStep a).state_.server_monitoring from e]
        _ = UMap.find a.state_.server_monitoring E := by
          have e := congrArg State.server_monitoring h0
          rw [show (members.publishers.foldl RemoveProcessPublisherStep a).state_.server_monitoring = a.state_.server_monitoring from e]

theorem RemoveProcessCascade_client_frame (members : ProcessMembers) (a : MutatorArgs)
    (E : EntityKey) (hE : E ∉ members.clients) :
    UMap.find (RemoveProcessCascade members a).state_.clients E = UMap.find a.state_.clients E
    ∧ UMap.find (RemoveProcessCascade members a).state_.client_monitoring E
        = UMap.find a.state_.client_monitoring E := by
  unfold RemoveProcessCascade
  simp only
  have h3 := (foldl_RemoveProcessClientStep_frame members.clients (members.servers.foldl RemoveProcessServerStep (members.subscribers.foldl RemoveProcessSubscriberStep (members.publishers.foldl RemoveProcessPublisherStep a)))).2 E hE
  have h2 := (foldl_RemoveProcessServerStep_frame members.servers (members.subscribers.foldl RemoveProcessSubscriberStep (members.publishers.foldl RemoveProcessPublisherStep a))).1
  have h1 := (foldl_RemoveProcessSubscriberStep_frame members.subscribers (members.publishers.foldl RemoveProcessPublisherStep a)).1
  have h0 := (foldl_RemoveProcessPublisherStep_frame members.publishers a).1
  constructor
  · calc UMap.find (members.clients.foldl RemoveProcessClientStep (members.servers.foldl RemoveProcessServerStep (members.subscribers.foldl RemoveProcessSubscriberStep (members.publishers.foldl RemoveProcessPublisherStep a)))).state_.clients E
        _ = UMap.find (members.servers.foldl RemoveProcessServerStep (members.subscribers.foldl RemoveProcessSubscriberStep (members.publishers.foldl RemoveProcessPublisherStep a))).state_.clients E := h3.1
        _ = UMap.find (members.subscribers.foldl RemoveProcessSubscriberStep (members.publishers.foldl RemoveProcessPublisherStep a)).state_.clients E := by
          have e := congrArg State.clients h2
          rw [show (members.servers.foldl RemoveProcessServerStep (members.subscribers.foldl RemoveProcessSubscriberStep (members.publishers.foldl RemoveProcessPublisherStep a))).state_.clients = (members.subscribers.foldl RemoveProcessSubscriberStep (members.publishers.foldl RemoveProcessPublisherStep a)).state_.clients from e]
        _ = UMap.find (members.publishers.foldl RemoveProcessPublisherStep a).state_.clients E := by
          have e := congrArg State.clients h1
          rw [show (members.subscribers.foldl RemoveProcessSubscriberStep (members.publishers.foldl RemoveProcessPublisherStep a)).state_.clients = (members.publishers.foldl RemoveProcessPublisherStep a).state_.clients from e]
        _ = UMap.find a.state_.clients E := by
          have e := congrArg State.clients h0
          rw [show (members.publishers.foldl RemoveProcessPublisherStep a).state_.clients = a.state_.clients from e]
  · calc UMap.find (members.clients.foldl RemoveProcessClientStep (members.servers.foldl RemoveProcessServerStep (members.subscribers.foldl RemoveProcessSubscriberStep (members.publishers.foldl RemoveProcessPublisherStep a)))).state_.client_monitoring E
        _ = UMap.find (members.servers.foldl RemoveProcessServerStep (members.subscribers.foldl RemoveProcessSubscriberStep (members.publishers.foldl RemoveProcessPublisherStep a))).state_.client_monitoring E := h3.2
        _ = UMap.find (members.subscribers.foldl RemoveProcessSubscriberStep (members.publishers.foldl RemoveProcessPublisherStep a)).state_.client_monitoring E := by
          have e := congrArg State.client_monitoring h2
          rw [show (members.servers.foldl RemoveProcessServerStep (members.subscribers.foldl RemoveProcessSubscriberStep (members.publishers.foldl RemoveProcessPublisherStep a))).state_.client_monitoring = (members.subscribers.foldl RemoveProcessSubscriberStep (members.publishers.foldl RemoveProcessPublisherStep a)).state_.client_monitoring from e]
        _ = UMap.find (members.publishers.foldl RemoveProcessPublisherStep a).state_.client_monitoring E := by
          have e := congrArg State.client_monitoring h1
          rw [show (members.subscribers.foldl RemoveProcessSubscriberStep (members.publishers.foldl RemoveProcessPublisherStep a)).state_.client_monitoring = (members.publishers.foldl RemoveProcessPublisherStep a).state_.client_monitoring from e]
        _ = UMap.find a.state_.client_monitoring E := by
          have e := congrArg State.client_monitoring h0
          rw [show (members.publishers.foldl RemoveProcessPublisherStep a).state_.client_monitoring = a.state_.client_monitoring from e]

theorem RemoveProcessFinish_frame (key_ : ProcessKey) (a : MutatorArgs) :
    { (RemoveProcessFinish key_ a).state_ with
        processes := a.state_.processes
        process_monitoring := a.state_.process_monitoring
        members_by_process := a.state_.members_by_process } = a.state_
    ∧ ∀ Q, Q ≠ key_ →
      UMap.find (RemoveProcessFinish key_ a).state_.processes Q = UMap.find a.state_.processes Q
      ∧ UMap.find (RemoveProcessFinish key_ a).state_.process_monitoring Q
          = UMap.find a.state_.process_monitoring Q
      ∧ UMap.find (RemoveProcessFinish key_ a).state_.members_by_process Q
          = UMap.find a.state_.members_by_process Q := by
  unfold RemoveProcessFinish
  cases hf : UMap.find a.state_.processes key_ with
  | none =>
    refine ⟨rfl, fun Q hQ => ?_⟩
    simp [UMap.find_erase, hQ]
  | some r =>
    refine ⟨rfl, fun Q hQ => ?_⟩
    simp [UMap.find_erase, hQ]

theorem RemoveProcessMutator_frame (key_ : ProcessKey) (a : MutatorArgs)
    (hc : a.state_.Consistent) :
    (∀ (E : EntityKey) (r : TopicRegistrationDelta), UMap.find a.state_.publishers E = some r →
      r.process_id ≠ key_ →
      UMap.find (RemoveProcessMutator key_ a).state_.publishers E = some r
      ∧ UMap.find (RemoveProcessMutator key_ a).state_.publisher_monitoring E = UMap.find a.state_.publisher_monitoring E)
    ∧ (∀ (E : EntityKey) (r : TopicRegistrationDelta), UMap.find a.state_.subscribers E = some r →
      r.process_id ≠ key_ →
      UMap.find (RemoveProcessMutator key_ a).state_.subscribers E = some r
      ∧ UMap.find (RemoveProcessMutator key_ a).state_.subscriber_monitoring E = UMap.find a.state_.subscriber_monitoring E)
    ∧ (∀ (E : EntityKey) (r : ServiceRegistrationDelta), UMap.find a.state_.servers E = some r →
      r.process_id ≠ key_ →
      UMap.find (RemoveProcessMutator key_ a).state_.servers E = some r
      ∧ UMap.find (RemoveProcessMutator key_ a).state_.server_monitoring E = UMap.find a.state_.server_monitoring E)
    ∧ (∀ (E : EntityKey) (r : ClientRegistrationDelta), UMap.find a.state_.clients E = some r →
      r.process_id ≠ key_ →
      UMap.find (RemoveProcessMutator key_ a).state_.clients E = some r
      ∧ UMap.find (RemoveProcessMutator key_ a).state_.client_monitoring E = UMap.find a.state_.client_monitoring E)
    ∧ (∀ Q : ProcessKey, Q ≠ key_ →
      UMap.find (RemoveProcessMutator key_ a).state_.processes Q = UMap.find a.state_.processes Q
      ∧ UMap.find (RemoveProcessMutator key_ a).state_.process_monitoring Q = UMap.find a.state_.process_monitoring Q
      ∧ UMap.find (RemoveProcessMutator key_ a).state_.members_by_process Q = UMap.find a.state_.members_by_process Q) := by
  unfold RemoveProcessMutator
  cases hb : UMap.find a.state_.members_by_process key_ with
  | none =>
    obtain ⟨h₁, h₂⟩ := RemoveProcessFinish_frame key_ a
    simp only
    refine ⟨fun E r hr _ => ?_, fun E r hr _ => ?_, fun E r hr _ => ?_, fun E r hr _ => ?_, h₂⟩
    · have e₁ := congrArg State.publishers h₁
      have e₂ := congrArg State.publisher_monitoring h₁
      exact ⟨(congrArg (fun t => UMap.find t E) e₁).trans hr,
        congrArg (fun t => UMap.find t E) e₂⟩
    · have e₁ := congrArg State.subscribers h₁
      have e₂ := congrArg State.subscriber_monitoring h₁
      exact ⟨(congrArg (fun t => UMap.find t E) e₁).trans hr,
        congrArg (fun t => UMap.find t E) e₂⟩
    · have e₁ := congrArg State.servers h₁
      have e₂ := congrArg State.server_monitoring h₁
      exact ⟨(congrArg (fun t => UMap.find t E) e₁).trans hr,
        congrArg (fun t => UMap.find t E) e₂⟩
    · have e₁ := congrArg State.clients h₁
      have e₂ := congrArg State.client_monitoring h₁
      exact ⟨(congrArg (fun t => UMap.find t E) e₁).trans hr,
        congrArg (fun t => UMap.find t E) e₂⟩
  | some members =>
    obtain ⟨h₁, h₂⟩ := RemoveProcessFinish_frame key_ (RemoveProcessCascade members a)
    simp only
    refine ⟨fun E r hr hne => ?_, fun E r hr hne => ?_, fun E r hr hne => ?_,
      fun E r hr hne => ?_, fun Q hQ => ?_⟩
    · have hE : E ∉ members.publishers := by
        intro hm
        have ho := (hc.mem_bucket_iff hb .publisher E).mp hm
        simp only [State.regProcessId, hr, Option.map_some', Option.some.injEq] at ho
        exact hne ho
      have e₁ := congrArg State.publishers h₁
      have e₂ := congrArg State.publisher_monitoring h₁
      obtain ⟨k₁, k₂⟩ := RemoveProcessCascade_publisher_frame members a E hE
      exact ⟨((congrArg (fun t => UMap.find t E) e₁).trans k₁).trans hr,
        (congrArg (fun t => UMap.find t E) e₂).trans k₂⟩
    · have hE : E ∉ members.subscribers := by
        intro hm
        have ho := (hc.mem_bucket_iff hb .subscriber E).mp hm
        simp only [State.regProcessId, hr, Option.map_some', Option.some.injEq] at ho
        exact hne ho
      have e₁ := congrArg State.subscribers h₁
      have e₂ := congrArg State.subscriber_monitoring h₁
      obtain ⟨k₁, k₂⟩ := RemoveProcessCascade_subscriber_frame members a E hE
      exact ⟨((congrArg (fun t => UMap.find t E) e₁).trans k₁).trans hr,
        (congrArg (fun t => UMap.find t E) e₂).trans k₂⟩
    · have hE : E ∉ members.servers := by
        intro hm
        have ho := (hc.mem_bucket_iff hb .server E).mp hm
        simp only [State.regProcessId, hr, Option.map_some', Option.some.injEq] at ho
        exact hne ho
      have e₁ := congrArg State.servers h₁
      have e₂ := congrArg State.server_monitoring h₁
      obtain ⟨k₁, k₂⟩ := RemoveProcessCascade_server_frame members a E hE
      exact ⟨((congrArg (fun t => UMap.find t E) e₁).trans k₁).trans hr,
        (congrArg (fun t => UMap.find t E) e₂).trans k₂⟩
    · have hE : E ∉ members.clients := by
        intro hm
        have ho := (hc.mem_bucket_iff hb .client E).mp hm
        simp only [State.regProcessId, hr, Option.map_some', Option.some.injEq] at ho
        exact hne ho
      have e₁ := congrArg State.clients h₁
      have e₂ := congrArg State.client_monitoring h₁
      obtain ⟨k₁, k₂⟩ := RemoveProcessCascade_client_frame members a E hE
      exact ⟨((congrArg (fun t => UMap.find t E) e₁).trans k₁).trans hr,
        (congrArg (fun t => UMap.find t E) e₂).trans k₂⟩
    · obtain ⟨k₁, k₂, k₃⟩ := h₂ Q hQ
      have hp := RemoveProcessCascade_processes members a
      refine ⟨by rw [k₁, hp.1], by rw [k₂, hp.2], ?_⟩
      rw [k₃]
      apply RemoveProcessCascade_members_ne
      intro K id hid
      rw [(hc.mem_bucket_iff hb K id).mp hid]
      intro h
      exact hQ (Option.some.inj h).symm

/-- C34, cascade frame: in every state reached from the empty database by public mutations
and for every process key `P`, `RemoveProcess(P)` leaves the registration record and the
monitoring record of every publisher, subscriber, server and client whose `process_id` is
not `P` as they were, and leaves every process registration record, process monitoring
record and membership bucket with a key other than `P` as it was. -/
theorem cascade_frame (ops : List Op) (key_ : ProcessKey) :
    (∀ (E : EntityKey) (r : TopicRegistrationDelta), UMap.find (runOps ops {}).current_state_.publishers E = some r →
      r.process_id ≠ key_ →
      UMap.find (CEcalRegistrationDatabase.RemoveProcess key_ (runOps ops {})).1.current_state_.publishers E = some r
      ∧ UMap.find (CEcalRegistrationDatabase.RemoveProcess key_ (runOps ops {})).1.current_state_.publisher_monitoring E = UMap.find (runOps ops {}).current_state_.publisher_monitoring E)
    ∧ (∀ (E : EntityKey) (r : TopicRegistrationDelta), UMap.find (runOps ops {}).current_state_.subscribers E = some r →
      r.process_id ≠ key_ →
      UMap.find (CEcalRegistrationDatabase.RemoveProcess key_ (runOps ops {})).1.current_state_.subscribers E = some r
      ∧ UMap.find (CEcalRegistrationDatabase.RemoveProcess key_ (runOps ops {})).1.current_state_.subscriber_monitoring E = UMap.find (runOps ops {}).current_state_.subscriber_monitoring E)
    ∧ (∀ (E : EntityKey) (r : ServiceRegistrationDelta), UMap.find (runOps ops {}).current_state_.servers E = some r →
      r.process_id ≠ key_ →
      UMap.find (CEcalRegistrationDatabase.RemoveProcess key_ (runOps ops {})).1.current_state_.servers E = some r
      ∧ UMap.find (CEcalRegistrationDatabase.RemoveProcess key_ (runOps ops {})).1.current_state_.server_monitoring E = UMap.find (runOps ops {}).current_state_.server_monitoring E)
    ∧ (∀ (E : EntityKey) (r : ClientRegistrationDelta), UMap.find (runOps ops {}).current_state_.clients E = some r →
      r.process_id ≠ key_ →
      UMap.find (CEcalRegistrationDatabase.RemoveProcess key_ (runOps ops {})).1.current_state_.clients E = some r
      ∧ UMap.find (CEcalRegistrationDatabase.RemoveProcess key_ (runOps ops {})).1.current_state_.client_monitoring E = UMap.find (runOps ops {}).current_state_.client_monitoring E)
    ∧ (∀ Q : ProcessKey, Q ≠ key_ →
      UMap.find (CEcalRegistrationDatabase.RemoveProcess key_ (runOps ops {})).1.current_state_.processes Q = UMap.find (runOps ops {}).current_state_.processes Q
      ∧ UMap.find (CEcalRegistrationDatabase.RemoveProcess key_ (runOps ops {})).1.current_state_.process_monitoring Q = UMap.find (runOps ops {}).current_state_.process_monitoring Q
      ∧ UMap.find (CEcalRegistrationDatabase.RemoveProcess key_ (runOps ops {})).1.current_state_.members_by_process Q = UMap.find (runOps ops {}).current_state_.members_by_process Q) := by
  have hc := runOps_consistent ops
  have h := RemoveProcessMutator_frame key_ ⟨(runOps ops {}).current_state_, [], false⟩ hc
  unfold CEcalRegistrationDatabase.RemoveProcess
  rw [ApplyMutation_state]
  split
  · exact ⟨fun E r hr _ => ⟨hr, rfl⟩, fun E r hr _ => ⟨hr, rfl⟩, fun E r hr _ => ⟨hr, rfl⟩,
      fun E r hr _ => ⟨hr, rfl⟩, fun Q _ => ⟨rfl, rfl, rfl⟩⟩
  · exact h

/-! ## Uniqueness of keys and the partition of the tables -/

namespace UMap

variable {K V : Type} [DecidableEq K]

theorem find_eq_none_iff (m : UMap K V) (k : K) : find m k = none ↔ k ∉ keys m := by
  induction m with
  | nil => simp [find, keys]
  | cons p rest ih =>
    obtain ⟨k', v⟩ := p
    by_cases h : k' = k
    · simp [find, keys, h]
    · have h' : ¬ k = k' := fun e => h e.symm
      simp only [find, h, if_false, ih, keys, List.map_cons, List.mem_cons, h', false_or]

theorem find_of_mem (m : UMap K V) (hn : (keys m).Nodup) (k : K) (v : V) (h : (k, v) ∈ m) :
    find m k = some v := by
  induction m with
  | nil => cases h
  | cons p rest ih =>
    obtain ⟨k', v'⟩ := p
    simp only [keys, List.map_cons, List.nodup_cons] at hn
    rcases List.mem_cons.mp h with h | h
    · cases h
      simp [find]
    · have hk : k ∈ rest.map Prod.fst := List.mem_map.mpr ⟨(k, v), h, rfl⟩
      have hne : ¬ k' = k := fun e => hn.1 (by rw [e]; exact hk)
      simp only [find, hne, if_false]
      exact ih hn.2 h

theorem mem_of_find (m : UMap K V) (k : K) (v : V) (h : find m k = some v) : (k, v) ∈ m := by
  induction m with
  | nil => cases h
  | cons p rest ih =>
    obtain ⟨k', v'⟩ := p
    by_cases hk : k' = k
    · simp only [find, hk, if_true, Option.some.injEq] at h
      rw [hk, h]
      exact List.mem_cons_self _ _
    · simp only [find, hk, if_false] at h
      exact List.mem_cons_of_mem _ (ih h)

theorem nodup_keys_erase (m : UMap K V) (k : K) (h : (keys m).Nodup) :
    (keys (erase m k)).Nodup := by
  have e : keys (erase m k) = (keys m).filter (fun x => decide (x ≠ k)) := by
    unfold keys erase
    rw [List.filter_map]
    rfl
  rw [e]
  exact h.filter _

theorem keys_assign (m : UMap K V) (k : K) (v : V) :
    keys (assign m k v) = if k ∈ keys m then keys m else keys m ++ [k] := by
  induction m with
  | nil => simp [assign, keys]
  | cons p rest ih =>
    obtain ⟨k', v'⟩ := p
    by_cases hk : k' = k
    · simp [assign, keys, hk]
    · have hk' : ¬ k = k' := fun e => hk e.symm
      simp only [keys] at ih
      simp only [assign, hk, if_false, keys, List.map_cons, ih, List.mem_cons, hk', false_or]
      split <;> rfl

theorem nodup_keys_assign (m : UMap K V) (k : K) (v : V) (h : (keys m).Nodup) :
    (keys (assign m k v)).Nodup := by
  rw [keys_assign]
  split
  · exact h
  · rename_i hk
    rw [List.nodup_append]
    refine ⟨h, List.nodup_singleton k, ?_⟩
    intro x hx hx'
    rw [List.mem_singleton] at hx'
    exact hk (hx' ▸ hx)

theorem nodup_keys_emplace (m : UMap K V) (k : K) (v : V) (h : (keys m).Nodup) :
    (keys (emplace m k v)).Nodup := by
  unfold emplace
  cases hf : find m k with
  | some w => exact h
  | none =>
    have hk := (find_eq_none_iff m k).mp hf
    simp only [keys, List.map_append, List.map_cons, List.map_nil]
    rw [List.nodup_append]
    refine ⟨h, List.nodup_singleton k, ?_⟩
    intro x hx hx'
    rw [List.mem_singleton] at hx'
    exact hk (hx' ▸ hx)

end UMap

theorem nodup_keys_AddMembership (m : UMap ProcessKey ProcessMembers) (P : ProcessKey)
    (K : EntityType) (E : EntityKey) (h : (UMap.keys m).Nodup) :
    (UMap.keys (AddMembership m P K E)).Nodup :=
  UMap.nodup_keys_assign _ _ _ h

theorem nodup_keys_RemoveMembership (m : UMap ProcessKey ProcessMembers) (P : ProcessKey)
    (K : EntityType) (E : EntityKey) (h : (UMap.keys m).Nodup) :
    (UMap.keys (RemoveMembership m P K E)).Nodup := by
  unfold RemoveMembership
  cases UMap.find m P with
  | none => exact h
  | some b =>
    simp only
    split
    · exact UMap.nodup_keys_erase _ _ h
    · exact UMap.nodup_keys_assign _ _ _ h

theorem AddOrUpdatePublisherMutator_uniqueKeys (key_ : EntityKey) (delta_ : TopicRegistrationDelta)
    (a : MutatorArgs) (h : a.state_.UniqueKeys) :
    (AddOrUpdatePublisherMutator key_ delta_ a).state_.UniqueKeys := by
  unfold AddOrUpdatePublisherMutator
  cases hf : UMap.find a.state_.publishers key_ with
  | none =>
    exact ⟨UMap.nodup_keys_emplace _ _ _ h.publishers, h.subscribers, h.servers, h.clients, nodup_keys_AddMembership _ _ _ _ h.members_by_process⟩
  | some r =>
    simp only
    split
    · refine ⟨UMap.nodup_keys_assign _ _ _ h.publishers, h.subscribers, h.servers, h.clients, ?_⟩
      simp only
      split
      · exact nodup_keys_AddMembership _ _ _ _
          (nodup_keys_RemoveMembership _ _ _ _ h.members_by_process)
      · exact h.members_by_process
    · exact h

theorem UpdatePublisherMonitoringMutator_uniqueKeys (key_ : EntityKey) (delta_ : TopicMonitoringDelta)
    (a : MutatorArgs) (h : a.state_.UniqueKeys) :
    (UpdatePublisherMonitoringMutator key_ delta_ a).state_.UniqueKeys := by
  rw [UpdatePublisherMonitoringMutator_eq]
  split
  · exact h
  · exact ⟨h.publishers, h.subscribers, h.servers, h.clients, h.members_by_process⟩

theorem RemovePublisherMutator_uniqueKeys (key_ : EntityKey) (a : MutatorArgs)
    (h : a.state_.UniqueKeys) : (RemovePublisherMutator key_ a).state_.UniqueKeys := by
  unfold RemovePublisherMutator
  cases hf : UMap.find a.state_.publishers key_ with
  | none => exact h
  | some r =>
    exact ⟨UMap.nodup_keys_erase _ _ h.publishers, h.subscribers, h.servers, h.clients, nodup_keys_RemoveMembership _ _ _ _ h.members_by_process⟩

theorem RemoveProcessPublisherStep_uniqueKeys (a : MutatorArgs) (id : EntityKey)
    (h : a.state_.UniqueKeys) : (RemoveProcessPublisherStep a id).state_.UniqueKeys := by
  unfold RemoveProcessPublisherStep
  cases hf : UMap.find a.state_.publishers id with
  | none => exact h
  | some r =>
    exact ⟨UMap.nodup_keys_erase _ _ h.publishers, h.subscribers, h.servers, h.clients, nodup_keys_RemoveMembership _ _ _ _ h.members_by_process⟩

theorem AddOrUpdateSubscriberMutator_uniqueKeys (key_ : EntityKey) (delta_ : TopicRegistrationDelta)
    (a : MutatorArgs) (h : a.state_.UniqueKeys) :
    (AddOrUpdateSubscriberMutator key_ delta_ a).state_.UniqueKeys := by
  unfold AddOrUpdateSubscriberMutator
  cases hf : UMap.find a.state_.subscribers key_ with
  | none =>
    exact ⟨h.publishers, UMap.nodup_keys_emplace _ _ _ h.subscribers, h.servers, h.clients, nodup_keys_AddMembership _ _ _ _ h.members_by_process⟩
  | some r =>
    simp only
    split
    · refine ⟨h.publishers, UMap.nodup_keys_assign _ _ _ h.subscribers, h.servers, h.clients, ?_⟩
      simp only
      split
      · exact nodup_keys_AddMembership _ _ _ _
          (nodup_keys_RemoveMembership _ _ _ _ h.members_by_process)
      · exact h.members_by_process
    · exact h

theorem UpdateSubscriberMonitoringMutator_uniqueKeys (key_ : EntityKey) (delta_ : TopicMonitoringDelta)
    (a : MutatorArgs) (h : a.state_.UniqueKeys) :
    (UpdateSubscriberMonitoringMutator key_ delta_ a).state_.UniqueKeys := by
  rw [UpdateSubscriberMonitoringMutator_eq]
  split
  · exact h
  · exact ⟨h.publishers, h.subscribers, h.servers, h.clients, h.members_by_process⟩

theorem RemoveSubscriberMutator_uniqueKeys (key_ : EntityKey) (a : MutatorArgs)
    (h : a.state_.UniqueKeys) : (RemoveSubscriberMutator key_ a).state_.UniqueKeys := by
  unfold RemoveSubscriberMutator
  cases hf : UMap.find a.state_.subscribers key_ with
  | none => exact h
  | some r =>
    exact ⟨h.publishers, UMap.nodup_keys_erase _ _ h.subscribers, h.servers, h.clients, nodup_keys_RemoveMembership _ _ _ _ h.members_by_process⟩

theorem RemoveProcessSubscriberStep_uniqueKeys (a : MutatorArgs) (id : EntityKey)
    (h : a.state_.UniqueKeys) : (RemoveProcessSubscriberStep a id).state_.UniqueKeys := by
  unfold RemoveProcessSubscriberStep
  cases hf : UMap.find a.state_.subscribers id with
  | none => exact h
  | some r =>
    exact ⟨h.publishers, UMap.nodup_keys_erase _ _ h.subscribers, h.servers, h.clients, nodup_keys_RemoveMembership _ _ _ _ h.members_by_process⟩

theorem AddOrUpdateServerMutator_uniqueKeys (key_ : EntityKey) (delta_ : ServiceRegistrationDelta)
    (a : MutatorArgs) (h : a.state_.UniqueKeys) :
    (AddOrUpdateServerMutator key_ delta_ a).state_.UniqueKeys := by
  unfold AddOrUpdateServerMutator
  cases hf : UMap.find a.state_.servers key_ with
  | none =>
    exact ⟨h.publishers, h.subscribers, UMap.nodup_keys_emplace _ _ _ h.servers, h.clients, nodup_keys_AddMembership _ _ _ _ h.members_by_process⟩
  | some r =>
    simp only
    split
    · refine ⟨h.publishers, h.subscribers, UMap.nodup_keys_assign _ _ _ h.servers, h.clients, ?_⟩
      simp only
      split
      · exact nodup_keys_AddMembership _ _ _ _
          (nodup_keys_RemoveMembership _ _ _ _ h.members_by_process)
      · exact h.members_by_process
    · exact h

theorem UpdateServerMonitoringMutator_uniqueKeys (key_ : EntityKey) (delta_ : ServiceMonitoringDelta)
    (a : MutatorArgs) (h : a.state_.UniqueKeys) :
    (UpdateServerMonitoringMutator key_ delta_ a).state_.UniqueKeys := by
  rw [UpdateServerMonitoringMutator_eq]
  split
  · exact h
  · exact ⟨h.publishers, h.subscribers, h.servers, h.clients, h.members_by_process⟩

theorem RemoveServerMutator_uniqueKeys (key_ : EntityKey) (a : MutatorArgs)
    (h : a.state_.UniqueKeys) : (RemoveServerMutator key_ a).state_.UniqueKeys := by
  unfold RemoveServerMutator
  cases hf : UMap.find a.state_.servers key_ with
  | none => exact h
  | some r =>
    exact ⟨h.publishers, h.subscribers, UMap.nodup_keys_erase _ _ h.servers, h.clients, nodup_keys_RemoveMembership _ _ _ _ h.members_by_process⟩

theorem RemoveProcessServerStep_uniqueKeys (a : MutatorArgs) (id : EntityKey)
    (h : a.state_.UniqueKeys) : (RemoveProcessServerStep a id).state_.UniqueKeys := by
  unfold RemoveProcessServerStep
  cases hf : UMap.find a.state_.servers id with
  | none => exact h
  | some r =>
    exact ⟨h.publishers, h.subscribers, UMap.nodup_keys_erase _ _ h.servers, h.clients, nodup_keys_RemoveMembership _ _ _ _ h.members_by_process⟩

theorem AddOrUpdateClientMutator_uniqueKeys (key_ : EntityKey) (delta_ : ClientRegistrationDelta)
    (a : MutatorArgs) (h : a.state_.UniqueKeys) :
    (AddOrUpdateClientMutator key_ delta_ a).state_.UniqueKeys := by
  unfold AddOrUpdateClientMutator
  cases hf : UMap.find a.state_.clients key_ with
  | none =>
    exact ⟨h.publishers, h.subscribers, h.servers, UMap.nodup_keys_emplace _ _ _ h.clients, nodup_keys_AddMembership _ _ _ _ h.members_by_process⟩
  | some r =>
    simp only
    split
    · refine ⟨h.publishers, h.subscribers, h.servers, UMap.nodup_keys_assign _ _ _ h.clients, ?_⟩
      simp only
      split
      · exact nodup_keys_AddMembership _ _ _ _
          (nodup_keys_RemoveMembership _ _ _ _ h.members_by_process)
      · exact h.members_by_process
    · exact h

theorem UpdateClientMonitoringMutator_uniqueKeys (key_ : EntityKey) (delta_ : ClientMonitoringDelta)
    (a : MutatorArgs) (h : a.state_.UniqueKeys) :
    (UpdateClientMonitoringMutator key_ delta_ a).state_.UniqueKeys := by
  rw [UpdateClientMonitoringMutator_eq]
  split
  · exact h
  · exact ⟨h.publishers, h.subscribers, h.servers, h.clients, h.members_by_process⟩

theorem RemoveClientMutator_uniqueKeys (key_ : EntityKey) (a : MutatorArgs)
    (h : a.state_.UniqueKeys) : (RemoveClientMutator key_ a).state_.UniqueKeys := by
  unfold RemoveClientMutator
  cases hf : UMap.find a.state_.clients key_ with
  | none => exact h
  | some r =>
    exact ⟨h.publishers, h.subscribers, h.servers, UMap.nodup_keys_erase _ _ h.clients, nodup_keys_RemoveMembership _ _ _ _ h.members_by_process⟩

theorem RemoveProcessClientStep_uniqueKeys (a : MutatorArgs) (id : EntityKey)
    (h : a.state_.UniqueKeys) : (RemoveProcessClientStep a id).state_.UniqueKeys := by
  unfold RemoveProcessClientStep
  cases hf : UMap.find a.state_.clients id with
  | none => exact h
  | some r =>
    exact ⟨h.publishers, h.subscribers, h.servers, UMap.nodup_keys_erase _ _ h.clients, nodup_keys_RemoveMembership _ _ _ _ h.members_by_process⟩

theorem AddOrUpdateProcessMutator_uniqueKeys (key_ : ProcessKey)
    (delta_ : ProcessRegistrationDelta) (a : MutatorArgs) (h : a.state_.UniqueKeys) :
    (AddOrUpdateProcessMutator key_ delta_ a).state_.UniqueKeys := by
  rw [AddOrUpdateProcessMutator_eq]
  cases hf : UMap.find a.state_.processes key_ with
  | none =>
    simp only
    unfold EnsureProcessMembership
    split
    · exact ⟨h.publishers, h.subscribers, h.servers, h.clients, UMap.nodup_keys_emplace _ _ _ h.members_by_process⟩
    · exact ⟨h.publishers, h.subscribers, h.servers, h.clients, h.members_by_process⟩
  | some r =>
    simp only
    split
    · exact h
    · exact ⟨h.publishers, h.subscribers, h.servers, h.clients, h.members_by_process⟩

theorem UpdateProcessMonitoringMutator_uniqueKeys (key_ : ProcessKey)
    (delta_ : ProcessMonitoringDelta) (a : MutatorArgs) (h : a.state_.UniqueKeys) :
    (UpdateProcessMonitoringMutator key_ delta_ a).state_.UniqueKeys := by
  rw [UpdateProcessMonitoringMutator_eq]
  split
  · exact h
  · exact ⟨h.publishers, h.subscribers, h.servers, h.clients, h.members_by_process⟩

theorem RemoveProcessStep_uniqueKeys (K : EntityType) (a : MutatorArgs) (id : EntityKey)
    (h : a.state_.UniqueKeys) : (RemoveProcessStep K a id).state_.UniqueKeys := by
  cases K with
  | process => exact h
  | publisher => exact RemoveProcessPublisherStep_uniqueKeys a id h
  | subscriber => exact RemoveProcessSubscriberStep_uniqueKeys a id h
  | server => exact RemoveProcessServerStep_uniqueKeys a id h
  | client => exact RemoveProcessClientStep_uniqueKeys a id h

theorem foldl_RemoveProcessStep_uniqueKeys (K : EntityType) (l : List EntityKey)
    (a : MutatorArgs) (h : a.state_.UniqueKeys) :
    (l.foldl (RemoveProcessStep K) a).state_.UniqueKeys := by
  induction l generalizing a with
  | nil => exact h
  | cons id rest ih => exact ih _ (RemoveProcessStep_uniqueKeys K a id h)

theorem RemoveProcessMutator_uniqueKeys (key_ : ProcessKey) (a : MutatorArgs)
    (h : a.state_.UniqueKeys) : (RemoveProcessMutator key_ a).state_.UniqueKeys := by
  have hfin : ∀ b : MutatorArgs, b.state_.UniqueKeys →
      (RemoveProcessFinish key_ b).state_.UniqueKeys := by
    intro b h
    unfold RemoveProcessFinish
    cases hf : UMap.find b.state_.processes key_ with
    | none => exact ⟨h.publishers, h.subscribers, h.servers, h.clients, UMap.nodup_keys_erase _ _ h.members_by_process⟩
    | some r => exact ⟨h.publishers, h.subscribers, h.servers, h.clients, UMap.nodup_keys_erase _ _ h.members_by_process⟩
  unfold RemoveProcessMutator
  cases hb : UMap.find a.state_.members_by_process key_ with
  | none => exact hfin a h
  | some members =>
    refine hfin _ ?_
    rw [RemoveProcessCascade_eq]
    exact foldl_RemoveProcessStep_uniqueKeys _ _ _ (foldl_RemoveProcessStep_uniqueKeys _ _ _
      (foldl_RemoveProcessStep_uniqueKeys _ _ _ (foldl_RemoveProcessStep_uniqueKeys _ _ _ h)))

theorem TypedOp.mutator_uniqueKeys (op : TypedOp) (a : MutatorArgs)
    (h : a.state_.UniqueKeys) : (op.mutator a).state_.UniqueKeys := by
  cases op with
  | AddOrUpdateProcess k d => exact AddOrUpdateProcessMutator_uniqueKeys k d a h
  | UpdateProcessMonitoring k d => exact UpdateProcessMonitoringMutator_uniqueKeys k d a h
  | RemoveProcess k => exact RemoveProcessMutator_uniqueKeys k a h
  | AddOrUpdatePublisher k d => exact AddOrUpdatePublisherMutator_uniqueKeys k d a h
  | UpdatePublisherMonitoring k d => exact UpdatePublisherMonitoringMutator_uniqueKeys k d a h
  | RemovePublisher k => exact RemovePublisherMutator_uniqueKeys k a h
  | AddOrUpdateSubscriber k d => exact AddOrUpdateSubscriberMutator_uniqueKeys k d a h
  | UpdateSubscriberMonitoring k d => exact UpdateSubscriberMonitoringMutator_uniqueKeys k d a h
  | RemoveSubscriber k => exact RemoveSubscriberMutator_uniqueKeys k a h
  | AddOrUpdateServer k d => exact AddOrUpdateServerMutator_uniqueKeys k d a h
  | UpdateServerMonitoring k d => exact UpdateServerMonitoringMutator_uniqueKeys k d a h
  | RemoveServer k => exact RemoveServerMutator_uniqueKeys k a h
  | AddOrUpdateClient k d => exact AddOrUpdateClientMutator_uniqueKeys k d a h
  | UpdateClientMonitoring k d => exact UpdateClientMonitoringMutator_uniqueKeys k d a h
  | RemoveClient k => exact RemoveClientMutator_uniqueKeys k a h

theorem TypedOp.apply_uniqueKeys (op : TypedOp) (db : CEcalRegistrationDatabase)
    (h : db.current_state_.UniqueKeys) : (op.apply db).1.current_state_.UniqueKeys := by
  rw [TypedOp.apply_eq, ApplyMutation_state]
  split
  · exact h
  · have h' := op.mutator_uniqueKeys ⟨db.current_state_, [], false⟩ h
    exact ⟨h'.publishers, h'.subscribers, h'.servers, h'.clients, h'.members_by_process⟩

theorem runTyped_uniqueKeys (ops : List TypedOp) (db : CEcalRegistrationDatabase)
    (h : db.current_state_.UniqueKeys) : (runTyped ops db).current_state_.UniqueKeys := by
  induction ops generalizing db with
  | nil => exact h
  | cons op rest ih => exact ih _ (op.apply_uniqueKeys db h)

theorem runOps_uniqueKeys (ops : List Op) : (runOps ops {}).current_state_.UniqueKeys := by
  rw [runOps_eq_runTyped]
  refine runTyped_uniqueKeys _ _ ?_
  exact ⟨List.nodup_nil, List.nodup_nil, List.nodup_nil, List.nodup_nil, List.nodup_nil⟩

theorem State.Consistent.buckets_disjoint {s : State} (h : s.Consistent) (K : EntityType)
    (P Q : ProcessKey) (bP bQ : ProcessMembers)
    (hP : UMap.find s.members_by_process P = some bP)
    (hQ : UMap.find s.members_by_process Q = some bQ) (hne : P ≠ Q) :
    List.Disjoint (bP.ofType K) (bQ.ofType K) := by
  intro E h₁ h₂
  have e₁ := (h.mem_bucket_iff hP K E).mp h₁
  have e₂ := (h.mem_bucket_iff hQ K E).mp h₂
  rw [e₁] at e₂
  exact hne (Option.some.inj e₂)

theorem sum_bucket_sizes (s : State) (hc : s.Consistent) (hu : s.UniqueKeys) (K : EntityType)
    (table : List EntityKey) (hn : table.Nodup)
    (hmem : ∀ E, E ∈ table ↔ (s.regProcessId K E).isSome = true) :
    (s.members_by_process.map (fun e => (e.2.ofType K).length)).sum = table.length := by
  have hlen : (s.members_by_process.map (fun e => (e.2.ofType K).length)).sum =
      (s.members_by_process.flatMap (fun e => e.2.ofType K)).length := by
    rw [List.length_flatMap]
    rfl
  rw [hlen]
  apply List.Perm.length_eq
  rw [List.perm_ext_iff_of_nodup _ hn]
  · intro E
    rw [hmem, List.mem_flatMap]
    constructor
    · rintro ⟨⟨P, b⟩, he, hE⟩
      have hf := UMap.find_of_mem _ hu.members_by_process P b he
      rw [(hc.mem_bucket_iff hf K E).mp hE]
      rfl
    · intro hE
      obtain ⟨P, hP⟩ := Option.isSome_iff_exists.mp hE
      obtain ⟨b, hb, hEb⟩ := (hc.members_iff P K E).mpr hP
      exact ⟨(P, b), UMap.mem_of_find _ P b hb, hEb⟩
  · rw [List.nodup_flatMap]
    refine ⟨fun e he => ?_, ?_⟩
    · obtain ⟨P, b⟩ := e
      exact hc.nodup P b (UMap.find_of_mem _ hu.members_by_process P b he) K
    · have hp : s.members_by_process.Pairwise (fun a b => a.1 ≠ b.1) :=
        List.pairwise_map.mp hu.members_by_process
      refine hp.imp_of_mem ?_
      intro a b ha hb hab
      obtain ⟨P, bP⟩ := a
      obtain ⟨Q, bQ⟩ := b
      exact hc.buckets_disjoint K P Q bP bQ
        (UMap.find_of_mem _ hu.members_by_process P bP ha)
        (UMap.find_of_mem _ hu.members_by_process Q bQ hb) hab

theorem UMap.mem_keys_iff {K V : Type} [DecidableEq K] (m : UMap K V) (k : K) :
    k ∈ UMap.keys m ↔ (UMap.find m k).isSome = true := by
  rw [← not_iff_not, ← UMap.find_eq_none_iff]
  cases UMap.find m k <;> simp

/-- C36, membership partitions the tables: in every state reached from the empty database
by public mutations, for each kind among publisher, subscriber, server and client the sets
of the kind in the buckets of distinct process keys are pairwise disjoint, and the sum of
their sizes over all buckets is the count of the kind (`{Kind}Count()`); every process key
has at most one bucket and no set lists a key twice, so that the sum runs over the process
keys and the list lengths are the set sizes. -/
theorem membership_partitions_tables (ops : List Op) :
    (∀ (K : EntityType) (P Q : ProcessKey) (bP bQ : ProcessMembers),
      UMap.find (runOps ops {}).current_state_.members_by_process P = some bP →
      UMap.find (runOps ops {}).current_state_.members_by_process Q = some bQ →
      P ≠ Q → List.Disjoint (bP.ofType K) (bQ.ofType K))
    ∧ ((runOps ops {}).current_state_.members_by_process.map
          (fun e => e.2.publishers.length)).sum
        = (CEcalRegistrationDatabase.GetSnapshot (runOps ops {})).PublisherCount
    ∧ ((runOps ops {}).current_state_.members_by_process.map
          (fun e => e.2.subscribers.length)).sum
        = (CEcalRegistrationDatabase.GetSnapshot (runOps ops {})).SubscriberCount
    ∧ ((runOps ops {}).current_state_.members_by_process.map
          (fun e => e.2.servers.length)).sum
        = (CEcalRegistrationDatabase.GetSnapshot (runOps ops {})).ServerCount
    ∧ ((runOps ops {}).current_state_.members_by_process.map
          (fun e => e.2.clients.length)).sum
        = (CEcalRegistrationDatabase.GetSnapshot (runOps ops {})).ClientCount
    ∧ (UMap.keys (runOps ops {}).current_state_.members_by_process).Nodup
    ∧ (∀ (P : ProcessKey) (b : ProcessMembers) (K : EntityType),
      UMap.find (runOps ops {}).current_state_.members_by_process P = some b →
      (b.ofType K).Nodup) := by
  have hc := runOps_consistent ops
  have hu := runOps_uniqueKeys ops
  refine ⟨fun K P Q bP bQ hP hQ hne => hc.buckets_disjoint K P Q bP bQ hP hQ hne,
    ?_, ?_, ?_, ?_, hu.members_by_process, fun P b K hb => hc.nodup P b hb K⟩
  · have h := sum_bucket_sizes _ hc hu .publisher
      (UMap.keys (runOps ops {}).current_state_.publishers) hu.publishers (fun E => by
        rw [UMap.mem_keys_iff]
        simp [State.regProcessId])
    simpa [UMap.keys, Snapshot.PublisherCount, CEcalRegistrationDatabase.GetSnapshot,
      UMap.size, ProcessMembers.ofType] using h
  · have h := sum_bucket_sizes _ hc hu .subscriber
      (UMap.keys (runOps ops {}).current_state_.subscribers) hu.subscribers (fun E => by
        rw [UMap.mem_keys_iff]
        simp [State.regProcessId])
    simpa [UMap.keys, Snapshot.SubscriberCount, CEcalRegistrationDatabase.GetSnapshot,
      UMap.size, ProcessMembers.ofType] using h
  · have h := sum_bucket_sizes _ hc hu .server
      (UMap.keys (runOps ops {}).current_state_.servers) hu.servers (fun E => by
        rw [UMap.mem_keys_iff]
        simp [State.regProcessId])
    simpa [UMap.keys, Snapshot.ServerCount, CEcalRegistrationDatabase.GetSnapshot,
      UMap.size, ProcessMembers.ofType] using h
  · have h := sum_bucket_sizes _ hc hu .client
      (UMap.keys (runOps ops {}).current_state_.clients) hu.clients (fun E => by
        rw [UMap.mem_keys_iff]
        simp [State.regProcessId])
    simpa [UMap.keys, Snapshot.ClientCount, CEcalRegistrationDatabase.GetSnapshot,
      UMap.size, ProcessMembers.ofType] using h

/-! ## The cascade does not depend on the iteration order -/

namespace UMap

variable {K V : Type} [DecidableEq K]

theorem erase_erase_comm (m : UMap K V) (k k' : K) :
    erase (erase m k) k' = erase (erase m k') k := by
  simp only [erase, List.filter_filter]
  congr 1
  funext p
  exact Bool.and_comm _ _

theorem erase_assign_ne (m : UMap K V) (k k' : K) (v : V) (h : k ≠ k') :
    erase (assign m k' v) k = assign (erase m k) k' v := by
  induction m with
  | nil =>
    have h' : (k', v).1 ≠ k := fun e => h e.symm
    simp [assign, erase, h']
  | cons p rest ih =>
    obtain ⟨k₀, v₀⟩ := p
    simp [erase] at ih
    by_cases h₁ : k₀ = k'
    · subst h₁
      have h₂ : ¬ k₀ = k := fun e => h e.symm
      simp [assign, erase, h₂]
    · by_cases h₂ : k₀ = k
      · subst h₂
        simp [assign, erase, h₁, ih]
      · simp [assign, erase, h₁, h₂, ih]

theorem erase_assign_same (m : UMap K V) (k : K) (v : V) :
    erase (assign m k v) k = erase m k := by
  induction m with
  | nil => simp [assign, erase]
  | cons p rest ih =>
    obtain ⟨k₀, v₀⟩ := p
    simp [erase] at ih
    by_cases h₁ : k₀ = k
    · subst h₁
      simp [assign, erase]
    · simp [assign, erase, h₁, ih]

theorem assign_assign_same (m : UMap K V) (k : K) (v v' : V) :
    assign (assign m k v) k v' = assign m k v' := by
  induction m with
  | nil => simp [assign]
  | cons p rest ih =>
    obtain ⟨k₀, v₀⟩ := p
    by_cases h₁ : k₀ = k
    · subst h₁
      simp [assign]
    · simp [assign, h₁, ih]

theorem assign_assign_ne (m : UMap K V) (k k' : K) (v v' w : V) (h : k ≠ k')
    (hf : find m k = some w) :
    assign (assign m k v) k' v' = assign (assign m k' v') k v := by
  induction m with
  | nil => cases hf
  | cons p rest ih =>
    obtain ⟨k₀, v₀⟩ := p
    by_cases h₁ : k₀ = k
    · subst h₁
      simp [assign, h]
    · by_cases h₂ : k₀ = k'
      · subst h₂
        simp [assign, h₁]
      · simp only [find, h₁, if_false] at hf
        simp [assign, h₁, h₂, ih hf]

end UMap

theorem USet.erase_comm {K : Type} [DecidableEq K] (s : USet K) (x y : K) :
    USet.erase (USet.erase s x) y = USet.erase (USet.erase s y) x := by
  simp only [USet.erase, List.filter_filter]
  congr 1
  funext p
  exact Bool.and_comm _ _

theorem ProcessMembers.eraseMember_comm (b : ProcessMembers) (K : EntityType)
    (x y : EntityKey) :
    (b.eraseMember K x).eraseMember K y = (b.eraseMember K y).eraseMember K x := by
  cases K <;> simp [ProcessMembers.eraseMember, USet.erase_comm]

theorem ProcessMembers.allEmpty_eraseMember (b : ProcessMembers) (K : EntityType)
    (x : EntityKey) (h : b.allEmpty = true) : (b.eraseMember K x).allEmpty = true := by
  rw [ProcessMembers.allEmpty_iff] at h ⊢
  intro K' E hE
  rw [ProcessMembers.mem_ofType_eraseMember] at hE
  exact h K' E hE.1

theorem RemoveMembership_eq (m : UMap ProcessKey ProcessMembers) (P : ProcessKey)
    (K : EntityType) (x : EntityKey) (b : ProcessMembers) (hf : UMap.find m P = some b) :
    RemoveMembership m P K x =
      if (b.eraseMember K x).allEmpty = true then UMap.erase m P
      else UMap.assign m P (b.eraseMember K x) := by
  unfold RemoveMembership
  rw [hf]

theorem RemoveMembership_none (m : UMap ProcessKey ProcessMembers) (P : ProcessKey)
    (K : EntityType) (x : EntityKey) (hf : UMap.find m P = none) :
    RemoveMembership m P K x = m := by
  unfold RemoveMembership
  rw [hf]

theorem RemoveMembership_comm_same (m : UMap ProcessKey ProcessMembers) (P : ProcessKey)
    (K : EntityType) (x y : EntityKey) :
    RemoveMembership (RemoveMembership m P K x) P K y =
      RemoveMembership (RemoveMembership m P K y) P K x := by
  have key : ∀ (x y : EntityKey) (b : ProcessMembers), UMap.find m P = some b →
      RemoveMembership (RemoveMembership m P K x) P K y =
        if ((b.eraseMember K x).eraseMember K y).allEmpty = true then UMap.erase m P
        else UMap.assign m P ((b.eraseMember K x).eraseMember K y) := by
    intro x y b hf
    rw [RemoveMembership_eq m P K x b hf]
    by_cases e₁ : (b.eraseMember K x).allEmpty = true
    · rw [if_pos e₁, if_pos (ProcessMembers.allEmpty_eraseMember _ K y e₁)]
      exact RemoveMembership_none _ _ _ _ (by simp [UMap.find_erase])
    · rw [if_neg e₁,
        RemoveMembership_eq _ P K y (b.eraseMember K x) (by simp [UMap.find_assign])]
      split
      · exact UMap.erase_assign_same _ _ _
      · exact UMap.assign_assign_same _ _ _ _
  cases hf : UMap.find m P with
  | none =>
    rw [RemoveMembership_none m P K x hf, RemoveMembership_none m P K y hf,
      RemoveMembership_none m P K x hf]
  | some b =>
    rw [key x y b hf, key y x b hf, ProcessMembers.eraseMember_comm]

theorem RemoveMembership_comm_ne (m : UMap ProcessKey ProcessMembers) (P P' : ProcessKey)
    (K : EntityType) (x y : EntityKey) (h : P ≠ P') :
    RemoveMembership (RemoveMembership m P K x) P' K y =
      RemoveMembership (RemoveMembership m P' K y) P K x := by
  have h' : P' ≠ P := fun e => h e.symm
  cases hP : UMap.find m P with
  | none =>
    rw [RemoveMembership_none m P K x hP]
    rw [RemoveMembership_none (RemoveMembership m P' K y) P K x
      (by rw [find_RemoveMembership_ne _ _ _ _ _ h]; exact hP)]
  | some b =>
    cases hP' : UMap.find m P' with
    | none =>
      rw [RemoveMembership_none m P' K y hP']
      rw [RemoveMembership_none (RemoveMembership m P K x) P' K y
        (by rw [find_RemoveMembership_ne _ _ _ _ _ h']; exact hP')]
    | some b' =>
      rw [RemoveMembership_eq (RemoveMembership m P K x) P' K y b'
          (by rw [find_RemoveMembership_ne _ _ _ _ _ h']; exact hP'),
        RemoveMembership_eq (RemoveMembership m P' K y) P K x b
          (by rw [find_RemoveMembership_ne _ _ _ _ _ h]; exact hP),
        RemoveMembership_eq m P K x b hP, RemoveMembership_eq m P' K y b' hP']
      by_cases e₁ : (b.eraseMember K x).allEmpty = true
      · by_cases e₂ : (b'.eraseMember K y).allEmpty = true
        · rw [if_pos e₁, if_pos e₂, if_pos e₁, if_pos e₂]
          exact UMap.erase_erase_comm _ _ _
        · rw [if_pos e₁, if_neg e₂, if_pos e₁, if_neg e₂]
          exact (UMap.erase_assign_ne _ _ _ _ h).symm
      · by_cases e₂ : (b'.eraseMember K y).allEmpty = true
        · rw [if_neg e₁, if_pos e₂, if_neg e₁, if_pos e₂]
          exact UMap.erase_assign_ne _ _ _ _ h'
        · rw [if_neg e₁, if_neg e₂, if_neg e₁, if_neg e₂]
          exact UMap.assign_assign_ne _ _ _ _ _ b h hP

theorem RemoveMembership_comm (m : UMap ProcessKey ProcessMembers) (P P' : ProcessKey)
    (K : EntityType) (x y : EntityKey) :
    RemoveMembership (RemoveMembership m P K x) P' K y =
      RemoveMembership (RemoveMembership m P' K y) P K x := by
  by_cases h : P = P'
  · subst h
    exact RemoveMembership_comm_same m P K x y
  · exact RemoveMembership_comm_ne m P P' K x y h

theorem RemoveProcessPublisherStep_comm (a : MutatorArgs) (x y : EntityKey) :
    (RemoveProcessPublisherStep (RemoveProcessPublisherStep a x) y).state_ =
      (RemoveProcessPublisherStep (RemoveProcessPublisherStep a y) x).state_ := by
  by_cases hxy : x = y
  · subst hxy
    rfl
  · have hyx : ¬ y = x := fun e => hxy e.symm
    unfold RemoveProcessPublisherStep
    cases fx : UMap.find a.state_.publishers x with
    | none =>
      cases fy : UMap.find a.state_.publishers y with
      | none => simp [fx, fy]
      | some r' => simp [fx, fy, UMap.find_erase, hxy]
    | some r =>
      cases fy : UMap.find a.state_.publishers y with
      | none => simp [fx, fy, UMap.find_erase, hyx]
      | some r' =>
        simp only [fx, fy, UMap.find_erase, hxy, hyx, if_false]
        rw [RemoveMembership_comm, UMap.erase_erase_comm a.state_.publishers,
          UMap.erase_erase_comm a.state_.publisher_monitoring]

theorem RemoveProcessSubscriberStep_comm (a : MutatorArgs) (x y : EntityKey) :
    (RemoveProcessSubscriberStep (RemoveProcessSubscriberStep a x) y).state_ =
      (RemoveProcessSubscriberStep (RemoveProcessSubscriberStep a y) x).state_ := by
  by_cases hxy : x = y
  · subst hxy
    rfl
  · have hyx : ¬ y = x := fun e => hxy e.symm
    unfold RemoveProcessSubscriberStep
    cases fx : UMap.find a.state_.subscribers x with
    | none =>
      cases fy : UMap.find a.state_.subscribers y with
      | none => simp [fx, fy]
      | some r' => simp [fx, fy, UMap.find_erase, hxy]
    | some r =>
      cases fy : UMap.find a.state_.subscribers y with
      | none => simp [fx, fy, UMap.find_erase, hyx]
      | some r' =>
        simp only [fx, fy, UMap.find_erase, hxy, hyx, if_false]
        rw [RemoveMembership_comm, UMap.erase_erase_comm a.state_.subscribers,
          UMap.erase_erase_comm a.state_.subscriber_monitoring]

theorem RemoveProcessServerStep_comm (a : MutatorArgs) (x y : EntityKey) :
    (RemoveProcessServerStep (RemoveProcessServerStep a x) y).state_ =
      (RemoveProcessServerStep (RemoveProcessServerStep a y) x).state_ := by
  by_cases hxy : x = y
  · subst hxy
    rfl
  · have hyx : ¬ y = x := fun e => hxy e.symm
    unfold RemoveProcessServerStep
    cases fx : UMap.find a.state_.servers x with
    | none =>
      cases fy : UMap.find a.state_.servers y with
      | none => simp [fx, fy]
      | some r' => simp [fx, fy, UMap.find_erase, hxy]
    | some r =>
      cases fy : UMap.find a.state_.servers y with
      | none => simp [fx, fy, UMap.find_erase, hyx]
      | some r' =>
        simp only [fx, fy, UMap.find_erase, hxy, hyx, if_false]
        rw [RemoveMembership_comm, UMap.erase_erase_comm a.state_.servers,
          UMap.erase_erase_comm a.state_.server_monitoring]

theorem RemoveProcessClientStep_comm (a : MutatorArgs) (x y : EntityKey) :
    (RemoveProcessClientStep (RemoveProcessClientStep a x) y).state_ =
      (RemoveProcessClientStep (RemoveProcessClientStep a y) x).state_ := by
  by_cases hxy : x = y
  · subst hxy
    rfl
  · have hyx : ¬ y = x := fun e => hxy e.symm
    unfold RemoveProcessClientStep
    cases fx : UMap.find a.state_.clients x with
    | none =>
      cases fy : UMap.find a.state_.clients y with
      | none => simp [fx, fy]
      | some r' => simp [fx, fy, UMap.find_erase, hxy]
    | some r =>
      cases fy : UMap.find a.state_.clients y with
      | none => simp [fx, fy, UMap.find_erase, hyx]
      | some r' =>
        simp only [fx, fy, UMap.find_erase, hxy, hyx, if_false]
        rw [RemoveMembership_comm, UMap.erase_erase_comm a.state_.clients,
          UMap.erase_erase_comm a.state_.client_monitoring]

theorem RemoveProcessStep_comm (K : EntityType) (a : MutatorArgs) (x y : EntityKey) :
    (RemoveProcessStep K (RemoveProcessStep K a x) y).state_ =
      (RemoveProcessStep K (RemoveProcessStep K a y) x).state_ := by
  cases K with
  | process => rfl
  | publisher => exact RemoveProcessPublisherStep_comm a x y
  | subscriber => exact RemoveProcessSubscriberStep_comm a x y
  | server => exact RemoveProcessServerStep_comm a x y
  | client => exact RemoveProcessClientStep_comm a x y

theorem RemoveProcessStep_congr (K : EntityType) (a b : MutatorArgs) (id : EntityKey)
    (hs : a.state_ = b.state_) (hc : a.changed_ = b.changed_) :
    (RemoveProcessStep K a id).state_ = (RemoveProcessStep K b id).state_
    ∧ (RemoveProcessStep K a id).changed_ = (RemoveProcessStep K b id).changed_ := by
  refine ⟨?_, by rw [RemoveProcessStep_changed, RemoveProcessStep_changed, hs, hc]⟩
  cases K with
  | process => exact hs
  | publisher =>
    simp only [RemoveProcessStep, RemoveProcessPublisherStep]
    rw [hs]
    cases UMap.find b.state_.publishers id <;> simp [hs]
  | subscriber =>
    simp only [RemoveProcessStep, RemoveProcessSubscriberStep]
    rw [hs]
    cases UMap.find b.state_.subscribers id <;> simp [hs]
  | server =>
    simp only [RemoveProcessStep, RemoveProcessServerStep]
    rw [hs]
    cases UMap.find b.state_.servers id <;> simp [hs]
  | client =>
    simp only [RemoveProcessStep, RemoveProcessClientStep]
    rw [hs]
    cases UMap.find b.state_.clients id <;> simp [hs]

theorem RemoveProcessStep_comm_changed (K : EntityType) (a : MutatorArgs) (x y : EntityKey) :
    (RemoveProcessStep K (RemoveProcessStep K a x) y).changed_ =
      (RemoveProcessStep K (RemoveProcessStep K a y) x).changed_ := by
  simp only [RemoveProcessStep_changed, RemoveProcessStep_regProcessId]
  by_cases hxy : x = y
  · subst hxy
    rfl
  · have hyx : ¬ y = x := fun e => hxy e.symm
    simp only [hxy, hyx, and_false, if_false]
    cases a.changed_ <;> cases (a.state_.regProcessId K x).isSome <;>
      cases (a.state_.regProcessId K y).isSome <;> rfl

theorem foldl_RemoveProcessStep_congr (K : EntityType) (l : List EntityKey)
    (a b : MutatorArgs) (hs : a.state_ = b.state_) (hc : a.changed_ = b.changed_) :
    (l.foldl (RemoveProcessStep K) a).state_ = (l.foldl (RemoveProcessStep K) b).state_
    ∧ (l.foldl (RemoveProcessStep K) a).changed_ = (l.foldl (RemoveProcessStep K) b).changed_ := by
  induction l generalizing a b with
  | nil => exact ⟨hs, hc⟩
  | cons id rest ih =>
    obtain ⟨h₁, h₂⟩ := RemoveProcessStep_congr K a b id hs hc
    exact ih _ _ h₁ h₂

theorem foldl_RemoveProcessStep_perm (K : EntityType) {l₁ l₂ : List EntityKey}
    (hp : l₁.Perm l₂) (a b : MutatorArgs) (hs : a.state_ = b.state_)
    (hc : a.changed_ = b.changed_) :
    (l₁.foldl (RemoveProcessStep K) a).state_ = (l₂.foldl (RemoveProcessStep K) b).state_
    ∧ (l₁.foldl (RemoveProcessStep K) a).changed_
        = (l₂.foldl (RemoveProcessStep K) b).changed_ := by
  induction hp generalizing a b with
  | nil => exact ⟨hs, hc⟩
  | cons x _ ih =>
    obtain ⟨h₁, h₂⟩ := RemoveProcessStep_congr K a b x hs hc
    exact ih _ _ h₁ h₂
  | swap x y l =>
    obtain ⟨h₁, h₂⟩ := RemoveProcessStep_congr K a b y hs hc
    obtain ⟨k₁, k₂⟩ := RemoveProcessStep_congr K _ _ x h₁ h₂
    simp only [List.foldl_cons]
    exact foldl_RemoveProcessStep_congr K l _ _
      (k₁.trans (RemoveProcessStep_comm K b y x))
      (k₂.trans (RemoveProcessStep_comm_changed K b y x))
  | trans _ _ ih₁ ih₂ =>
    obtain ⟨h₁, h₂⟩ := ih₁ a a rfl rfl
    obtain ⟨k₁, k₂⟩ := ih₂ a b hs hc
    exact ⟨h₁.trans k₁, h₂.trans k₂⟩

theorem ProcessMembers.visited_perm (visit : EntityType → List EntityKey → List EntityKey)
    (hv : ∀ K l, (visit K l).Perm l) (members : ProcessMembers) (K : EntityType) :
    ((members.visited visit).ofType K).Perm (members.ofType K) := by
  cases K with
  | process => exact List.Perm.refl _
  | publisher => exact hv _ _
  | subscriber => exact hv _ _
  | server => exact hv _ _
  | client => exact hv _ _

theorem RemoveProcessCascade_perm (m₁ m₂ : ProcessMembers)
    (hp : ∀ K, (m₁.ofType K).Perm (m₂.ofType K)) (a : MutatorArgs) :
    (RemoveProcessCascade m₁ a).state_ = (RemoveProcessCascade m₂ a).state_
    ∧ (RemoveProcessCascade m₁ a).changed_ = (RemoveProcessCascade m₂ a).changed_ := by
  rw [RemoveProcessCascade_eq, RemoveProcessCascade_eq]
  obtain ⟨h₁, k₁⟩ := foldl_RemoveProcessStep_perm .publisher (hp .publisher) a a rfl rfl
  obtain ⟨h₂, k₂⟩ := foldl_RemoveProcessStep_perm .subscriber (hp .subscriber) _ _ h₁ k₁
  obtain ⟨h₃, k₃⟩ := foldl_RemoveProcessStep_perm .server (hp .server) _ _ h₂ k₂
  exact foldl_RemoveProcessStep_perm .client (hp .client) _ _ h₃ k₃

theorem RemoveProcessFinish_congr (key_ : ProcessKey) (a b : MutatorArgs)
    (hs : a.state_ = b.state_) (hc : a.changed_ = b.changed_) :
    (RemoveProcessFinish key_ a).state_ = (RemoveProcessFinish key_ b).state_
    ∧ (RemoveProcessFinish key_ a).changed_ = (RemoveProcessFinish key_ b).changed_ := by
  refine ⟨?_, by rw [RemoveProcessFinish_changed, RemoveProcessFinish_changed, hs, hc]⟩
  unfold RemoveProcessFinish
  rw [hs]
  cases UMap.find b.state_.processes key_ <;> simp [hs]

theorem RemoveProcessMutatorVisiting_core
    (visit : EntityType → List EntityKey → List EntityKey)
    (hv : ∀ K l, (visit K l).Perm l) (key_ : ProcessKey) (a : MutatorArgs) :
    (RemoveProcessMutatorVisiting visit key_ a).state_ = (RemoveProcessMutator key_ a).state_
    ∧ (RemoveProcessMutatorVisiting visit key_ a).changed_
        = (RemoveProcessMutator key_ a).changed_ := by
  unfold RemoveProcessMutatorVisiting RemoveProcessMutator
  cases hb : UMap.find a.state_.members_by_process key_ with
  | none => exact ⟨rfl, rfl⟩
  | some members =>
    obtain ⟨h₁, h₂⟩ := RemoveProcessCascade_perm (members.visited visit) members
      (ProcessMembers.visited_perm visit hv members) a
    exact RemoveProcessFinish_congr key_ _ _ h₁ h₂

theorem RemoveProcessMutatorVisiting_events
    (visit : EntityType → List EntityKey → List EntityKey)
    (hv : ∀ K l, (visit K l).Perm l) (key_ : ProcessKey) (a : MutatorArgs)
    (h : a.state_.Consistent) :
    (RemoveProcessMutatorVisiting visit key_ a).events_ =
      a.events_
        ++ (memberEvents
            (((UMap.find a.state_.members_by_process key_).getD {}).visited visit)
        ++ (if a.state_.hasProcess key_ = true
          then [deletedEvent .process (processEntityKey key_)] else [])) := by
  unfold RemoveProcessMutatorVisiting
  cases hb : UMap.find a.state_.members_by_process key_ with
  | none =>
    have hnil : ∀ K, visit K [] = [] := fun K => List.Perm.eq_nil (hv K [])
    simp [RemoveProcessFinish_events, memberEvents, ProcessMembers.visited, hnil]
  | some members =>
    simp only [RemoveProcessFinish_events, Option.getD_some]
    have hperm := ProcessMembers.visited_perm visit hv members
    rw [RemoveProcessCascade_events (members.visited visit) a
      (fun K => (hperm K).nodup_iff.mpr (h.nodup key_ members hb K))]
    have hall : ∀ K, ((members.visited visit).ofType K).filter
        (fun id => (a.state_.regProcessId K id).isSome) = (members.visited visit).ofType K := by
      intro K
      rw [List.filter_eq_self]
      intro E hE
      rw [(h.mem_bucket_iff hb K E).mp ((hperm K).mem_iff.mp hE)]
      rfl
    have h₁ := hall .publisher
    have h₂ := hall .subscriber
    have h₃ := hall .server
    have h₄ := hall .client
    simp only [ProcessMembers.ofType] at h₁ h₂ h₃ h₄
    rw [h₁, h₂, h₃, h₄]
    simp only [State.hasProcess, (RemoveProcessCascade_processes (members.visited visit) a).1,
      memberEvents, List.append_assoc]

/-- C37, the cascade is independent of the iteration order: in every state reached from the
empty database by public mutations and for every process key `P`, running `RemoveProcess(P)`
with the members of each copied set visited in any order (a permutation `visit` of each
set) installs the same database and returns the same revision as `RemoveProcess(P)`; its
event list consists of the `deleted_entity` events of the publishers, the subscribers, the
servers and the clients, in this order of blocks and within each block in the visiting
order, followed by the process event when `P` was registered, and each block is a
permutation of the corresponding block of `RemoveProcess(P)`. -/
theorem cascade_order_independent (ops : List Op) (key_ : ProcessKey)
    (visit : EntityType → List EntityKey → List EntityKey)
    (hv : ∀ K l, (visit K l).Perm l) :
    (ApplyMutation (RemoveProcessMutatorVisiting visit key_) (runOps ops {})).1
        = (CEcalRegistrationDatabase.RemoveProcess key_ (runOps ops {})).1
    ∧ (ApplyMutation (RemoveProcessMutatorVisiting visit key_) (runOps ops {})).2.new_revision
        = (CEcalRegistrationDatabase.RemoveProcess key_ (runOps ops {})).2.new_revision
    ∧ (ApplyMutation (RemoveProcessMutatorVisiting visit key_) (runOps ops {})).2.events
        = memberEvents
            (((UMap.find (runOps ops {}).current_state_.members_by_process key_).getD
              {}).visited visit)
          ++ (if (runOps ops {}).current_state_.hasProcess key_ = true
            then [deletedEvent .process (processEntityKey key_)] else [])
    ∧ (CEcalRegistrationDatabase.RemoveProcess key_ (runOps ops {})).2.events
        = memberEvents
            ((UMap.find (runOps ops {}).current_state_.members_by_process key_).getD {})
          ++ (if (runOps ops {}).current_state_.hasProcess key_ = true
            then [deletedEvent .process (processEntityKey key_)] else [])
    ∧ (∀ K : EntityType,
        (((((UMap.find (runOps ops {}).current_state_.members_by_process key_).getD
              {}).visited visit).ofType K).map (deletedEvent K)).Perm
          ((((UMap.find (runOps ops {}).current_state_.members_by_process key_).getD
              {}).ofType K).map (deletedEvent K))) := by
  have hc := runOps_consistent ops
  obtain ⟨hs, hch⟩ := RemoveProcessMutatorVisiting_core visit hv key_
    ⟨(runOps ops {}).current_state_, [], false⟩
  have hdb : (ApplyMutation (RemoveProcessMutatorVisiting visit key_) (runOps ops {})).1
      = (CEcalRegistrationDatabase.RemoveProcess key_ (runOps ops {})).1 := by
    unfold CEcalRegistrationDatabase.RemoveProcess
    rw [ApplyMutation_db, ApplyMutation_db, hs, hch]
  refine ⟨hdb, ?_, ?_, RemoveProcess_events key_ _ hc,
    fun K => (ProcessMembers.visited_perm visit hv _ K).map _⟩
  · unfold CEcalRegistrationDatabase.RemoveProcess at hdb ⊢
    rw [ApplyMutation_result, ApplyMutation_result, hdb]
  · rw [ApplyMutation_result]
    simp only
    rw [RemoveProcessMutatorVisiting_events visit hv key_ _ hc]
    simp

/-- Instance of C37: with publishers 5 and 6 and subscriber 7 registered under the
registered process 1, visiting every set in reverse order returns the events of publisher
6, publisher 5, subscriber 7 and the process, `RemoveProcess(1)` returns those of publisher
5, publisher 6, subscriber 7 and the process, and both install the same database. -/
theorem cascade_order_independent_witness :
    (ApplyMutation (RemoveProcessMutatorVisiting (fun _ l => l.reverse) 1)
        (runOps twoPublishersSetup {})).2.events
      = [deletedEvent .publisher 6, deletedEvent .publisher 5, deletedEvent .subscriber 7,
          deletedEvent .process 1]
    ∧ (CEcalRegistrationDatabase.RemoveProcess 1 (runOps twoPublishersSetup {})).2.events
      = [deletedEvent .publisher 5, deletedEvent .publisher 6, deletedEvent .subscriber 7,
          deletedEvent .process 1]
    ∧ (ApplyMutation (RemoveProcessMutatorVisiting (fun _ l => l.reverse) 1)
        (runOps twoPublishersSetup {})).1
      = (CEcalRegistrationDatabase.RemoveProcess 1 (runOps twoPublishersSetup {})).1 :=
  ⟨by decide, by decide,
    (cascade_order_independent twoPublishersSetup 1 (fun _ l => l.reverse)
      (fun _ l => List.reverse_perm l)).1⟩

end eCAL.Registration
